import Mathlib

/-!
# The Octave tree evaluator (`libinterp/parse-tree/pt-eval.cc`)

A shallow embedding of `tree_evaluator`: every `visit_*` member function is a
Lean function on an explicit evaluator state.  The parse tree is a family of
inductive types, one per tree class that the embedded functions inspect; the
accessors of a class are the fields of its constructor.  C++ exceptions are
explicit outcomes, `unwind_protect` frames are explicit restore actions that
run on every exit.  Recursion through `accept` is bounded by a depth budget
(first argument of the recursive functions); `none` means the budget ran out.

Conventions of the embedding:
* real scalars are integers (no value in this development needs a fraction);
* the visit functions are embedded for an evaluator whose echo state is off
  (`m_echo_state == false`), so that `echo_code` does nothing; the calls of
  `do_breakpoint` in debug mode are embedded, with the interactive loop
  `debugger::repl` and the answers of `is_active_breakpoint` as parts of the tree
  walker, which the evaluator gets from outside;
* identifiers carry no source position (`line ()` and `column ()` are -1);
* the JIT (`HAVE_LLVM`) is not compiled in and the profiler is not modelled;
* statements end in `;` (`print_result ()` is false);
* `m_nargout_stack` is the `nargout` argument of the visit functions, and the
  stack of lvalue lists `m_lvalue_list_stack`, which only `ignored_fcn_outputs`
  and `isargout` read, is not part of the state: its top, `lvalue_list ()`, is
  an argument of these two functions;
* a `std::string` is a `String`, taken apart as the list of its characters;
  positions in it are values of `size_t` (64 bits), with `npos = 2^64 - 1`;
* the file system has no drive letters (`OCTAVE_HAVE_WINDOWS_FILESYSTEM` is not
  defined) and `/` is the only directory separator; which files exist, the
  current directory, and the lookups of `get_user_code` in the symbol table
  are arguments of the functions that ask for them;
* the evaluation register (`m_result_type`, `m_expr_result_value`,
  `m_expr_result_value_list`) is the value `expr_result` that a visit returns;
  the inline functions that read and write the register are embedded a second
  time, on the register itself, in the namespace `evaluation_register`.
-/

namespace Octave

/-- The operators of `octave_value::binary_op` that the embedding evaluates. -/
inductive binary_op where
  | op_add | op_sub | op_mul
  | op_lt | op_le | op_eq | op_ge | op_gt | op_ne
  | op_el_and | op_el_or
  deriving DecidableEq, Repr

/-- The enumeration `tree_boolean_expression::type`. -/
inductive boolean_type where
  | unknown | bool_and | bool_or
  deriving DecidableEq, Repr

/-- Built-in functions found by `symbol_table::find_function`.  `disp` writes its
argument to `octave_stdout`, `error` raises an execution exception,
`sigint` stands for a built-in during which the user interrupts, `Fend` is the
function `end` (`DEFCONSTMETHOD (end, ...)` of `pt-eval.cc`). -/
inductive builtin_function where
  | disp | error | sigint | Fend
  deriving DecidableEq, Repr

mutual

/-- The class `octave_value`, restricted to the kinds of value the evaluator
distinguishes; `cs_list` is a comma-separated list (`octave_cs_list`), `nan` the
real scalar `octave_NaN`. -/
inductive octave_value where
  | undefined
  | scalar (x : Int)
  | nan
  | bool_value (b : Bool)
  | str (s : String)
  | range (base : Int) (increment : Int) (numel : Nat)
  | matrix (nr nc : Nat) (data : List Int)
  | cell (elems : List octave_value)
  | cs_list (elems : List octave_value)
  | map (fields : List (String × octave_value))
  | fcn_handle (fcn : octave_user_function)
  | magic_colon

/-- The class `tree_decl_elt`: `ident ()` and `expression ()`. -/
inductive tree_decl_elt where
  | mk (ident : Option String) (expression : Option tree_expression)

/-- The class `tree_parameter_list`: its elements and `m_marked_for_varargs`. -/
inductive tree_parameter_list where
  | mk (elts : List tree_decl_elt) (marked_for_varargs : Int)

/-- The subclasses of `tree_expression` that the embedding evaluates.  A
`tree_index_expression` has one index, in parentheses (`index_expression`,
type tag `(`) or in braces (`brace_index_expression`, type tag `{`);
`black_hole` is the `tree_black_hole` that stands for `~` in the left hand side
of a multi-assignment. -/
inductive tree_expression where
  | constant (value : octave_value)
  | identifier (name : String)
  | black_hole
  | binary_expression (op_type : binary_op) (lhs rhs : Option tree_expression)
      (is_eligible_for_braindead_shortcircuit : Bool)
  | boolean_expression (op_type : boolean_type) (lhs rhs : Option tree_expression)
  | colon_expression (base limit increment : Option tree_expression)
  | index_expression (expression : tree_expression) (args : List tree_expression)
  | brace_index_expression (expression : tree_expression) (args : List tree_expression)
  | anon_fcn_handle (parameter_list : Option tree_parameter_list)
      (expression : Option tree_expression)
  | simple_assignment (left_hand_side : String) (right_hand_side : Option tree_expression)
  | multi_assignment (left_hand_side : List tree_expression)
      (right_hand_side : Option tree_expression)

/-- The class `tree_if_clause`; `is_else_clause ()` is `condition = none`. -/
inductive tree_if_clause where
  | mk (condition : Option tree_expression) (commands : Option tree_statement_list)

/-- The class `tree_switch_case`; `is_default_case ()` is `case_label = none`. -/
inductive tree_switch_case where
  | mk (case_label : Option tree_expression) (commands : Option tree_statement_list)

/-- The subclasses of `tree_command` that the embedding executes. -/
inductive tree_command where
  | break_command
  | continue_command
  | return_command
  | no_op_command (is_end_of_fcn_or_script : Bool)
  | if_command (cmd_list : Option (List tree_if_clause))
  | simple_for_command (left_hand_side : String) (control_expr : tree_expression)
      (body : Option tree_statement_list)
  | complex_for_command (val_ref key_ref : String) (control_expr : tree_expression)
      (body : Option tree_statement_list)
  | while_command (condition : Option tree_expression) (body : Option tree_statement_list)
  | do_until_command (body : Option tree_statement_list) (condition : Option tree_expression)
  | switch_command (switch_value : Option tree_expression)
      (case_list : Option (List tree_switch_case))
  | try_catch_command (body : Option tree_statement_list) (identifier : Option String)
      (cleanup : Option tree_statement_list)
  | unwind_protect_command (body cleanup : Option tree_statement_list)

/-- The class `tree_statement`: `command ()` and `expression ()`. -/
inductive tree_statement where
  | mk (command : Option tree_command) (expression : Option tree_expression)

/-- The class `tree_statement_list`: a list of statement pointers (null allowed). -/
inductive tree_statement_list where
  | mk (stmts : List (Option tree_statement))

/-- The class `octave_user_function`. -/
inductive octave_user_function where
  | mk (parameter_list : Option tree_parameter_list)
      (return_list : Option tree_parameter_list)
      (body : Option tree_statement_list)
      (local_var_init_vals : List (String × octave_value))
      (is_anonymous_function : Bool)
      (is_classdef_constructor : Bool)

end

/-- The exceptions the evaluator throws and catches: `execution_exception`
(with the message and identifier of the error) and `interrupt_exception`. -/
inductive exception where
  | execution_exception (message : String) (identifier : String)
  | interrupt_exception

/-- How a member function ends: it returns a value, an exception propagates
out of it, or `panic_impossible ()` aborts the process. -/
inductive Outcome (α : Type) where
  | value (a : α)
  | thrown (e : exception)
  | panic

/-- The enumeration `tree_evaluator::stmt_list_type`. -/
inductive stmt_list_type where
  | SC_FUNCTION | SC_SCRIPT | SC_OTHER
  deriving DecidableEq, Repr

/-- The class `octave_user_script`: `fcn_file_name ()` and `body ()`. -/
structure octave_user_script where
  fcn_file_name : String
  body : Option tree_statement_list

/-- What `symbol_table::find_function` can return. -/
inductive octave_function where
  | user_function (f : octave_user_function)
  | user_script (f : octave_user_script)
  | builtin (f : builtin_function)

/-- Modelled from the spec: the class `stack_frame` (an activation frame),
reduced to its local variable bindings (name to value). -/
structure stack_frame where
  vars : List (String × octave_value)

/-- Modelled from the spec: the class `call_stack`, an ordered sequence of
activation frames of which exactly one is current.  `callers` holds the frames
below the current one, innermost first; `callees` holds the frames above it,
nearest first: it is empty unless `goto_frame`, `goto_caller_frame` or
`goto_base_frame` has moved the current frame down. -/
structure call_stack where
  current : stack_frame
  callers : List stack_frame
  callees : List stack_frame

/-- The class `debugger` of `pt-eval.cc`: its data members (`m_debug_frame`,
which no member function initialises or reads, is left out). -/
structure debugger where
  m_level : Nat
  m_in_debug_repl : Bool
  m_exit_debug_repl : Bool
  m_abort_debug_repl : Bool

/-- Modelled from the spec: the part of the class `error_system` that
`visit_try_catch_command` reads and writes. -/
structure error_system where
  last_error_message : String
  last_error_id : String
  last_error_stack : octave_value
  in_try_catch : Int

/-- The data members of `tree_evaluator` that the embedded functions use,
together with the interpreter-wide state they touch: the function table of the
symbol table, the error system, `octave_interrupt_state` and what has been
written to `octave_stdout` and passed to `warning_with_id`.  `have_breakpoints`
is `m_bp_table.have_breakpoints ()`; the top of `m_debugger_stack` is the head
of the list; `m_echo_files` maps a file name to its flag (first entry for a
name) and `m_autoload_map` a function name to a file name (one entry for a
name); a `char` is the integer it holds. -/
structure tree_evaluator where
  m_call_stack : call_stack
  fcn_table : List (String × octave_function)
  m_statement_context : stmt_list_type
  m_autoload_map : List (String × String)
  m_debug_frame : Nat
  m_debug_mode : Bool
  have_breakpoints : Bool
  m_debugger_stack : List debugger
  m_max_recursion_depth : Int
  m_silent_functions : Bool
  m_string_fill_char : Int
  m_dbstep_flag : Int
  m_echo : Int
  m_echo_files : List (String × Bool)
  m_in_loop_command : Bool
  m_indexed_object : Option octave_value
  m_index_position : Int
  m_num_indices : Int
  m_breaking : Int
  m_continuing : Int
  m_returning : Int
  octave_interrupt_state : Int
  es : error_system
  octave_stdout : List octave_value
  warnings : List String

/-- A member function of `tree_evaluator` returning `α`: from the state on entry
to the outcome and the state on exit; `none` when the depth budget ran out. -/
def Eval (α : Type) : Type := tree_evaluator → Option (Outcome α × tree_evaluator)

namespace Eval

/-- Normal return. -/
def ret {α : Type} (a : α) : Eval α := fun s => some (Outcome.value a, s)

/-- Sequencing of two C++ statements: an exception or abort of the first skips
the second. -/
def seq {α β : Type} (m : Eval α) (f : α → Eval β) : Eval β := fun s =>
  match m s with
  | none => none
  | some (Outcome.value a, s1) => f a s1
  | some (Outcome.thrown e, s1) => some (Outcome.thrown e, s1)
  | some (Outcome.panic, s1) => some (Outcome.panic, s1)

instance : Monad Eval where
  pure := ret
  bind := seq

/-- Read the evaluator state. -/
def get : Eval tree_evaluator := fun s => some (Outcome.value s, s)

/-- Update the evaluator state. -/
def modify (f : tree_evaluator → tree_evaluator) : Eval Unit :=
  fun s => some (Outcome.value (), f s)

/-- The statement `throw e`. -/
def throw {α : Type} (e : exception) : Eval α := fun s => some (Outcome.thrown e, s)

/-- The call `panic_impossible ()`. -/
def panic_impossible {α : Type} : Eval α := fun s => some (Outcome.panic, s)

/-- A `try` block with its handlers: `handler e` is the body of the `catch`
clause that matches `e`, or `none` when no clause matches and `e` propagates. -/
def try_catch {α : Type} (m : Eval α) (handler : exception → Option (Eval α)) : Eval α :=
  fun s =>
    match m s with
    | some (Outcome.thrown e, s1) =>
      (match handler e with
       | some h => h s1
       | none => some (Outcome.thrown e, s1))
    | r => r

/-- A block guarded by an `unwind_protect frame`: `restore s0 s1` is the effect,
on the exit state `s1`, of the actions registered in the frame (they may use
values saved from the entry state `s0`).  The actions run when the block
returns and when an exception leaves it; they do not run after an abort. -/
def unwind_protect {α : Type} (restore : tree_evaluator → tree_evaluator → tree_evaluator)
    (m : Eval α) : Eval α := fun s0 =>
  match m s0 with
  | none => none
  | some (Outcome.value a, s1) => some (Outcome.value a, restore s0 s1)
  | some (Outcome.thrown e, s1) => some (Outcome.thrown e, restore s0 s1)
  | some (Outcome.panic, s1) => some (Outcome.panic, s1)

end Eval

namespace octave_value

/-- The predicate `octave_value::is_defined`. -/
def is_defined : octave_value → Bool
  | undefined => false
  | _ => true

/-- The predicate `octave_value::is_undefined`. -/
def is_undefined (v : octave_value) : Bool := !v.is_defined

/-- The predicate `octave_value::is_range`. -/
def is_range : octave_value → Bool
  | range _ _ _ => true
  | _ => false

/-- The predicate `octave_value::is_scalar_type`. -/
def is_scalar_type : octave_value → Bool
  | scalar _ => true
  | bool_value _ => true
  | _ => false

/-- The predicate `octave_value::is_matrix_type`. -/
def is_matrix_type : octave_value → Bool
  | matrix _ _ _ => true
  | _ => false

/-- The predicate `octave_value::iscell`. -/
def iscell : octave_value → Bool
  | cell _ => true
  | _ => false

/-- The predicate `octave_value::is_string`. -/
def is_string : octave_value → Bool
  | str _ => true
  | _ => false

/-- The predicate `octave_value::isstruct`. -/
def isstruct : octave_value → Bool
  | map _ => true
  | _ => false

/-- The predicate `octave_value::is_magic_colon`. -/
def is_magic_colon : octave_value → Bool
  | magic_colon => true
  | _ => false

/-- The predicate `octave_value::is_cs_list`. -/
def is_cs_list : octave_value → Bool
  | cs_list _ => true
  | _ => false

/-- The function `octave_value::list_value`: the values of a comma-separated
list. -/
def list_value : octave_value → List octave_value
  | cs_list elems => elems
  | _ => []

/-- Element `i` (0-based) of a range: `Range::elem`. -/
def range_elem (base increment : Int) (i : Nat) : Int := base + (i : Int) * increment

/-- Modelled from the spec: `octave_value::is_true` (truthiness of a value).
A numeric value is true when it is non-empty and all its elements are nonzero;
`none` stands for the error raised on a value that has no truth value. -/
def is_true : octave_value → Option Bool
  | scalar x => some (decide (x ≠ 0))
  | bool_value b => some b
  | range base increment numel =>
      some (decide (numel ≠ 0)
        && (List.range numel).all (fun i => decide (range_elem base increment i ≠ 0)))
  | matrix _ _ data => some (!data.isEmpty && data.all (fun x => decide (x ≠ 0)))
  | str s => some (!s.isEmpty)
  | _ => none

/-- The number of rows: `octave_value::rows`. -/
def rows : octave_value → Nat
  | undefined => 0
  | str s => if s.isEmpty then 0 else 1
  | matrix nr _ _ => nr
  | cell elems => if elems.isEmpty then 0 else 1
  | _ => 1

/-- The number of columns: `octave_value::columns`. -/
def columns : octave_value → Nat
  | undefined => 0
  | str s => s.length
  | range _ _ numel => numel
  | matrix _ nc _ => nc
  | cell elems => elems.length
  | _ => 1

/-- The number of elements: `octave_value::numel`. -/
def numel (v : octave_value) : Nat := v.rows * v.columns

/-- The predicate `octave_value::isempty`. -/
def isempty (v : octave_value) : Bool := decide (v.numel = 0)

/-- The number of dimensions, `octave_value::ndims`: every modelled value is
two-dimensional. -/
def ndims (_v : octave_value) : Nat := 2

/-- The dimension vector, `octave_value::dims`. -/
def dims (v : octave_value) : List Nat := [v.rows, v.columns]

/-- The predicate `octave_value::is_function`: no modelled value is a function
object (functions live in the function table). -/
def is_function (_v : octave_value) : Bool := false

/-- The predicate `octave_value::is_function_handle`. -/
def is_function_handle : octave_value → Bool
  | fcn_handle _ => true
  | _ => false

/-- Whether the value is the real scalar NaN. -/
def is_nan : octave_value → Bool
  | nan => true
  | _ => false

/-- The integer a real or logical scalar stands for. -/
def scalar_value : octave_value → Option Int
  | scalar x => some x
  | bool_value b => some (if b then 1 else 0)
  | _ => none

/-- Modelled from the spec: `octave_value::is_equal` (equality comparison of the
value type), on scalars and strings. -/
def is_equal (a b : octave_value) : Bool :=
  match a, b with
  | str s, str t => s == t
  | _, _ =>
    match a.scalar_value, b.scalar_value with
    | some x, some y => x == y
    | _, _ => false

/-- Modelled from the spec: column `i` (1-based) of a value reshaped to two
dimensions, the result of `do_index_op` in `visit_simple_for_command`; for a row
vector it is element `i`. -/
def column (arg : octave_value) (i : Nat) : octave_value :=
  match arg with
  | matrix nr _ data =>
      if nr = 1 then scalar (data.getD (i - 1) 0)
      else matrix nr 1 ((data.drop ((i - 1) * nr)).take nr)
  | cell elems => cell ((elems.drop (i - 1)).take 1)
  | str s => str (String.mk ((s.data.drop (i - 1)).take 1))
  | v => v

end octave_value

/-- Modelled from the spec: the result of a binary operator on real scalars of
which at least one is NaN: arithmetic gives NaN, a comparison is false (`!=` is
true), and the conversion of NaN to a logical value is an error (`none`). -/
def nan_binary_op (op : binary_op) : Option octave_value :=
  match op with
  | binary_op.op_add => some octave_value.nan
  | binary_op.op_sub => some octave_value.nan
  | binary_op.op_mul => some octave_value.nan
  | binary_op.op_ne => some (octave_value.bool_value true)
  | binary_op.op_el_and => none
  | binary_op.op_el_or => none
  | _ => some (octave_value.bool_value false)

/-- Modelled from the spec: `do_binary_op` (the operators of the value type), on
real and logical scalars; `none` stands for the error of an operator that is not
defined for its operands. -/
def do_binary_op (op : binary_op) (a b : octave_value) : Option octave_value :=
  if (a.is_nan && (b.is_nan || b.scalar_value.isSome)) || (b.is_nan && a.scalar_value.isSome)
  then nan_binary_op op
  else
  match a.scalar_value, b.scalar_value with
  | some x, some y =>
    some (match op with
      | binary_op.op_add => octave_value.scalar (x + y)
      | binary_op.op_sub => octave_value.scalar (x - y)
      | binary_op.op_mul => octave_value.scalar (x * y)
      | binary_op.op_lt => octave_value.bool_value (decide (x < y))
      | binary_op.op_le => octave_value.bool_value (decide (x ≤ y))
      | binary_op.op_eq => octave_value.bool_value (decide (x = y))
      | binary_op.op_ge => octave_value.bool_value (decide (x ≥ y))
      | binary_op.op_gt => octave_value.bool_value (decide (x > y))
      | binary_op.op_ne => octave_value.bool_value (decide (x ≠ y))
      | binary_op.op_el_and => octave_value.bool_value (decide (x ≠ 0) && decide (y ≠ 0))
      | binary_op.op_el_or => octave_value.bool_value (decide (x ≠ 0) || decide (y ≠ 0)))
  | _, _ => none

/-- Modelled from the spec: `do_colon_op`, the range `base:increment:limit` of
integer scalars; `none` stands for the error on other operands. -/
def do_colon_op (base increment limit : octave_value) : Option octave_value :=
  match base.scalar_value, increment.scalar_value, limit.scalar_value with
  | some b, some i, some l =>
    some (octave_value.range b i
      (if i = 0 then 0 else (Int.fdiv (l - b) i + 1).toNat))
  | _, _, _ => none

namespace stack_frame

/-- Modelled from the spec: `stack_frame::varval`, the value bound to a name
(an undefined value when there is none). -/
def varval (fr : stack_frame) (name : String) : octave_value :=
  (fr.vars.lookup name).getD octave_value.undefined

/-- Replace or add the binding of `name` in a list of bindings. -/
def assign_binding (name : String) (val : octave_value) :
    List (String × octave_value) → List (String × octave_value)
  | [] => [(name, val)]
  | (n, v) :: rest =>
      if n == name then (n, val) :: rest else (n, v) :: assign_binding name val rest

/-- Modelled from the spec: `stack_frame::assign`, bind a name to a value. -/
def assign (fr : stack_frame) (name : String) (val : octave_value) : stack_frame :=
  { vars := assign_binding name val fr.vars }

end stack_frame

namespace call_stack

/-- Modelled from the spec: `call_stack::size`, the number of frames. -/
def size (cs : call_stack) : Nat := cs.callers.length + 1 + cs.callees.length

/-- Modelled from the spec: `call_stack::push`, a new activation frame is
created by the current frame and becomes the current one. -/
def push (cs : call_stack) : call_stack :=
  { current := { vars := [] }, callers := cs.current :: cs.callers, callees := cs.callees }

/-- Modelled from the spec: `call_stack::pop`, the current frame is destroyed
and its caller becomes current; the base frame is never popped. -/
def pop (cs : call_stack) : call_stack :=
  match cs.callers with
  | [] => cs
  | fr :: rest => { current := fr, callers := rest, callees := cs.callees }

/-- Modelled from the spec: the frames in order of depth, the base frame first. -/
def frames (cs : call_stack) : List stack_frame :=
  cs.callers.reverse ++ cs.current :: cs.callees

/-- Modelled from the spec: `call_stack::current_frame`, the index (depth) of
the current frame; the base frame has index 0. -/
def current_frame (cs : call_stack) : Nat := cs.callers.length

/-- Modelled from the spec: `call_stack::goto_frame (n)`, indexed access by
depth: frame `n` becomes the current one; an index that is not the index of a
frame changes nothing. -/
def goto_frame (cs : call_stack) (n : Nat) : call_stack :=
  match cs.frames.get? n with
  | some fr =>
      { current := fr, callers := (cs.frames.take n).reverse, callees := cs.frames.drop (n + 1) }
  | none => cs

/-- Modelled from the spec: `call_stack::restore_frame (n)`, the restoring half
of the paired save and restore of the current frame. -/
def restore_frame (cs : call_stack) (n : Nat) : call_stack := cs.goto_frame n

/-- Modelled from the spec: `call_stack::goto_caller_frame`, the caller of the
current frame becomes current; at the base frame nothing changes. -/
def goto_caller_frame (cs : call_stack) : call_stack := cs.goto_frame (cs.current_frame - 1)

/-- Modelled from the spec: `call_stack::goto_base_frame`. -/
def goto_base_frame (cs : call_stack) : call_stack := cs.goto_frame 0

end call_stack

/-- The contents of the evaluation register after the visit of an expression:
`RT_VALUE` with `m_expr_result_value`, or `RT_VALUE_LIST` with
`m_expr_result_value_list` (the two overloads of `push_result`). -/
inductive expr_result where
  | RT_VALUE (val : octave_value)
  | RT_VALUE_LIST (vals : List octave_value)

/-- The elements of the parse tree (class `tree`) on which the evaluator calls
`is_active_breakpoint`: a command, the expression of a statement, a clause of
an `if` command. -/
inductive tree where
  | command (cmd : tree_command)
  | expression (expr : tree_expression)
  | if_clause (tic : tree_if_clause)

/-- The virtual dispatch the evaluator goes through: `expr->accept (*this)` with
the requested number of outputs on top of `m_nargout_stack`, `accept` on a
statement list, a command and a statement, and `fcn->call (*this, nargout, args)`.
Two more things come from outside the evaluator while it debugs: `repl` is
`debugger::repl` of the debugger on top of the stack, an interactive loop whose
effect depends on what the user types, and `is_active_breakpoint t s` is the
answer of `t.is_active_breakpoint (*this)` in the state `s` (the breakpoints
are kept outside the tree, and the condition of a breakpoint is taken to have no
effect on the state). -/
structure tree_walker where
  accept_expression : tree_expression → Int → Eval expr_result
  accept_statement_list : tree_statement_list → Eval Unit
  accept_command : tree_command → Eval Unit
  accept_statement : tree_statement → Eval Unit
  call : octave_function → Int → List octave_value → Eval (List octave_value)
  repl : Eval Unit
  is_active_breakpoint : tree → tree_evaluator → Bool

namespace tree_evaluator

/-- Modelled from the spec: `error (fmt, ...)` and `error_with_id (id, fmt, ...)`
of the error system: the message and identifier become the last error and an
execution exception is thrown. -/
def error_with_id {α : Type} (id : String) (msg : String) : Eval α := fun s =>
  some (Outcome.thrown (exception.execution_exception msg id),
    { s with es := { s.es with last_error_message := msg, last_error_id := id } })

/-- The call `error (msg)`: an error without identifier. -/
def error {α : Type} (msg : String) : Eval α := error_with_id "" msg

/-- Modelled from the spec: `warning_with_id`, which reports a warning and
returns. -/
def warning_with_id (id : String) (msg : String) : Eval Unit :=
  Eval.modify (fun s => { s with warnings := s.warnings ++ [id ++ ": " ++ msg] })

/-- The effect of `interpreter::recover_from_exception` on the modelled state:
`octave_interrupt_state = 0`. -/
def recover_from_exception_state (s : tree_evaluator) : tree_evaluator :=
  { s with octave_interrupt_state := 0 }

/-- The function `interpreter::recover_from_exception`. -/
def recover_from_exception : Eval Unit := Eval.modify recover_from_exception_state

/-- Modelled from the spec: `octave_quit`, a polling point at which a pending
interrupt (`octave_interrupt_state > 0`) is converted into an interrupt
exception. -/
def octave_quit : Eval Unit := fun s =>
  if s.octave_interrupt_state > 0 then some (Outcome.thrown exception.interrupt_exception, s)
  else some (Outcome.value (), s)

/-- The overload `varval (const std::string&)`: the value of a variable in the
current stack frame. -/
def varval (s : tree_evaluator) (name : String) : octave_value :=
  s.m_call_stack.current.varval name

/-- The overload `is_variable (const std::string&)`. -/
def is_variable (s : tree_evaluator) (name : String) : Bool := (varval s name).is_defined

/-- The overload `is_defined (const symbol_record&)`. -/
def is_defined (s : tree_evaluator) (name : String) : Bool := (varval s name).is_defined

/-- The state after `assign (name, val)`, also the effect of `octave_lvalue::assign`
with `op_asn_eq` and of `octave_lvalue::define` on the lvalue of an identifier:
the name is bound in the current stack frame. -/
def assign_state (name : String) (val : octave_value) (s : tree_evaluator) : tree_evaluator :=
  { s with m_call_stack :=
      { s.m_call_stack with current := s.m_call_stack.current.assign name val } }

/-- The function `assign (name, val)`. -/
def assign (name : String) (val : octave_value) : Eval Unit :=
  Eval.modify (assign_state name val)

/-- Modelled from the spec: `symbol_table::find_function`, name to callable. -/
def find_function (s : tree_evaluator) (name : String) : Option octave_function :=
  s.fcn_table.lookup name

/-- The digits of `n` in base ten, most significant first. -/
def decimal_digits : Nat → Nat → List Char
  | 0, _ => []
  | fuel + 1, n =>
      if n < 10 then [Char.ofNat (48 + n)]
      else decimal_digits fuel (n / 10) ++ [Char.ofNat (48 + n % 10)]

/-- The conversion `%d` of a non-negative number. -/
def format_d (n : Nat) : String := String.mk (decimal_digits (n + 1) n)

/-- The conversion `%d` of an `int`. -/
def format_d_int (n : Int) : String :=
  if n < 0 then "-" ++ format_d n.natAbs else format_d n.toNat

/-- The function `tree_identifier::eval_undefined_error` (`pt-id.cc`) of an
identifier `name` at line `l` and column `c`. -/
def eval_undefined_error {α : Type} (name : String) (l c : Int) : Eval α :=
  if l = -1 ∧ c = -1 then
    error_with_id "Octave:undefined-function" ("'" ++ name ++ "' undefined")
  else
    error_with_id "Octave:undefined-function"
      ("'" ++ name ++ "' undefined near line " ++ format_d_int l ++ " column " ++ format_d_int c)

/-- The inline function `evaluate (tree_expression *expr, int nargout)` of
`pt-eval.h`: visit the expression and take the value out of the register. -/
def evaluate (tw : tree_walker) (expr : tree_expression) (nargout : Int) : Eval octave_value := do
  let r ← tw.accept_expression expr nargout
  match r with
  | expr_result.RT_VALUE val => pure val
  | expr_result.RT_VALUE_LIST [] => pure octave_value.undefined
  | expr_result.RT_VALUE_LIST (v :: _) => pure v

/-- The inline function `evaluate_n (tree_expression *expr, int nargout)`. -/
def evaluate_n (tw : tree_walker) (expr : tree_expression) (nargout : Int) :
    Eval (List octave_value) := do
  let r ← tw.accept_expression expr nargout
  match r with
  | expr_result.RT_VALUE val => pure [val]
  | expr_result.RT_VALUE_LIST vals => pure vals

/-- The call `a.is_true ()` on an evaluated operand; a value without truth value
raises an error. -/
def is_true (a : octave_value) : Eval Bool :=
  match a.is_true with
  | some b => pure b
  | none => error "wrong type argument"

/-- The function `visit_constant`. -/
def visit_constant (value : octave_value) (nargout : Int) : Eval expr_result :=
  if nargout > 1 then error "invalid number of output arguments for constant expression"
  else pure (expr_result.RT_VALUE value)

/-- The function `visit_identifier`, for an identifier that is not the base of an
index expression: the value of the variable, else a call of the function of that
name with no arguments, else `eval_undefined_error`. -/
def visit_identifier (tw : tree_walker) (name : String) (nargout : Int) : Eval expr_result := do
  let s ← Eval.get
  let val := varval s name
  if val.is_defined then pure (expr_result.RT_VALUE val)
  else
    match find_function s name with
    | some fcn => do
        let retval ← tw.call fcn nargout []
        pure (expr_result.RT_VALUE_LIST retval)
    | none => eval_undefined_error name (-1) (-1)

/-- Modelled from the spec: `tree_binary_expression::matlab_style_short_circuit_warning`
(`pt-binop.cc`), which issues the compatibility warning for the operator. -/
def matlab_style_short_circuit_warning (op : String) : Eval Unit :=
  warning_with_id "Octave:possible-matlab-short-circuit"
    ("Matlab-style short-circuit operation performed for operator " ++ op)

/-- The general path of `visit_binary_expression` (after the short-circuit
block): evaluate both operands and apply the operator. -/
def visit_binary_expression_general (tw : tree_walker) (etype : binary_op)
    (op_lhs op_rhs : Option tree_expression) : Eval expr_result :=
  match op_lhs with
  | none => pure (expr_result.RT_VALUE octave_value.undefined)
  | some lhs => do
      let a ← evaluate tw lhs 1
      match a.is_defined, op_rhs with
      | true, some rhs => do
          let b ← evaluate tw rhs 1
          if b.is_defined then
            match do_binary_op etype a b with
            | some val => pure (expr_result.RT_VALUE val)
            | none => error "binary operator not implemented for these operands"
          else pure (expr_result.RT_VALUE octave_value.undefined)
      | _, _ => pure (expr_result.RT_VALUE octave_value.undefined)

/-- The function `visit_binary_expression`. -/
def visit_binary_expression (tw : tree_walker) (etype : binary_op)
    (op_lhs op_rhs : Option tree_expression)
    (is_eligible_for_braindead_shortcircuit : Bool) : Eval expr_result :=
  match is_eligible_for_braindead_shortcircuit, op_lhs with
  | true, some lhs => do
      let a ← evaluate tw lhs 1
      if a.ndims = 2 ∧ a.rows = 1 ∧ a.columns = 1 then do
        let a_true ← is_true a
        let right_operand : Eval expr_result :=
          match op_rhs with
          | some rhs => do
              let b ← evaluate tw rhs 1
              let result ← is_true b
              pure (expr_result.RT_VALUE (octave_value.bool_value result))
          | none => pure (expr_result.RT_VALUE (octave_value.bool_value false))
        if a_true then
          if etype = binary_op.op_el_or then do
            matlab_style_short_circuit_warning "|"
            pure (expr_result.RT_VALUE (octave_value.bool_value true))
          else right_operand
        else
          if etype = binary_op.op_el_and then do
            matlab_style_short_circuit_warning "&"
            pure (expr_result.RT_VALUE (octave_value.bool_value false))
          else right_operand
      else visit_binary_expression_general tw etype op_lhs op_rhs
  | _, _ => visit_binary_expression_general tw etype op_lhs op_rhs

/-- The function `visit_boolean_expression`. -/
def visit_boolean_expression (tw : tree_walker) (etype : boolean_type)
    (op_lhs op_rhs : Option tree_expression) : Eval expr_result :=
  match op_lhs with
  | none => pure (expr_result.RT_VALUE octave_value.undefined)
  | some lhs => do
      let a ← evaluate tw lhs 1
      let a_true ← is_true a
      let right_operand : Eval expr_result :=
        match op_rhs with
        | some rhs => do
            let b ← evaluate tw rhs 1
            let result ← is_true b
            pure (expr_result.RT_VALUE (octave_value.bool_value result))
        | none => pure (expr_result.RT_VALUE (octave_value.bool_value false))
      if a_true then
        if etype = boolean_type.bool_or then
          pure (expr_result.RT_VALUE (octave_value.bool_value true))
        else right_operand
      else
        if etype = boolean_type.bool_and then
          pure (expr_result.RT_VALUE (octave_value.bool_value false))
        else right_operand

/-- The function `visit_colon_expression` (no operand is an object). -/
def visit_colon_expression (tw : tree_walker)
    (op_base op_limit op_increment : Option tree_expression) : Eval expr_result :=
  match op_base, op_limit with
  | some base, some limit => do
      let ov_base ← evaluate tw base 1
      let ov_limit ← evaluate tw limit 1
      let ov_increment ←
        (match op_increment with
         | some increment => evaluate tw increment 1
         | none => pure (octave_value.scalar 1))
      match do_colon_op ov_base ov_increment ov_limit with
      | some val => pure (expr_result.RT_VALUE val)
      | none => error "invalid types found in range"
  | _, _ => pure (expr_result.RT_VALUE octave_value.undefined)

end tree_evaluator

mutual

/-- Modelled from the spec: the virtual function `has_magic_end` of the
expression classes, whether the expression holds the magic end marker (the
identifier `end`) outside of a nested index expression: an operator has it when
an operand has it. -/
def tree_expression.has_magic_end : tree_expression → Bool
  | tree_expression.identifier name => name == "end"
  | tree_expression.binary_expression _ lhs rhs _ => has_magic_end_opt lhs || has_magic_end_opt rhs
  | tree_expression.boolean_expression _ lhs rhs => has_magic_end_opt lhs || has_magic_end_opt rhs
  | tree_expression.colon_expression base limit increment =>
      has_magic_end_opt base || has_magic_end_opt limit || has_magic_end_opt increment
  | _ => false

/-- The marker in an optional operand. -/
def has_magic_end_opt : Option tree_expression → Bool
  | none => false
  | some e => e.has_magic_end

end

/-- Modelled from the spec: `tree_argument_list::has_magic_end`, whether an
argument holds the magic end marker. -/
def has_magic_end_list (args : List tree_expression) : Bool :=
  args.any (fun elt => elt.has_magic_end)

/-- Modelled from the spec: `tree_argument_list::includes_magic_end`, the flag
`m_list_includes_magic_end` that `append` sets when the appended argument has
the magic end marker. -/
def includes_magic_end (arg_list : List tree_expression) : Bool :=
  has_magic_end_list arg_list

namespace tree_evaluator

/-- The state in which `convert_to_const_vector` evaluates argument `k` of `len`
when the object is stashed: `m_index_position = k; m_num_indices = len;`. -/
def at_index (k len : Nat) (s : tree_evaluator) : tree_evaluator :=
  { s with m_index_position := (k : Int), m_num_indices := (len : Int) }

/-- The values that `convert_to_const_vector` appends for an evaluated argument:
those of a comma-separated list, the value itself when it is defined. -/
def argument_values (tmp : octave_value) : List octave_value :=
  if tmp.is_cs_list then tmp.list_value else if tmp.is_defined then [tmp] else []

/-- The loop `for (int k = 0; k < len; k++)` of `convert_to_const_vector`, from
position `k` on (no element of the list is null). -/
def convert_to_const_vector_loop (tw : tree_walker) (stash_object : Bool) (len : Nat) :
    Nat → List tree_expression → Eval (List octave_value)
  | _, [] => pure []
  | k, elt :: rest => do
      let _u ← (if stash_object then Eval.modify (at_index k len) else pure ())
      let tmp ← evaluate tw elt 1
      let args ← convert_to_const_vector_loop tw stash_object len (k + 1) rest
      pure (argument_values tmp ++ args)

/-- The condition `stash_object` of `convert_to_const_vector`. -/
def stash_object (arg_list : List tree_expression) (object : Option octave_value) : Bool :=
  includes_magic_end arg_list &&
    (match object with
     | some obj => !(obj.is_function || obj.is_function_handle)
     | none => false)

/-- What the `unwind_protect frame` of `convert_to_const_vector` does on exit:
`m_indexed_object` is protected when the object is stashed, `m_index_position`
and `m_num_indices` in each round of the loop (so the values of the first
round, those on entry, are the ones that remain). -/
def restore_indexed_object (stash : Bool) (len : Nat) (s0 s1 : tree_evaluator) :
    tree_evaluator :=
  if stash then
    if 0 < len then
      { s1 with m_indexed_object := s0.m_indexed_object,
                m_index_position := s0.m_index_position,
                m_num_indices := s0.m_num_indices }
    else { s1 with m_indexed_object := s0.m_indexed_object }
  else s1

/-- The function `convert_to_const_vector (arg_list, object)`, for an argument
list without null elements: the defined values of the arguments, in order, a
comma-separated list being replaced by its values.  `object` is the value that
`end` refers to (`none` is the null pointer). -/
def convert_to_const_vector (tw : tree_walker) (arg_list : List tree_expression)
    (object : Option octave_value) : Eval (List octave_value) :=
  Eval.unwind_protect (restore_indexed_object (stash_object arg_list object) arg_list.length)
    (do
      let _u ← (if stash_object arg_list object
               then Eval.modify (fun s => { s with m_indexed_object := object })
               else pure ())
      convert_to_const_vector_loop tw (stash_object arg_list object) arg_list.length 0 arg_list)

/-- Modelled from the spec: element `p` (0-based, in column-major order) of a
numeric value. -/
def linear_elem (v : octave_value) (p : Nat) : Option octave_value :=
  match v with
  | octave_value.scalar x => if p = 0 then some (octave_value.scalar x) else none
  | octave_value.range base increment numel =>
      if p < numel then some (octave_value.scalar (octave_value.range_elem base increment p))
      else none
  | octave_value.matrix _ _ data =>
      if p < data.length then some (octave_value.scalar (data.getD p 0)) else none
  | _ => none

/-- Modelled from the spec: indexing of a numeric value by scalar indices
(1-based): linear indexing `v (i)` and indexing by row and column `v (i, j)`;
`none` stands for the index error. -/
def index_value (v : octave_value) (idx : List octave_value) : Option octave_value :=
  match idx with
  | [octave_value.scalar i, octave_value.scalar j] =>
      if i < 1 ∨ j < 1 then none
      else if i.toNat ≤ v.rows ∧ j.toNat ≤ v.columns
      then linear_elem v ((j.toNat - 1) * v.rows + (i.toNat - 1))
      else none
  | [octave_value.scalar i] =>
      if i < 1 then none
      else
        match v with
        | octave_value.scalar x => if i = 1 then some (octave_value.scalar x) else none
        | octave_value.range base increment numel =>
            if i.toNat ≤ numel
            then some (octave_value.scalar (octave_value.range_elem base increment (i.toNat - 1)))
            else none
        | octave_value.matrix _ _ data =>
            if i.toNat ≤ data.length then some (octave_value.scalar (data.getD (i.toNat - 1) 0))
            else none
        | _ => none
  | _ => none

/-- Modelled from the spec: `octave_value::subsref` with a single `(` index: a
function handle is called with the index as arguments, a numeric value is
indexed. -/
def subsref (tw : tree_walker) (base_expr_val : octave_value) (idx : List octave_value)
    (nargout : Int) : Eval (List octave_value) :=
  match base_expr_val with
  | octave_value.fcn_handle fcn => tw.call (octave_function.user_function fcn) nargout idx
  | v =>
    match index_value v idx with
    | some r => pure [r]
    | none => error_with_id "Octave:index-out-of-bounds" "index out of bound"

/-- Modelled from the spec: `err_invalid_inquiry_subscript`. -/
def err_invalid_inquiry_subscript {α : Type} : Eval α :=
  error "invalid dimension inquiry of a non-existent value"

/-- The function `make_value_list`, for a non-null argument list. -/
def make_value_list (tw : tree_walker) (args : List tree_expression)
    (object : Option octave_value) (rvalue : Bool) : Eval (List octave_value) :=
  if rvalue && (match object with
                | some obj => has_magic_end_list args && obj.is_undefined
                | none => false)
  then err_invalid_inquiry_subscript
  else convert_to_const_vector tw args object

/-- The function `visit_index_expression`, for an expression `EXPR (ARGS)` with
one parenthesised index: an identifier that is not a variable is looked up as a
function and called with the evaluated arguments; otherwise the base is
evaluated and indexed. -/
def visit_index_expression (tw : tree_walker) (expr : tree_expression)
    (args : List tree_expression) (nargout : Int) : Eval expr_result := do
  let s0 ← Eval.get
  let called ←
    (match expr with
     | tree_expression.identifier nm =>
        if is_variable s0 nm then pure none
        else do
          let first_args ←
            (if args.length > 0 then convert_to_const_vector tw args none else pure [])
          let s1 ← Eval.get
          let val := varval s1 nm
          match (if val.is_undefined then find_function s1 nm else none) with
          | some fcn => do
              let retval ← tw.call fcn nargout first_args
              pure (some retval)
          | none => pure none
     | _ => pure none)
  match called with
  | some retval => pure (expr_result.RT_VALUE_LIST retval)
  | none => do
      let base_expr_val ← evaluate tw expr 1
      let idx ← make_value_list tw args (some base_expr_val) true
      let retval ← subsref tw base_expr_val idx nargout
      pure (expr_result.RT_VALUE_LIST retval)

end tree_evaluator

/-- The names of the parameters: `tree_parameter_list::variable_names`. -/
def tree_parameter_list.variable_names : tree_parameter_list → List String
  | tree_parameter_list.mk elts _ =>
      elts.filterMap (fun elt => match elt with | tree_decl_elt.mk ident _ => ident)

/-- The predicate `tree_parameter_list::takes_varargs`. -/
def tree_parameter_list.takes_varargs : tree_parameter_list → Bool
  | tree_parameter_list.mk _ marked_for_varargs => decide (marked_for_varargs ≠ 0)

/-- The predicate `tree_parameter_list::varargs_only`. -/
def tree_parameter_list.varargs_only : tree_parameter_list → Bool
  | tree_parameter_list.mk _ marked_for_varargs => decide (marked_for_varargs < 0)

/-- The elements of a parameter list. -/
def tree_parameter_list.elts : tree_parameter_list → List tree_decl_elt
  | tree_parameter_list.mk elts _ => elts

/-- The length of a parameter list: `tree_parameter_list::length`. -/
def tree_parameter_list.length (l : tree_parameter_list) : Nat := l.elts.length

/-- The parameter names of an optional parameter list, with `varargin` when the
list takes a variable number of arguments. -/
def param_names : Option tree_parameter_list → List String
  | none => []
  | some pl => pl.variable_names ++ (if pl.takes_varargs then ["varargin"] else [])

mutual

/-- Modelled from the spec: the identifiers `tree_anon_scopes` collects from an
expression, those of nested anonymous functions without their parameters. -/
def tree_expression.variables : tree_expression → List String
  | tree_expression.constant _ => []
  | tree_expression.identifier name => [name]
  | tree_expression.black_hole => []
  | tree_expression.binary_expression _ lhs rhs _ => variables_opt lhs ++ variables_opt rhs
  | tree_expression.boolean_expression _ lhs rhs => variables_opt lhs ++ variables_opt rhs
  | tree_expression.colon_expression base limit increment =>
      variables_opt base ++ variables_opt limit ++ variables_opt increment
  | tree_expression.index_expression e args => e.variables ++ variables_list args
  | tree_expression.brace_index_expression e args => e.variables ++ variables_list args
  | tree_expression.anon_fcn_handle pl e =>
      (variables_opt e).filter (fun nm => !(param_names pl).contains nm)
  | tree_expression.simple_assignment lhs rhs => lhs :: variables_opt rhs
  | tree_expression.multi_assignment lhs rhs => variables_list lhs ++ variables_opt rhs

/-- The identifiers of an optional expression. -/
def variables_opt : Option tree_expression → List String
  | none => []
  | some e => e.variables

/-- The identifiers of a list of expressions. -/
def variables_list : List tree_expression → List String
  | [] => []
  | e :: rest => e.variables ++ variables_list rest

end

/-- Modelled from the spec: `tree_anon_scopes::free_variables`, the free
variables referenced in the body of an anonymous function: its identifiers that
are not parameters. -/
def free_variables (param_list : Option tree_parameter_list)
    (expr : Option tree_expression) : List String :=
  (variables_opt expr).filter (fun nm => !(param_names param_list).contains nm)

namespace tree_evaluator

/-- The loop of `visit_anon_fcn_handle` over the free variables: the value each
has in the current frame is recorded when it is defined. -/
def capture_free_vars (frame : stack_frame) : List String → List (String × octave_value)
  | [] => []
  | name :: rest =>
      let val := frame.varval name
      if val.is_defined then (name, val) :: capture_free_vars frame rest
      else capture_free_vars frame rest

/-- The function `visit_anon_fcn_handle`: a new anonymous `octave_user_function`
whose body is the single statement made of the expression and whose
`local_var_init_vals` are the values of the free variables. -/
def visit_anon_fcn_handle (param_list : Option tree_parameter_list)
    (expr : Option tree_expression) : Eval expr_result := do
  let stmt_list : Option tree_statement_list :=
    match expr with
    | some e => some (tree_statement_list.mk [some (tree_statement.mk none (some e))])
    | none => none
  let free_vars := free_variables param_list expr
  let s ← Eval.get
  let local_var_init_vals := capture_free_vars s.m_call_stack.current free_vars
  let af := octave_user_function.mk param_list none stmt_list local_var_init_vals true false
  pure (expr_result.RT_VALUE (octave_value.fcn_handle af))

/-- The function `visit_simple_assignment`, for `NAME = RHS`. -/
def visit_simple_assignment (tw : tree_walker) (lhs : String)
    (rhs : Option tree_expression) : Eval expr_result :=
  match rhs with
  | none => pure (expr_result.RT_VALUE octave_value.undefined)
  | some rhs => do
      let rhs_val ← evaluate tw rhs 1
      if rhs_val.is_undefined then
        error "value on right hand side of assignment is undefined"
      else
        match (if rhs_val.is_cs_list then rhs_val.list_value.head? else some rhs_val) with
        | none => error "invalid number of elements on RHS of assignment"
        | some rhs_val => do
            assign lhs rhs_val
            pure (expr_result.RT_VALUE rhs_val)

end tree_evaluator

/-- Modelled from the spec: the class `octave_lvalue` (a resolved, assignable
handle): the symbol it refers to in the current frame, the black-hole mark and
the index (`m_type` with `m_idx`), which is absent or one index list in
parentheses or braces. -/
structure octave_lvalue where
  sym : String
  black_hole : Bool
  index : Option (String × List octave_value)

namespace octave_value

/-- Modelled from the spec: the factor of `dims_to_numel` for one index: a magic
colon selects the whole dimension, another index as many elements as it has. -/
def index_count (dim : Nat) (idxi : octave_value) : Nat :=
  if idxi.is_magic_colon then dim else idxi.numel

/-- Modelled from the spec: `octave_value::xnumel`, the number of elements that
the index list `idx` selects from the value (`dims_to_numel`). -/
def xnumel (v : octave_value) (idx : List octave_value) : Nat :=
  match idx with
  | [] => v.numel
  | [i] => index_count v.numel i
  | i :: j :: rest =>
      index_count v.rows i * index_count v.columns j * (rest.map (index_count 1)).prod

/-- Modelled from the spec: the positions (1-based) that a linear index selects
from `dim` elements; `none` stands for an index that is not a positive
integer. -/
def index_positions (dim : Nat) (idxi : octave_value) : Option (List Nat) :=
  match idxi with
  | magic_colon => some ((List.range dim).map (fun k => k + 1))
  | scalar i => if 1 ≤ i then some [i.toNat] else none
  | range base increment numel =>
      if (List.range numel).all (fun k => decide (1 ≤ range_elem base increment k))
      then some ((List.range numel).map (fun k => (range_elem base increment k).toNat))
      else none
  | matrix _ _ data =>
      if data.all (fun i => decide (1 ≤ i)) then some (data.map Int.toNat) else none
  | _ => none

/-- Element `p` (1-based) of a list of values becomes `v`; the list grows when
`p` is past its end, missing elements being `fill`. -/
def set_element {α : Type} (fill : α) (elems : List α) (p : Nat) (v : α) : List α :=
  if p ≤ elems.length then elems.set (p - 1) v
  else elems ++ List.replicate (p - 1 - elems.length) fill ++ [v]

/-- Modelled from the spec: the indexed assignment `lhs (i) = rhs` of a real
scalar to an element of a row vector, which grows when needed; `none` stands
for the error of an assignment that the value type rejects. -/
def assign_paren (lhs : octave_value) (idx : List octave_value) (rhs : octave_value) :
    Option octave_value :=
  match idx, rhs with
  | [scalar i], scalar x =>
      if 1 ≤ i then
        (match lhs with
         | undefined => some []
         | scalar y => some [y]
         | matrix nr _ data => if nr ≤ 1 then some data else none
         | _ => none).map
          (fun data =>
            let data1 := set_element 0 data i.toNat x
            if data1.length = 1 then scalar x else matrix 1 data1.length data1)
      else none
  | _, _ => none

/-- Modelled from the spec: the indexed assignment `lhs{idx} = rhs` to elements
of a cell array, which grows when needed (new elements are empty matrices); a
comma-separated list on the right supplies one value per selected element. -/
def assign_brace (lhs : octave_value) (idx : List octave_value) (rhs : octave_value) :
    Option octave_value :=
  match (match lhs with
         | undefined => some []
         | cell elems => some elems
         | _ => none), idx with
  | some elems, [i] =>
      (match index_positions elems.length i with
       | some ps =>
           let vals := if rhs.is_cs_list then rhs.list_value else [rhs]
           if ps.length = vals.length then
             some (cell ((ps.zip vals).foldl
               (fun acc pv => set_element (matrix 0 0 []) acc pv.1 pv.2) elems))
           else none
       | none => none)
  | _, _ => none

/-- Modelled from the spec: `octave_cell::subsref` with one index in braces: the
selected element, or the comma-separated list of the selected elements when
their number is not one; `none` stands for the index error. -/
def index_brace (v : octave_value) (idx : List octave_value) : Option octave_value :=
  match v, idx with
  | cell elems, [i] =>
      (match index_positions elems.length i with
       | some ps =>
           if ps.all (fun p => decide (p ≤ elems.length)) then
             let tcell := ps.map (fun p => elems.getD (p - 1) undefined)
             (match tcell with
              | [x] => some x
              | _ => some (cs_list tcell))
           else none
       | none => none)
  | _, _ => none

end octave_value

namespace octave_lvalue

/-- The predicate `octave_lvalue::is_black_hole`. -/
def is_black_hole (ult : octave_lvalue) : Bool := ult.black_hole

/-- The function `octave_lvalue::mark_black_hole`. -/
def mark_black_hole (ult : octave_lvalue) : octave_lvalue := { ult with black_hole := true }

/-- Modelled from the spec: `octave_lvalue::is_defined`: not a black hole, and the
symbol is defined in the frame. -/
def is_defined (ult : octave_lvalue) (s : tree_evaluator) : Bool :=
  !ult.is_black_hole && tree_evaluator.is_defined s ult.sym

/-- Modelled from the spec: `octave_lvalue::is_undefined`. -/
def is_undefined (ult : octave_lvalue) (s : tree_evaluator) : Bool := !ult.is_defined s

/-- Modelled from the spec: `octave_lvalue::index_type`, the type tags of the
index (empty without index). -/
def index_type (ult : octave_lvalue) : String :=
  match ult.index with
  | some (type, _) => type
  | none => ""

/-- Modelled from the spec: `octave_lvalue::index_is_empty`: there is one index
and it is a single empty value. -/
def index_is_empty (ult : octave_lvalue) : Bool :=
  match ult.index with
  | some (_, [v]) => v.isempty
  | _ => false

/-- Modelled from the spec: `octave_lvalue::clear_index`. -/
def clear_index (ult : octave_lvalue) : octave_lvalue := { ult with index := none }

/-- Modelled from the spec: `octave_lvalue::set_index`. -/
def set_index (ult : octave_lvalue) (type : String) (idx : List octave_value) : octave_lvalue :=
  { ult with index := some (type, idx) }

/-- Modelled from the spec: `octave_lvalue::define`, bind the symbol to a value. -/
def define (ult : octave_lvalue) (v : octave_value) : Eval Unit :=
  tree_evaluator.assign ult.sym v

/-- Modelled from the spec: `octave_lvalue::numel`, the number of values the
target takes: 1 without index and for an index in parentheses; for an index in
braces the number of elements that the index selects from the variable (an
undefined variable counts as an empty cell array, and a magic colon on it is
the error of `err_invalid_inquiry_subscript`). -/
def numel (ult : octave_lvalue) : Eval Nat :=
  match ult.index with
  | none => pure 1
  | some (type, tidx) =>
      if type = "\x7b" then do
        let s ← Eval.get
        let tmp := tree_evaluator.varval s ult.sym
        if tmp.is_undefined then
          if tidx.any octave_value.is_magic_colon then
            tree_evaluator.error "invalid dimension inquiry of a non-existent value"
          else pure ((octave_value.cell []).xnumel tidx)
        else pure (tmp.xnumel tidx)
      else pure 1

/-- Modelled from the spec: `octave_lvalue::assign` with `op_asn_eq`: nothing for
a black hole; without index the symbol is bound to the value, with an index the
indexed assignment is made to the value of the symbol. -/
def assign (ult : octave_lvalue) (rhs : octave_value) : Eval Unit :=
  if ult.is_black_hole then pure ()
  else
    match ult.index with
    | none => tree_evaluator.assign ult.sym rhs
    | some (type, tidx) => do
        let s ← Eval.get
        let lhs := tree_evaluator.varval s ult.sym
        match (if type = "\x7b" then lhs.assign_brace tidx rhs else lhs.assign_paren tidx rhs) with
        | some v => tree_evaluator.assign ult.sym v
        | none => tree_evaluator.error "invalid use of indexed assignment"

end octave_lvalue

namespace debugger

/-- The query `debugger::in_debug_repl (void)`. -/
def in_debug_repl (d : debugger) : Bool := d.m_in_debug_repl

/-- The setter `debugger::in_debug_repl (bool flag)`: the old value and the
debugger afterwards. -/
def in_debug_repl_bool (d : debugger) (flag : Bool) : Bool × debugger :=
  (d.m_in_debug_repl, { d with m_in_debug_repl := flag })

/-- The query `debugger::exit_debug_repl (void)`. -/
def exit_debug_repl (d : debugger) : Bool := d.m_exit_debug_repl

/-- The setter `debugger::exit_debug_repl (bool flag)`. -/
def exit_debug_repl_bool (d : debugger) (flag : Bool) : Bool × debugger :=
  (d.m_exit_debug_repl, { d with m_exit_debug_repl := flag })

/-- The query `debugger::abort_debug_repl (void)`. -/
def abort_debug_repl (d : debugger) : Bool := d.m_abort_debug_repl

/-- The setter `debugger::abort_debug_repl (bool flag)`. -/
def abort_debug_repl_bool (d : debugger) (flag : Bool) : Bool × debugger :=
  (d.m_abort_debug_repl, { d with m_abort_debug_repl := flag })

end debugger

namespace tree_evaluator

/-- The query `in_debug_repl (void)`: the flag of the debugger on top of the
stack, false without a debugger. -/
def in_debug_repl (s : tree_evaluator) : Bool :=
  match s.m_debugger_stack with
  | [] => false
  | d :: _ => d.m_in_debug_repl

/-- The function `reset_debug_state (void)`. -/
def reset_debug_state : Eval Unit :=
  Eval.modify (fun s =>
    { s with m_debug_mode := s.have_breakpoints || decide (s.m_dbstep_flag ≠ 0) || in_debug_repl s })

/-- The inline setter `debug_mode (bool flag)`: it returns the old value. -/
def debug_mode (flag : Bool) : Eval Bool := fun s =>
  some (Outcome.value s.m_debug_mode, { s with m_debug_mode := flag })

/-- The action `call_stack::restore_frame (n)` that `evalin`, `assignin` and
`enter_debugger` register in their `unwind_protect frame`, with `n` the index of
the current frame on entry. -/
def restore_current_frame (s0 s1 : tree_evaluator) : tree_evaluator :=
  { s1 with m_call_stack := s1.m_call_stack.restore_frame s0.m_call_stack.current_frame }

/-- The function `enter_debugger`.  `repl` is `debugger::repl` run on the new
debugger, an interactive loop whose effect depends on what the user types.
Every frame of the embedding is a frame of user code, so that
`m_call_stack.dbupdown (0)` stays on the current frame; the command history is
not modelled. -/
def enter_debugger (repl : Eval Unit) : Eval Unit :=
  Eval.unwind_protect restore_current_frame (do
    Eval.modify (fun s =>
      { s with m_debug_frame := s.m_call_stack.current_frame
               m_debugger_stack :=
                 { m_level := s.m_debugger_stack.length, m_in_debug_repl := false,
                   m_exit_debug_repl := false, m_abort_debug_repl := false }
                 :: s.m_debugger_stack })
    repl)

/-- The first part of `do_breakpoint`: an exit or abort request of the debugger
on top of the stack (`dbcont`, `dbquit`) is carried out. -/
def do_breakpoint_requests : Eval Unit := do
  let s ← Eval.get
  match s.m_debugger_stack with
  | [] => pure ()
  | curr_debugger :: rest =>
      if curr_debugger.m_exit_debug_repl then do
        Eval.modify (fun s => { s with m_debugger_stack := rest })
        reset_debug_state
      else if curr_debugger.m_abort_debug_repl then do
        Eval.modify (fun s => { s with m_debugger_stack := rest })
        let _old ← debug_mode false
        Eval.throw exception.interrupt_exception
      else pure ()

/-- The middle part of `do_breakpoint`: the decision `break_on_this_statement`,
with the updates of `m_dbstep_flag` and `m_debug_frame` (for a breakpoint the
debugger is entered at once). -/
def break_on_this_statement (repl : Eval Unit) (is_breakpoint is_end_of_fcn_or_script : Bool) :
    Eval Bool := do
  let s ← Eval.get
  if is_breakpoint then do
    Eval.modify (fun s => { s with m_dbstep_flag := 0 })
    enter_debugger repl
    pure false
  else if s.m_dbstep_flag > 0 then
    if s.m_call_stack.current_frame = s.m_debug_frame then
      if s.m_dbstep_flag = 1 ∨ is_end_of_fcn_or_script = true then pure true
      else do
        Eval.modify (fun s => { s with m_dbstep_flag := s.m_dbstep_flag - 1 })
        pure false
    else if s.m_dbstep_flag = 1 ∧ s.m_call_stack.current_frame < s.m_debug_frame then do
      Eval.modify (fun s => { s with m_debug_frame := s.m_call_stack.current_frame })
      pure true
    else pure false
  else if s.m_dbstep_flag = -1 then do
    Eval.modify (fun s => { s with m_debug_frame := s.m_call_stack.current_frame })
    pure true
  else if s.m_dbstep_flag = -2 then
    if is_end_of_fcn_or_script = true ∧ s.m_call_stack.current_frame = s.m_debug_frame then do
      Eval.modify (fun s => { s with m_dbstep_flag := -1 })
      pure false
    else pure false
  else pure false

/-- The function `do_breakpoint (is_breakpoint, is_end_of_fcn_or_script)`.
`repl` is `debugger::repl` run on the debugger on top of the stack. -/
def do_breakpoint (repl : Eval Unit) (is_breakpoint is_end_of_fcn_or_script : Bool) :
    Eval Unit := do
  do_breakpoint_requests
  let break_on_this_statement ←
    break_on_this_statement repl is_breakpoint is_end_of_fcn_or_script
  if break_on_this_statement then do
    Eval.modify (fun s => { s with m_dbstep_flag := 0 })
    let s ← Eval.get
    if s.m_debugger_stack.isEmpty then error "internal error: dbstep without an active debugger!"
    else repl
  else pure ()

/-- The call `m_debugger_stack.top()->f (...)` of a member function `f` of the
debugger that returns a value and may change the debugger.  On an empty stack
`top ()` has no element to return; that undefined behaviour is represented as an
abort. -/
def on_top_debugger {α : Type} (f : debugger → α × debugger) : Eval α := fun s =>
  match s.m_debugger_stack with
  | [] => some (Outcome.panic, s)
  | d :: rest => some (Outcome.value (f d).1, { s with m_debugger_stack := (f d).2 :: rest })

/-- The setter `tree_evaluator::in_debug_repl (bool flag)`. -/
def in_debug_repl_bool (flag : Bool) : Eval Bool := do
  let s ← Eval.get
  let _u ← (if !s.m_debugger_stack.isEmpty
            then error "attempt to set in_debug_repl without debugger object"
            else pure ())
  on_top_debugger (fun d => d.in_debug_repl_bool flag)

/-- The query `tree_evaluator::exit_debug_repl (void)`: on the debugger on top
of the stack it calls `exit_debug_repl (true)`. -/
def exit_debug_repl : Eval Bool := do
  let s ← Eval.get
  if s.m_debugger_stack.isEmpty then pure false
  else on_top_debugger (fun d => d.exit_debug_repl_bool true)

/-- The setter `tree_evaluator::exit_debug_repl (bool flag)`. -/
def exit_debug_repl_bool (flag : Bool) : Eval Bool := do
  let s ← Eval.get
  let _u ← (if s.m_debugger_stack.isEmpty
            then error "attempt to set exit_debug_repl without debugger object"
            else pure ())
  on_top_debugger (fun d => d.exit_debug_repl_bool flag)

/-- The query `tree_evaluator::abort_debug_repl (void)`. -/
def abort_debug_repl (s : tree_evaluator) : Bool :=
  match s.m_debugger_stack with
  | [] => false
  | d :: _ => d.abort_debug_repl

/-- The setter `tree_evaluator::abort_debug_repl (bool flag)`. -/
def abort_debug_repl_bool (flag : Bool) : Eval Bool := do
  let s ← Eval.get
  let _u ← (if s.m_debugger_stack.isEmpty
            then error "attempt to set abort_debug_repl without debugger object"
            else pure ())
  on_top_debugger (fun d => d.abort_debug_repl_bool flag)

/-- The statement `if (m_debug_mode) do_breakpoint (t.is_active_breakpoint (*this));`
at the visit of the tree element `t`. -/
def do_breakpoint_in_debug_mode (tw : tree_walker) (t : tree) : Eval Unit := do
  let s ← Eval.get
  if s.m_debug_mode then do_breakpoint tw.repl (tw.is_active_breakpoint t s) false
  else pure ()

end tree_evaluator

namespace tree_evaluator

/-- The function `visit_index_expression` for an expression `EXPR{ARGS}` with one
index in braces: the base is evaluated and indexed. -/
def visit_index_expression_brace (tw : tree_walker) (expr : tree_expression)
    (args : List tree_expression) : Eval expr_result := do
  let base_expr_val ← evaluate tw expr 1
  let idx ← make_value_list tw args (some base_expr_val) true
  match base_expr_val.index_brace idx with
  | some r => pure (expr_result.RT_VALUE_LIST [r])
  | none => error_with_id "Octave:index-out-of-bounds" "index out of bound"

/-- The virtual function `lvalue (tw)` of the expression classes:
`tree_identifier::lvalue` and `tree_black_hole::lvalue` are those of `pt-id.cc`
(no symbol is static); the one of `tree_index_expression` is modelled from the
spec for an indexed variable (the index is evaluated, with the value of the
variable as the object that `end` refers to, and attached to the lvalue of the
variable); every other class has `tree_expression::lvalue`, which raises
an error. -/
def tree_expression_lvalue (tw : tree_walker) (expr : tree_expression) : Eval octave_lvalue :=
  match expr with
  | tree_expression.identifier name =>
      pure { sym := name, black_hole := false, index := none }
  | tree_expression.black_hole =>
      pure (octave_lvalue.mark_black_hole { sym := "~", black_hole := false, index := none })
  | tree_expression.index_expression (tree_expression.identifier name) args => do
      let s ← Eval.get
      let tidx ← make_value_list tw args (some (varval s name)) false
      pure (octave_lvalue.set_index { sym := name, black_hole := false, index := none } "(" tidx)
  | tree_expression.brace_index_expression (tree_expression.identifier name) args => do
      let s ← Eval.get
      let tidx ← make_value_list tw args (some (varval s name)) false
      pure (octave_lvalue.set_index { sym := name, black_hole := false, index := none } "\x7b" tidx)
  | _ => error "invalid lvalue function called in expression"

/-- The function `make_lvalue_list`. -/
def make_lvalue_list (tw : tree_walker) : List tree_expression → Eval (List octave_lvalue)
  | [] => pure []
  | elt :: rest => do
      let lval ← tree_expression_lvalue tw elt
      let retval ← make_lvalue_list tw rest
      pure (lval :: retval)

/-- The loop `for (const auto& lval : lvalue_list) n_out += lval.numel ();` of
`visit_multi_assignment`. -/
def count_outputs : List octave_lvalue → Nat → Eval Nat
  | [], n_out => pure n_out
  | lval :: rest, n_out => do
      let nel ← lval.numel
      count_outputs rest (n_out + nel)

/-- The loop of `visit_multi_assignment` over the lvalues; `size` is
`lvalue_list.size ()`, `k` the position in `rhs_val` and `retval_list` the
values assigned so far. -/
def multi_assignment_loop (size : Nat) (rhs_val : List octave_value) :
    List octave_lvalue → Nat → List octave_value → Eval (List octave_value)
  | [], _, retval_list => pure retval_list
  | ult :: rest, k, retval_list => do
      let n := rhs_val.length
      let nel ← ult.numel
      if nel ≠ 1 then do
        let s ← Eval.get
        let kluge : Bool :=
          decide (size = 1) && decide (nel = 0) && decide (n > 0)
            && !ult.is_black_hole && ult.is_undefined s
            && decide (ult.index_type = "\x7b") && ult.index_is_empty
        (if kluge then ult.define (octave_value.cell [octave_value.matrix 0 0 []])
         else pure ())
        let nel := if kluge then 1 else nel
        let ult := if kluge then ult.clear_index.set_index "\x7b" [octave_value.scalar 1] else ult
        if k + nel > n then error "some elements undefined in return list"
        else do
          let ovl := (rhs_val.drop k).take nel
          ult.assign (octave_value.cs_list ovl)
          multi_assignment_loop size rhs_val rest (k + nel) (retval_list ++ ovl)
      else if k < n then
        if ult.is_black_hole then multi_assignment_loop size rhs_val rest (k + 1) retval_list
        else
          let tmp := rhs_val.getD k octave_value.undefined
          if tmp.is_undefined then
            error ("element number " ++ format_d (k + 1) ++ " undefined in return list")
          else do
            ult.assign tmp
            multi_assignment_loop size rhs_val rest (k + 1) (retval_list ++ [tmp])
      else if !ult.is_black_hole then
        error ("element number " ++ format_d (k + 1) ++ " undefined in return list")
      else multi_assignment_loop size rhs_val rest (k + 1) retval_list

/-- The value `rhs_val` of `visit_multi_assignment`: the values of `rhs_val1`, or
those of the comma-separated list when `rhs_val1` is a single one. -/
def multi_assignment_rhs_val (rhs_val1 : List octave_value) : List octave_value :=
  match rhs_val1 with
  | [v] => if v.is_cs_list then v.list_value else rhs_val1
  | _ => rhs_val1

/-- The function `visit_multi_assignment`. -/
def visit_multi_assignment (tw : tree_walker) (lhs : List tree_expression)
    (rhs : Option tree_expression) : Eval expr_result :=
  match rhs with
  | none => pure (expr_result.RT_VALUE_LIST [])
  | some rhs => do
      let lvalue_list ← make_lvalue_list tw lhs
      let n_out ← count_outputs lvalue_list 0
      let rhs_val1 ← evaluate_n tw rhs n_out
      let rhs_val := multi_assignment_rhs_val rhs_val1
      let val ← multi_assignment_loop lvalue_list.length rhs_val lvalue_list 0 []
      pure (expr_result.RT_VALUE_LIST val)

/-- The double dispatch `expr->accept (tw)` on the class of the expression. -/
def tree_expression_accept (tw : tree_walker) (expr : tree_expression) (nargout : Int) :
    Eval expr_result :=
  match expr with
  | tree_expression.constant value => visit_constant value nargout
  | tree_expression.identifier name => visit_identifier tw name nargout
  | tree_expression.black_hole => visit_identifier tw "~" nargout
  | tree_expression.binary_expression op lhs rhs braindead =>
      visit_binary_expression tw op lhs rhs braindead
  | tree_expression.boolean_expression op lhs rhs => visit_boolean_expression tw op lhs rhs
  | tree_expression.colon_expression base limit increment =>
      visit_colon_expression tw base limit increment
  | tree_expression.index_expression e args => visit_index_expression tw e args nargout
  | tree_expression.brace_index_expression e args => visit_index_expression_brace tw e args
  | tree_expression.anon_fcn_handle pl e => visit_anon_fcn_handle pl e
  | tree_expression.simple_assignment lhs rhs => visit_simple_assignment tw lhs rhs
  | tree_expression.multi_assignment lhs rhs => visit_multi_assignment tw lhs rhs

/-- The predicate `tree_expression::is_identifier`, with the name. -/
def identifier_name : tree_expression → Option String
  | tree_expression.identifier name => some name
  | tree_expression.black_hole => some "~"
  | _ => none

/-- The predicate `tree_expression::is_assignment_expression`. -/
def is_assignment_expression : tree_expression → Bool
  | tree_expression.simple_assignment _ _ => true
  | tree_expression.multi_assignment _ _ => true
  | _ => false

mutual

/-- The function `bind_ans` (nothing is printed): a defined value is assigned to
`ans`, the values of a comma-separated list one after the other. -/
def bind_ans : octave_value → Eval Unit
  | octave_value.undefined => pure ()
  | octave_value.cs_list lst => bind_ans_list lst
  | octave_value.scalar x => assign "ans" (octave_value.scalar x)
  | octave_value.nan => assign "ans" octave_value.nan
  | octave_value.bool_value b => assign "ans" (octave_value.bool_value b)
  | octave_value.str str => assign "ans" (octave_value.str str)
  | octave_value.range base increment numel =>
      assign "ans" (octave_value.range base increment numel)
  | octave_value.matrix nr nc data => assign "ans" (octave_value.matrix nr nc data)
  | octave_value.cell elems => assign "ans" (octave_value.cell elems)
  | octave_value.map fields => assign "ans" (octave_value.map fields)
  | octave_value.fcn_handle fcn => assign "ans" (octave_value.fcn_handle fcn)
  | octave_value.magic_colon => assign "ans" octave_value.magic_colon

/-- The loop of `bind_ans` over the values of a comma-separated list. -/
def bind_ans_list : List octave_value → Eval Unit
  | [] => pure ()
  | val :: rest => do
      bind_ans val
      bind_ans_list rest

end

/-- The function `visit_statement`.  The handler for `interrupt_exception`
recovers in debug mode and rethrows otherwise. -/
def visit_statement (tw : tree_walker) (stmt : tree_statement) : Eval Unit :=
  match stmt with
  | tree_statement.mk cmd expr =>
    match cmd, expr with
    | none, none => pure ()
    | _, _ =>
      Eval.try_catch
        (match cmd, expr with
         | some c, _ => tw.accept_command c
         | none, some e => do
             do_breakpoint_in_debug_mode tw (tree.expression e)
             let tmp_result ← evaluate tw e 0
             if tmp_result.is_defined then do
               let s ← Eval.get
               let do_bind_ans :=
                 match identifier_name e with
                 | some name => !(is_variable s name)
                 | none => !(is_assignment_expression e)
               if do_bind_ans then bind_ans tmp_result else pure ()
             else pure ()
         | none, none => pure ())
        (fun ex =>
          match ex with
          | exception.interrupt_exception =>
              some (do
                let s ← Eval.get
                if s.m_debug_mode then recover_from_exception
                else Eval.throw exception.interrupt_exception)
          | _ => none)

/-- The loop of `visit_statement_list` from the position `p` on: a null
statement is an error; after each statement the traversal stops when
`m_breaking`, `m_continuing` or `m_returning` is set, or at the end. -/
def visit_statement_list_loop (tw : tree_walker) : List (Option tree_statement) → Eval Unit
  | [] => pure ()
  | elt :: rest =>
    match elt with
    | none => error "invalid statement found in statement list!"
    | some stmt => do
        octave_quit
        tw.accept_statement stmt
        let s ← Eval.get
        if s.m_breaking ≠ 0 ∨ s.m_continuing ≠ 0 then pure ()
        else if s.m_returning ≠ 0 then pure ()
        else visit_statement_list_loop tw rest

/-- The function `visit_statement_list`. -/
def visit_statement_list (tw : tree_walker) (lst : tree_statement_list) : Eval Unit :=
  match lst with
  | tree_statement_list.mk stmts => visit_statement_list_loop tw stmts

/-- The call `list->accept (*this)` guarded by `if (list)`. -/
def accept_if_nonnull (tw : tree_walker) (list : Option tree_statement_list) : Eval Unit :=
  match list with
  | some l => tw.accept_statement_list l
  | none => pure ()

/-- The function `visit_break_command`. -/
def visit_break_command (tw : tree_walker) : Eval Unit := do
  do_breakpoint_in_debug_mode tw (tree.command tree_command.break_command)
  let s ← Eval.get
  if s.m_in_loop_command then Eval.modify (fun s => { s with m_breaking := 1 })
  else error "break must appear in a loop in the same file as loop command"

/-- The function `visit_continue_command`. -/
def visit_continue_command (tw : tree_walker) : Eval Unit := do
  do_breakpoint_in_debug_mode tw (tree.command tree_command.continue_command)
  let s ← Eval.get
  if s.m_in_loop_command then Eval.modify (fun s => { s with m_continuing := 1 })
  else pure ()

/-- The function `visit_return_command`: inside the debugger, in the frame that
is debugged, it acts like `dbcont`. -/
def visit_return_command (tw : tree_walker) : Eval Unit := do
  do_breakpoint_in_debug_mode tw (tree.command tree_command.return_command)
  let s ← Eval.get
  if in_debug_repl s ∧ s.m_call_stack.current_frame = s.m_debug_frame then do
    Eval.modify (fun s => { s with m_dbstep_flag := 0 })
    let _old ← exit_debug_repl_bool true
    pure ()
  else if s.m_statement_context = stmt_list_type.SC_FUNCTION
      ∨ s.m_statement_context = stmt_list_type.SC_SCRIPT
      ∨ s.m_in_loop_command = true then
    Eval.modify (fun s => { s with m_returning := 1 })
  else pure ()

/-- The function `visit_no_op_command`. -/
def visit_no_op_command (tw : tree_walker) (is_end_of_fcn_or_script : Bool) : Eval Unit := do
  let s ← Eval.get
  if s.m_debug_mode ∧ is_end_of_fcn_or_script = true then
    do_breakpoint tw.repl
      (tw.is_active_breakpoint
        (tree.command (tree_command.no_op_command is_end_of_fcn_or_script)) s) true
  else pure ()

/-- The function `is_logically_true`. -/
def is_logically_true (tw : tree_walker) (expr : tree_expression) (warn_for : String) :
    Eval Bool := do
  let t1 ← evaluate tw expr 1
  if t1.is_defined then is_true t1
  else error (warn_for ++ ": undefined value used in conditional expression")

/-- The function `visit_if_command_list`: the commands of the first clause that
is the else clause or whose condition is true. -/
def visit_if_command_list (tw : tree_walker) : List tree_if_clause → Eval Unit
  | [] => pure ()
  | tree_if_clause.mk expr commands :: rest => do
      let _u ←
        (match expr with
         | none => pure ()
         | some _ =>
             do_breakpoint_in_debug_mode tw (tree.if_clause (tree_if_clause.mk expr commands)))
      let taken ←
        (match expr with
         | none => pure true
         | some e => is_logically_true tw e "if")
      if taken then accept_if_nonnull tw commands
      else visit_if_command_list tw rest

/-- The function `visit_if_command`. -/
def visit_if_command (tw : tree_walker) (lst : Option (List tree_if_clause)) : Eval Unit :=
  match lst with
  | some l => visit_if_command_list tw l
  | none => pure ()

/-- The function `quit_loop_now`: poll for an interrupt, consume a pending
continue, compute the result, consume one level of a pending break. -/
def quit_loop_now : Eval Bool := do
  octave_quit
  let s ← Eval.get
  if s.m_continuing ≠ 0 then
    Eval.modify (fun s => { s with m_continuing := s.m_continuing - 1 })
  else pure ()
  let s ← Eval.get
  let quit := decide (s.m_returning ≠ 0 ∨ s.m_breaking ≠ 0 ∨ s.m_continuing ≠ 0)
  if s.m_breaking ≠ 0 then
    Eval.modify (fun s => { s with m_breaking := s.m_breaking - 1 })
  else pure ()
  pure quit

/-- The `unwind_protect frame` of the loop commands: `m_in_loop_command` is
restored to the value it had on entry. -/
def restore_in_loop_command (s0 s1 : tree_evaluator) : tree_evaluator :=
  { s1 with m_in_loop_command := s0.m_in_loop_command }

/-- The `for` loop of `visit_simple_for_command` over `steps` values: the counter
is `i`, `val i` the value assigned to the loop variable in that iteration. -/
def simple_for_loop (tw : tree_walker) (ult : String) (loop_body : Option tree_statement_list)
    (val : Nat → octave_value) : Nat → Nat → Eval Unit
  | _, 0 => pure ()
  | i, steps + 1 => do
      assign ult (val i)
      accept_if_nonnull tw loop_body
      let quit ← quit_loop_now
      if quit then pure ()
      else simple_for_loop tw ult loop_body val (i + 1) steps

/-- The function `visit_simple_for_command`. -/
def visit_simple_for_command (tw : tree_walker) (lhs : String) (expr : tree_expression)
    (loop_body : Option tree_statement_list) : Eval Unit := do
  do_breakpoint_in_debug_mode tw
    (tree.command (tree_command.simple_for_command lhs expr loop_body))
  Eval.unwind_protect restore_in_loop_command (do
    Eval.modify (fun s => { s with m_in_loop_command := true })
    let rhs ← evaluate tw expr 1
    if rhs.is_undefined then pure ()
    else
      match rhs with
      | octave_value.range base increment numel =>
          simple_for_loop tw lhs loop_body
            (fun i => octave_value.scalar (octave_value.range_elem base increment i)) 0 numel
      | _ =>
        if rhs.is_scalar_type then do
          assign lhs rhs
          accept_if_nonnull tw loop_body
          let _ ← quit_loop_now
          pure ()
        else if rhs.is_matrix_type ∨ rhs.iscell ∨ rhs.is_string ∨ rhs.isstruct then
          let nrows := rhs.rows
          let steps := rhs.columns
          if nrows > 0 ∧ steps > 0 then
            simple_for_loop tw lhs loop_body (fun i => rhs.column (i + 1)) 0 steps
          else assign lhs rhs
        else error "invalid type in for loop expression")

/-- The loop of `visit_complex_for_command` over the fields of the structure. -/
def complex_for_loop (tw : tree_walker) (val_ref key_ref : String)
    (loop_body : Option tree_statement_list) : List (String × octave_value) → Eval Unit
  | [] => pure ()
  | (key, val) :: rest => do
      assign val_ref val
      assign key_ref (octave_value.str key)
      accept_if_nonnull tw loop_body
      let quit ← quit_loop_now
      if quit then pure ()
      else complex_for_loop tw val_ref key_ref loop_body rest

/-- The function `visit_complex_for_command`, `for [VAL, KEY] = EXPR`. -/
def visit_complex_for_command (tw : tree_walker) (val_ref key_ref : String)
    (expr : tree_expression) (loop_body : Option tree_statement_list) : Eval Unit := do
  do_breakpoint_in_debug_mode tw
    (tree.command (tree_command.complex_for_command val_ref key_ref expr loop_body))
  Eval.unwind_protect restore_in_loop_command (do
    Eval.modify (fun s => { s with m_in_loop_command := true })
    let rhs ← evaluate tw expr 1
    if rhs.is_undefined then pure ()
    else
      match rhs with
      | octave_value.map fields => complex_for_loop tw val_ref key_ref loop_body fields
      | _ => error "in statement 'for [X, Y] = VAL', VAL must be a structure")

/-- The `for (;;)` loop of `visit_while_command`, cut off after `budget`
iterations. -/
def while_loop (tw : tree_walker) (expr : tree_expression)
    (loop_body : Option tree_statement_list) : Nat → Eval Unit
  | 0 => fun _ => none
  | budget + 1 => do
      do_breakpoint_in_debug_mode tw
        (tree.command (tree_command.while_command (some expr) loop_body))
      let c ← is_logically_true tw expr "while"
      if c then do
        accept_if_nonnull tw loop_body
        let quit ← quit_loop_now
        if quit then pure ()
        else while_loop tw expr loop_body budget
      else pure ()

/-- The function `visit_while_command`. -/
def visit_while_command (budget : Nat) (tw : tree_walker) (expr : Option tree_expression)
    (loop_body : Option tree_statement_list) : Eval Unit :=
  Eval.unwind_protect restore_in_loop_command (do
    Eval.modify (fun s => { s with m_in_loop_command := true })
    match expr with
    | none => Eval.panic_impossible
    | some e => while_loop tw e loop_body budget)

/-- The `for (;;)` loop of `visit_do_until_command`, cut off after `budget`
iterations. -/
def do_until_loop (tw : tree_walker) (expr : tree_expression)
    (loop_body : Option tree_statement_list) : Nat → Eval Unit
  | 0 => fun _ => none
  | budget + 1 => do
      accept_if_nonnull tw loop_body
      let quit ← quit_loop_now
      if quit then pure ()
      else do
        do_breakpoint_in_debug_mode tw
          (tree.command (tree_command.do_until_command loop_body (some expr)))
        let c ← is_logically_true tw expr "do-until"
        if c then pure ()
        else do_until_loop tw expr loop_body budget

/-- The function `visit_do_until_command`. -/
def visit_do_until_command (budget : Nat) (tw : tree_walker)
    (loop_body : Option tree_statement_list) (expr : Option tree_expression) : Eval Unit :=
  Eval.unwind_protect restore_in_loop_command (do
    Eval.modify (fun s => { s with m_in_loop_command := true })
    match expr with
    | none => Eval.panic_impossible
    | some e => do_until_loop tw e loop_body budget)

/-- The loops of `switch_case_label_matches` over the elements of a cell label. -/
def cell_label_matches (val : octave_value) : List octave_value → Bool
  | [] => false
  | elt :: rest => if val.is_equal elt then true else cell_label_matches val rest

/-- The function `switch_case_label_matches`. -/
def switch_case_label_matches (tw : tree_walker) (label : tree_expression)
    (val : octave_value) : Eval Bool := do
  let label_value ← evaluate tw label 1
  if label_value.is_defined then
    match label_value with
    | octave_value.cell elems => pure (cell_label_matches val elems)
    | _ => pure (val.is_equal label_value)
  else pure false

/-- The loop of `visit_switch_command` over the case list. -/
def switch_case_loop (tw : tree_walker) (val : octave_value) : List tree_switch_case → Eval Unit
  | [] => pure ()
  | tree_switch_case.mk label commands :: rest => do
      let taken ←
        (match label with
         | none => pure true
         | some l => switch_case_label_matches tw l val)
      if taken then accept_if_nonnull tw commands
      else switch_case_loop tw val rest

/-- The function `visit_switch_command`. -/
def visit_switch_command (tw : tree_walker) (expr : Option tree_expression)
    (lst : Option (List tree_switch_case)) : Eval Unit := do
  do_breakpoint_in_debug_mode tw (tree.command (tree_command.switch_command expr lst))
  match expr with
  | none => error "missing value in switch command near line -1, column -1"
  | some e => do
      let val ← evaluate tw e 1
      match lst with
      | some l => switch_case_loop tw val l
      | none => pure ()

/-- The action registered by `inner_frame.add_method (es,
&error_system::set_in_try_catch, es.in_try_catch ())`. -/
def restore_in_try_catch (s0 s1 : tree_evaluator) : tree_evaluator :=
  { s1 with es := { s1.es with in_try_catch := s0.es.in_try_catch } }

/-- The structure `err` that `visit_try_catch_command` assigns to the identifier
of the catch clause. -/
def last_error_map (s : tree_evaluator) : octave_value :=
  octave_value.map
    [("message", octave_value.str s.es.last_error_message),
     ("identifier", octave_value.str s.es.last_error_id),
     ("stack", s.es.last_error_stack)]

/-- The function `visit_try_catch_command`. -/
def visit_try_catch_command (tw : tree_walker) (try_code : Option tree_statement_list)
    (expr_id : Option String) (catch_code : Option tree_statement_list) : Eval Unit := do
  let execution_error ←
    (match try_code with
     | none => pure false
     | some body =>
        Eval.try_catch
          (do
            Eval.unwind_protect restore_in_try_catch (do
              Eval.modify (fun s =>
                { s with es := { s.es with in_try_catch := s.es.in_try_catch + 1 } })
              tw.accept_statement_list body)
            pure false)
          (fun e =>
            match e with
            | exception.execution_exception _ _ =>
                some (do
                  recover_from_exception
                  pure true)
            | exception.interrupt_exception => none))
  if execution_error then
    match catch_code with
    | some catch_list => do
        (match expr_id with
         | some id => do
             let s ← Eval.get
             assign id (last_error_map s)
         | none => pure ())
        tw.accept_statement_list catch_list
    | none => pure ()
  else pure ()

/-- The two actions on top of the frame of `do_unwind_protect_cleanup_code`:
`m_breaking` and `m_returning` get the values they had on entry (`frame.run (2)`). -/
def restore_breaking_returning (s0 s : tree_evaluator) : tree_evaluator :=
  { s with m_breaking := s0.m_breaking, m_returning := s0.m_returning }

/-- The statement `if (m_breaking || m_returning) frame.discard (2); else
frame.run (2);`. -/
def discard_or_run (s0 s : tree_evaluator) : tree_evaluator :=
  if s.m_breaking ≠ 0 ∨ s.m_returning ≠ 0 then s else restore_breaking_returning s0 s

/-- The action at the bottom of the frame of `do_unwind_protect_cleanup_code`:
`octave_interrupt_state` gets the value it had on entry. -/
def restore_interrupt_state (s0 s : tree_evaluator) : tree_evaluator :=
  { s with octave_interrupt_state := s0.octave_interrupt_state }

/-- The function `do_unwind_protect_cleanup_code`.  The frame protects
`octave_interrupt_state`, `m_returning` and `m_breaking`, which are cleared
before the list runs.  After the list, and in the handler of an execution
exception, the two flags are kept or restored by `discard_or_run`; an interrupt
exception is not handled, so the destructor of the frame restores all three. -/
def do_unwind_protect_cleanup_code (tw : tree_walker) (list : Option tree_statement_list) :
    Eval Unit := fun s0 =>
  let s1 := { s0 with octave_interrupt_state := 0, m_returning := 0, m_breaking := 0 }
  match accept_if_nonnull tw list s1 with
  | none => none
  | some (Outcome.value (), s2) =>
      some (Outcome.value (), restore_interrupt_state s0 (discard_or_run s0 s2))
  | some (Outcome.thrown (exception.execution_exception msg id), s2) =>
      some (Outcome.thrown (exception.execution_exception msg id),
        restore_interrupt_state s0 (discard_or_run s0 (recover_from_exception_state s2)))
  | some (Outcome.thrown exception.interrupt_exception, s2) =>
      some (Outcome.thrown exception.interrupt_exception,
        restore_interrupt_state s0 (restore_breaking_returning s0 s2))
  | some (Outcome.panic, s2) => some (Outcome.panic, s2)

/-- The function `visit_unwind_protect_command`. -/
def visit_unwind_protect_command (tw : tree_walker)
    (unwind_protect_code cleanup_code : Option tree_statement_list) : Eval Unit :=
  match unwind_protect_code with
  | none => pure ()
  | some body => do
      Eval.try_catch (tw.accept_statement_list body)
        (fun e =>
          match e with
          | exception.execution_exception _ _ =>
              some (do
                recover_from_exception
                do_unwind_protect_cleanup_code tw cleanup_code
                Eval.throw e)
          | exception.interrupt_exception =>
              some (do
                recover_from_exception
                do_unwind_protect_cleanup_code tw cleanup_code
                Eval.throw e))
      do_unwind_protect_cleanup_code tw cleanup_code

/-- The double dispatch `cmd->accept (tw)` on the class of the command; `budget`
bounds the iterations of a `while` or `do`-`until` loop. -/
def tree_command_accept (budget : Nat) (tw : tree_walker) (cmd : tree_command) : Eval Unit :=
  match cmd with
  | tree_command.break_command => visit_break_command tw
  | tree_command.continue_command => visit_continue_command tw
  | tree_command.return_command => visit_return_command tw
  | tree_command.no_op_command eof => visit_no_op_command tw eof
  | tree_command.if_command lst => visit_if_command tw lst
  | tree_command.simple_for_command lhs expr body => visit_simple_for_command tw lhs expr body
  | tree_command.complex_for_command v k expr body =>
      visit_complex_for_command tw v k expr body
  | tree_command.while_command expr body => visit_while_command budget tw expr body
  | tree_command.do_until_command body expr => visit_do_until_command budget tw body expr
  | tree_command.switch_command expr lst => visit_switch_command tw expr lst
  | tree_command.try_catch_command body id cleanup =>
      visit_try_catch_command tw body id cleanup
  | tree_command.unwind_protect_command body cleanup =>
      visit_unwind_protect_command tw body cleanup

/-- The overload `evaluate (tree_decl_elt *elt)`: the value of the identifier,
an undefined value when there is none. -/
def evaluate_decl_elt (tw : tree_walker) (elt : tree_decl_elt) : Eval octave_value :=
  match elt with
  | tree_decl_elt.mk (some id) _ => evaluate tw (tree_expression.identifier id) 1
  | tree_decl_elt.mk none _ => pure octave_value.undefined

/-- The function `eval_decl_elt`: assign the declared default value. -/
def eval_decl_elt (tw : tree_walker) (elt : tree_decl_elt) : Eval Bool :=
  match elt with
  | tree_decl_elt.mk (some id) (some expr) => do
      let init_val ← evaluate tw expr 1
      assign id init_val
      pure true
  | _ => pure false

/-- The loop of `define_parameter_list_from_arg_vector`; `i` is the position of
the first element of the remaining list.  Taking the lvalue of an element
without identifier dereferences a null pointer. -/
def define_parameter_list_loop (tw : tree_walker) (args : List octave_value) :
    List tree_decl_elt → Nat → Eval Unit
  | [], _ => pure ()
  | elt :: rest, i => do
      (match elt with
       | tree_decl_elt.mk none _ => Eval.panic_impossible
       | tree_decl_elt.mk (some id) _ =>
          if i < args.length then
            let arg := args.getD i octave_value.undefined
            if arg.is_defined ∧ arg.is_magic_colon then do
              let ok ← eval_decl_elt tw elt
              if ok then pure ()
              else error ("no default value for argument " ++ format_d (i + 1))
            else assign id arg
          else do
            let _ ← eval_decl_elt tw elt
            pure ())
      define_parameter_list_loop tw args rest (i + 1)

/-- The function `define_parameter_list_from_arg_vector`. -/
def define_parameter_list_from_arg_vector (tw : tree_walker) (param_list : tree_parameter_list)
    (args : List octave_value) : Eval Unit :=
  define_parameter_list_loop tw args param_list.elts 0

/-- Modelled from the spec: the assignment `retval(i) = val` to an element of an
`octave_value_list`; assigning to an element past the end grows the list. -/
def octave_value_list_assign (retval : List octave_value) (i : Nat) (val : octave_value) :
    List octave_value :=
  if i < retval.length then retval.set i val
  else retval ++ List.replicate (i - retval.length) octave_value.undefined ++ [val]

/-- The loop of `convert_return_list_to_const_vector` in its branch
`nargout <= len`: every element of the return list whose identifier is defined
is evaluated and stored at its position. -/
def return_list_loop_defined (tw : tree_walker) :
    List tree_decl_elt → Nat → List octave_value → Eval (List octave_value)
  | [], _, retval => pure retval
  | elt :: rest, i, retval =>
    match elt with
    | tree_decl_elt.mk none _ => Eval.panic_impossible
    | tree_decl_elt.mk (some id) _ => do
        let s ← Eval.get
        if is_defined s id then do
          let tmp ← evaluate_decl_elt tw elt
          return_list_loop_defined tw rest (i + 1) (octave_value_list_assign retval i tmp)
        else return_list_loop_defined tw rest (i + 1) retval

/-- The first loop of `convert_return_list_to_const_vector` in its branch
`nargout > len`: every element of the return list is evaluated and stored. -/
def return_list_loop_all (tw : tree_walker) :
    List tree_decl_elt → Nat → List octave_value → Eval (List octave_value)
  | [], _, retval => pure retval
  | elt :: rest, i, retval => do
      let tmp ← evaluate_decl_elt tw elt
      return_list_loop_all tw rest (i + 1) (octave_value_list_assign retval i tmp)

/-- The second loop of that branch: the elements of `varargout` are stored
after the declared values. -/
def varargout_loop : List octave_value → Nat → List octave_value → List octave_value
  | [], _, retval => retval
  | v :: rest, i, retval => varargout_loop rest (i + 1) (octave_value_list_assign retval i v)

/-- The function `convert_return_list_to_const_vector`. -/
def convert_return_list_to_const_vector (tw : tree_walker) (ret_list : tree_parameter_list)
    (nargout : Int) (varargout : List octave_value) : Eval (List octave_value) :=
  let vlen := varargout.length
  let len := ret_list.length
  if len = 0 then pure varargout
  else if nargout ≤ (len : Int) then
    return_list_loop_defined tw ret_list.elts 0
      (List.replicate nargout.toNat octave_value.undefined)
  else do
    let retval ← return_list_loop_all tw ret_list.elts 0
      (List.replicate (len + vlen) octave_value.undefined)
    pure (varargout_loop varargout len retval)

/-- The conversion `static_cast<size_t> (n)` of an `int` (64-bit `size_t`). -/
def static_cast_size_t (n : Int) : Nat := (n % (2 ^ 64 : Int)).toNat

/-- The actions in the frame of `execute_user_script` and `execute_user_function`
when the body has been entered: `call_stack::pop` and the restoration of
`m_statement_context`. -/
def restore_after_call (s0 s1 : tree_evaluator) : tree_evaluator :=
  { s1 with m_call_stack := s1.m_call_stack.pop, m_statement_context := s0.m_statement_context }

/-- The statements `if (m_returning) m_returning = 0; if (m_breaking)
m_breaking--;` after the body of a script or function. -/
def absorb_return_and_break (s : tree_evaluator) : tree_evaluator :=
  let s1 := if s.m_returning ≠ 0 then { s with m_returning := 0 } else s
  if s1.m_breaking ≠ 0 then { s1 with m_breaking := s1.m_breaking - 1 } else s1

/-- The function `execute_user_script`. -/
def execute_user_script (tw : tree_walker) (user_script : octave_user_script) (nargout : Int)
    (args : List octave_value) : Eval (List octave_value) :=
  if args.length ≠ 0 ∨ nargout ≠ 0 then
    error ("invalid call to script " ++ user_script.fcn_file_name)
  else
    match user_script.body with
    | none => pure []
    | some cmd_list => do
        let s ← Eval.get
        if s.m_call_stack.size ≥ static_cast_size_t s.m_max_recursion_depth then
          error "max_recursion_depth exceeded"
        else
          Eval.unwind_protect restore_after_call (do
            Eval.modify (fun s => { s with m_call_stack := s.m_call_stack.push })
            Eval.modify (fun s => { s with m_statement_context := stmt_list_type.SC_SCRIPT })
            tw.accept_statement_list cmd_list
            Eval.modify absorb_return_and_break
            pure [])

/-- The function `init_local_fcn_vars`: every recorded value is assigned in the
current stack frame. -/
def init_local_fcn_vars : List (String × octave_value) → Eval Unit
  | [] => pure ()
  | (nm, ov) :: rest => do
      assign nm ov
      init_local_fcn_vars rest

/-- The function `bind_auto_fcn_vars`, reduced to the assignment of `varargin`
(the arguments past the declared parameters). -/
def bind_auto_fcn_vars (takes_varargs : Bool) (va_args : List octave_value) : Eval Unit :=
  if takes_varargs then assign "varargin" (octave_value.cell va_args) else pure ()

/-- The body of an anonymous function (`is_special_expr ()`): the single
expression statement is evaluated with `evaluate_n`.  A failed `assert` and a
null statement abort. -/
def special_expr_body (tw : tree_walker) (cmd_list : tree_statement_list) (nargout : Int) :
    Eval (List octave_value) :=
  match cmd_list with
  | tree_statement_list.mk [some (tree_statement.mk _ (some expr))] => evaluate_n tw expr nargout
  | tree_statement_list.mk [some (tree_statement.mk _ none)] => pure []
  | _ => Eval.panic_impossible

/-- The function `execute_user_function` (without closure frames).  An
anonymous function is a special expression (`is_special_expr ()` is
`is_anonymous_function ()`). -/
def execute_user_function (tw : tree_walker) (user_function : octave_user_function)
    (nargout : Int) (xargs : List octave_value) : Eval (List octave_value) :=
  match user_function with
  | octave_user_function.mk param_list ret_list body local_var_init_vals
      is_anonymous_function is_classdef_constructor =>
    match body with
    | none => pure []
    | some cmd_list =>
      if is_classdef_constructor ∧ xargs.length = 0 then Eval.panic_impossible
      else do
        let ret_args := if is_classdef_constructor then xargs.take 1 else []
        let args := if is_classdef_constructor then xargs.drop 1 else xargs
        let s ← Eval.get
        if s.m_call_stack.size ≥ static_cast_size_t s.m_max_recursion_depth then
          error "max_recursion_depth exceeded"
        else
          Eval.unwind_protect restore_after_call (do
            Eval.modify (fun s => { s with m_call_stack := s.m_call_stack.push })
            (match param_list with
             | some pl => bind_auto_fcn_vars pl.takes_varargs (args.drop pl.length)
             | none => pure ())
            (if is_anonymous_function then init_local_fcn_vars local_var_init_vals
             else pure ())
            (match param_list with
             | some pl =>
                if pl.varargs_only then pure ()
                else define_parameter_list_from_arg_vector tw pl args
             | none => pure ())
            (if is_classdef_constructor then
               match ret_list with
               | none => error "invalid classdef constructor, no output argument defined"
               | some rl => define_parameter_list_from_arg_vector tw rl ret_args
             else pure ())
            Eval.modify (fun s => { s with m_statement_context := stmt_list_type.SC_FUNCTION })
            let retval ←
              (if is_anonymous_function then special_expr_body tw cmd_list nargout
               else do
                 tw.accept_statement_list cmd_list
                 pure [])
            Eval.modify absorb_return_and_break
            match ret_list, is_anonymous_function with
            | some rl, false => do
                let s ← Eval.get
                let varargout_varval := varval s "varargout"
                let varargout ←
                  (if rl.takes_varargs ∧ varargout_varval.is_defined then
                     match varargout_varval with
                     | octave_value.cell elems => pure elems
                     | _ => error "varargout must be a cell array object"
                   else pure [])
                convert_return_list_to_const_vector tw rl nargout varargout
            | _, _ => pure retval)

/-- The dimension vector that the function `end` works with, for `num_indices`
indices (at least one) into a value of dimensions `dv`: with fewer indices than
dimensions, `dv (num_indices-1) *= dv (i)` for the dimensions `i` from
`num_indices` on, and the vector is resized to `num_indices` elements (to two,
the second being 1, for a single index). -/
def end_dim_vector (dv : List Nat) (num_indices : Nat) : List Nat :=
  let ndims := dv.length
  if num_indices < ndims then
    let dv1 := (List.range' num_indices (ndims - num_indices)).foldl
      (fun d i => d.set (num_indices - 1) (d.getD (num_indices - 1) 0 * d.getD i 0)) dv
    if num_indices = 1 then (dv1.take 2).set 1 1
    else dv1.take num_indices
  else dv

/-- The value of `end` at `index_position` (0-based) among `num_indices` indices
into a value of dimensions `dv`: `dv (index_position)` of the vector above when
the position is below its length, else 1. -/
def end_value (dv : List Nat) (index_position num_indices : Nat) : Nat :=
  let dv1 := end_dim_vector dv num_indices
  if index_position < dv1.length then dv1.getD index_position 0 else 1

/-- The function `end` (`DEFCONSTMETHOD (end, ...)`), for an indexed value that
is not an object of a class: NaN when no value is being indexed, else the value
computed from the dimensions of the indexed value.  With `m_num_indices < 1` or
a negative `m_index_position`, values that `convert_to_const_vector` never
stores, the C++ function reads outside the dimension vector; that undefined
behaviour is represented as an abort. -/
def Fend : Eval (List octave_value) := do
  let s ← Eval.get
  match s.m_indexed_object with
  | none => pure [octave_value.nan]
  | some indexed_object =>
      if s.m_num_indices < 1 ∨ s.m_index_position < 0 then Eval.panic_impossible
      else
        pure [octave_value.scalar
          (end_value indexed_object.dims s.m_index_position.toNat s.m_num_indices.toNat : Nat)]

/-- Modelled from the spec: the call of a built-in function.  `disp (x)` writes
`x` to `octave_stdout`; `error (msg)` raises an execution exception whose
message is `msg`; during `sigint ()` an interrupt signal arrives and is noticed
at the polling point of the built-in; `end` is the function `Fend`. -/
def builtin_call (f : builtin_function) (args : List octave_value) : Eval (List octave_value) :=
  match f with
  | builtin_function.disp =>
      (match args with
       | [v] => do
           Eval.modify (fun s => { s with octave_stdout := s.octave_stdout ++ [v] })
           pure []
       | _ => error "Invalid call to disp")
  | builtin_function.error =>
      (match args with
       | octave_value.str msg :: _ => error msg
       | _ => error "unspecified error")
  | builtin_function.sigint => do
      Eval.modify (fun s => { s with octave_interrupt_state := 1 })
      octave_quit
      pure []
  | builtin_function.Fend => Fend

/-- The virtual function `octave_function::call (tw, nargout, args)`: a user
function calls `execute_user_function`, a script `execute_user_script`. -/
def octave_function_call (tw : tree_walker) (fcn : octave_function) (nargout : Int)
    (args : List octave_value) : Eval (List octave_value) :=
  match fcn with
  | octave_function.user_function f => execute_user_function tw f nargout args
  | octave_function.user_script f => execute_user_script tw f nargout args
  | octave_function.builtin f => builtin_call f args

/-- The evaluator as a tree walker: `walker repl bp n` follows `accept` and `call`
to depth `n` and lets a `while` or `do`-`until` loop run for fewer than `n`
iterations; beyond that there is no result.  `repl` is the interactive loop of
the debugger and `bp` tells where a breakpoint is active. -/
def walker (repl : Eval Unit) (bp : tree → tree_evaluator → Bool) : Nat → tree_walker
  | 0 =>
    { accept_expression := fun _ _ _ => none
      accept_statement_list := fun _ _ => none
      accept_command := fun _ _ => none
      accept_statement := fun _ _ => none
      call := fun _ _ _ _ => none
      repl := repl
      is_active_breakpoint := bp }
  | n + 1 =>
    { accept_expression := fun expr nargout =>
        tree_expression_accept (walker repl bp n) expr nargout
      accept_statement_list := fun lst => visit_statement_list (walker repl bp n) lst
      accept_command := fun cmd => tree_command_accept n (walker repl bp n) cmd
      accept_statement := fun stmt => visit_statement (walker repl bp n) stmt
      call := fun fcn nargout args => octave_function_call (walker repl bp n) fcn nargout args
      repl := repl
      is_active_breakpoint := bp }

end tree_evaluator

namespace tree_evaluator

/-- The enumerator `ECHO_OFF` of `tree_evaluator::echo_state`. -/
def ECHO_OFF : Int := 0

/-- The enumerator `ECHO_SCRIPTS`. -/
def ECHO_SCRIPTS : Int := 1

/-- The enumerator `ECHO_FUNCTIONS`. -/
def ECHO_FUNCTIONS : Int := 2

/-- The enumerator `ECHO_ALL`. -/
def ECHO_ALL : Int := 4

/-- The function `echo_this_file (file, type)`; `m_echo_files.find (file)` is the
lookup of the file name. -/
def echo_this_file (s : tree_evaluator) (file : String) (type : Int) : Bool :=
  if Int.land type s.m_echo = ECHO_SCRIPTS then true
  else if Int.land type s.m_echo = ECHO_FUNCTIONS then
    let p := s.m_echo_files.lookup file
    if Int.land s.m_echo ECHO_ALL ≠ 0 then
      (match p with
       | none => true
       | some second => second)
    else
      (match p with
       | none => false
       | some second => second)
  else false

/-- The navigation at the start of `evalin` and `assignin`: to the caller frame
for the context `caller`, to the base frame for `base`, else the error of the
function `who`. -/
def goto_context (who context : String) : Eval Unit :=
  if context = "caller" then
    Eval.modify (fun s => { s with m_call_stack := s.m_call_stack.goto_caller_frame })
  else if context = "base" then
    Eval.modify (fun s => { s with m_call_stack := s.m_call_stack.goto_base_frame })
  else error (who ++ ": CONTEXT must be \"caller\" or \"base\"")

/-- The function `evalin (context, try_code, nargout)`.  `eval_string` is the
member function of that name (it parses and evaluates the code; the parser is
outside of the embedding), applied to the code, `silent` and `nargout`. -/
def evalin (eval_string : String → Bool → Int → Eval (List octave_value))
    (context try_code : String) (nargout : Int) : Eval (List octave_value) :=
  Eval.unwind_protect restore_current_frame (do
    goto_context "evalin" context
    eval_string try_code (decide (nargout > 0)) nargout)

/-- The function `assignin (context, name, val)`; `valid_identifier` and
`iskeyword` are the predicates of those names (`utils.cc`, `lex.ll`). -/
def assignin (valid_identifier iskeyword : String → Bool) (context name : String)
    (val : octave_value) : Eval Unit :=
  Eval.unwind_protect restore_current_frame (do
    goto_context "assignin" context
    if valid_identifier name then do
      let _u ← (if iskeyword name
                then error ("assignin: invalid assignment to keyword '" ++ name ++ "'")
                else pure ())
      assign name val
    else error ("assignin: invalid variable name '" ++ name ++ "'"))

/-- The inline query `max_recursion_depth (void)` of `pt-eval.h`. -/
def max_recursion_depth_value (s : tree_evaluator) : Int := s.m_max_recursion_depth

/-- The inline setter `max_recursion_depth (int n)`: it returns the old value. -/
def max_recursion_depth (n : Int) : Eval Int := fun s =>
  let val := s.m_max_recursion_depth
  some (Outcome.value val, { s with m_max_recursion_depth := n })

/-- The inline query `silent_functions (void)`. -/
def silent_functions_value (s : tree_evaluator) : Bool := s.m_silent_functions

/-- The inline setter `silent_functions (bool b)`: the old value goes through
`int val` and back to `bool`. -/
def silent_functions (b : Bool) : Eval Bool := fun s =>
  let val : Int := if s.m_silent_functions then 1 else 0
  some (Outcome.value (decide (val ≠ 0)), { s with m_silent_functions := b })

/-- The conversion of an `int` to `char` (eight bits, signed). -/
def static_cast_char (n : Int) : Int := (n + 128) % (2 ^ 8 : Int) - 128

/-- The inline query `string_fill_char (void)`. -/
def string_fill_char_value (s : tree_evaluator) : Int := s.m_string_fill_char

/-- The inline setter `string_fill_char (char c)`: the old value goes through
`int val` and back to `char`. -/
def string_fill_char (c : Int) : Eval Int := fun s =>
  let val : Int := s.m_string_fill_char
  some (Outcome.value (static_cast_char val), { s with m_string_fill_char := c })

end tree_evaluator

/-- The enumeration `tree_evaluator::result_type`. -/
inductive result_type where
  | RT_UNDEFINED | RT_VALUE | RT_VALUE_LIST
  deriving DecidableEq, Repr

/-- The evaluation register of `tree_evaluator`: the data members
`m_result_type`, `m_expr_result_value` and `m_expr_result_value_list`. -/
structure evaluation_register where
  m_result_type : result_type
  m_expr_result_value : octave_value
  m_expr_result_value_list : List octave_value

namespace evaluation_register

/-- The register as the constructor of `tree_evaluator` and `reset ()` leave it. -/
def reset : evaluation_register :=
  { m_result_type := result_type.RT_UNDEFINED, m_expr_result_value := octave_value.undefined,
    m_expr_result_value_list := [] }

/-- The overload `push_result (const octave_value& val)`. -/
def push_result (val : octave_value) (r : evaluation_register) : evaluation_register :=
  { r with m_result_type := result_type.RT_VALUE, m_expr_result_value := val }

/-- The overload `push_result (const octave_value_list& vals)`. -/
def push_result_list (vals : List octave_value) (r : evaluation_register) : evaluation_register :=
  { r with m_result_type := result_type.RT_VALUE_LIST, m_expr_result_value_list := vals }

/-- The inline function `evaluate (expr, nargout)` on the register: `accept` is
what the visit `expr->accept (*this)` does to the register when it returns. -/
def evaluate (accept : evaluation_register → evaluation_register) (r : evaluation_register) :
    Outcome octave_value × evaluation_register :=
  let r1 := accept r
  match r1.m_result_type with
  | result_type.RT_UNDEFINED => (Outcome.panic, r1)
  | result_type.RT_VALUE =>
      (Outcome.value r1.m_expr_result_value,
        { r1 with m_expr_result_value := octave_value.undefined })
  | result_type.RT_VALUE_LIST =>
      (Outcome.value
          (match r1.m_expr_result_value_list with
           | [] => octave_value.undefined
           | v :: _ => v),
        { r1 with m_expr_result_value_list := [] })

/-- The inline function `evaluate_n (expr, nargout)` on the register. -/
def evaluate_n (accept : evaluation_register → evaluation_register) (r : evaluation_register) :
    Outcome (List octave_value) × evaluation_register :=
  let r1 := accept r
  match r1.m_result_type with
  | result_type.RT_UNDEFINED => (Outcome.panic, r1)
  | result_type.RT_VALUE =>
      (Outcome.value [r1.m_expr_result_value],
        { r1 with m_expr_result_value := octave_value.undefined })
  | result_type.RT_VALUE_LIST =>
      (Outcome.value r1.m_expr_result_value_list, { r1 with m_expr_result_value_list := [] })

end evaluation_register

namespace interpreter

/-- The function `interpreter::add_atexit_function` on the static list
`atexit_functions`: `push_front`. -/
def add_atexit_function (fname : String) (atexit_functions : List String) : List String :=
  fname :: atexit_functions

/-- The function `interpreter::remove_atexit_function` on the static list
`atexit_functions`: the value returned and the list afterwards. -/
def remove_atexit_function (fname : String) : List String → Bool × List String
  | [] => (false, [])
  | it :: rest =>
      if it = fname then (true, rest)
      else ((remove_atexit_function fname rest).1, it :: (remove_atexit_function fname rest).2)

end interpreter

/-- The constant `std::string::npos`, the largest value of `size_t` (64 bits). -/
def npos : Nat := 2 ^ 64 - 1

/-- The character `s[i]` of a `std::string`; `s[s.size ()]` is the null
character. -/
def char_at (s : List Char) (i : Nat) : Char := s.getD i (Char.ofNat 0)

/-- The function `std::string::find (c, pos)`: the first position from `pos` on
at which the character `c` stands, `npos` when there is none. -/
def string_find (s : List Char) (c : Char) (pos : Nat) : Nat :=
  if c ∈ s.drop pos then pos + (s.drop pos).indexOf c else npos

/-- The function `std::string::rfind (c)`: the last position at which the
character `c` stands, `npos` when there is none. -/
def string_rfind (s : List Char) (c : Char) : Nat :=
  if c ∈ s then s.length - 1 - s.reverse.indexOf c else npos

/-- The function `std::string::substr (pos, count)`, for `pos` not beyond the
end: `pos + count` is not computed, a count that reaches beyond the end (as
`npos` does) means the rest of the string. -/
def string_substr (s : List Char) (pos count : Nat) : List Char := (s.drop pos).take count

/-- The predicate `sys::file_ops::is_dir_sep` on a system without
`OCTAVE_HAVE_WINDOWS_FILESYSTEM`: the only directory separator is `/`. -/
def is_dir_sep (c : Char) : Bool := c == '/'

/-- The function `tree_evaluator::mfilename (opt)` from the point where `fname`
holds the file name (or, without file name, the name) of the current user code,
the empty string when there is none.  The positions are values of `size_t`:
`dpos+1` is computed modulo 2^64. -/
def mfilename_of (fname : String) (opt : String) : String :=
  if opt = "fullpathext" then fname
  else
    let dpos := string_rfind fname.data '/'
    let epos := string_rfind fname.data '.'
    let epos1 := if epos ≤ (dpos + 1) % 2 ^ 64 then npos else epos
    let fname1 := if epos1 ≠ npos then string_substr fname.data 0 epos1 else fname.data
    if opt = "fullpath" then String.mk fname1
    else if dpos ≠ npos then String.mk (string_substr fname1 (dpos + 1) npos)
    else String.mk fname1

/-- The function `tree_evaluator::mfilename (opt)`; `fcn` is the current user
code (`m_call_stack.current_user_code ()`, `none` for the null pointer) as the
pair of its `fcn_file_name ()` and its `name ()`. -/
def mfilename (fcn : Option (String × String)) (opt : String) : String :=
  mfilename_of
    (match fcn with
     | some (fcn_file_name, name) => if fcn_file_name.data.isEmpty then name else fcn_file_name
     | none => "")
    opt

namespace env

/-- The function `env::do_absolute_pathname` (no Windows file system). -/
def do_absolute_pathname (s : String) : Bool :=
  match s.data with
  | [] => false
  | c :: _ => is_dir_sep c

/-- The loop `while (is_dir_sep (path[i]) && i > 0) i--;` of `pathname_backup`. -/
def skip_dir_seps (path : List Char) : Nat → Nat
  | 0 => 0
  | i + 1 => if is_dir_sep (char_at path (i + 1)) then skip_dir_seps path i else i + 1

/-- The loop `while (! is_dir_sep (path[i]) && i > 0) i--;` of
`pathname_backup`. -/
def skip_non_dir_seps (path : List Char) : Nat → Nat
  | 0 => 0
  | i + 1 => if !is_dir_sep (char_at path (i + 1)) then skip_non_dir_seps path i else i + 1

/-- The loop `while (n--)` of `pathname_backup`, from the index `i`: the index
after `n` rounds. -/
def pathname_backup_loop (path : List Char) : Nat → Nat → Nat
  | 0, i => i
  | n + 1, i => pathname_backup_loop path n (skip_non_dir_seps path (skip_dir_seps path i) + 1)

/-- The function `env::pathname_backup (path, n)`, for `n` not negative: the
value of `path` afterwards (no Windows file system). -/
def pathname_backup (path : String) (n : Nat) : String :=
  if path.data.isEmpty then path
  else String.mk (path.data.take (pathname_backup_loop path.data n (path.data.length - 1)))

/-- One round of the loop `while (i < slen)` of `do_make_absolute`, at the
character `c = s[i]` with `rest` the characters after it: the part of `s` from
the new index `i` on (`none`: the round leaves the loop with `break`) and the
value of `current_dir` afterwards.  `component` is the part of the round from
`s.find_first_of` on; `name` holds the characters before the next separator. -/
def do_make_absolute_round (c : Char) (rest : List Char) (current_dir : String) :
    Option (List Char) × String :=
  let component : Option (List Char) × String :=
    let name := (c :: rest).takeWhile (fun x => !is_dir_sep x)
    match (c :: rest).dropWhile (fun x => !is_dir_sep x) with
    | [] => (none, String.mk (current_dir.data ++ (c :: rest)))
    | sep :: after =>
        if name.isEmpty then (some after, current_dir)
        else (some after, String.mk (current_dir.data ++ name ++ [sep]))
  if c = '.' then
    match rest with
    | [] => (none, current_dir)
    | c1 :: rest1 =>
        if is_dir_sep c1 then (some rest1, current_dir)
        else if c1 = '.' then
          match rest1 with
          | [] => (some [], pathname_backup current_dir 1)
          | c2 :: rest2 =>
              if is_dir_sep c2 then (some rest2, pathname_backup current_dir 1)
              else component
        else component
  else component

/-- The loop `while (i < slen)` of `do_make_absolute`.  `rest` is the part of `s`
from the index `i` on; every round that does not leave the loop moves `i`
forward, and `fuel` bounds the number of rounds (`none`: the bound was too
small). -/
def do_make_absolute_loop : Nat → List Char → String → Option String
  | _, [], current_dir => some current_dir
  | 0, _ :: _, _ => none
  | fuel + 1, c :: rest, current_dir =>
      match do_make_absolute_round c rest current_dir with
      | (none, current_dir1) => some current_dir1
      | (some rest1, current_dir1) => do_make_absolute_loop fuel rest1 current_dir1

/-- The function `env::do_make_absolute (s, dot_path)` (no Windows file system);
the loop gets as many rounds as `s` has characters. -/
def do_make_absolute (s dot_path : String) : Option String :=
  if dot_path.data.isEmpty || s.data.isEmpty || do_absolute_pathname s then some s
  else if s = "." then some dot_path
  else
    let current_dir :=
      if !is_dir_sep (char_at dot_path.data (dot_path.data.length - 1))
      then String.mk (dot_path.data ++ ['/'])
      else dot_path
    match do_make_absolute_loop s.data.length s.data current_dir with
    | none => none
    | some current_dir1 =>
        if is_dir_sep (char_at current_dir1.data (current_dir1.data.length - 1))
        then some (String.mk current_dir1.data.dropLast)
        else some current_dir1

end env

/-- The assignment `m[key] = val` of a `std::map` held as a list with one entry
for a key: the entry of the key is replaced, a new key gets a new entry. -/
def map_assign {β : Type} (key : String) (val : β) : List (String × β) → List (String × β)
  | [] => [(key, val)]
  | p :: rest => if p.1 = key then (key, val) :: rest else p :: map_assign key val rest

/-- The call `m.erase (key)` of a `std::map`. -/
def map_erase {β : Type} (key : String) (m : List (String × β)) : List (String × β) :=
  m.filter (fun p => !(p.1 == key))

/-- The function `std::string::find_last_of (chars)` for the directory
separators: the last position at which a separator stands, `npos` when there
is none. -/
def find_last_dir_sep (s : List Char) : Nat :=
  if s.any is_dir_sep then s.length - 1 - (s.reverse.takeWhile (fun c => !is_dir_sep c)).length
  else npos

namespace tree_evaluator

/-- The function `check_autoload_file (nm)`.  `fcn` is the file name of the
current user code (`m_call_stack.current_user_code ()`, `none` for the null
pointer), `dot_path` the current directory that `sys::env::make_absolute`
works with, and `file_exists` tells which files exist (`sys::file_stat`). -/
def check_autoload_file (file_exists : String → Bool) (dot_path : String)
    (fcn : Option String) (nm : String) : Eval String :=
  if env.do_absolute_pathname nm then pure nm
  else
    let warn : Eval String := do
      warning_with_id "Octave:autoload-relative-file-name"
        ("autoload: '" ++ nm ++ "' is not an absolute filename")
      pure nm
    match fcn with
    | none => warn
    | some fcn_file_name =>
        if fcn_file_name.data.isEmpty then warn
        else fun s =>
          match env.do_make_absolute fcn_file_name dot_path with
          | none => none
          | some fname_abs =>
              let fname := String.mk
                (string_substr fname_abs.data 0 ((find_last_dir_sep fname_abs.data + 1) % 2 ^ 64))
              if file_exists (fname ++ nm) then some (Outcome.value (fname ++ nm), s)
              else warn s

/-- The function `add_autoload (fcn, nm)`. -/
def add_autoload (file_exists : String → Bool) (dot_path : String)
    (current_user_code : Option String) (fcn nm : String) : Eval Unit := do
  let file_name ← check_autoload_file file_exists dot_path current_user_code nm
  Eval.modify (fun s => { s with m_autoload_map := map_assign fcn file_name s.m_autoload_map })

/-- The function `remove_autoload (fcn, nm)`; the symbol table, from which the
function is cleared, keeps no dynamically loaded function in the embedding. -/
def remove_autoload (file_exists : String → Bool) (dot_path : String)
    (current_user_code : Option String) (fcn nm : String) : Eval Unit := do
  let _file_name ← check_autoload_file file_exists dot_path current_user_code nm
  Eval.modify (fun s => { s with m_autoload_map := map_erase fcn s.m_autoload_map })

/-- The conversion of a 64-bit integer to `int`: the value modulo 2^32 in the
range of `int`. -/
def static_cast_int (x : Int) : Int := (x + 2 ^ 31) % 2 ^ 32 - 2 ^ 31

/-- The loop of `ignored_fcn_outputs` that fills `retval`: the 1-based positions
`k+1` of the black holes, `k` being the sum of the `numel ()` of the lvalues
before (an `octave_idx_type`, whose overflow is undefined and not modelled). -/
def ignored_fcn_outputs_loop : List octave_lvalue → Nat → Eval (List Nat)
  | [], _ => pure []
  | lval :: rest, k => do
      let nel ← lval.numel
      let retval ← ignored_fcn_outputs_loop rest (k + nel)
      pure (if lval.is_black_hole then (k + 1) :: retval else retval)

/-- The function `ignored_fcn_outputs`; `lvalues` is `lvalue_list ()`, the top of
`m_lvalue_list_stack` (`none` for the null pointer), and the value is the row
vector of positions. -/
def ignored_fcn_outputs (lvalues : Option (List octave_lvalue)) : Eval (List Nat) :=
  match lvalues with
  | none => pure []
  | some lvalues =>
      let nbh := (lvalues.filter octave_lvalue.is_black_hole).length
      if nbh > 0 then ignored_fcn_outputs_loop lvalues 0 else pure []

/-- The loop of `isargout (nargout, iout)` over the lvalues; `k` is an `int`, to
which the sum with the number of elements is converted. -/
def isargout_loop (iout : Int) : List octave_lvalue → Int → Eval Bool
  | [], _ => pure true
  | lval :: rest, k =>
      if k = iout then pure (!lval.is_black_hole)
      else do
        let nel ← lval.numel
        let k1 := static_cast_int (k + (nel : Int))
        if k1 > iout then pure true
        else isargout_loop iout rest k1

/-- The function `isargout (nargout, iout)`; `lvalues` is `lvalue_list ()`. -/
def isargout (lvalues : Option (List octave_lvalue)) (nargout iout : Int) : Eval Bool :=
  if iout ≥ max nargout 1 then pure false
  else
    match lvalues with
    | some lvalues => isargout_loop iout lvalues 0
    | none => pure true

end tree_evaluator

/-- Modelled from the spec: what `get_user_code` asks of the symbol table, the
class manager, the call stack and a user code.  A value of type
`Option octave_function` is an `octave_value` that is undefined (`none`) or
holds a function. -/
structure user_code_lookup where
  debug_user_code : Option octave_function
  find_method : String → String → Option octave_function
  cdm_find_method : String → String → Option octave_function
  find_function : String → Option octave_function
  find_subfunction : octave_function → String → Option octave_function

/-- How `get_user_code` ends: with a pointer to a user code, with `nullptr`, or
with the error of `octave_value::user_code_value ()` on a value that holds no
user code. -/
inductive user_code_result where
  | user_code (f : octave_function)
  | nullptr
  | err_wrong_type_arg

/-- Modelled from the spec: the user code that an `octave_value` holds (a user
function or a script), for which `is_user_code ()` is true and which
`user_code_value ()` returns. -/
def user_code_of : Option octave_function → Option octave_function
  | some (octave_function.user_function f) => some (octave_function.user_function f)
  | some (octave_function.user_script f) => some (octave_function.user_script f)
  | _ => none

namespace tree_evaluator

/-- The end of `get_user_code`, from `if (fcn.is_defined () && fcn.is_user_code ())`
on: the user code that `fcn` holds or, if `subfuns` is not empty, its
subfunction of that name. -/
def get_user_code_subfunction (lk : user_code_lookup) (fcn : Option octave_function)
    (subfuns : List Char) : user_code_result :=
  match user_code_of fcn with
  | none => user_code_result.nullptr
  | some user_code =>
      if subfuns.isEmpty then user_code_result.user_code user_code
      else
        match user_code_of (lk.find_subfunction user_code (String.mk subfuns)) with
        | some f => user_code_result.user_code f
        | none => user_code_result.err_wrong_type_arg

/-- The function `get_user_code (fname, class_name)` from the point where `name`
is `fname` without the extension `.m` (the directory separator is `/`, so that no
character is replaced). -/
def get_user_code_of_name (lk : user_code_lookup) (name : List Char) (class_name : String) :
    user_code_result :=
  if name.isEmpty then user_code_result.nullptr
  else if char_at name 0 = '@' then
    let p1 := string_find name '/' 1
    if p1 = npos then user_code_result.nullptr
    else
      let dispatch_type := string_substr name 1 (p1 - 1)
      let p2 := string_find name '>' p1
      let method := string_substr name (p1 + 1) (p2 - 1)
      let subfuns := if p2 ≠ npos then string_substr name (p2 + 1) npos else []
      get_user_code_subfunction lk (lk.find_method (String.mk method) (String.mk dispatch_type))
        subfuns
  else if !class_name.data.isEmpty then
    let fcn := lk.cdm_find_method class_name (String.mk name)
    let fcn1 := if fcn.isNone then lk.find_method (String.mk name) class_name else fcn
    get_user_code_subfunction lk fcn1 []
  else
    let p2 := string_find name '>' 0
    let main_fcn := string_substr name 0 p2
    let subfuns := if p2 ≠ npos then string_substr name (p2 + 1) npos else []
    get_user_code_subfunction lk (lk.find_function (String.mk main_fcn)) subfuns

/-- The function `get_user_code (fname, class_name)`. -/
def get_user_code (lk : user_code_lookup) (fname class_name : String) : user_code_result :=
  if fname.data.isEmpty then
    match lk.debug_user_code with
    | some f => user_code_result.user_code f
    | none => user_code_result.nullptr
  else
    let name_len := fname.data.length
    let name :=
      if name_len > 2 ∧ string_substr fname.data (name_len - 2) npos = ['.', 'm']
      then string_substr fname.data 0 (name_len - 2)
      else fname.data
    get_user_code_of_name lk name class_name

end tree_evaluator

open tree_evaluator

/-! ## Notions used in the statements -/

/-- Every entry-state/exit-state pair of `m`, unless `m` aborts, is in `Q`. -/
def Eval.Rel {α : Type} (Q : tree_evaluator → tree_evaluator → Prop) (m : Eval α) : Prop :=
  ∀ s o s1, m s = some (o, s1) → o ≠ Outcome.panic → Q s s1

/-- The counters `m_breaking` and `m_continuing` are 0 or 1. -/
def flags_ok (s : tree_evaluator) : Prop :=
  0 ≤ s.m_breaking ∧ s.m_breaking ≤ 1 ∧ 0 ≤ s.m_continuing ∧ s.m_continuing ≤ 1

/-- The parts of the state that every member function leaves as it found them:
the frames below and above the current one, and the indexed object, index
position and number of indices that the function `end` reads. -/
def frame_view (s : tree_evaluator) :
    List stack_frame × List stack_frame × Option octave_value × Int × Int :=
  (s.m_call_stack.callers, s.m_call_stack.callees, s.m_indexed_object, s.m_index_position,
    s.m_num_indices)

/-- What every member function guarantees from entry to exit: the frames around
the current one and the data of the indexed object are the same, and counters
that were 0 or 1 still are. -/
def Step (s s1 : tree_evaluator) : Prop :=
  frame_view s1 = frame_view s ∧ (flags_ok s → flags_ok s1)

/-- The member function `m` keeps `Step`. -/
def Eval.Keeps {α : Type} (m : Eval α) : Prop := Eval.Rel Step m

/-- What the loop of `convert_to_const_vector` guarantees while the object is
stashed: as `Step`, but `m_index_position` and `m_num_indices` may change. -/
def StepArgs (s s1 : tree_evaluator) : Prop :=
  s1.m_call_stack.callers = s.m_call_stack.callers
  ∧ s1.m_call_stack.callees = s.m_call_stack.callees
  ∧ s1.m_indexed_object = s.m_indexed_object
  ∧ (flags_ok s → flags_ok s1)

/-- An evaluator at top level, as the constructor of `tree_evaluator` leaves it:
one empty frame, the built-in functions, all counters zero,
`max_recursion_depth` at its default 256, no debugger, echo off, no indexed
object. -/
def top_level : tree_evaluator :=
  { m_call_stack := { current := { vars := [] }, callers := [], callees := [] }
    fcn_table := [("disp", octave_function.builtin builtin_function.disp),
                  ("error", octave_function.builtin builtin_function.error),
                  ("sigint", octave_function.builtin builtin_function.sigint),
                  ("end", octave_function.builtin builtin_function.Fend)]
    m_statement_context := stmt_list_type.SC_OTHER
    m_autoload_map := []
    m_debug_frame := 0
    m_debug_mode := false
    have_breakpoints := false
    m_debugger_stack := []
    m_max_recursion_depth := 256
    m_silent_functions := false
    m_string_fill_char := 32
    m_dbstep_flag := 0
    m_echo := 0
    m_echo_files := []
    m_in_loop_command := false
    m_indexed_object := none
    m_index_position := 0
    m_num_indices := 0
    m_breaking := 0
    m_continuing := 0
    m_returning := 0
    octave_interrupt_state := 0
    es := { last_error_message := "", last_error_id := "",
            last_error_stack := octave_value.undefined, in_try_catch := 0 }
    octave_stdout := []
    warnings := [] }

/-- The expression `NAME = N`. -/
def assign_const (name : String) (n : Int) : tree_expression :=
  tree_expression.simple_assignment name (some (tree_expression.constant (octave_value.scalar n)))

/-- The state in which `do_unwind_protect_cleanup_code` enters the cleanup list:
the interrupt state and the counters `m_returning`, `m_breaking` are cleared. -/
def cleanup_entry_state (s : tree_evaluator) : tree_evaluator :=
  { s with octave_interrupt_state := 0, m_returning := 0, m_breaking := 0 }

/-- The state in which the cleanup code is started after the protected body
ended with outcome `o` in state `s`: after an exception the interpreter has
recovered from it. -/
def after_body_state (o : Outcome Unit) (s : tree_evaluator) : tree_evaluator :=
  match o with
  | Outcome.thrown _ => recover_from_exception_state s
  | _ => s

/-- How an unwind_protect command ends when its body ended with outcome `o_b`,
the cleanup code was started in state `s0` and the single run of the cleanup
list gave `r`: the command ends the way the body did (it returns, or the
exception of the body propagates) unless the cleanup list itself throws; the
counters are those the cleanup list left if it set one, else those of `s0`. -/
def unwind_protect_exit (o_b : Outcome Unit) (s0 : tree_evaluator) :
    Option (Outcome Unit × tree_evaluator) → Option (Outcome Unit × tree_evaluator)
  | none => none
  | some (Outcome.value (), s2) =>
      some (o_b, restore_interrupt_state s0 (discard_or_run s0 s2))
  | some (Outcome.thrown (exception.execution_exception msg id), s2) =>
      some (Outcome.thrown (exception.execution_exception msg id),
        restore_interrupt_state s0 (discard_or_run s0 (recover_from_exception_state s2)))
  | some (Outcome.thrown exception.interrupt_exception, s2) =>
      some (Outcome.thrown exception.interrupt_exception,
        restore_interrupt_state s0 (restore_breaking_returning s0 s2))
  | some (Outcome.panic, s2) => some (Outcome.panic, s2)

/-- A statement made of a command. -/
def command_statement (cmd : tree_command) : Option tree_statement :=
  some (tree_statement.mk (some cmd) none)

/-- A statement made of an expression. -/
def expression_statement (expr : tree_expression) : Option tree_statement :=
  some (tree_statement.mk none (some expr))

/-- The expression `disp (N)`. -/
def disp_const (n : Int) : tree_expression :=
  tree_expression.index_expression (tree_expression.identifier "disp")
    [tree_expression.constant (octave_value.scalar n)]

/-- The expression `error (MSG)`. -/
def error_call (msg : String) : tree_expression :=
  tree_expression.index_expression (tree_expression.identifier "error")
    [tree_expression.constant (octave_value.str msg)]

/-- The evaluator at top level inside a loop command. -/
def in_loop : tree_evaluator := { top_level with m_in_loop_command := true }

/-- The protected body `break; disp (1);`. -/
def break_then_disp : tree_statement_list :=
  tree_statement_list.mk
    [command_statement tree_command.break_command, expression_statement (disp_const 1)]

/-- The cleanup list `disp (2);`. -/
def disp_two : tree_statement_list :=
  tree_statement_list.mk [expression_statement (disp_const 2)]

/-- The state in which the body of a try block is entered: the depth
`in_try_catch` of the error system is one more. -/
def try_entry_state (s : tree_evaluator) : tree_evaluator :=
  { s with es := { s.es with in_try_catch := s.es.in_try_catch + 1 } }

/-- The state in which the catch body is entered from state `s`: the identifier
of the catch clause, if there is one, is bound to the last error. -/
def catch_entry_state (expr_id : Option String) (s : tree_evaluator) : tree_evaluator :=
  match expr_id with
  | some id => assign_state id (last_error_map s) s
  | none => s

/-- The try body `error ("boom");`. -/
def error_boom : tree_statement_list :=
  tree_statement_list.mk [expression_statement (error_call "boom")]

/-- The outcome is a normal return. -/
def Outcome.returns {α : Type} : Outcome α → Bool
  | Outcome.value _ => true
  | _ => false

/-- The string in field `field` of a structure value. -/
def field_string (v : octave_value) (field : String) : Option String :=
  match v with
  | octave_value.map fields =>
      (match fields.lookup field with
       | some (octave_value.str str) => some str
       | _ => none)
  | _ => none

/-- The scalars written to `octave_stdout`, in order. -/
def printed (s : tree_evaluator) : List Int :=
  s.octave_stdout.filterMap octave_value.scalar_value

/-- The identifier of a declaration element. -/
def tree_decl_elt.ident : tree_decl_elt → Option String
  | tree_decl_elt.mk ident _ => ident

/-- The value that the variable of a declaration element has in the current
frame (an undefined value when it is not defined). -/
def declared_value (s : tree_evaluator) (elt : tree_decl_elt) : octave_value :=
  match elt.ident with
  | some id => varval s id
  | none => octave_value.undefined

/-- The values of the variables of a return list, by position. -/
def declared_values (s : tree_evaluator) (elts : List tree_decl_elt) : List octave_value :=
  elts.map (declared_value s)

/-- The position (counted from 1) of the last defined value of a list, 0 when
no value is defined. -/
def last_defined_position : List octave_value → Nat
  | [] => 0
  | v :: rest =>
      if last_defined_position rest > 0 then last_defined_position rest + 1
      else if v.is_defined then 1 else 0

/-- Store the defined values of `vals` at the positions `i`, `i + 1`, ... of
`retval`. -/
def store_defined : List octave_value → Nat → List octave_value → List octave_value
  | [], _, retval => retval
  | v :: rest, i, retval =>
      store_defined rest (i + 1)
        (if v.is_defined then octave_value_list_assign retval i v else retval)

/-- A declaration element for the identifier `name`, without default value. -/
def decl (name : String) : tree_decl_elt := tree_decl_elt.mk (some name) none

/-- The return list `[a, b]`. -/
def ret_list_a_b : tree_parameter_list := tree_parameter_list.mk [decl "a", decl "b"] 0

/-- A top-level evaluator in which `a` is 1 and `b` is 2. -/
def a_b_defined : tree_evaluator :=
  assign_state "b" (octave_value.scalar 2) (assign_state "a" (octave_value.scalar 1) top_level)

/-- The state right after the error `max_recursion_depth exceeded` has been
raised in state `s`: only the last error of the error system differs, the call
stack is the one of `s`. -/
def recursion_error_state (s : tree_evaluator) : tree_evaluator :=
  { s with es := { s.es with last_error_message := "max_recursion_depth exceeded",
                             last_error_id := "" } }

/-- The outcome "the error `max_recursion_depth exceeded` is raised in state `s`
and nothing else has happened". -/
def recursion_error (s : tree_evaluator) : Option (Outcome (List octave_value) × tree_evaluator) :=
  some (Outcome.thrown (exception.execution_exception "max_recursion_depth exceeded" ""),
    recursion_error_state s)

/-- The body of a user function. -/
def octave_user_function.body : octave_user_function → Option tree_statement_list
  | octave_user_function.mk _ _ body _ _ _ => body

/-- The predicate `octave_user_function::is_classdef_constructor`. -/
def octave_user_function.is_classdef_constructor : octave_user_function → Bool
  | octave_user_function.mk _ _ _ _ _ c => c

/-- The outcome is an exception. -/
def Outcome.throws {α : Type} : Outcome α → Bool
  | Outcome.thrown _ => true
  | _ => false

/-- The member function `m` never ends with an exception. -/
def Eval.NoThrow {α : Type} (m : Eval α) : Prop :=
  ∀ s o s1, m s = some (o, s1) → o.throws = false

/-- A user function without parameters and return values whose body is
`disp (1);`. -/
def disp_one_function : octave_user_function :=
  octave_user_function.mk none none
    (some (tree_statement_list.mk [expression_statement (disp_const 1)])) [] false false

/-- A top-level evaluator whose `max_recursion_depth` is 1: the call stack,
which holds the top-level frame, has reached it. -/
def at_recursion_limit : tree_evaluator := { top_level with m_max_recursion_depth := 1 }

/-- The state after `init_local_fcn_vars`: the recorded values are assigned, in
order, in the current frame. -/
def init_local_fcn_vars_state : List (String × octave_value) → tree_evaluator → tree_evaluator
  | [], s => s
  | (nm, ov) :: rest, s => init_local_fcn_vars_state rest (assign_state nm ov s)

/-- The body `EXPR` of an anonymous function as the statement list that
`visit_anon_fcn_handle` builds. -/
def anon_body (expr : tree_expression) : tree_statement_list :=
  tree_statement_list.mk [some (tree_statement.mk none (some expr))]

/-- The anonymous function that `visit_anon_fcn_handle` creates in state `s` for
the parameter list `pl` and the expression `expr`. -/
def anon_function (pl : Option tree_parameter_list) (expr : tree_expression)
    (s : tree_evaluator) : octave_user_function :=
  octave_user_function.mk pl none (some (anon_body expr))
    (capture_free_vars s.m_call_stack.current (free_variables pl (some expr))) true false

/-- The statement `NAME = EXPR;`. -/
def assign_statement (name : String) (expr : tree_expression) : Option tree_statement :=
  expression_statement (tree_expression.simple_assignment name (some expr))

/-- The program `x = 1; f = @() x; x = 2; r = f ();`. -/
def closure_program : tree_statement_list :=
  tree_statement_list.mk
    [assign_statement "x" (tree_expression.constant (octave_value.scalar 1)),
     assign_statement "f"
       (tree_expression.anon_fcn_handle none (some (tree_expression.identifier "x"))),
     assign_statement "x" (tree_expression.constant (octave_value.scalar 2)),
     assign_statement "r"
       (tree_expression.index_expression (tree_expression.identifier "f") [])]

/-- The top-level evaluator after `x = 1;`. -/
def x_is_one : tree_evaluator := assign_state "x" (octave_value.scalar 1) top_level

/-- The top-level evaluator after `x = 1; f = @() x; x = 2;`. -/
def x_is_two : tree_evaluator :=
  assign_state "x" (octave_value.scalar 2)
    (assign_state "f"
      (octave_value.fcn_handle (anon_function none (tree_expression.identifier "x") x_is_one))
      x_is_one)

/-- The loop body `if i == 2; continue; end; disp (i);`. -/
def continue_body : tree_statement_list :=
  tree_statement_list.mk
    [command_statement (tree_command.if_command (some
        [tree_if_clause.mk
          (some (tree_expression.binary_expression binary_op.op_eq
            (some (tree_expression.identifier "i"))
            (some (tree_expression.constant (octave_value.scalar 2))) false))
          (some (tree_statement_list.mk
            [command_statement tree_command.continue_command]))])),
     expression_statement
       (tree_expression.index_expression (tree_expression.identifier "disp")
         [tree_expression.identifier "i"])]

/-- The statement `for i = 1:3; if i == 2; continue; end; disp (i); end`. -/
def continue_program : tree_command :=
  tree_command.simple_for_command "i"
    (tree_expression.colon_expression
      (some (tree_expression.constant (octave_value.scalar 1)))
      (some (tree_expression.constant (octave_value.scalar 3))) none)
    (some continue_body)

/-- What is observed at the end of a run: whether it returned, what was
printed, and the counters `m_breaking`, `m_continuing`, `m_returning`. -/
def observe {α : Type} (r : Option (Outcome α × tree_evaluator)) :
    Option (Bool × List Int × Int × Int × Int) :=
  r.map (fun r => (r.1.returns, printed r.2, r.2.m_breaking, r.2.m_continuing, r.2.m_returning))

/-- Every dispatch of the tree walker keeps `Step`. -/
def WalkerKeeps (tw : tree_walker) : Prop :=
  (∀ e k, Eval.Keeps (tw.accept_expression e k)) ∧
  (∀ l, Eval.Keeps (tw.accept_statement_list l)) ∧
  (∀ c, Eval.Keeps (tw.accept_command c)) ∧
  (∀ st, Eval.Keeps (tw.accept_statement st)) ∧
  (∀ f k a, Eval.Keeps (tw.call f k a))

/-- The state after the statement `if (m_continuing) m_continuing--;` of
`quit_loop_now`. -/
def consume_continue (s : tree_evaluator) : tree_evaluator :=
  if s.m_continuing ≠ 0 then { s with m_continuing := s.m_continuing - 1 } else s

/-- The state in which `quit_loop_now` returns: a pending continue, then a
pending break, have been decremented. -/
def quit_loop_now_state (s : tree_evaluator) : tree_evaluator :=
  if (consume_continue s).m_breaking ≠ 0
  then { consume_continue s with m_breaking := (consume_continue s).m_breaking - 1 }
  else consume_continue s

/-- The value `quit` that `quit_loop_now` returns. -/
def quit_loop_now_result (s : tree_evaluator) : Bool :=
  decide ((consume_continue s).m_returning ≠ 0 ∨ (consume_continue s).m_breaking ≠ 0
    ∨ (consume_continue s).m_continuing ≠ 0)

/-- The function `function f (); f; end`, which calls itself unconditionally. -/
def self_calling_function : octave_user_function :=
  octave_user_function.mk none none
    (some (tree_statement_list.mk
      [expression_statement (tree_expression.identifier "f")])) [] false false

/-- The top-level evaluator in which `f` is `self_calling_function` and
`max_recursion_depth` has been set to 4. -/
def with_self_calling_function : tree_evaluator :=
  { top_level with
    fcn_table := ("f", octave_function.user_function self_calling_function)
      :: top_level.fcn_table
    m_max_recursion_depth := 4 }

/-- The range expression `1:2`. -/
def one_to_two : tree_expression :=
  tree_expression.colon_expression
    (some (tree_expression.constant (octave_value.scalar 1)))
    (some (tree_expression.constant (octave_value.scalar 2))) none

/-- The cleanup list `return;`. -/
def return_list : tree_statement_list :=
  tree_statement_list.mk [command_statement tree_command.return_command]

/-- The evaluator inside a loop at top level after a `break`: `m_breaking` is 1. -/
def in_loop_breaking : tree_evaluator := { in_loop with m_breaking := 1 }

/-- The statements of a list are executed by `tw` one after the other, from
state `s` to state `s1`: each starts with no interrupt pending, returns
normally and leaves `m_breaking`, `m_continuing` and `m_returning` zero. -/
inductive executes_in_order (tw : tree_walker) :
    List tree_statement → tree_evaluator → tree_evaluator → Prop where
  | nil (s : tree_evaluator) : executes_in_order tw [] s s
  | cons (stmt : tree_statement) (rest : List tree_statement) (s s1 s2 : tree_evaluator) :
      s.octave_interrupt_state ≤ 0 →
      tw.accept_statement stmt s = some (Outcome.value (), s1) →
      s1.m_breaking = 0 → s1.m_continuing = 0 → s1.m_returning = 0 →
      executes_in_order tw rest s1 s2 →
      executes_in_order tw (stmt :: rest) s s2

/-- The statement `NAME = N;`. -/
def assign_const_statement (name : String) (n : Int) : tree_statement :=
  tree_statement.mk none (some (assign_const name n))

/-- The statement `break;`. -/
def break_statement : tree_statement := tree_statement.mk (some tree_command.break_command) none

/-- The statement `disp (N);`. -/
def disp_statement (n : Int) : tree_statement := tree_statement.mk none (some (disp_const n))

/-- The cleanup list `disp (1); disp (2);`. -/
def disp_one_two : tree_statement_list :=
  tree_statement_list.mk [some (disp_statement 1), some (disp_statement 2)]

/-- The loop `for i = 1:2; unwind_protect; continue; unwind_protect_cleanup;
disp (1); disp (2); end_unwind_protect; end`. -/
def continue_in_unwind_protect : tree_command :=
  tree_command.simple_for_command "i" one_to_two
    (some (tree_statement_list.mk
      [command_statement (tree_command.unwind_protect_command
        (some (tree_statement_list.mk [command_statement tree_command.continue_command]))
        (some disp_one_two))]))

/-- The state right after `error (msg)` has been raised in state `s`: only the
last error of the error system differs. -/
def error_state (msg : String) (s : tree_evaluator) : tree_evaluator :=
  { s with es := { s.es with last_error_message := msg, last_error_id := "" } }

/-- The state after the Matlab-style short-circuit warning for the operator `op`
has been issued once in state `s`. -/
def short_circuit_warned (op : String) (s : tree_evaluator) : tree_evaluator :=
  { s with warnings := s.warnings ++
      ["Octave:possible-matlab-short-circuit: "
        ++ "Matlab-style short-circuit operation performed for operator " ++ op] }

/-- The parameter list `(a, b = 5)`. -/
def params_a_b_default : tree_parameter_list :=
  tree_parameter_list.mk
    [decl "a", tree_decl_elt.mk (some "b") (some (tree_expression.constant (octave_value.scalar 5)))]
    0

/-- The state in which `execute_user_script` enters the body of the script: a
new frame has been pushed and the statement context is `SC_SCRIPT`. -/
def script_entry_state (s : tree_evaluator) : tree_evaluator :=
  { s with m_call_stack := s.m_call_stack.push, m_statement_context := stmt_list_type.SC_SCRIPT }

/-- A script whose body is `return; disp (1);`. -/
def returning_script : octave_user_script :=
  { fcn_file_name := "s.m"
    body := some (tree_statement_list.mk
      [command_statement tree_command.return_command, expression_statement (disp_const 1)]) }

/-- The function `function varargout = g (); varargout = {1, 2, 3, 4}; end`. -/
def four_values_function : octave_user_function :=
  octave_user_function.mk none (some (tree_parameter_list.mk [] (-1)))
    (some (tree_statement_list.mk
      [assign_statement "varargout"
        (tree_expression.constant (octave_value.cell
          [octave_value.scalar 1, octave_value.scalar 2, octave_value.scalar 3,
           octave_value.scalar 4]))])) [] false false

/-- The top-level evaluator in which `g` is `four_values_function`. -/
def with_four_values_function : tree_evaluator :=
  { top_level with
    fcn_table := ("g", octave_function.user_function four_values_function)
      :: top_level.fcn_table }

/-- The call `g ()`. -/
def call_g : tree_expression :=
  tree_expression.index_expression (tree_expression.identifier "g") []

/-- The left hand side `[x, ~, c{1:2}]`. -/
def lhs_x_hole_c : List tree_expression :=
  [tree_expression.identifier "x", tree_expression.black_hole,
   tree_expression.brace_index_expression (tree_expression.identifier "c") [one_to_two]]

/-- The lvalues of `[x, ~, c{1:2}]`. -/
def lvalues_x_hole_c : List octave_lvalue :=
  [{ sym := "x", black_hole := false, index := none },
   { sym := "~", black_hole := true, index := none },
   { sym := "c", black_hole := false, index := some ("\x7b", [octave_value.range 1 1 2]) }]

/-- What is observed of the run of a multi-assignment: whether it returned, the
scalars of its result, and the values of `x` and of the elements of the cell
array `c`. -/
def observe_x_c (r : Option (Outcome expr_result × tree_evaluator)) :
    Option (Bool × List (Option Int) × Option Int × List (Option Int)) :=
  r.map (fun r =>
    (r.1.returns,
     (match r.1 with
      | Outcome.value (expr_result.RT_VALUE_LIST l) => l.map octave_value.scalar_value
      | _ => []),
     (varval r.2 "x").scalar_value,
     (match varval r.2 "c" with
      | octave_value.cell l => l.map octave_value.scalar_value
      | _ => [])))

/-- The rule for targets that take one value each, position by position from
`k` on: a black hole consumes its position without assignment; another target
receives the value at its position when there is one and it is defined, and
otherwise the error "element number k+1 undefined in return list" is raised;
the result is the list of the values assigned. -/
def assign_by_position : List octave_lvalue → List octave_value → Nat → List octave_value →
    Eval (List octave_value)
  | [], _, _, assigned => pure assigned
  | ult :: rest, vals, k, assigned =>
      if ult.is_black_hole then assign_by_position rest vals (k + 1) assigned
      else if k < vals.length ∧ (vals.getD k octave_value.undefined).is_defined then do
        ult.assign (vals.getD k octave_value.undefined)
        assign_by_position rest vals (k + 1) (assigned ++ [vals.getD k octave_value.undefined])
      else error ("element number " ++ format_d (k + 1) ++ " undefined in return list")

/-- The first position, counted from `k` for the first target of the list, of a
target that is not a black hole and has no defined value at its position. -/
def first_missing : List octave_lvalue → List octave_value → Nat → Option Nat
  | [], _, _ => none
  | ult :: rest, vals, k =>
      if !ult.is_black_hole
          && !(decide (k < vals.length) && (vals.getD k octave_value.undefined).is_defined)
      then some k
      else first_missing rest vals (k + 1)

/-- The values at the positions of the targets that are not black holes, in
order; `k` is the position of the first target of the list. -/
def assigned_values : List octave_lvalue → List octave_value → Nat → List octave_value
  | [], _, _ => []
  | ult :: rest, vals, k =>
      if ult.is_black_hole then assigned_values rest vals (k + 1)
      else vals.getD k octave_value.undefined :: assigned_values rest vals (k + 1)

/-- The state after every target that is not a black hole has been bound to the
value at its position; `k` is the position of the first target of the list. -/
def assigned_state : List octave_lvalue → List octave_value → Nat → tree_evaluator →
    tree_evaluator
  | [], _, _, s => s
  | ult :: rest, vals, k, s =>
      assigned_state rest vals (k + 1)
        (if ult.is_black_hole then s
         else assign_state ult.sym (vals.getD k octave_value.undefined) s)

/-- The function `function [a, b] = f (); a = 1; b = 2; end`. -/
def two_values_function : octave_user_function :=
  octave_user_function.mk none (some ret_list_a_b)
    (some (tree_statement_list.mk
      [assign_statement "a" (tree_expression.constant (octave_value.scalar 1)),
       assign_statement "b" (tree_expression.constant (octave_value.scalar 2))])) [] false false

/-- The top-level evaluator in which `f` is `two_values_function`. -/
def with_two_values_function : tree_evaluator :=
  { top_level with
    fcn_table := ("f", octave_function.user_function two_values_function)
      :: top_level.fcn_table }

/-- The call `f ()`. -/
def call_f : tree_expression :=
  tree_expression.index_expression (tree_expression.identifier "f") []

/-- The lvalue of the variable `name`. -/
def variable_lvalue (name : String) : octave_lvalue :=
  { sym := name, black_hole := false, index := none }

/-- The lvalue of a black hole. -/
def black_hole_lvalue : octave_lvalue := { sym := "~", black_hole := true, index := none }

/-- The labels of the cases of a list are evaluated by `tw` one after the other,
from state `s` to state `s1`, and none is taken: no case is the default case and
`switch_case_label_matches` returns false for each label. -/
inductive rejects_in_order (tw : tree_walker) (val : octave_value) :
    List tree_switch_case → tree_evaluator → tree_evaluator → Prop where
  | nil (s : tree_evaluator) : rejects_in_order tw val [] s s
  | cons (label : tree_expression) (commands : Option tree_statement_list)
      (rest : List tree_switch_case) (s s1 s2 : tree_evaluator) :
      switch_case_label_matches tw label val s = some (Outcome.value false, s1) →
      rejects_in_order tw val rest s1 s2 →
      rejects_in_order tw val (tree_switch_case.mk (some label) commands :: rest) s s2

/-- The case `case LABEL, disp (N);`. -/
def case_disp (label : octave_value) (n : Int) : tree_switch_case :=
  tree_switch_case.mk (some (tree_expression.constant label))
    (some (tree_statement_list.mk [some (disp_statement n)]))

/-- The case `otherwise, disp (N);`. -/
def otherwise_disp (n : Int) : tree_switch_case :=
  tree_switch_case.mk none (some (tree_statement_list.mk [some (disp_statement n)]))

/-- The state after `disp (N)` at top level. -/
def top_level_printed (n : Int) : tree_evaluator :=
  { top_level with octave_stdout := [octave_value.scalar n] }

/-- The debugger on top of the stack, if there is one, has neither an exit nor
an abort request pending (`m_exit_debug_repl`, `m_abort_debug_repl`). -/
def no_debugger_request (s : tree_evaluator) : Bool :=
  match s.m_debugger_stack with
  | [] => true
  | d :: _ => !d.m_exit_debug_repl && !d.m_abort_debug_repl

/-- An evaluator at top level that is being stepped: one debugger on the stack,
debug mode on, `dbstep_flag` = `n`, debug frame 0. -/
def stepping (n : Int) : tree_evaluator :=
  { top_level with
      m_debug_mode := true
      m_dbstep_flag := n
      m_debugger_stack := [{ m_level := 0, m_in_debug_repl := false,
                             m_exit_debug_repl := false, m_abort_debug_repl := false }] }

/-- A debugger session in which the user types nothing but `dbcont`: the prompt
is written and the exit request is set on the debugger on top of the stack. -/
def repl_dbcont : Eval Unit :=
  Eval.modify (fun s =>
    { s with octave_stdout := s.octave_stdout ++ [octave_value.str "debug> "]
             m_debugger_stack :=
               match s.m_debugger_stack with
               | [] => []
               | d :: rest => { d with m_exit_debug_repl := true } :: rest })

namespace evaluation_register

/-- The register after the evaluation of a constant expression `val` by a new
evaluator: the visit has called `push_result (val)` and `evaluate` has taken
the value out. -/
def after_evaluation (val : octave_value) : evaluation_register :=
  (evaluate (push_result val) reset).2

end evaluation_register

/-- An evaluator in which scripts are echoed and one file has its entry set to
false: the state after `echo on` and `echo off FILE`. -/
def echo_scripts_file_off (file : String) : tree_evaluator :=
  { top_level with m_echo := ECHO_SCRIPTS, m_echo_files := [(file, false)] }

/-- An evaluator in which echoing is off and one file has its entry set to true:
the state after `echo on FILE` and `echo off`. -/
def echo_off_file_on (file : String) : tree_evaluator :=
  { top_level with m_echo := ECHO_OFF, m_echo_files := [(file, true)] }

/-- An evaluator in which functions are echoed and one file has its entry set:
the state after `echo on FILE` (flag true), followed by `echo off FILE` (flag
false). -/
def echo_functions_file (file : String) (flag : Bool) : tree_evaluator :=
  { top_level with m_echo := ECHO_FUNCTIONS, m_echo_files := [(file, flag)] }

/-- The member function keeps the number of frames of the call stack: on every
exit the call stack has the size it had on entry. -/
def Eval.KeepsSize {α : Type} (m : Eval α) : Prop :=
  Eval.Rel (fun s s1 => s1.m_call_stack.size = s.m_call_stack.size) m

/-- An `eval_string` that knows one piece of code: `x = 1;` assigns 1 to `x` in
the current frame; any other code is a parse error. -/
def eval_string_x_is_one (code : String) (_silent : Bool) (_nargout : Int) :
    Eval (List octave_value) :=
  if code = "x = 1;" then do
    assign "x" (octave_value.scalar 1)
    pure []
  else error "parse error"

/-- An evaluator inside a function called from top level: two frames, the
current one has index 1. -/
def in_called_function : tree_evaluator :=
  { top_level with m_call_stack := top_level.m_call_stack.push,
                   m_statement_context := stmt_list_type.SC_FUNCTION }

/-- The state `in_called_function` after `x = 1` in the base frame. -/
def in_called_function_base_x : tree_evaluator :=
  { in_called_function with
      m_call_stack :=
        { current := { vars := [] }, callers := [{ vars := [("x", octave_value.scalar 1)] }],
          callees := [] } }

/-- An evaluator at top level in which `x` is the 2x3 matrix `[1 2 3; 4 5 6]`
(stored by columns). -/
def x_is_2_by_3 : tree_evaluator :=
  assign_state "x" (octave_value.matrix 2 3 [1, 4, 2, 5, 3, 6]) top_level

/-- The expression `x (ARGS)`. -/
def index_x (args : List tree_expression) : tree_expression :=
  tree_expression.index_expression (tree_expression.identifier "x") args

/-- The constant 1 as an expression. -/
def const_one : tree_expression := tree_expression.constant (octave_value.scalar 1)

/-- The magic end marker as an expression. -/
def magic_end : tree_expression := tree_expression.identifier "end"

/-- The 2x3 matrix `[1 2 3; 4 5 6]` (stored by columns). -/
def matrix_2_by_3 : octave_value := octave_value.matrix 2 3 [1, 4, 2, 5, 3, 6]

/-- The state in which the second argument of `x (1, end)` is evaluated: the
matrix is stashed and the first argument has been evaluated at position 0. -/
def x_first_argument_done : tree_evaluator :=
  at_index 0 2 { x_is_2_by_3 with m_indexed_object := some matrix_2_by_3 }

/-- Whether an integer is a value of the type `char` (eight bits, signed). -/
def is_char (c : Int) : Bool := decide (-128 ≤ c) && decide (c ≤ 127)

/-- The function `function r = noisy (); disp (7); r = 1:2; end`: it writes 7
and returns a value with two elements. -/
def noisy_function : octave_user_function :=
  octave_user_function.mk none (some (tree_parameter_list.mk [decl "r"] 0))
    (some (tree_statement_list.mk
      [some (disp_statement 7),
       assign_statement "r"
         (tree_expression.colon_expression
           (some (tree_expression.constant (octave_value.scalar 1)))
           (some (tree_expression.constant (octave_value.scalar 2))) none)])) [] false false

/-- The top-level evaluator in which `noisy` is `noisy_function`. -/
def with_noisy_function : tree_evaluator :=
  { top_level with
    fcn_table := ("noisy", octave_function.user_function noisy_function)
      :: top_level.fcn_table }

/-- The call `noisy ()`. -/
def call_noisy : tree_expression :=
  tree_expression.index_expression (tree_expression.identifier "noisy") []

/-- The state `with_noisy_function` after the scalars `out` have been written. -/
def with_noisy_function_printed (out : List Int) : tree_evaluator :=
  { with_noisy_function with octave_stdout := out.map octave_value.scalar }

/-- The list of exit functions after `k` calls of `remove_atexit_function` with
the same name. -/
def interpreter.remove_atexit_function_times (fname : String) : Nat → List String → List String
  | 0, atexit_functions => atexit_functions
  | k + 1, atexit_functions =>
      interpreter.remove_atexit_function_times fname k
        (interpreter.remove_atexit_function fname atexit_functions).2

/-- An evaluator with one debugger on the stack, all of whose flags are false. -/
def with_one_debugger : tree_evaluator :=
  { top_level with
    m_debugger_stack :=
      [{ m_level := 1, m_in_debug_repl := false, m_exit_debug_repl := false,
         m_abort_debug_repl := false }] }

/-- A call of `add_autoload` (`add` true) or of `remove_autoload` with the
circumstances under which it is made: which files exist, the current
directory, and the file name of the current user code (`none` without user
code). -/
structure autoload_call where
  add : Bool
  file_exists : String → Bool
  dot_path : String
  current_user_code : Option String
  fcn : String
  nm : String

/-- The calls of `add_autoload` and `remove_autoload` of a list, one after the
other. -/
def run_autoload_calls : List autoload_call → Eval Unit
  | [] => pure ()
  | c :: rest => do
      let _u ← (if c.add
                then add_autoload c.file_exists c.dot_path c.current_user_code c.fcn c.nm
                else remove_autoload c.file_exists c.dot_path c.current_user_code c.fcn c.nm)
      run_autoload_calls rest

/-- The warning that `check_autoload_file` issues for the name `nm`. -/
def autoload_relative_warning (nm : String) : String :=
  "Octave:autoload-relative-file-name" ++ ": "
    ++ ("autoload: '" ++ nm ++ "' is not an absolute filename")

/-- Every file name stored in the autoload map is absolute, or the warning for a
relative file name has been issued for it. -/
def autoload_map_absolute_or_warned (s : tree_evaluator) : Prop :=
  ∀ p ∈ s.m_autoload_map,
    env.do_absolute_pathname p.2 = true ∨ autoload_relative_warning p.2 ∈ s.warnings

/-- The state after `add_autoload ("f", "rel.m")` at top level. -/
def with_relative_autoload : tree_evaluator :=
  { top_level with
    m_autoload_map := [("f", "rel.m")]
    warnings := [autoload_relative_warning "rel.m"] }

/-- The positions (1-based) of the outputs that go to black holes: for every
black hole of the lvalue list, 1 + the sum of the numbers of elements of the
lvalues before it, in the order of the list. -/
def black_hole_positions (lvalues : List octave_lvalue) (numels : List Nat) : List Nat :=
  ((List.range lvalues.length).filter
      (fun i => (lvalues.map octave_lvalue.is_black_hole).getD i false)).map
    (fun i => 1 + (numels.take i).sum)

/-- The lvalue `c{1:0}`, which takes no value. -/
def empty_brace_lvalue : octave_lvalue :=
  { sym := "c", black_hole := false, index := some ("\x7b", [octave_value.range 1 1 0]) }

/-- The user code of a method `get`. -/
def method_get : octave_function :=
  octave_function.user_function
    (octave_user_function.mk none none (some (tree_statement_list.mk [])) [] false false)

/-- The user code of a subfunction `sub`. -/
def subfunction_sub : octave_function :=
  octave_function.user_function
    (octave_user_function.mk none none
      (some (tree_statement_list.mk [some (disp_statement 1)])) [] false false)

/-- A symbol table in which the class `ftp` has the method `get` and the function
`get` exists, both with the subfunction `sub`; no other name is found. -/
def ftp_lookup : user_code_lookup :=
  { debug_user_code := none
    find_method := fun method dispatch_type =>
      if method = "get" ∧ dispatch_type = "ftp" then some method_get else none
    cdm_find_method := fun _ _ => none
    find_function := fun name => if name = "get" then some method_get else none
    find_subfunction := fun _ name => if name = "sub" then some subfunction_sub else none }

/-- The evaluator inside a loop at top level, in debug mode, with one debugger on
the stack whose abort request is set (the user has typed `dbquit`). -/
def in_loop_dbquit : tree_evaluator :=
  { in_loop with
      m_debug_mode := true
      m_debugger_stack := [{ m_level := 0, m_in_debug_repl := false,
                             m_exit_debug_repl := false, m_abort_debug_repl := true }] }

/-- A debugger loop that returns at once: the user enters nothing. -/
def repl_returns : Eval Unit := pure ()

/-- No breakpoint is active anywhere. -/
def no_breakpoint (_t : tree) (_s : tree_evaluator) : Bool := false

/-- The state `stepping 1` after the debugger has paused and the user has typed
`dbcont`: the prompt has been written, `dbstep_flag` is 0 and the exit request
of the debugger is set. -/
def after_dbcont : tree_evaluator :=
  { stepping 1 with
      m_dbstep_flag := 0
      octave_stdout := [octave_value.str "debug> "]
      m_debugger_stack := [{ m_level := 0, m_in_debug_repl := false,
                             m_exit_debug_repl := true, m_abort_debug_repl := false }] }

/-- The evaluator `with_self_calling_function` in debug mode after `dbstep in`:
one debugger on the stack, `dbstep_flag` = -1. -/
def stepping_into_self_call : tree_evaluator :=
  { with_self_calling_function with
      m_debug_mode := true
      m_dbstep_flag := -1
      m_debugger_stack := [{ m_level := 0, m_in_debug_repl := false,
                             m_exit_debug_repl := false, m_abort_debug_repl := false }] }

/-- The evaluator `with_self_calling_function` after the debugger has paused
once in frame 1 and the user has typed `dbcont`: the prompt has been written,
the debug frame is 1, the debugger is gone and debug mode is off. -/
def stepped_into_self_call : tree_evaluator :=
  { with_self_calling_function with
      m_debug_frame := 1
      octave_stdout := [octave_value.str "debug> "] }

/-! ## Lemmas -/

set_option linter.unusedTactic false
set_option linter.unreachableTactic false

namespace Eval

@[simp] theorem pure_apply {α : Type} (a : α) (s : tree_evaluator) :
    (pure a : Eval α) s = some (Outcome.value a, s) := rfl

@[simp] theorem ret_apply {α : Type} (a : α) (s : tree_evaluator) :
    (ret a : Eval α) s = some (Outcome.value a, s) := rfl

theorem bind_apply {α β : Type} (m : Eval α) (f : α → Eval β) (s : tree_evaluator) :
    (m >>= f) s = seq m f s := rfl

@[simp] theorem get_apply (s : tree_evaluator) : get s = some (Outcome.value s, s) := rfl

@[simp] theorem modify_apply (f : tree_evaluator → tree_evaluator) (s : tree_evaluator) :
    modify f s = some (Outcome.value (), f s) := rfl

@[simp] theorem throw_apply {α : Type} (e : exception) (s : tree_evaluator) :
    (throw e : Eval α) s = some (Outcome.thrown e, s) := rfl

@[simp] theorem panic_impossible_apply {α : Type} (s : tree_evaluator) :
    (panic_impossible : Eval α) s = some (Outcome.panic, s) := rfl

end Eval

theorem step_refl (s : tree_evaluator) : Step s s := ⟨rfl, id⟩

theorem step_trans {a b c : tree_evaluator} (h1 : Step a b) (h2 : Step b c) : Step a c :=
  ⟨h2.1.trans h1.1, fun h => h2.2 (h1.2 h)⟩

theorem lookup_assign_binding (name : String) (val : octave_value)
    (vars : List (String × octave_value)) :
    (stack_frame.assign_binding name val vars).lookup name = some val := by
  induction vars with
  | nil => simp [stack_frame.assign_binding, List.lookup]
  | cons p rest ih =>
    obtain ⟨n, v⟩ := p
    by_cases h : n = name
    · subst h
      simp [stack_frame.assign_binding, List.lookup]
    · have h1 : (n == name) = false := by simpa using h
      have h2 : (name == n) = false := by simpa using (fun e : name = n => h e.symm)
      simp [stack_frame.assign_binding, List.lookup, h1, h2, ih]

theorem varval_assign_state (name : String) (val : octave_value) (s : tree_evaluator) :
    varval (assign_state name val s) name = val := by
  simp [varval, assign_state, stack_frame.varval, stack_frame.assign, lookup_assign_binding]

theorem walker_accept_expression {repl : Eval Unit}
    {bp : tree → tree_evaluator → Bool} (n : Nat) (expr : tree_expression) (nargout : Int) :
    (walker repl bp (n + 1)).accept_expression expr nargout
      = tree_expression_accept (walker repl bp n) expr nargout := rfl

theorem walker_accept_statement_list {repl : Eval Unit}
    {bp : tree → tree_evaluator → Bool} (n : Nat) (lst : tree_statement_list) :
    (walker repl bp (n + 1)).accept_statement_list lst = visit_statement_list (walker repl bp n)
        lst := rfl

theorem walker_accept_statement {repl : Eval Unit}
    {bp : tree → tree_evaluator → Bool} (n : Nat) (stmt : tree_statement) :
    (walker repl bp (n + 1)).accept_statement stmt = visit_statement (walker repl bp n) stmt := rfl

theorem walker_call {repl : Eval Unit}
    {bp : tree → tree_evaluator → Bool} (n : Nat) (fcn : octave_function) (nargout : Int)
    (args : List octave_value) :
    (walker repl bp (n + 1)).call fcn nargout args = octave_function_call (walker repl bp n)
        fcn nargout args :=
  rfl

/-- Evaluating an identifier that is a defined variable gives its value and
changes nothing. -/
theorem evaluate_identifier_defined {repl : Eval Unit}
    {bp : tree → tree_evaluator → Bool} (n : Nat) (id : String) (s : tree_evaluator)
    (h : (varval s id).is_defined = true) :
    evaluate (walker repl bp (n + 1)) (tree_expression.identifier id) 1 s
      = some (Outcome.value (varval s id), s) := by
  simp [evaluate, Eval.bind_apply, Eval.seq, walker_accept_expression, tree_expression_accept,
    visit_identifier, h]

theorem octave_value_undefined_of_not_defined (v : octave_value)
    (h : v.is_defined = false) : v = octave_value.undefined := by
  cases v <;> simp_all [octave_value.is_defined]

theorem length_octave_value_list_assign (r : List octave_value) (i : Nat) (v : octave_value) :
    (octave_value_list_assign r i v).length = max r.length (i + 1) := by
  unfold octave_value_list_assign
  split
  · simp; omega
  · simp; omega

theorem getD_octave_value_list_assign (r : List octave_value) (i j : Nat) (v : octave_value) :
    (octave_value_list_assign r i v).getD j octave_value.undefined
      = if j = i then v else r.getD j octave_value.undefined := by
  unfold octave_value_list_assign
  split
  · next h =>
    by_cases hj : j = i
    · subst hj
      simp [List.getD, List.getElem?_set, h]
    · have hij : i ≠ j := fun e => hj e.symm
      simp [List.getD, List.getElem?_set, hj, hij]
  · next h =>
    have hle : r.length ≤ i := Nat.le_of_not_lt h
    by_cases hj : j = i
    · subst hj
      simp [List.getD, List.getElem?_append_right, hle]
    · simp only [hj, if_false]
      by_cases hlt : j < r.length
      · simp [List.getD, List.getElem?_append_left, hlt]
      · have hge : r.length ≤ j := Nat.le_of_not_lt hlt
        by_cases hlt2 : j < i
        · have h1 : j < (r ++ List.replicate (i - r.length) octave_value.undefined).length := by
            simp; omega
          have h2 : j - r.length < i - r.length := by omega
          simp [List.getD, List.getElem?_append_left, h1, List.getElem?_append_right, hge,
            List.getElem?_replicate, h2]
          rw [List.getElem?_eq_none hge]
          rfl
        · have hgt : i < j := by omega
          have h1 : (r ++ List.replicate (i - r.length) octave_value.undefined).length ≤ j := by
            simp; omega
          have h3 : r.length + (i - r.length) = i := by omega
          have h4 : j - i ≠ 0 := by omega
          simp [List.getD, List.getElem?_append_right, h1, h3, hge]
          rw [List.getElem?_eq_none (by simp; omega)]
          rw [List.getElem?_eq_none (by omega)]

theorem length_store_defined (vals : List octave_value) :
    ∀ (i : Nat) (r : List octave_value),
      (store_defined vals i r).length
        = max r.length
            (if last_defined_position vals = 0 then 0 else i + last_defined_position vals) := by
  induction vals with
  | nil => intro i r; simp [store_defined, last_defined_position]
  | cons v rest ih =>
    intro i r
    simp only [store_defined, last_defined_position]
    rw [ih]
    by_cases hk : last_defined_position rest > 0
    · have hk0 : ¬ last_defined_position rest = 0 := by omega
      simp only [hk, hk0, if_true, if_false]
      split
      · rw [length_octave_value_list_assign]
        simp only [Nat.add_eq_zero, one_ne_zero, and_false, if_false]
        omega
      · simp only [Nat.add_eq_zero, one_ne_zero, and_false, if_false]
        omega
    · have hk0 : last_defined_position rest = 0 := by omega
      simp only [hk, hk0, if_true, if_false]
      cases hv : v.is_defined
      · simp
      · simp [length_octave_value_list_assign]

theorem getD_store_defined (vals : List octave_value) :
    ∀ (i : Nat) (r : List octave_value) (j : Nat),
      (store_defined vals i r).getD j octave_value.undefined
        = if i ≤ j ∧ (vals.getD (j - i) octave_value.undefined).is_defined = true
          then vals.getD (j - i) octave_value.undefined
          else r.getD j octave_value.undefined := by
  induction vals with
  | nil =>
    intro i r j
    simp [store_defined, octave_value.is_defined]
  | cons v rest ih =>
    intro i r j
    simp only [store_defined]
    rw [ih]
    by_cases hij : i + 1 ≤ j
    · have h1 : i ≤ j := by omega
      have h2 : j - i = (j - (i + 1)) + 1 := by omega
      have h3 : ¬ j = i := by omega
      rw [h2]
      simp only [hij, h1, true_and, List.getD_cons_succ]
      split
      · rfl
      · split
        · rw [getD_octave_value_list_assign]; simp [h3]
        · rfl
    · simp only [hij, false_and, if_false]
      by_cases hji : j = i
      · subst hji
        simp only [le_refl, Nat.sub_self, List.getD_cons_zero, true_and]
        cases hv : v.is_defined
        · simp
        · simp only [if_true]
          rw [getD_octave_value_list_assign]
          simp
      · have h1 : ¬ i ≤ j := by omega
        simp only [h1, false_and, if_false]
        split
        · rw [getD_octave_value_list_assign]; simp [hji]
        · rfl

theorem last_defined_position_le (vals : List octave_value) :
    last_defined_position vals ≤ vals.length := by
  induction vals with
  | nil => simp [last_defined_position]
  | cons v rest ih =>
    simp only [last_defined_position, List.length_cons]
    split
    · omega
    · split <;> omega

/-- The loop over the return list, run by the evaluator, stores the defined
values and leaves the state as it is. -/
theorem return_list_loop_defined_eq {repl : Eval Unit}
    {bp : tree → tree_evaluator → Bool} (n : Nat) (s : tree_evaluator) (elts : List tree_decl_elt)
    (hid : ∀ elt ∈ elts, elt.ident ≠ none) :
    ∀ (i : Nat) (retval : List octave_value),
      return_list_loop_defined (walker repl bp (n + 1)) elts i retval s
        = some (Outcome.value (store_defined (declared_values s elts) i retval), s) := by
  induction elts with
  | nil => intro i retval; simp [return_list_loop_defined, declared_values, store_defined]
  | cons elt rest ih =>
    intro i retval
    have hrest : ∀ e ∈ rest, e.ident ≠ none := fun e he => hid e (List.mem_cons_of_mem _ he)
    have helt := hid elt (List.mem_cons_self _ _)
    obtain ⟨ident, expression⟩ := elt
    cases ident with
    | none => exact absurd rfl helt
    | some id =>
      cases hd : (varval s id).is_defined
      · simp [return_list_loop_defined, Eval.bind_apply, Eval.seq, is_defined, hd,
          declared_values, declared_value, tree_decl_elt.ident, store_defined]
        have := ih hrest (i + 1) retval
        simpa [declared_values] using this
      · simp [return_list_loop_defined, Eval.bind_apply, Eval.seq, is_defined, hd,
          declared_values, declared_value, tree_decl_elt.ident, store_defined,
          evaluate_decl_elt, evaluate_identifier_defined]
        have := ih hrest (i + 1) (octave_value_list_assign retval i (varval s id))
        simpa [declared_values] using this

theorem octave_value_list_assign_append (pre : List octave_value) (x v : octave_value)
    (rest : List octave_value) :
    octave_value_list_assign (pre ++ x :: rest) pre.length v = pre ++ v :: rest := by
  have h : pre.length < (pre ++ x :: rest).length := by simp
  simp only [octave_value_list_assign, h, if_true]
  induction pre with
  | nil => simp
  | cons p pre ih =>
    simp only [List.cons_append, List.length_cons, List.set_cons_succ]
    rw [ih (by simp)]

/-- Storing `vals` from position `pre.length` on, into a list that is long
enough, overwrites that many elements. -/
theorem varargout_loop_append (vals : List octave_value) :
    ∀ (pre rest : List octave_value), vals.length ≤ rest.length →
      varargout_loop vals pre.length (pre ++ rest) = pre ++ vals ++ rest.drop vals.length := by
  induction vals with
  | nil => intro pre rest _; simp [varargout_loop]
  | cons v vals ih =>
    intro pre rest hlen
    cases rest with
    | nil => simp at hlen
    | cons x rest =>
      simp only [varargout_loop]
      rw [octave_value_list_assign_append]
      have h1 : pre ++ v :: rest = (pre ++ [v]) ++ rest := by simp
      have h2 : pre.length + 1 = (pre ++ [v]).length := by simp
      rw [h1, h2, ih (pre ++ [v]) rest (by simpa using hlen)]
      simp

/-- The first loop of the branch `nargout > len`, run by the evaluator on a
return list whose variables are all defined, stores their values and leaves
the state as it is. -/
theorem return_list_loop_all_eq {repl : Eval Unit}
    {bp : tree → tree_evaluator → Bool} (n : Nat) (s : tree_evaluator) (elts : List tree_decl_elt)
    (hdef : ∀ elt ∈ elts, ∃ id, elt.ident = some id ∧ is_defined s id = true) :
    ∀ (i : Nat) (retval : List octave_value),
      return_list_loop_all (walker repl bp (n + 1)) elts i retval s
        = some (Outcome.value (varargout_loop (declared_values s elts) i retval), s) := by
  induction elts with
  | nil => intro i retval; simp [return_list_loop_all, declared_values, varargout_loop]
  | cons elt rest ih =>
    intro i retval
    have hrest : ∀ e ∈ rest, ∃ id, e.ident = some id ∧ is_defined s id = true :=
      fun e he => hdef e (List.mem_cons_of_mem _ he)
    obtain ⟨id, hid, hd⟩ := hdef elt (List.mem_cons_self _ _)
    obtain ⟨ident, expression⟩ := elt
    simp only [tree_decl_elt.ident] at hid
    subst hid
    have hd1 : (varval s id).is_defined = true := hd
    simp [return_list_loop_all, Eval.bind_apply, Eval.seq, declared_values, declared_value,
      tree_decl_elt.ident, varargout_loop, evaluate_decl_elt, evaluate_identifier_defined, hd1]
    have := ih hrest (i + 1) (octave_value_list_assign retval i (varval s id))
    simpa [declared_values] using this

theorem static_cast_size_t_of_nonneg (m : Int) (h0 : 0 ≤ m) (h1 : m < 2 ^ 31) :
    static_cast_size_t m = m.toNat := by
  unfold static_cast_size_t
  have h2 : m % (2 ^ 64 : Int) = m := Int.emod_eq_of_lt h0 (by omega)
  rw [h2]

theorem init_local_fcn_vars_returns (l : List (String × octave_value)) :
    ∀ s, ∃ s1, init_local_fcn_vars l s = some (Outcome.value (), s1) := by
  induction l with
  | nil => intro s; exact ⟨s, rfl⟩
  | cons p rest ih =>
    intro s
    obtain ⟨nm, ov⟩ := p
    obtain ⟨s1, h1⟩ := ih (assign_state nm ov s)
    exact ⟨s1, by simp [init_local_fcn_vars, Eval.bind_apply, Eval.seq, assign, h1]⟩

/-- Without arguments and without a walker that answers, the definition of the
parameters never throws. -/
theorem define_parameter_list_loop_no_throw {repl : Eval Unit}
    {bp : tree → tree_evaluator → Bool} (elts : List tree_decl_elt) :
    ∀ (i : Nat) (s : tree_evaluator) (o : Outcome Unit) (s1 : tree_evaluator),
      define_parameter_list_loop (walker repl bp 0)
          [] elts i s = some (o, s1) → o.throws = false := by
  induction elts with
  | nil =>
    intro i s o s1 h
    simp [define_parameter_list_loop] at h
    rw [← h.1]; rfl
  | cons elt rest ih =>
    intro i s o s1 h
    obtain ⟨ident, expression⟩ := elt
    cases ident with
    | none =>
      simp [define_parameter_list_loop, Eval.bind_apply, Eval.seq] at h
      rw [← h.1]; rfl
    | some id =>
      cases expression with
      | none =>
        simp [define_parameter_list_loop, Eval.bind_apply, Eval.seq, eval_decl_elt] at h
        exact ih _ _ _ _ h
      | some expr =>
        simp [define_parameter_list_loop, Eval.bind_apply, Eval.seq, eval_decl_elt, evaluate,
          walker] at h

namespace Eval

theorem no_throw_pure {α : Type} (a : α) : NoThrow (pure a : Eval α) := by
  intro s o s1 h
  simp at h
  rw [← h.1]; rfl

theorem no_throw_modify (f : tree_evaluator → tree_evaluator) : NoThrow (modify f) := by
  intro s o s1 h
  simp at h
  rw [← h.1]; rfl

theorem no_throw_bind {α β : Type} {m : Eval α} {f : α → Eval β}
    (hm : NoThrow m) (hf : ∀ a, NoThrow (f a)) : NoThrow (m >>= f) := by
  intro s o s1 h
  rw [bind_apply] at h
  unfold seq at h
  split at h
  · simp at h
  · next a s2 heq => exact hf a s2 o s1 h
  · next e s2 heq =>
    have := hm s _ s2 heq
    simp [Outcome.throws] at this
  · next s2 heq =>
    simp at h
    rw [← h.1]; rfl

theorem no_throw_bind_of_none {α β : Type} {m : Eval α} (f : α → Eval β)
    (hm : ∀ s, m s = none) : NoThrow (m >>= f) := by
  intro s o s1 h
  rw [bind_apply] at h
  unfold seq at h
  rw [hm s] at h
  simp at h

theorem no_throw_unwind_protect {α : Type}
    (restore : tree_evaluator → tree_evaluator → tree_evaluator) {m : Eval α}
    (hm : NoThrow m) : NoThrow (Eval.unwind_protect restore m) := by
  intro s o s1 h
  unfold Eval.unwind_protect at h
  split at h
  · simp at h
  · simp at h; rw [← h.1]; rfl
  · next e s2 heq =>
    have := hm s _ s2 heq
    simp [Outcome.throws] at this
  · simp at h; rw [← h.1]; rfl

end Eval

theorem init_local_fcn_vars_no_throw (l : List (String × octave_value)) :
    Eval.NoThrow (init_local_fcn_vars l) := by
  intro s o s1 h
  obtain ⟨s2, h2⟩ := init_local_fcn_vars_returns l s
  rw [h2] at h
  simp at h
  rw [← h.1]; rfl

theorem special_expr_body_no_throw {repl : Eval Unit}
    {bp : tree → tree_evaluator → Bool} (cmd_list : tree_statement_list) (nargout : Int) :
    Eval.NoThrow (special_expr_body (walker repl bp 0) cmd_list nargout) := by
  intro s o s1 h
  unfold special_expr_body at h
  split at h
  · simp [evaluate_n, Eval.bind_apply, Eval.seq, walker] at h
  · simp at h; rw [← h.1]; rfl
  · simp at h; rw [← h.1]; rfl

/-- With a walker that never answers, a function that is not a classdef
constructor, called without arguments below the recursion limit, does not end
with an exception. -/
theorem execute_user_function_no_throw {repl : Eval Unit}
    {bp : tree → tree_evaluator → Bool} (f : octave_user_function)
    (hc : f.is_classdef_constructor = false) (s : tree_evaluator)
    (hlt : ¬ s.m_call_stack.size ≥ static_cast_size_t s.m_max_recursion_depth)
    (o : Outcome (List octave_value)) (s1 : tree_evaluator)
    (h : execute_user_function (walker repl bp 0) f 0 [] s = some (o, s1)) : o.throws = false := by
  obtain ⟨pl, rl, body, lv, anon, cls⟩ := f
  simp only [octave_user_function.is_classdef_constructor] at hc
  subst hc
  cases body with
  | none =>
    simp [execute_user_function] at h
    rw [← h.1]; rfl
  | some cmd_list =>
    simp only [execute_user_function, Bool.false_eq_true, false_and, if_false, Eval.bind_apply,
      Eval.seq, Eval.get_apply, hlt] at h
    revert h
    apply Eval.no_throw_unwind_protect
    apply Eval.no_throw_bind (Eval.no_throw_modify _)
    intro _
    apply Eval.no_throw_bind
    · cases pl with
      | none => exact Eval.no_throw_pure _
      | some p =>
        simp only [bind_auto_fcn_vars]
        split
        · exact Eval.no_throw_modify _
        · exact Eval.no_throw_pure _
    intro _
    apply Eval.no_throw_bind
    · cases anon
      · exact Eval.no_throw_pure _
      · exact init_local_fcn_vars_no_throw lv
    intro _
    apply Eval.no_throw_bind
    · cases pl with
      | none => exact Eval.no_throw_pure _
      | some p =>
        simp only
        split
        · exact Eval.no_throw_pure _
        · intro s o s1 h
          exact define_parameter_list_loop_no_throw _ _ _ _ _ h
    intro _
    apply Eval.no_throw_bind (Eval.no_throw_pure _)
    intro _
    apply Eval.no_throw_bind (Eval.no_throw_modify _)
    intro _
    cases anon
    · apply Eval.no_throw_bind_of_none
      intro s
      simp [Eval.bind_apply, Eval.seq, walker]
    · apply Eval.no_throw_bind (special_expr_body_no_throw _ _)
      intro retval
      apply Eval.no_throw_bind (Eval.no_throw_modify _)
      intro _
      cases rl <;> exact Eval.no_throw_pure _

theorem lookup_assign_binding_ne (name nm : String) (val : octave_value) (h : name ≠ nm)
    (vars : List (String × octave_value)) :
    (stack_frame.assign_binding nm val vars).lookup name = vars.lookup name := by
  have hne : (name == nm) = false := by simpa using h
  induction vars with
  | nil => simp [stack_frame.assign_binding, List.lookup, hne]
  | cons p rest ih =>
    obtain ⟨n, v⟩ := p
    by_cases h1 : n = nm
    · subst h1
      simp [stack_frame.assign_binding, List.lookup, hne]
    · have h2 : (n == nm) = false := by simpa using h1
      simp only [stack_frame.assign_binding, h2, List.lookup]
      split <;> simp_all

theorem varval_assign_state_ne (name nm : String) (val : octave_value) (h : name ≠ nm)
    (s : tree_evaluator) : varval (assign_state nm val s) name = varval s name := by
  simp [varval, assign_state, stack_frame.varval, stack_frame.assign,
    lookup_assign_binding_ne name nm val h]

theorem init_local_fcn_vars_eq (l : List (String × octave_value)) :
    ∀ s, init_local_fcn_vars l s = some (Outcome.value (), init_local_fcn_vars_state l s) := by
  induction l with
  | nil => intro s; rfl
  | cons p rest ih =>
    intro s
    obtain ⟨nm, ov⟩ := p
    simp [init_local_fcn_vars, Eval.bind_apply, Eval.seq, assign, ih,
      init_local_fcn_vars_state]

/-- After the captured values have been assigned, a captured variable has the
value it had in the frame `fr` they were captured from. -/
theorem varval_init_captured (fr : stack_frame) (name : String)
    (hd : (fr.varval name).is_defined = true) (names : List String) :
    ∀ s1, (name ∈ names ∨ varval s1 name = fr.varval name) →
      varval (init_local_fcn_vars_state (capture_free_vars fr names) s1) name
        = fr.varval name := by
  induction names with
  | nil =>
    intro s1 h
    rcases h with h | h
    · simp at h
    · simpa [capture_free_vars, init_local_fcn_vars_state] using h
  | cons nm rest ih =>
    intro s1 h
    by_cases hnm : name = nm
    · subst hnm
      simp only [capture_free_vars, hd, if_true, init_local_fcn_vars_state]
      exact ih _ (Or.inr (varval_assign_state _ _ _))
    · have hrest : name ∈ rest ∨ varval s1 name = fr.varval name := by
        rcases h with h | h
        · rcases List.mem_cons.mp h with h | h
          · exact absurd h hnm
          · exact Or.inl h
        · exact Or.inr h
      simp only [capture_free_vars]
      split
      · simp only [init_local_fcn_vars_state]
        apply ih
        rcases hrest with h | h
        · exact Or.inl h
        · exact Or.inr (by rw [varval_assign_state_ne name nm _ hnm]; exact h)
      · exact ih _ hrest

namespace Eval

theorem keeps_pure {α : Type} (a : α) : Keeps (pure a : Eval α) := by
  intro s o s1 h _
  simp at h
  rw [← h.2]; exact step_refl s

theorem keeps_get : Keeps get := by
  intro s o s1 h _
  simp at h
  rw [← h.2]; exact step_refl s

theorem keeps_throw {α : Type} (e : exception) : Keeps (throw e : Eval α) := by
  intro s o s1 h _
  simp at h
  rw [← h.2]; exact step_refl s

theorem keeps_panic_impossible {α : Type} : Keeps (panic_impossible : Eval α) := by
  intro s o s1 h ho
  simp at h
  exact absurd h.1.symm ho

theorem keeps_none {α : Type} : Keeps (fun _ => none : Eval α) := by
  intro s o s1 h _
  simp at h

theorem keeps_modify {f : tree_evaluator → tree_evaluator} (hf : ∀ s, Step s (f s)) :
    Keeps (modify f) := by
  intro s o s1 h _
  simp at h
  rw [← h.2]; exact hf s

theorem keeps_bind {α β : Type} {m : Eval α} {f : α → Eval β}
    (hm : Keeps m) (hf : ∀ a, Keeps (f a)) : Keeps (m >>= f) := by
  intro s o s1 h ho
  rw [bind_apply] at h
  unfold seq at h
  split at h
  · simp at h
  · next a s2 heq => exact step_trans (hm s _ s2 heq (by simp)) (hf a s2 o s1 h ho)
  · next e s2 heq =>
      simp at h
      rw [← h.2]; exact hm s _ s2 heq (by simp)
  · next s2 heq =>
      simp at h
      exact absurd h.1.symm ho

theorem keeps_try_catch {α : Type} {m : Eval α} {handler : exception → Option (Eval α)}
    (hm : Keeps m) (hh : ∀ e h, handler e = some h → Keeps h) :
    Keeps (Eval.try_catch m handler) := by
  intro s o s1 h ho
  unfold Eval.try_catch at h
  split at h
  · next e s2 heq =>
    split at h
    · next hd hhd => exact step_trans (hm s _ s2 heq (by simp)) (hh e hd hhd s2 o s1 h ho)
    · simp at h
      rw [← h.2]; exact hm s _ s2 heq (by simp)
  · exact hm s o s1 h ho

theorem keeps_unwind_protect {α : Type}
    {restore : tree_evaluator → tree_evaluator → tree_evaluator} {m : Eval α}
    (hr : ∀ s0 s1, Step s0 s1 → Step s0 (restore s0 s1)) (hm : Keeps m) :
    Keeps (Eval.unwind_protect restore m) := by
  intro s o s1 h ho
  unfold Eval.unwind_protect at h
  split at h
  · simp at h
  · next a s2 heq =>
    simp at h
    rw [← h.2]; exact hr s s2 (hm s _ s2 heq (by simp))
  · next e s2 heq =>
    simp at h
    rw [← h.2]; exact hr s s2 (hm s _ s2 heq (by simp))
  · simp at h
    exact absurd h.1.symm ho

end Eval

theorem keeps_error_with_id {α : Type} (id msg : String) :
    Eval.Keeps (error_with_id id msg : Eval α) := by
  intro s o s1 h _
  simp [error_with_id] at h
  rw [← h.2]; exact ⟨rfl, fun h => h⟩

theorem keeps_error {α : Type} (msg : String) : Eval.Keeps (error msg : Eval α) :=
  keeps_error_with_id "" msg

theorem keeps_eval_undefined_error {α : Type} (name : String) (l c : Int) :
    Eval.Keeps (eval_undefined_error name l c : Eval α) := by
  unfold eval_undefined_error
  split <;> exact keeps_error_with_id _ _

theorem keeps_warning_with_id (id msg : String) : Eval.Keeps (warning_with_id id msg) :=
  Eval.keeps_modify (fun _ => ⟨rfl, fun h => h⟩)

theorem keeps_recover_from_exception : Eval.Keeps recover_from_exception :=
  Eval.keeps_modify (fun _ => ⟨rfl, fun h => h⟩)

theorem keeps_octave_quit : Eval.Keeps octave_quit := by
  intro s o s1 h _
  unfold octave_quit at h
  split at h <;> (simp at h; rw [← h.2]; exact step_refl s)

theorem keeps_assign (name : String) (val : octave_value) : Eval.Keeps (assign name val) :=
  Eval.keeps_modify (fun _ => ⟨rfl, fun h => h⟩)

theorem keeps_is_true (a : octave_value) : Eval.Keeps (tree_evaluator.is_true a) := by
  unfold tree_evaluator.is_true
  split
  · exact Eval.keeps_pure _
  · exact keeps_error _

theorem keeps_evaluate {tw : tree_walker} (htw : WalkerKeeps tw) (expr : tree_expression)
    (nargout : Int) : Eval.Keeps (evaluate tw expr nargout) := by
  unfold evaluate
  apply Eval.keeps_bind (htw.1 expr nargout)
  intro r
  split <;> exact Eval.keeps_pure _

theorem keeps_evaluate_n {tw : tree_walker} (htw : WalkerKeeps tw) (expr : tree_expression)
    (nargout : Int) : Eval.Keeps (evaluate_n tw expr nargout) := by
  unfold evaluate_n
  apply Eval.keeps_bind (htw.1 expr nargout)
  intro r
  split <;> exact Eval.keeps_pure _

theorem keeps_visit_constant (value : octave_value) (nargout : Int) :
    Eval.Keeps (visit_constant value nargout) := by
  unfold visit_constant
  split
  · exact keeps_error _
  · exact Eval.keeps_pure _

theorem keeps_visit_identifier {tw : tree_walker} (htw : WalkerKeeps tw) (name : String)
    (nargout : Int) : Eval.Keeps (visit_identifier tw name nargout) := by
  unfold visit_identifier
  apply Eval.keeps_bind Eval.keeps_get
  intro s
  simp only
  split
  · exact Eval.keeps_pure _
  · split
    · apply Eval.keeps_bind (htw.2.2.2.2 _ _ _)
      intro _
      exact Eval.keeps_pure _
    · exact keeps_eval_undefined_error _ _ _

theorem keeps_visit_boolean_expression {tw : tree_walker} (htw : WalkerKeeps tw)
    (etype : boolean_type) (lhs rhs : Option tree_expression) :
    Eval.Keeps (visit_boolean_expression tw etype lhs rhs) := by
  unfold visit_boolean_expression
  repeat' (first
    | exact Eval.keeps_pure _
    | exact keeps_evaluate htw _ _
    | exact keeps_is_true _
    | refine Eval.keeps_bind ?_ (fun _ => ?_)
    | split)

theorem keeps_visit_binary_expression_general {tw : tree_walker} (htw : WalkerKeeps tw)
    (etype : binary_op) (lhs rhs : Option tree_expression) :
    Eval.Keeps (visit_binary_expression_general tw etype lhs rhs) := by
  unfold visit_binary_expression_general
  repeat' (first
    | assumption
    | exact Eval.keeps_pure _
    | exact Eval.keeps_get
    | exact Eval.keeps_throw _
    | exact Eval.keeps_panic_impossible
    | exact keeps_error _
    | exact keeps_error_with_id _ _
    | exact keeps_assign _ _
    | exact keeps_octave_quit
    | exact keeps_recover_from_exception
    | exact keeps_is_true _
    | exact keeps_evaluate htw _ _
    | exact keeps_evaluate_n htw _ _
    | exact htw.1 _ _
    | exact htw.2.1 _
    | exact htw.2.2.1 _
    | exact htw.2.2.2.1 _
    | exact htw.2.2.2.2 _ _ _
    | refine Eval.keeps_bind ?_ (fun _ => ?_)
    | split
    | simp only [])

theorem keeps_matlab_style_short_circuit_warning (op : String) :
    Eval.Keeps (matlab_style_short_circuit_warning op) :=
  keeps_warning_with_id _ _

theorem keeps_visit_binary_expression {tw : tree_walker} (htw : WalkerKeeps tw)
    (etype : binary_op) (lhs rhs : Option tree_expression) (braindead : Bool) :
    Eval.Keeps (visit_binary_expression tw etype lhs rhs braindead) := by
  unfold visit_binary_expression
  repeat' (first
    | exact keeps_visit_binary_expression_general htw _ _ _
    | exact keeps_matlab_style_short_circuit_warning _
    | exact Eval.keeps_pure _
    | exact keeps_evaluate htw _ _
    | exact keeps_is_true _
    | refine Eval.keeps_bind ?_ (fun _ => ?_)
    | split)

theorem keeps_visit_colon_expression {tw : tree_walker} (htw : WalkerKeeps tw)
    (base limit increment : Option tree_expression) :
    Eval.Keeps (visit_colon_expression tw base limit increment) := by
  unfold visit_colon_expression
  repeat' (first
    | assumption
    | exact Eval.keeps_pure _
    | exact Eval.keeps_get
    | exact Eval.keeps_throw _
    | exact Eval.keeps_panic_impossible
    | exact keeps_error _
    | exact keeps_error_with_id _ _
    | exact keeps_assign _ _
    | exact keeps_octave_quit
    | exact keeps_recover_from_exception
    | exact keeps_is_true _
    | exact keeps_evaluate htw _ _
    | exact keeps_evaluate_n htw _ _
    | exact htw.1 _ _
    | exact htw.2.1 _
    | exact htw.2.2.1 _
    | exact htw.2.2.2.1 _
    | exact htw.2.2.2.2 _ _ _
    | refine Eval.keeps_bind ?_ (fun _ => ?_)
    | split
    | simp only [])

theorem frame_view_eq {s s1 : tree_evaluator} (h : frame_view s1 = frame_view s) :
    s1.m_call_stack.callers = s.m_call_stack.callers
    ∧ s1.m_call_stack.callees = s.m_call_stack.callees
    ∧ s1.m_indexed_object = s.m_indexed_object
    ∧ s1.m_index_position = s.m_index_position
    ∧ s1.m_num_indices = s.m_num_indices := by
  simpa [frame_view] using h

theorem step_callers {s s1 : tree_evaluator} (h : Step s s1) :
    s1.m_call_stack.callers = s.m_call_stack.callers := (frame_view_eq h.1).1

theorem step_args_of_step {s s1 : tree_evaluator} (h : Step s s1) : StepArgs s s1 :=
  ⟨(frame_view_eq h.1).1, (frame_view_eq h.1).2.1, (frame_view_eq h.1).2.2.1, h.2⟩

theorem step_args_trans {a b c : tree_evaluator} (h1 : StepArgs a b) (h2 : StepArgs b c) :
    StepArgs a c :=
  ⟨h2.1.trans h1.1, h2.2.1.trans h1.2.1, h2.2.2.1.trans h1.2.2.1, fun h => h2.2.2.2 (h1.2.2.2 h)⟩

theorem Eval.rel_bind {α β : Type} {Q : tree_evaluator → tree_evaluator → Prop}
    (htrans : ∀ a b c, Q a b → Q b c → Q a c)
    {m : Eval α} {f : α → Eval β}
    (hm : Eval.Rel Q m) (hf : ∀ a, Eval.Rel Q (f a)) : Eval.Rel Q (m >>= f) := by
  intro s o s1 h ho
  rw [Eval.bind_apply] at h
  unfold Eval.seq at h
  split at h
  · simp at h
  · next a s2 heq => exact htrans _ _ _ (hm s _ s2 heq (by simp)) (hf a s2 o s1 h ho)
  · next e s2 heq =>
      simp at h
      rw [← h.2]; exact hm s _ s2 heq (by simp)
  · next s2 heq =>
      simp at h
      exact absurd h.1.symm ho

theorem rel_step_args_of_keeps {α : Type} {m : Eval α} (h : Eval.Keeps m) :
    Eval.Rel StepArgs m :=
  fun s o s1 hm ho => step_args_of_step (h s o s1 hm ho)

theorem rel_convert_to_const_vector_loop {tw : tree_walker} (htw : WalkerKeeps tw)
    (stash : Bool) (len : Nat) (args : List tree_expression) :
    ∀ k, Eval.Rel StepArgs (convert_to_const_vector_loop tw stash len k args) := by
  induction args with
  | nil =>
    intro k
    exact rel_step_args_of_keeps (Eval.keeps_pure _)
  | cons elt rest ih =>
    intro k
    unfold convert_to_const_vector_loop
    refine Eval.rel_bind (Q := StepArgs) (fun _ _ _ h1 h2 => step_args_trans h1 h2) ?_ (fun _ => ?_)
    · split
      · intro s o s1 h _
        simp at h
        rw [← h.2]
        exact ⟨rfl, rfl, rfl, fun h => h⟩
      · exact rel_step_args_of_keeps (Eval.keeps_pure _)
    · refine Eval.rel_bind (Q := StepArgs) (fun _ _ _ h1 h2 => step_args_trans h1 h2)
        (rel_step_args_of_keeps (keeps_evaluate htw _ _)) (fun _ => ?_)
      refine Eval.rel_bind (Q := StepArgs) (fun _ _ _ h1 h2 => step_args_trans h1 h2) (ih _) (fun _ => ?_)
      exact rel_step_args_of_keeps (Eval.keeps_pure _)

theorem keeps_convert_to_const_vector_loop {tw : tree_walker} (htw : WalkerKeeps tw)
    (len : Nat) (args : List tree_expression) :
    ∀ k, Eval.Keeps (convert_to_const_vector_loop tw false len k args) := by
  induction args with
  | nil =>
    intro k
    exact Eval.keeps_pure _
  | cons elt rest ih =>
    intro k
    unfold convert_to_const_vector_loop
    refine Eval.keeps_bind (Eval.keeps_pure _) (fun _ => ?_)
    refine Eval.keeps_bind (keeps_evaluate htw _ _) (fun _ => ?_)
    exact Eval.keeps_bind (ih _) (fun _ => Eval.keeps_pure _)

theorem keeps_convert_to_const_vector {tw : tree_walker} (htw : WalkerKeeps tw)
    (args : List tree_expression) (object : Option octave_value) :
    Eval.Keeps (convert_to_const_vector tw args object) := by
  unfold convert_to_const_vector
  cases hst : stash_object args object with
  | false =>
    refine Eval.keeps_unwind_protect (fun s0 s1 h => ?_) ?_
    · simpa [restore_indexed_object] using h
    · exact Eval.keeps_bind (Eval.keeps_pure _)
        (fun _ => keeps_convert_to_const_vector_loop htw _ _ _)
  | true =>
    have hlen : 0 < args.length := by
      cases args with
      | nil => simp [stash_object, includes_magic_end, has_magic_end_list] at hst
      | cons _ _ => simp
    have hbody : Eval.Rel
        (fun s s1 => s1.m_call_stack.callers = s.m_call_stack.callers
          ∧ s1.m_call_stack.callees = s.m_call_stack.callees ∧ (flags_ok s → flags_ok s1))
        (do
          let _u ← (if true = true
                   then Eval.modify (fun s => { s with m_indexed_object := object })
                   else pure ())
          convert_to_const_vector_loop tw true args.length 0 args) := by
      refine Eval.rel_bind
        (fun a b c h1 h2 => ⟨h2.1.trans h1.1, h2.2.1.trans h1.2.1, fun h => h2.2.2 (h1.2.2 h)⟩)
        ?_ (fun _ => ?_)
      · intro s o s1 h _
        simp at h
        rw [← h.2]
        exact ⟨rfl, rfl, fun h => h⟩
      · intro s o s1 h ho
        have := rel_convert_to_const_vector_loop htw true args.length args 0 s o s1 h ho
        exact ⟨this.1, this.2.1, this.2.2.2⟩
    intro s o s1 h ho
    unfold Eval.unwind_protect at h
    split at h
    · simp at h
    · next a s2 heq =>
      simp at h
      have hb := hbody s _ s2 heq (by simp)
      rw [← h.2]
      refine ⟨?_, fun hf => ?_⟩
      · simp [restore_indexed_object, hlen, frame_view, hb.1, hb.2.1]
      · simpa [restore_indexed_object, hlen, flags_ok] using hb.2.2 hf
    · next e s2 heq =>
      simp at h
      have hb := hbody s _ s2 heq (by simp)
      rw [← h.2]
      refine ⟨?_, fun hf => ?_⟩
      · simp [restore_indexed_object, hlen, frame_view, hb.1, hb.2.1]
      · simpa [restore_indexed_object, hlen, flags_ok] using hb.2.2 hf
    · simp at h
      exact absurd h.1.symm ho

theorem keeps_make_value_list {tw : tree_walker} (htw : WalkerKeeps tw)
    (args : List tree_expression) (object : Option octave_value) (rvalue : Bool) :
    Eval.Keeps (make_value_list tw args object rvalue) := by
  unfold make_value_list
  split
  · exact keeps_error _
  · exact keeps_convert_to_const_vector htw _ _

theorem keeps_Fend : Eval.Keeps Fend := by
  unfold Fend
  refine Eval.keeps_bind Eval.keeps_get (fun s => ?_)
  split
  · exact Eval.keeps_pure _
  · split
    · exact Eval.keeps_panic_impossible
    · exact Eval.keeps_pure _

theorem keeps_subsref {tw : tree_walker} (htw : WalkerKeeps tw) (v : octave_value)
    (idx : List octave_value) (nargout : Int) : Eval.Keeps (subsref tw v idx nargout) := by
  unfold subsref
  repeat' (first
    | assumption
    | exact Eval.keeps_pure _
    | exact Eval.keeps_get
    | exact Eval.keeps_throw _
    | exact Eval.keeps_panic_impossible
    | exact keeps_error _
    | exact keeps_error_with_id _ _
    | exact keeps_assign _ _
    | exact keeps_octave_quit
    | exact keeps_recover_from_exception
    | exact keeps_is_true _
    | exact keeps_evaluate htw _ _
    | exact keeps_evaluate_n htw _ _
    | exact htw.1 _ _
    | exact htw.2.1 _
    | exact htw.2.2.1 _
    | exact htw.2.2.2.1 _
    | exact htw.2.2.2.2 _ _ _
    | refine Eval.keeps_bind ?_ (fun _ => ?_)
    | split
    | simp only [])

theorem keeps_visit_index_expression {tw : tree_walker} (htw : WalkerKeeps tw)
    (expr : tree_expression) (args : List tree_expression) (nargout : Int) :
    Eval.Keeps (visit_index_expression tw expr args nargout) := by
  unfold visit_index_expression
  repeat' (first
    | exact keeps_convert_to_const_vector htw _ _
    | exact keeps_make_value_list htw _ _ _
    | exact keeps_subsref htw _ _ _
    | exact Eval.keeps_pure _
    | exact Eval.keeps_get
    | exact keeps_evaluate htw _ _
    | exact htw.2.2.2.2 _ _ _
    | refine Eval.keeps_bind ?_ (fun _ => ?_)
    | split
    | simp only [])

theorem keeps_visit_anon_fcn_handle (pl : Option tree_parameter_list)
    (expr : Option tree_expression) : Eval.Keeps (visit_anon_fcn_handle pl expr) := by
  unfold visit_anon_fcn_handle
  exact Eval.keeps_bind Eval.keeps_get (fun _ => Eval.keeps_pure _)

theorem keeps_visit_simple_assignment {tw : tree_walker} (htw : WalkerKeeps tw)
    (lhs : String) (rhs : Option tree_expression) :
    Eval.Keeps (visit_simple_assignment tw lhs rhs) := by
  unfold visit_simple_assignment
  repeat' (first
    | assumption
    | exact Eval.keeps_pure _
    | exact Eval.keeps_get
    | exact Eval.keeps_throw _
    | exact Eval.keeps_panic_impossible
    | exact keeps_error _
    | exact keeps_error_with_id _ _
    | exact keeps_assign _ _
    | exact keeps_octave_quit
    | exact keeps_recover_from_exception
    | exact keeps_is_true _
    | exact keeps_evaluate htw _ _
    | exact keeps_evaluate_n htw _ _
    | exact htw.1 _ _
    | exact htw.2.1 _
    | exact htw.2.2.1 _
    | exact htw.2.2.2.1 _
    | exact htw.2.2.2.2 _ _ _
    | refine Eval.keeps_bind ?_ (fun _ => ?_)
    | split
    | simp only [])

theorem keeps_lvalue_define (ult : octave_lvalue) (v : octave_value) :
    Eval.Keeps (ult.define v) :=
  keeps_assign _ _

theorem keeps_lvalue_numel (ult : octave_lvalue) : Eval.Keeps ult.numel := by
  unfold octave_lvalue.numel
  have htw : True := trivial
  repeat' (first
    | assumption
    | exact Eval.keeps_pure _
    | exact Eval.keeps_get
    | exact Eval.keeps_throw _
    | exact Eval.keeps_panic_impossible
    | exact keeps_error _
    | exact keeps_error_with_id _ _
    | exact keeps_assign _ _
    | exact keeps_octave_quit
    | exact keeps_recover_from_exception
    | exact keeps_is_true _
    | exact keeps_evaluate htw _ _
    | exact keeps_evaluate_n htw _ _
    | exact htw.1 _ _
    | exact htw.2.1 _
    | exact htw.2.2.1 _
    | exact htw.2.2.2.1 _
    | exact htw.2.2.2.2 _ _ _
    | refine Eval.keeps_bind ?_ (fun _ => ?_)
    | split
    | simp only [])

theorem keeps_lvalue_assign (ult : octave_lvalue) (rhs : octave_value) :
    Eval.Keeps (ult.assign rhs) := by
  unfold octave_lvalue.assign
  have htw : True := trivial
  repeat' (first
    | assumption
    | exact Eval.keeps_pure _
    | exact Eval.keeps_get
    | exact Eval.keeps_throw _
    | exact Eval.keeps_panic_impossible
    | exact keeps_error _
    | exact keeps_error_with_id _ _
    | exact keeps_assign _ _
    | exact keeps_octave_quit
    | exact keeps_recover_from_exception
    | exact keeps_is_true _
    | exact keeps_evaluate htw _ _
    | exact keeps_evaluate_n htw _ _
    | exact htw.1 _ _
    | exact htw.2.1 _
    | exact htw.2.2.1 _
    | exact htw.2.2.2.1 _
    | exact htw.2.2.2.2 _ _ _
    | refine Eval.keeps_bind ?_ (fun _ => ?_)
    | split
    | simp only [])

theorem keeps_visit_index_expression_brace {tw : tree_walker} (htw : WalkerKeeps tw)
    (expr : tree_expression) (args : List tree_expression) :
    Eval.Keeps (visit_index_expression_brace tw expr args) := by
  unfold visit_index_expression_brace
  repeat' (first
    | exact keeps_convert_to_const_vector htw _ _
    | exact keeps_make_value_list htw _ _ _
    | assumption
    | exact Eval.keeps_pure _
    | exact Eval.keeps_get
    | exact Eval.keeps_throw _
    | exact Eval.keeps_panic_impossible
    | exact keeps_error _
    | exact keeps_error_with_id _ _
    | exact keeps_assign _ _
    | exact keeps_octave_quit
    | exact keeps_recover_from_exception
    | exact keeps_is_true _
    | exact keeps_evaluate htw _ _
    | exact keeps_evaluate_n htw _ _
    | exact htw.1 _ _
    | exact htw.2.1 _
    | exact htw.2.2.1 _
    | exact htw.2.2.2.1 _
    | exact htw.2.2.2.2 _ _ _
    | refine Eval.keeps_bind ?_ (fun _ => ?_)
    | split
    | simp only [])

theorem keeps_tree_expression_lvalue {tw : tree_walker} (htw : WalkerKeeps tw)
    (expr : tree_expression) : Eval.Keeps (tree_expression_lvalue tw expr) := by
  unfold tree_expression_lvalue
  repeat' (first
    | exact keeps_convert_to_const_vector htw _ _
    | exact keeps_make_value_list htw _ _ _
    | assumption
    | exact Eval.keeps_pure _
    | exact Eval.keeps_get
    | exact Eval.keeps_throw _
    | exact Eval.keeps_panic_impossible
    | exact keeps_error _
    | exact keeps_error_with_id _ _
    | exact keeps_assign _ _
    | exact keeps_octave_quit
    | exact keeps_recover_from_exception
    | exact keeps_is_true _
    | exact keeps_evaluate htw _ _
    | exact keeps_evaluate_n htw _ _
    | exact htw.1 _ _
    | exact htw.2.1 _
    | exact htw.2.2.1 _
    | exact htw.2.2.2.1 _
    | exact htw.2.2.2.2 _ _ _
    | refine Eval.keeps_bind ?_ (fun _ => ?_)
    | split
    | simp only [])

theorem keeps_make_lvalue_list {tw : tree_walker} (htw : WalkerKeeps tw)
    (lhs : List tree_expression) : Eval.Keeps (make_lvalue_list tw lhs) := by
  induction lhs with
  | nil => exact Eval.keeps_pure _
  | cons elt rest ih =>
    unfold make_lvalue_list
    repeat' (first
      | exact keeps_tree_expression_lvalue htw _
      | assumption
      | exact Eval.keeps_pure _
      | exact Eval.keeps_get
      | exact Eval.keeps_throw _
      | exact Eval.keeps_panic_impossible
      | exact keeps_error _
      | exact keeps_error_with_id _ _
      | exact keeps_assign _ _
      | exact keeps_octave_quit
      | exact keeps_recover_from_exception
      | exact keeps_is_true _
      | exact keeps_evaluate htw _ _
      | exact keeps_evaluate_n htw _ _
      | exact htw.1 _ _
      | exact htw.2.1 _
      | exact htw.2.2.1 _
      | exact htw.2.2.2.1 _
      | exact htw.2.2.2.2 _ _ _
      | refine Eval.keeps_bind ?_ (fun _ => ?_)
      | split
      | simp only [])

theorem keeps_count_outputs (lvalue_list : List octave_lvalue) (n_out : Nat) :
    Eval.Keeps (count_outputs lvalue_list n_out) := by
  induction lvalue_list generalizing n_out with
  | nil => exact Eval.keeps_pure _
  | cons lval rest ih =>
    unfold count_outputs
    exact Eval.keeps_bind (keeps_lvalue_numel _) (fun _ => ih _)

theorem keeps_multi_assignment_loop (size : Nat) (rhs_val : List octave_value)
    (lvalue_list : List octave_lvalue) (k : Nat) (retval_list : List octave_value) :
    Eval.Keeps (multi_assignment_loop size rhs_val lvalue_list k retval_list) := by
  induction lvalue_list generalizing k retval_list with
  | nil => exact Eval.keeps_pure _
  | cons ult rest ih =>
    unfold multi_assignment_loop
    have htw : True := trivial
    repeat' (first
      | exact keeps_lvalue_numel _
      | exact keeps_lvalue_assign _ _
      | exact keeps_lvalue_define _ _
      | exact ih _ _
      | assumption
      | exact Eval.keeps_pure _
      | exact Eval.keeps_get
      | exact Eval.keeps_throw _
      | exact Eval.keeps_panic_impossible
      | exact keeps_error _
      | exact keeps_error_with_id _ _
      | exact keeps_assign _ _
      | exact keeps_octave_quit
      | exact keeps_recover_from_exception
      | exact keeps_is_true _
      | exact keeps_evaluate htw _ _
      | exact keeps_evaluate_n htw _ _
      | exact htw.1 _ _
      | exact htw.2.1 _
      | exact htw.2.2.1 _
      | exact htw.2.2.2.1 _
      | exact htw.2.2.2.2 _ _ _
      | refine Eval.keeps_bind ?_ (fun _ => ?_)
      | split
      | simp only [])

theorem keeps_visit_multi_assignment {tw : tree_walker} (htw : WalkerKeeps tw)
    (lhs : List tree_expression) (rhs : Option tree_expression) :
    Eval.Keeps (visit_multi_assignment tw lhs rhs) := by
  unfold visit_multi_assignment
  repeat' (first
    | exact keeps_make_lvalue_list htw _
    | exact keeps_count_outputs _ _
    | exact keeps_multi_assignment_loop _ _ _ _ _
    | assumption
    | exact Eval.keeps_pure _
    | exact Eval.keeps_get
    | exact Eval.keeps_throw _
    | exact Eval.keeps_panic_impossible
    | exact keeps_error _
    | exact keeps_error_with_id _ _
    | exact keeps_assign _ _
    | exact keeps_octave_quit
    | exact keeps_recover_from_exception
    | exact keeps_is_true _
    | exact keeps_evaluate htw _ _
    | exact keeps_evaluate_n htw _ _
    | exact htw.1 _ _
    | exact htw.2.1 _
    | exact htw.2.2.1 _
    | exact htw.2.2.2.1 _
    | exact htw.2.2.2.2 _ _ _
    | refine Eval.keeps_bind ?_ (fun _ => ?_)
    | split
    | simp only [])

theorem keeps_tree_expression_accept {tw : tree_walker} (htw : WalkerKeeps tw)
    (expr : tree_expression) (nargout : Int) :
    Eval.Keeps (tree_expression_accept tw expr nargout) := by
  unfold tree_expression_accept
  split
  · exact keeps_visit_constant _ _
  · exact keeps_visit_identifier htw _ _
  · exact keeps_visit_identifier htw _ _
  · exact keeps_visit_binary_expression htw _ _ _ _
  · exact keeps_visit_boolean_expression htw _ _ _
  · exact keeps_visit_colon_expression htw _ _ _
  · exact keeps_visit_index_expression htw _ _ _
  · exact keeps_visit_index_expression_brace htw _ _
  · exact keeps_visit_anon_fcn_handle _ _
  · exact keeps_visit_simple_assignment htw _ _
  · exact keeps_visit_multi_assignment htw _ _

mutual

theorem keeps_bind_ans : ∀ val : octave_value, Eval.Keeps (bind_ans val)
  | octave_value.undefined => by rw [bind_ans]; exact Eval.keeps_pure _
  | octave_value.cs_list lst => by rw [bind_ans]; exact keeps_bind_ans_list lst
  | octave_value.scalar _ => by rw [bind_ans]; exact keeps_assign _ _
  | octave_value.nan => by rw [bind_ans]; exact keeps_assign _ _
  | octave_value.bool_value _ => by rw [bind_ans]; exact keeps_assign _ _
  | octave_value.str _ => by rw [bind_ans]; exact keeps_assign _ _
  | octave_value.range _ _ _ => by rw [bind_ans]; exact keeps_assign _ _
  | octave_value.matrix _ _ _ => by rw [bind_ans]; exact keeps_assign _ _
  | octave_value.cell _ => by rw [bind_ans]; exact keeps_assign _ _
  | octave_value.map _ => by rw [bind_ans]; exact keeps_assign _ _
  | octave_value.fcn_handle _ => by rw [bind_ans]; exact keeps_assign _ _
  | octave_value.magic_colon => by rw [bind_ans]; exact keeps_assign _ _

theorem keeps_bind_ans_list : ∀ lst : List octave_value, Eval.Keeps (bind_ans_list lst)
  | [] => by rw [bind_ans_list]; exact Eval.keeps_pure _
  | val :: rest => by
    rw [bind_ans_list]
    exact Eval.keeps_bind (keeps_bind_ans val) (fun _ => keeps_bind_ans_list rest)

end

theorem goto_frame_current_frame (cs : call_stack) : cs.goto_frame cs.current_frame = cs := by
  obtain ⟨current, callers, callees⟩ := cs
  have h : (callers.reverse ++ current :: callees).get? callers.length = some current := by
    rw [List.get?_eq_getElem?, List.getElem?_append_right (by simp)]
    simp
  simp only [call_stack.goto_frame, call_stack.current_frame, call_stack.frames, h]
  have h1 : List.take callers.length (callers.reverse ++ current :: callees) = callers.reverse := by
    rw [List.take_append_of_le_length (by simp)]
    exact List.take_of_length_le (by simp)
  have h2 : List.drop (callers.length + 1) (callers.reverse ++ current :: callees) = callees := by
    have : callers.reverse ++ current :: callees = (callers.reverse ++ [current]) ++ callees := by
      simp
    rw [this]
    exact List.drop_left' (by simp)
  rw [h1, h2, List.reverse_reverse]

theorem step_restore_current_frame (s0 s1 : tree_evaluator) (h : Step s0 s1) :
    Step s0 (restore_current_frame s0 s1) := by
  have hc : s0.m_call_stack.current_frame = s1.m_call_stack.current_frame := by
    simp only [call_stack.current_frame, step_callers h]
  have he : restore_current_frame s0 s1 = s1 := by
    simp only [restore_current_frame, call_stack.restore_frame, hc, goto_frame_current_frame]
  rw [he]
  exact h

theorem keeps_reset_debug_state : Eval.Keeps reset_debug_state :=
  Eval.keeps_modify (fun _ => ⟨rfl, fun h => h⟩)

theorem keeps_debug_mode (flag : Bool) : Eval.Keeps (debug_mode flag) := by
  intro s o s1 h _
  simp only [debug_mode, Option.some.injEq, Prod.mk.injEq] at h
  rw [← h.2]
  exact ⟨rfl, fun hf => hf⟩

theorem keeps_enter_debugger {repl : Eval Unit} (hrepl : Eval.Keeps repl) :
    Eval.Keeps (enter_debugger repl) := by
  unfold enter_debugger
  apply Eval.keeps_unwind_protect step_restore_current_frame
  exact Eval.keeps_bind (Eval.keeps_modify (fun _ => ⟨rfl, fun h => h⟩)) (fun _ => hrepl)

theorem keeps_do_breakpoint_requests : Eval.Keeps do_breakpoint_requests := by
  unfold do_breakpoint_requests
  refine Eval.keeps_bind Eval.keeps_get (fun s => ?_)
  repeat' (first
    | exact Eval.keeps_pure _
    | exact Eval.keeps_throw _
    | exact keeps_reset_debug_state
    | exact keeps_debug_mode _
    | exact Eval.keeps_modify (fun _ => ⟨rfl, fun h => h⟩)
    | refine Eval.keeps_bind ?_ (fun _ => ?_)
    | split
    | simp only [])

theorem keeps_break_on_this_statement {repl : Eval Unit} (hrepl : Eval.Keeps repl)
    (is_breakpoint is_end_of_fcn_or_script : Bool) :
    Eval.Keeps (break_on_this_statement repl is_breakpoint is_end_of_fcn_or_script) := by
  unfold break_on_this_statement
  refine Eval.keeps_bind Eval.keeps_get (fun s => ?_)
  repeat' (first
    | exact Eval.keeps_pure _
    | exact keeps_enter_debugger hrepl
    | exact Eval.keeps_modify (fun _ => ⟨rfl, fun h => h⟩)
    | refine Eval.keeps_bind ?_ (fun _ => ?_)
    | split
    | simp only [])

theorem keeps_do_breakpoint {repl : Eval Unit} (hrepl : Eval.Keeps repl)
    (is_breakpoint is_end_of_fcn_or_script : Bool) :
    Eval.Keeps (do_breakpoint repl is_breakpoint is_end_of_fcn_or_script) := by
  unfold do_breakpoint
  repeat' (first
    | exact hrepl
    | exact Eval.keeps_pure _
    | exact Eval.keeps_get
    | exact keeps_error _
    | exact keeps_do_breakpoint_requests
    | exact keeps_break_on_this_statement hrepl _ _
    | exact Eval.keeps_modify (fun _ => ⟨rfl, fun h => h⟩)
    | refine Eval.keeps_bind ?_ (fun _ => ?_)
    | split
    | simp only [])

theorem keeps_do_breakpoint_in_debug_mode {tw : tree_walker} (hrepl : Eval.Keeps tw.repl)
    (t : tree) : Eval.Keeps (do_breakpoint_in_debug_mode tw t) := by
  unfold do_breakpoint_in_debug_mode
  refine Eval.keeps_bind Eval.keeps_get (fun s => ?_)
  split
  · exact keeps_do_breakpoint hrepl _ _
  · exact Eval.keeps_pure _

theorem keeps_on_top_debugger {α : Type} (f : debugger → α × debugger) :
    Eval.Keeps (on_top_debugger f) := by
  intro s o s1 h ho
  unfold on_top_debugger at h
  split at h
  · simp only [Option.some.injEq, Prod.mk.injEq] at h
    exact absurd h.1.symm ho
  · simp only [Option.some.injEq, Prod.mk.injEq] at h
    rw [← h.2]
    exact ⟨rfl, fun hf => hf⟩

theorem keeps_exit_debug_repl_bool (flag : Bool) : Eval.Keeps (exit_debug_repl_bool flag) := by
  unfold exit_debug_repl_bool
  repeat' (first
    | exact Eval.keeps_pure _
    | exact Eval.keeps_get
    | exact keeps_error _
    | exact keeps_on_top_debugger _
    | refine Eval.keeps_bind ?_ (fun _ => ?_)
    | split
    | simp only [])

theorem keeps_visit_statement {tw : tree_walker} (htw : WalkerKeeps tw)
    (hrepl : Eval.Keeps tw.repl)
    (stmt : tree_statement) : Eval.Keeps (visit_statement tw stmt) := by
  unfold visit_statement
  split
  split
  · exact Eval.keeps_pure _
  · apply Eval.keeps_try_catch
    · repeat' (first
        | exact keeps_do_breakpoint_in_debug_mode hrepl _
        | exact keeps_bind_ans _
        | exact Eval.keeps_pure _
        | exact Eval.keeps_get
        | exact keeps_evaluate htw _ _
        | exact htw.2.2.1 _
        | refine Eval.keeps_bind ?_ (fun _ => ?_)
        | split
        | simp only [])
    · intro e h he
      split at he
      · simp at he
        rw [← he]
        repeat' (first
          | exact Eval.keeps_pure _
          | exact Eval.keeps_get
          | exact Eval.keeps_throw _
          | exact keeps_recover_from_exception
          | refine Eval.keeps_bind ?_ (fun _ => ?_)
          | split)
      · simp at he

theorem keeps_visit_statement_list_loop {tw : tree_walker} (htw : WalkerKeeps tw)
    (stmts : List (Option tree_statement)) :
    Eval.Keeps (visit_statement_list_loop tw stmts) := by
  induction stmts with
  | nil => exact Eval.keeps_pure _
  | cons elt rest ih =>
    unfold visit_statement_list_loop
    repeat' (first
      | assumption
      | exact Eval.keeps_pure _
      | exact Eval.keeps_get
      | exact Eval.keeps_throw _
      | exact Eval.keeps_panic_impossible
      | exact keeps_error _
      | exact keeps_error_with_id _ _
      | exact keeps_assign _ _
      | exact keeps_octave_quit
      | exact keeps_recover_from_exception
      | exact keeps_is_true _
      | exact keeps_evaluate htw _ _
      | exact keeps_evaluate_n htw _ _
      | exact htw.1 _ _
      | exact htw.2.1 _
      | exact htw.2.2.1 _
      | exact htw.2.2.2.1 _
      | exact htw.2.2.2.2 _ _ _
      | refine Eval.keeps_bind ?_ (fun _ => ?_)
      | split
      | simp only [])

theorem keeps_visit_statement_list {tw : tree_walker} (htw : WalkerKeeps tw)
    (lst : tree_statement_list) : Eval.Keeps (visit_statement_list tw lst) := by
  unfold visit_statement_list
  split
  exact keeps_visit_statement_list_loop htw _

theorem keeps_accept_if_nonnull {tw : tree_walker} (htw : WalkerKeeps tw)
    (list : Option tree_statement_list) : Eval.Keeps (accept_if_nonnull tw list) := by
  unfold accept_if_nonnull
  repeat' (first
    | assumption
    | exact Eval.keeps_pure _
    | exact Eval.keeps_get
    | exact Eval.keeps_throw _
    | exact Eval.keeps_panic_impossible
    | exact keeps_error _
    | exact keeps_error_with_id _ _
    | exact keeps_assign _ _
    | exact keeps_octave_quit
    | exact keeps_recover_from_exception
    | exact keeps_is_true _
    | exact keeps_evaluate htw _ _
    | exact keeps_evaluate_n htw _ _
    | exact htw.1 _ _
    | exact htw.2.1 _
    | exact htw.2.2.1 _
    | exact htw.2.2.2.1 _
    | exact htw.2.2.2.2 _ _ _
    | refine Eval.keeps_bind ?_ (fun _ => ?_)
    | split
    | simp only [])

/-- The function `quit_loop_now` in closed form. -/
theorem quit_loop_now_eq (s : tree_evaluator) :
    quit_loop_now s
      = if s.octave_interrupt_state > 0
        then some (Outcome.thrown exception.interrupt_exception, s)
        else some (Outcome.value (quit_loop_now_result s), quit_loop_now_state s) := by
  by_cases hq : s.octave_interrupt_state > 0
  · simp [quit_loop_now, Eval.bind_apply, Eval.seq, octave_quit, hq]
  · by_cases hc : s.m_continuing = 0 <;> by_cases hb : s.m_breaking = 0 <;>
      simp [quit_loop_now, Eval.bind_apply, Eval.seq, octave_quit, hq, hc, hb,
        quit_loop_now_result, quit_loop_now_state, consume_continue]

theorem step_quit_loop_now_state (s : tree_evaluator) : Step s (quit_loop_now_state s) := by
  refine ⟨?_, ?_⟩
  · unfold quit_loop_now_state consume_continue
    split <;> split <;> rfl
  · intro h
    unfold flags_ok at *
    unfold quit_loop_now_state consume_continue
    split <;> split <;> simp_all <;> omega

theorem keeps_quit_loop_now : Eval.Keeps quit_loop_now := by
  intro s o s1 h _
  rw [quit_loop_now_eq] at h
  split at h
  · simp at h
    rw [← h.2]; exact step_refl s
  · simp at h
    rw [← h.2]; exact step_quit_loop_now_state s

theorem flags_ok_of_eq {s s1 : tree_evaluator} (hb : s1.m_breaking = s.m_breaking)
    (hc : s1.m_continuing = s.m_continuing) (h : flags_ok s) : flags_ok s1 := by
  unfold flags_ok at *
  rw [hb, hc]; exact h

theorem keeps_visit_break_command {tw : tree_walker} (hrepl : Eval.Keeps tw.repl) :
    Eval.Keeps (visit_break_command tw) := by
  unfold visit_break_command
  refine Eval.keeps_bind (keeps_do_breakpoint_in_debug_mode hrepl _) (fun _ => ?_)
  refine Eval.keeps_bind Eval.keeps_get (fun s => ?_)
  split
  · refine Eval.keeps_modify (fun s => ⟨rfl, fun h => ?_⟩)
    unfold flags_ok at *
    simp only
    omega
  · exact keeps_error _

theorem keeps_visit_continue_command {tw : tree_walker} (hrepl : Eval.Keeps tw.repl) :
    Eval.Keeps (visit_continue_command tw) := by
  unfold visit_continue_command
  refine Eval.keeps_bind (keeps_do_breakpoint_in_debug_mode hrepl _) (fun _ => ?_)
  refine Eval.keeps_bind Eval.keeps_get (fun s => ?_)
  split
  · refine Eval.keeps_modify (fun s => ⟨rfl, fun h => ?_⟩)
    unfold flags_ok at *
    simp only
    omega
  · exact Eval.keeps_pure _

theorem keeps_visit_return_command {tw : tree_walker} (hrepl : Eval.Keeps tw.repl) :
    Eval.Keeps (visit_return_command tw) := by
  unfold visit_return_command
  refine Eval.keeps_bind (keeps_do_breakpoint_in_debug_mode hrepl _) (fun _ => ?_)
  refine Eval.keeps_bind Eval.keeps_get (fun s => ?_)
  repeat' (first
    | exact Eval.keeps_pure _
    | exact keeps_exit_debug_repl_bool _
    | exact Eval.keeps_modify (fun _ => ⟨rfl, fun h => h⟩)
    | refine Eval.keeps_bind ?_ (fun _ => ?_)
    | split
    | simp only [])

theorem keeps_visit_no_op_command {tw : tree_walker} (hrepl : Eval.Keeps tw.repl)
    (is_end_of_fcn_or_script : Bool) :
    Eval.Keeps (visit_no_op_command tw is_end_of_fcn_or_script) := by
  unfold visit_no_op_command
  refine Eval.keeps_bind Eval.keeps_get (fun s => ?_)
  split
  · exact keeps_do_breakpoint hrepl _ _
  · exact Eval.keeps_pure _

theorem keeps_is_logically_true {tw : tree_walker} (htw : WalkerKeeps tw)
    (expr : tree_expression) (warn_for : String) :
    Eval.Keeps (is_logically_true tw expr warn_for) := by
  unfold is_logically_true
  repeat' (first
    | assumption
    | exact Eval.keeps_pure _
    | exact Eval.keeps_get
    | exact Eval.keeps_throw _
    | exact Eval.keeps_panic_impossible
    | exact keeps_error _
    | exact keeps_error_with_id _ _
    | exact keeps_assign _ _
    | exact keeps_octave_quit
    | exact keeps_recover_from_exception
    | exact keeps_is_true _
    | exact keeps_evaluate htw _ _
    | exact keeps_evaluate_n htw _ _
    | exact htw.1 _ _
    | exact htw.2.1 _
    | exact htw.2.2.1 _
    | exact htw.2.2.2.1 _
    | exact htw.2.2.2.2 _ _ _
    | refine Eval.keeps_bind ?_ (fun _ => ?_)
    | split
    | simp only [])

theorem keeps_visit_if_command_list {tw : tree_walker} (htw : WalkerKeeps tw)
    (hrepl : Eval.Keeps tw.repl)
    (lst : List tree_if_clause) : Eval.Keeps (visit_if_command_list tw lst) := by
  induction lst with
  | nil => exact Eval.keeps_pure _
  | cons clause rest ih =>
    obtain ⟨expr, commands⟩ := clause
    unfold visit_if_command_list
    repeat' (first
      | exact keeps_do_breakpoint_in_debug_mode hrepl _
      | assumption
      | exact Eval.keeps_pure _
      | exact keeps_is_logically_true htw _ _
      | exact keeps_accept_if_nonnull htw _
      | refine Eval.keeps_bind ?_ (fun _ => ?_)
      | split
      | simp only [])

theorem keeps_visit_if_command {tw : tree_walker} (htw : WalkerKeeps tw)
    (hrepl : Eval.Keeps tw.repl)
    (lst : Option (List tree_if_clause)) : Eval.Keeps (visit_if_command tw lst) := by
  unfold visit_if_command
  split
  · exact keeps_visit_if_command_list htw hrepl _
  · exact Eval.keeps_pure _

theorem step_restore_in_loop_command (s0 s1 : tree_evaluator) (h : Step s0 s1) :
    Step s0 (restore_in_loop_command s0 s1) := ⟨h.1, fun hf => h.2 hf⟩

theorem step_restore_in_try_catch (s0 s1 : tree_evaluator) (h : Step s0 s1) :
    Step s0 (restore_in_try_catch s0 s1) := ⟨h.1, fun hf => h.2 hf⟩

theorem keeps_simple_for_loop {tw : tree_walker} (htw : WalkerKeeps tw) (ult : String)
    (loop_body : Option tree_statement_list) (val : Nat → octave_value) (steps : Nat) :
    ∀ i, Eval.Keeps (simple_for_loop tw ult loop_body val i steps) := by
  induction steps with
  | zero => intro i; exact Eval.keeps_pure _
  | succ k ih =>
    intro i
    unfold simple_for_loop
    repeat' (first
      | exact ih _
      | exact Eval.keeps_pure _
      | exact keeps_assign _ _
      | exact keeps_quit_loop_now
      | exact keeps_accept_if_nonnull htw _
      | refine Eval.keeps_bind ?_ (fun _ => ?_)
      | split
      | simp only [])

theorem keeps_set_in_loop_command :
    Eval.Keeps (Eval.modify (fun s => { s with m_in_loop_command := true })) :=
  Eval.keeps_modify (fun _ => ⟨rfl, fun h => h⟩)

theorem keeps_visit_simple_for_command {tw : tree_walker} (htw : WalkerKeeps tw)
    (hrepl : Eval.Keeps tw.repl)
    (lhs : String) (expr : tree_expression) (loop_body : Option tree_statement_list) :
    Eval.Keeps (visit_simple_for_command tw lhs expr loop_body) := by
  unfold visit_simple_for_command
  refine Eval.keeps_bind (keeps_do_breakpoint_in_debug_mode hrepl _) (fun _ => ?_)
  apply Eval.keeps_unwind_protect step_restore_in_loop_command
  repeat' (first
    | exact keeps_do_breakpoint_in_debug_mode hrepl _
    | exact keeps_simple_for_loop htw _ _ _ _ _
    | exact keeps_set_in_loop_command
    | exact Eval.keeps_pure _
    | exact keeps_error _
    | exact keeps_assign _ _
    | exact keeps_quit_loop_now
    | exact keeps_evaluate htw _ _
    | exact keeps_accept_if_nonnull htw _
    | refine Eval.keeps_bind ?_ (fun _ => ?_)
    | split
    | simp only [])

theorem keeps_complex_for_loop {tw : tree_walker} (htw : WalkerKeeps tw)
    (val_ref key_ref : String) (loop_body : Option tree_statement_list)
    (fields : List (String × octave_value)) :
    Eval.Keeps (complex_for_loop tw val_ref key_ref loop_body fields) := by
  induction fields with
  | nil => exact Eval.keeps_pure _
  | cons p rest ih =>
    obtain ⟨key, val⟩ := p
    unfold complex_for_loop
    repeat' (first
      | assumption
      | exact Eval.keeps_pure _
      | exact keeps_assign _ _
      | exact keeps_quit_loop_now
      | exact keeps_accept_if_nonnull htw _
      | refine Eval.keeps_bind ?_ (fun _ => ?_)
      | split
      | simp only [])

theorem keeps_visit_complex_for_command {tw : tree_walker} (htw : WalkerKeeps tw)
    (hrepl : Eval.Keeps tw.repl)
    (val_ref key_ref : String) (expr : tree_expression)
    (loop_body : Option tree_statement_list) :
    Eval.Keeps (visit_complex_for_command tw val_ref key_ref expr loop_body) := by
  unfold visit_complex_for_command
  refine Eval.keeps_bind (keeps_do_breakpoint_in_debug_mode hrepl _) (fun _ => ?_)
  apply Eval.keeps_unwind_protect step_restore_in_loop_command
  repeat' (first
    | exact keeps_do_breakpoint_in_debug_mode hrepl _
    | exact keeps_complex_for_loop htw _ _ _ _
    | exact keeps_set_in_loop_command
    | exact Eval.keeps_pure _
    | exact keeps_error _
    | exact keeps_evaluate htw _ _
    | refine Eval.keeps_bind ?_ (fun _ => ?_)
    | split
    | simp only [])

theorem keeps_while_loop {tw : tree_walker} (htw : WalkerKeeps tw)
    (hrepl : Eval.Keeps tw.repl) (expr : tree_expression)
    (loop_body : Option tree_statement_list) (budget : Nat) :
    Eval.Keeps (while_loop tw expr loop_body budget) := by
  induction budget with
  | zero => exact Eval.keeps_none
  | succ k ih =>
    unfold while_loop
    repeat' (first
      | exact keeps_do_breakpoint_in_debug_mode hrepl _
      | assumption
      | exact Eval.keeps_pure _
      | exact keeps_is_logically_true htw _ _
      | exact keeps_quit_loop_now
      | exact keeps_accept_if_nonnull htw _
      | refine Eval.keeps_bind ?_ (fun _ => ?_)
      | split
      | simp only [])

theorem keeps_visit_while_command {tw : tree_walker} (htw : WalkerKeeps tw)
    (hrepl : Eval.Keeps tw.repl) (budget : Nat)
    (expr : Option tree_expression) (loop_body : Option tree_statement_list) :
    Eval.Keeps (visit_while_command budget tw expr loop_body) := by
  unfold visit_while_command
  apply Eval.keeps_unwind_protect step_restore_in_loop_command
  refine Eval.keeps_bind keeps_set_in_loop_command (fun _ => ?_)
  split
  · exact Eval.keeps_panic_impossible
  · exact keeps_while_loop htw hrepl _ _ _

theorem keeps_do_until_loop {tw : tree_walker} (htw : WalkerKeeps tw)
    (hrepl : Eval.Keeps tw.repl) (expr : tree_expression)
    (loop_body : Option tree_statement_list) (budget : Nat) :
    Eval.Keeps (do_until_loop tw expr loop_body budget) := by
  induction budget with
  | zero => exact Eval.keeps_none
  | succ k ih =>
    unfold do_until_loop
    repeat' (first
      | exact keeps_do_breakpoint_in_debug_mode hrepl _
      | assumption
      | exact Eval.keeps_pure _
      | exact keeps_is_logically_true htw _ _
      | exact keeps_quit_loop_now
      | exact keeps_accept_if_nonnull htw _
      | refine Eval.keeps_bind ?_ (fun _ => ?_)
      | split
      | simp only [])

theorem keeps_visit_do_until_command {tw : tree_walker} (htw : WalkerKeeps tw)
    (hrepl : Eval.Keeps tw.repl) (budget : Nat)
    (loop_body : Option tree_statement_list) (expr : Option tree_expression) :
    Eval.Keeps (visit_do_until_command budget tw loop_body expr) := by
  unfold visit_do_until_command
  apply Eval.keeps_unwind_protect step_restore_in_loop_command
  refine Eval.keeps_bind keeps_set_in_loop_command (fun _ => ?_)
  split
  · exact Eval.keeps_panic_impossible
  · exact keeps_do_until_loop htw hrepl _ _ _

theorem keeps_switch_case_label_matches {tw : tree_walker} (htw : WalkerKeeps tw)
    (label : tree_expression) (val : octave_value) :
    Eval.Keeps (switch_case_label_matches tw label val) := by
  unfold switch_case_label_matches
  repeat' (first
    | assumption
    | exact Eval.keeps_pure _
    | exact Eval.keeps_get
    | exact Eval.keeps_throw _
    | exact Eval.keeps_panic_impossible
    | exact keeps_error _
    | exact keeps_error_with_id _ _
    | exact keeps_assign _ _
    | exact keeps_octave_quit
    | exact keeps_recover_from_exception
    | exact keeps_is_true _
    | exact keeps_evaluate htw _ _
    | exact keeps_evaluate_n htw _ _
    | exact htw.1 _ _
    | exact htw.2.1 _
    | exact htw.2.2.1 _
    | exact htw.2.2.2.1 _
    | exact htw.2.2.2.2 _ _ _
    | refine Eval.keeps_bind ?_ (fun _ => ?_)
    | split
    | simp only [])

theorem keeps_switch_case_loop {tw : tree_walker} (htw : WalkerKeeps tw) (val : octave_value)
    (lst : List tree_switch_case) : Eval.Keeps (switch_case_loop tw val lst) := by
  induction lst with
  | nil => exact Eval.keeps_pure _
  | cons c rest ih =>
    obtain ⟨label, commands⟩ := c
    unfold switch_case_loop
    repeat' (first
      | assumption
      | exact Eval.keeps_pure _
      | exact keeps_switch_case_label_matches htw _ _
      | exact keeps_accept_if_nonnull htw _
      | refine Eval.keeps_bind ?_ (fun _ => ?_)
      | split
      | simp only [])

theorem keeps_visit_switch_command {tw : tree_walker} (htw : WalkerKeeps tw)
    (hrepl : Eval.Keeps tw.repl)
    (expr : Option tree_expression) (lst : Option (List tree_switch_case)) :
    Eval.Keeps (visit_switch_command tw expr lst) := by
  unfold visit_switch_command
  repeat' (first
    | exact keeps_do_breakpoint_in_debug_mode hrepl _
    | exact keeps_switch_case_loop htw _ _
    | exact Eval.keeps_pure _
    | exact keeps_error _
    | exact keeps_evaluate htw _ _
    | refine Eval.keeps_bind ?_ (fun _ => ?_)
    | split
    | simp only [])

theorem keeps_visit_try_catch_command {tw : tree_walker} (htw : WalkerKeeps tw)
    (try_code : Option tree_statement_list) (expr_id : Option String)
    (catch_code : Option tree_statement_list) :
    Eval.Keeps (visit_try_catch_command tw try_code expr_id catch_code) := by
  unfold visit_try_catch_command
  refine Eval.keeps_bind ?_ (fun _ => ?_)
  · split
    · exact Eval.keeps_pure _
    · apply Eval.keeps_try_catch
      · refine Eval.keeps_bind ?_ (fun _ => Eval.keeps_pure _)
        apply Eval.keeps_unwind_protect step_restore_in_try_catch
        refine Eval.keeps_bind ?_ (fun _ => htw.2.1 _)
        exact Eval.keeps_modify (fun _ => ⟨rfl, fun h => h⟩)
      · intro e h he
        split at he
        · simp at he
          rw [← he]
          exact Eval.keeps_bind keeps_recover_from_exception (fun _ => Eval.keeps_pure _)
        · simp at he
  repeat' (first
    | assumption
    | exact Eval.keeps_pure _
    | exact Eval.keeps_get
    | exact Eval.keeps_throw _
    | exact Eval.keeps_panic_impossible
    | exact keeps_error _
    | exact keeps_error_with_id _ _
    | exact keeps_assign _ _
    | exact keeps_octave_quit
    | exact keeps_recover_from_exception
    | exact keeps_is_true _
    | exact keeps_evaluate htw _ _
    | exact keeps_evaluate_n htw _ _
    | exact htw.1 _ _
    | exact htw.2.1 _
    | exact htw.2.2.1 _
    | exact htw.2.2.2.1 _
    | exact htw.2.2.2.2 _ _ _
    | refine Eval.keeps_bind ?_ (fun _ => ?_)
    | split
    | simp only [])

theorem step_cleanup_exit (s0 s2 : tree_evaluator)
    (h : Step { s0 with octave_interrupt_state := 0, m_returning := 0, m_breaking := 0 } s2) :
    Step s0 (restore_interrupt_state s0 (discard_or_run s0 s2))
    ∧ Step s0 (restore_interrupt_state s0 (discard_or_run s0 (recover_from_exception_state s2)))
    ∧ Step s0 (restore_interrupt_state s0 (restore_breaking_returning s0 s2)) := by
  obtain ⟨hc, hf⟩ := h
  have hf2 : flags_ok s0 → flags_ok s2 := by
    intro h0
    apply hf
    unfold flags_ok at *
    simp only
    omega
  refine ⟨⟨?_, ?_⟩, ⟨?_, ?_⟩, ⟨?_, ?_⟩⟩
  · unfold restore_interrupt_state discard_or_run restore_breaking_returning
    split <;> exact hc
  · intro h0
    have h2 := hf2 h0
    unfold flags_ok at *
    unfold restore_interrupt_state discard_or_run restore_breaking_returning
    split <;> simp only <;> omega
  · unfold restore_interrupt_state discard_or_run restore_breaking_returning
      recover_from_exception_state
    split <;> exact hc
  · intro h0
    have h2 := hf2 h0
    unfold flags_ok at *
    unfold restore_interrupt_state discard_or_run restore_breaking_returning
      recover_from_exception_state
    split <;> simp only <;> omega
  · exact hc
  · intro h0
    have h2 := hf2 h0
    unfold flags_ok at *
    unfold restore_interrupt_state restore_breaking_returning
    simp only
    omega

theorem keeps_do_unwind_protect_cleanup_code {tw : tree_walker} (htw : WalkerKeeps tw)
    (list : Option tree_statement_list) :
    Eval.Keeps (do_unwind_protect_cleanup_code tw list) := by
  intro s o s1 h ho
  unfold do_unwind_protect_cleanup_code at h
  simp only at h
  split at h
  · simp at h
  · next s2 heq =>
    simp at h
    rw [← h.2]
    exact (step_cleanup_exit s s2 (keeps_accept_if_nonnull htw list _ _ _ heq (by simp))).1
  · next msg id s2 heq =>
    simp at h
    rw [← h.2]
    exact (step_cleanup_exit s s2 (keeps_accept_if_nonnull htw list _ _ _ heq (by simp))).2.1
  · next s2 heq =>
    simp at h
    rw [← h.2]
    exact (step_cleanup_exit s s2 (keeps_accept_if_nonnull htw list _ _ _ heq (by simp))).2.2
  · simp at h
    exact absurd h.1.symm ho

theorem keeps_visit_unwind_protect_command {tw : tree_walker} (htw : WalkerKeeps tw)
    (body cleanup : Option tree_statement_list) :
    Eval.Keeps (visit_unwind_protect_command tw body cleanup) := by
  unfold visit_unwind_protect_command
  split
  · exact Eval.keeps_pure _
  · refine Eval.keeps_bind ?_ (fun _ => keeps_do_unwind_protect_cleanup_code htw _)
    apply Eval.keeps_try_catch (htw.2.1 _)
    intro e h he
    split at he <;>
      (simp at he
       rw [← he]
       exact Eval.keeps_bind keeps_recover_from_exception (fun _ =>
         Eval.keeps_bind (keeps_do_unwind_protect_cleanup_code htw _) (fun _ =>
           Eval.keeps_throw _)))

theorem keeps_tree_command_accept {tw : tree_walker} (htw : WalkerKeeps tw)
    (hrepl : Eval.Keeps tw.repl) (budget : Nat)
    (cmd : tree_command) : Eval.Keeps (tree_command_accept budget tw cmd) := by
  unfold tree_command_accept
  split
  · exact keeps_visit_break_command hrepl
  · exact keeps_visit_continue_command hrepl
  · exact keeps_visit_return_command hrepl
  · exact keeps_visit_no_op_command hrepl _
  · exact keeps_visit_if_command htw hrepl _
  · exact keeps_visit_simple_for_command htw hrepl _ _ _
  · exact keeps_visit_complex_for_command htw hrepl _ _ _ _
  · exact keeps_visit_while_command htw hrepl _ _ _
  · exact keeps_visit_do_until_command htw hrepl _ _ _
  · exact keeps_visit_switch_command htw hrepl _ _
  · exact keeps_visit_try_catch_command htw _ _ _
  · exact keeps_visit_unwind_protect_command htw _ _

theorem keeps_evaluate_decl_elt {tw : tree_walker} (htw : WalkerKeeps tw)
    (elt : tree_decl_elt) : Eval.Keeps (evaluate_decl_elt tw elt) := by
  unfold evaluate_decl_elt
  repeat' (first
    | assumption
    | exact Eval.keeps_pure _
    | exact Eval.keeps_get
    | exact Eval.keeps_throw _
    | exact Eval.keeps_panic_impossible
    | exact keeps_error _
    | exact keeps_error_with_id _ _
    | exact keeps_assign _ _
    | exact keeps_octave_quit
    | exact keeps_recover_from_exception
    | exact keeps_is_true _
    | exact keeps_evaluate htw _ _
    | exact keeps_evaluate_n htw _ _
    | exact htw.1 _ _
    | exact htw.2.1 _
    | exact htw.2.2.1 _
    | exact htw.2.2.2.1 _
    | exact htw.2.2.2.2 _ _ _
    | refine Eval.keeps_bind ?_ (fun _ => ?_)
    | split
    | simp only [])

theorem keeps_eval_decl_elt {tw : tree_walker} (htw : WalkerKeeps tw)
    (elt : tree_decl_elt) : Eval.Keeps (eval_decl_elt tw elt) := by
  unfold eval_decl_elt
  repeat' (first
    | assumption
    | exact Eval.keeps_pure _
    | exact Eval.keeps_get
    | exact Eval.keeps_throw _
    | exact Eval.keeps_panic_impossible
    | exact keeps_error _
    | exact keeps_error_with_id _ _
    | exact keeps_assign _ _
    | exact keeps_octave_quit
    | exact keeps_recover_from_exception
    | exact keeps_is_true _
    | exact keeps_evaluate htw _ _
    | exact keeps_evaluate_n htw _ _
    | exact htw.1 _ _
    | exact htw.2.1 _
    | exact htw.2.2.1 _
    | exact htw.2.2.2.1 _
    | exact htw.2.2.2.2 _ _ _
    | refine Eval.keeps_bind ?_ (fun _ => ?_)
    | split
    | simp only [])

theorem keeps_define_parameter_list_loop {tw : tree_walker} (htw : WalkerKeeps tw)
    (args : List octave_value) (elts : List tree_decl_elt) :
    ∀ i, Eval.Keeps (define_parameter_list_loop tw args elts i) := by
  induction elts with
  | nil => intro i; exact Eval.keeps_pure _
  | cons elt rest ih =>
    intro i
    unfold define_parameter_list_loop
    repeat' (first
      | exact ih _
      | exact Eval.keeps_pure _
      | exact Eval.keeps_panic_impossible
      | exact keeps_error _
      | exact keeps_assign _ _
      | exact keeps_eval_decl_elt htw _
      | refine Eval.keeps_bind ?_ (fun _ => ?_)
      | split
      | simp only [])

theorem keeps_return_list_loop_defined {tw : tree_walker} (htw : WalkerKeeps tw)
    (elts : List tree_decl_elt) :
    ∀ i retval, Eval.Keeps (return_list_loop_defined tw elts i retval) := by
  induction elts with
  | nil => intro i retval; exact Eval.keeps_pure _
  | cons elt rest ih =>
    intro i retval
    unfold return_list_loop_defined
    repeat' (first
      | exact ih _ _
      | exact Eval.keeps_pure _
      | exact Eval.keeps_get
      | exact Eval.keeps_panic_impossible
      | exact keeps_evaluate_decl_elt htw _
      | refine Eval.keeps_bind ?_ (fun _ => ?_)
      | split
      | simp only [])

theorem keeps_return_list_loop_all {tw : tree_walker} (htw : WalkerKeeps tw)
    (elts : List tree_decl_elt) :
    ∀ i retval, Eval.Keeps (return_list_loop_all tw elts i retval) := by
  induction elts with
  | nil => intro i retval; exact Eval.keeps_pure _
  | cons elt rest ih =>
    intro i retval
    unfold return_list_loop_all
    exact Eval.keeps_bind (keeps_evaluate_decl_elt htw _) (fun _ => ih _ _)

theorem keeps_convert_return_list_to_const_vector {tw : tree_walker} (htw : WalkerKeeps tw)
    (ret_list : tree_parameter_list) (nargout : Int) (varargout : List octave_value) :
    Eval.Keeps (convert_return_list_to_const_vector tw ret_list nargout varargout) := by
  unfold convert_return_list_to_const_vector
  repeat' (first
    | exact keeps_return_list_loop_defined htw _ _ _
    | exact keeps_return_list_loop_all htw _ _ _
    | exact Eval.keeps_pure _
    | refine Eval.keeps_bind ?_ (fun _ => ?_)
    | split
    | simp only [])

theorem keeps_init_local_fcn_vars (l : List (String × octave_value)) :
    Eval.Keeps (init_local_fcn_vars l) := by
  induction l with
  | nil => exact Eval.keeps_pure _
  | cons p rest ih =>
    obtain ⟨nm, ov⟩ := p
    unfold init_local_fcn_vars
    exact Eval.keeps_bind (keeps_assign _ _) (fun _ => ih)

theorem keeps_bind_auto_fcn_vars (takes_varargs : Bool) (va_args : List octave_value) :
    Eval.Keeps (bind_auto_fcn_vars takes_varargs va_args) := by
  unfold bind_auto_fcn_vars
  split
  · exact keeps_assign _ _
  · exact Eval.keeps_pure _

theorem keeps_special_expr_body {tw : tree_walker} (htw : WalkerKeeps tw)
    (cmd_list : tree_statement_list) (nargout : Int) :
    Eval.Keeps (special_expr_body tw cmd_list nargout) := by
  unfold special_expr_body
  repeat' (first
    | assumption
    | exact Eval.keeps_pure _
    | exact Eval.keeps_get
    | exact Eval.keeps_throw _
    | exact Eval.keeps_panic_impossible
    | exact keeps_error _
    | exact keeps_error_with_id _ _
    | exact keeps_assign _ _
    | exact keeps_octave_quit
    | exact keeps_recover_from_exception
    | exact keeps_is_true _
    | exact keeps_evaluate htw _ _
    | exact keeps_evaluate_n htw _ _
    | exact htw.1 _ _
    | exact htw.2.1 _
    | exact htw.2.2.1 _
    | exact htw.2.2.2.1 _
    | exact htw.2.2.2.2 _ _ _
    | refine Eval.keeps_bind ?_ (fun _ => ?_)
    | split
    | simp only [])

theorem keeps_builtin_call (f : builtin_function) (args : List octave_value) :
    Eval.Keeps (builtin_call f args) := by
  unfold builtin_call
  repeat' (first
    | exact keeps_Fend
    | exact Eval.keeps_pure _
    | exact keeps_error _
    | exact keeps_octave_quit
    | exact Eval.keeps_modify (fun _ => ⟨rfl, fun h => h⟩)
    | refine Eval.keeps_bind ?_ (fun _ => ?_)
    | split
    | simp only [])

theorem keeps_call_frame {α : Type} {inner : Eval α} (hi : Eval.Keeps inner) :
    Eval.Keeps (Eval.unwind_protect restore_after_call
      (Eval.modify (fun s => { s with m_call_stack := s.m_call_stack.push })
        >>= fun _ => inner)) := by
  have key : ∀ (s s2 : tree_evaluator),
      Step { s with m_call_stack := s.m_call_stack.push } s2 →
      Step s (restore_after_call s s2) := by
    intro s s2 h
    obtain ⟨hc, hf⟩ := h
    refine ⟨?_, fun h0 => ?_⟩
    · have hc1 := frame_view_eq hc
      simp only [call_stack.push] at hc1
      simp only [frame_view, restore_after_call, call_stack.pop, hc1.1, hc1.2.1, hc1.2.2.1,
        hc1.2.2.2.1, hc1.2.2.2.2]
    · have h2 := hf h0
      unfold flags_ok at *
      simp only [restore_after_call]
      exact h2
  intro s o s1 h ho
  simp only [Eval.unwind_protect, Eval.bind_apply, Eval.seq, Eval.modify_apply] at h
  split at h
  · simp at h
  · next a s2 heq =>
    simp at h
    rw [← h.2]
    exact key s s2 (hi _ _ _ heq (by simp))
  · next e s2 heq =>
    simp at h
    rw [← h.2]
    exact key s s2 (hi _ _ _ heq (by simp))
  · simp at h
    exact absurd h.1.symm ho

theorem step_absorb_return_and_break (s : tree_evaluator) :
    Step s (absorb_return_and_break s) := by
  refine ⟨?_, ?_⟩
  · unfold absorb_return_and_break
    simp only
    split <;> split <;> rfl
  · intro h
    unfold flags_ok at *
    unfold absorb_return_and_break
    simp only
    split <;> split <;> simp_all <;> omega

theorem keeps_execute_user_script {tw : tree_walker} (htw : WalkerKeeps tw)
    (user_script : octave_user_script) (nargout : Int) (args : List octave_value) :
    Eval.Keeps (execute_user_script tw user_script nargout args) := by
  unfold execute_user_script
  split
  · exact keeps_error _
  · split
    · exact Eval.keeps_pure _
    · refine Eval.keeps_bind Eval.keeps_get (fun _ => ?_)
      split
      · exact keeps_error _
      · apply keeps_call_frame
        refine Eval.keeps_bind (Eval.keeps_modify (fun _ => ⟨rfl, fun h => h⟩)) (fun _ => ?_)
        refine Eval.keeps_bind (htw.2.1 _) (fun _ => ?_)
        refine Eval.keeps_bind (Eval.keeps_modify step_absorb_return_and_break) (fun _ => ?_)
        exact Eval.keeps_pure _

theorem keeps_execute_user_function {tw : tree_walker} (htw : WalkerKeeps tw)
    (user_function : octave_user_function) (nargout : Int) (xargs : List octave_value) :
    Eval.Keeps (execute_user_function tw user_function nargout xargs) := by
  unfold execute_user_function
  split
  split
  · exact Eval.keeps_pure _
  · split
    · exact Eval.keeps_panic_impossible
    · simp only []
      refine Eval.keeps_bind Eval.keeps_get (fun _ => ?_)
      split
      · exact keeps_error _
      · apply keeps_call_frame
        repeat' (first
          | exact Eval.keeps_pure _
          | exact Eval.keeps_get
          | exact keeps_error _
          | exact keeps_bind_auto_fcn_vars _ _
          | exact keeps_init_local_fcn_vars _
          | exact keeps_define_parameter_list_loop htw _ _ _
          | exact keeps_special_expr_body htw _ _
          | exact keeps_convert_return_list_to_const_vector htw _ _ _
          | exact Eval.keeps_modify step_absorb_return_and_break
          | exact Eval.keeps_modify (fun _ => ⟨rfl, fun h => h⟩)
          | exact htw.2.1 _
          | refine Eval.keeps_bind ?_ (fun _ => ?_)
          | split
          | unfold define_parameter_list_from_arg_vector
          | simp only [])

theorem keeps_octave_function_call {tw : tree_walker} (htw : WalkerKeeps tw)
    (fcn : octave_function) (nargout : Int) (args : List octave_value) :
    Eval.Keeps (octave_function_call tw fcn nargout args) := by
  unfold octave_function_call
  split
  · exact keeps_execute_user_function htw _ _ _
  · exact keeps_execute_user_script htw _ _ _
  · exact keeps_builtin_call _ _

/-- The interactive loop of the debugger is the same at every depth. -/
theorem walker_repl (repl : Eval Unit) (bp : tree → tree_evaluator → Bool) (n : Nat) :
    (walker repl bp n).repl = repl := by
  cases n <;> rfl

theorem walker_is_active_breakpoint (repl : Eval Unit) (bp : tree → tree_evaluator → Bool)
    (n : Nat) : (walker repl bp n).is_active_breakpoint = bp := by
  cases n <;> rfl

/-- Every dispatch of the evaluator, at every depth, leaves the frames below the
current one as they are and keeps counters that are 0 or 1 in that range, when
the interactive loop of the debugger does. -/
theorem walker_keeps {repl : Eval Unit}
    {bp : tree → tree_evaluator → Bool}
    (hrepl : Eval.Keeps repl) (n : Nat) : WalkerKeeps (walker repl bp n) := by
  induction n with
  | zero =>
    refine ⟨?_, ?_, ?_, ?_, ?_⟩ <;> intros <;> exact Eval.keeps_none
  | succ k ih =>
    refine ⟨?_, ?_, ?_, ?_, ?_⟩
    · intro e nargout
      exact keeps_tree_expression_accept ih e nargout
    · intro l
      exact keeps_visit_statement_list ih l
    · intro c
      exact keeps_tree_command_accept ih (by rw [walker_repl]; exact hrepl) k c
    · intro st
      exact keeps_visit_statement ih (by rw [walker_repl]; exact hrepl) st
    · intro f nargout a
      exact keeps_octave_function_call ih f nargout a

namespace Eval

theorem bind_eq_value {α β : Type} {m : Eval α} {f : α → Eval β} {s s1 : tree_evaluator}
    {b : β} (h : (m >>= f) s = some (Outcome.value b, s1)) :
    ∃ a s2, m s = some (Outcome.value a, s2) ∧ f a s2 = some (Outcome.value b, s1) := by
  rw [bind_apply] at h
  unfold seq at h
  split at h
  · simp at h
  · next a s2 heq => exact ⟨a, s2, heq, h⟩
  · simp at h
  · simp at h

end Eval

/-- With debug mode off the call of `do_breakpoint` is not made. -/
theorem do_breakpoint_in_debug_mode_off (tw : tree_walker) (t : tree) (s : tree_evaluator)
    (h : s.m_debug_mode = false) :
    do_breakpoint_in_debug_mode tw t s = some (Outcome.value (), s) := by
  simp [do_breakpoint_in_debug_mode, Eval.bind_apply, Eval.seq, Eval.get_apply, h]

/-- One step of the traversal of a statement list whose first statement returns. -/
theorem visit_statement_list_loop_cons (tw : tree_walker) (stmt : tree_statement)
    (rest : List (Option tree_statement)) (s s1 : tree_evaluator)
    (hq : s.octave_interrupt_state ≤ 0)
    (hs : tw.accept_statement stmt s = some (Outcome.value (), s1)) :
    visit_statement_list_loop tw (some stmt :: rest) s
      = if s1.m_breaking ≠ 0 ∨ s1.m_continuing ≠ 0 ∨ s1.m_returning ≠ 0
        then some (Outcome.value (), s1)
        else visit_statement_list_loop tw rest s1 := by
  have hq1 : ¬ s.octave_interrupt_state > 0 := by omega
  by_cases hb : s1.m_breaking = 0 <;> by_cases hc : s1.m_continuing = 0 <;>
    by_cases hr : s1.m_returning = 0 <;>
    simp [visit_statement_list_loop, Eval.bind_apply, Eval.seq, octave_quit, Eval.get_apply,
      hq1, hs, hb, hc, hr]

/-- Statements that are executed in order, each leaving the counters zero, are
all executed by the traversal of the list they form. -/
theorem visit_statement_list_loop_executes_in_order (tw : tree_walker)
    (stmts : List tree_statement) (s s1 : tree_evaluator)
    (h : executes_in_order tw stmts s s1) :
    visit_statement_list_loop tw (stmts.map some) s = some (Outcome.value (), s1) := by
  induction h with
  | nil s => rfl
  | cons st rest s s1' s2 hq hs hb hc hr _ ih =>
    simp only [List.map_cons]
    rw [visit_statement_list_loop_cons tw st _ s s1' hq hs]
    have hn : ¬ (s1'.m_breaking ≠ 0 ∨ s1'.m_continuing ≠ 0 ∨ s1'.m_returning ≠ 0) := by
      simp [hb, hc, hr]
    rw [if_neg hn]
    exact ih

/-- The counters are zero after statements that were executed in order from a
state in which they are zero. -/
theorem executes_in_order_flags (tw : tree_walker) (stmts : List tree_statement)
    (s s1 : tree_evaluator) (h : executes_in_order tw stmts s s1)
    (hb : s.m_breaking = 0) (hr : s.m_returning = 0) :
    s1.m_breaking = 0 ∧ s1.m_returning = 0 := by
  induction h with
  | nil s => exact ⟨hb, hr⟩
  | cons st rest s s1' s2 _ _ hb1 _ hr1 _ ih => exact ih hb1 hr1

/-- The loop that adds up `numel ()` over the lvalues returns the sum. -/
theorem count_outputs_eq_sum (s : tree_evaluator) (lvalue_list : List octave_lvalue)
    (numels : List Nat)
    (h : List.Forall₂ (fun ult nel => octave_lvalue.numel ult s = some (Outcome.value nel, s))
      lvalue_list numels) (n_out : Nat) :
    count_outputs lvalue_list n_out s = some (Outcome.value (n_out + numels.sum), s) := by
  induction h generalizing n_out with
  | nil => simp [count_outputs]
  | cons hnel _ ih =>
    simp only [count_outputs, Eval.bind_apply, Eval.seq, hnel, List.sum_cons]
    rw [ih]
    simp [Nat.add_assoc]

/-- For targets that take one value each, the loop of `visit_multi_assignment`
follows the rule `assign_by_position`. -/
theorem multi_assignment_loop_eq_assign_by_position (size : Nat) (rhs_val : List octave_value)
    (lvalue_list : List octave_lvalue)
    (hnel : ∀ ult ∈ lvalue_list, ∀ st, octave_lvalue.numel ult st = some (Outcome.value 1, st))
    (k : Nat) (retval_list : List octave_value) (s : tree_evaluator) :
    multi_assignment_loop size rhs_val lvalue_list k retval_list s
      = assign_by_position lvalue_list rhs_val k retval_list s := by
  induction lvalue_list generalizing k retval_list s with
  | nil => rfl
  | cons ult rest ih =>
    have h1 := hnel ult (List.mem_cons_self _ _)
    have ih1 := ih (fun u hu => hnel u (List.mem_cons_of_mem _ hu))
    by_cases hb : ult.is_black_hole = true
    · by_cases hk : k < rhs_val.length
      · simp [multi_assignment_loop, assign_by_position, Eval.bind_apply, Eval.seq, h1, hb, hk,
          ih1]
      · simp [multi_assignment_loop, assign_by_position, Eval.bind_apply, Eval.seq, h1, hb, hk,
          ih1]
    · have hb1 : ult.is_black_hole = false := by simpa using hb
      by_cases hk : k < rhs_val.length
      · by_cases hd : (rhs_val.getD k octave_value.undefined).is_defined = true
        · have hu : (rhs_val.getD k octave_value.undefined).is_undefined = false := by
            unfold octave_value.is_undefined
            rw [hd]
            rfl
          simp only [multi_assignment_loop, assign_by_position, Eval.bind_apply, Eval.seq, h1,
            hb1, hk, hd, hu, ne_eq, not_true_eq_false, if_false, if_true, and_self,
            Bool.false_eq_true]
          cases hr : octave_lvalue.assign ult (rhs_val.getD k octave_value.undefined) s with
          | none => rfl
          | some r =>
            obtain ⟨o, s2⟩ := r
            cases o with
            | value u => exact ih1 _ _ _
            | thrown e => rfl
            | panic => rfl
        · have hd1 : (rhs_val.getD k octave_value.undefined).is_defined = false := by
            simpa using hd
          have hu : (rhs_val.getD k octave_value.undefined).is_undefined = true := by
            unfold octave_value.is_undefined
            rw [hd1]
            rfl
          simp only [multi_assignment_loop, assign_by_position, Eval.bind_apply, Eval.seq, h1,
            hb1, hk, hd1, hu, ne_eq, not_true_eq_false, if_false, if_true, and_false,
            Bool.false_eq_true]
      · simp only [multi_assignment_loop, assign_by_position, Eval.bind_apply, Eval.seq, h1,
          hb1, hk, ne_eq, not_true_eq_false, if_false, if_true, false_and, Bool.not_false,
          Bool.false_eq_true]

/-- For targets that take one value each the requested number of outputs is the
number of targets. -/
theorem count_outputs_of_numel_one (lvalue_list : List octave_lvalue)
    (hnel : ∀ ult ∈ lvalue_list, ∀ st, octave_lvalue.numel ult st = some (Outcome.value 1, st))
    (n_out : Nat) (s : tree_evaluator) :
    count_outputs lvalue_list n_out s = some (Outcome.value (n_out + lvalue_list.length), s) := by
  induction lvalue_list generalizing n_out with
  | nil => simp [count_outputs]
  | cons ult rest ih =>
    have h1 := hnel ult (List.mem_cons_self _ _)
    simp only [count_outputs, Eval.bind_apply, Eval.seq, h1, List.length_cons]
    rw [ih (fun u hu => hnel u (List.mem_cons_of_mem _ hu))]
    have : n_out + 1 + rest.length = n_out + (rest.length + 1) := by omega
    rw [this]

theorem first_missing_ge (lvalue_list : List octave_lvalue) (vals : List octave_value)
    (k p : Nat) (h : first_missing lvalue_list vals k = some p) : k ≤ p := by
  induction lvalue_list generalizing k with
  | nil => simp [first_missing] at h
  | cons ult rest ih =>
    unfold first_missing at h
    split at h
    · simp only [Option.some.injEq] at h
      omega
    · have := ih (k + 1) h
      omega

/-- The rule `assign_by_position` in closed form, for targets without index. -/
theorem assign_by_position_eq (vals : List octave_value) (lvalue_list : List octave_lvalue)
    (hidx : ∀ ult ∈ lvalue_list, ult.index = none)
    (k : Nat) (assigned : List octave_value) (s : tree_evaluator) :
    assign_by_position lvalue_list vals k assigned s
      = match first_missing lvalue_list vals k with
        | none =>
            some (Outcome.value (assigned ++ assigned_values lvalue_list vals k),
              assigned_state lvalue_list vals k s)
        | some p =>
            some (Outcome.thrown (exception.execution_exception
                ("element number " ++ format_d (p + 1) ++ " undefined in return list") ""),
              error_state
                ("element number " ++ format_d (p + 1) ++ " undefined in return list")
                (assigned_state (lvalue_list.take (p - k)) vals k s)) := by
  induction lvalue_list generalizing k assigned s with
  | nil => simp [assign_by_position, first_missing, assigned_values, assigned_state]
  | cons ult rest ih =>
    have h1 := hidx ult (List.mem_cons_self _ _)
    have ih1 := ih (fun u hu => hidx u (List.mem_cons_of_mem _ hu))
    by_cases hb : ult.is_black_hole = true
    · have hfm : first_missing (ult :: rest) vals k = first_missing rest vals (k + 1) := by
        simp [first_missing, hb]
      rw [hfm]
      simp only [assign_by_position, hb, if_true]
      rw [ih1]
      cases hm : first_missing rest vals (k + 1) with
      | none => simp [assigned_values, assigned_state, hb]
      | some p =>
        have hge := first_missing_ge rest vals (k + 1) p hm
        have htake : p - k = (p - (k + 1)) + 1 := by omega
        simp [htake, assigned_state, hb]
    · have hb1 : ult.is_black_hole = false := by simpa using hb
      by_cases hv : k < vals.length ∧ (vals.getD k octave_value.undefined).is_defined = true
      · have hfm : first_missing (ult :: rest) vals k = first_missing rest vals (k + 1) := by
          simp only [first_missing, hb1, hv.1, hv.2, Bool.not_false, decide_True, Bool.and_self,
            Bool.not_true, Bool.and_false, Bool.false_eq_true, if_false]
        rw [hfm]
        have ha : octave_lvalue.assign ult (vals.getD k octave_value.undefined) s
            = some (Outcome.value (),
                assign_state ult.sym (vals.getD k octave_value.undefined) s) := by
          simp only [octave_lvalue.assign, hb1, Bool.false_eq_true, if_false, h1, assign,
            Eval.modify_apply]
        simp only [assign_by_position, hb1, Bool.false_eq_true, if_false, hv, and_self, if_true,
          Eval.bind_apply, Eval.seq, ha]
        rw [ih1]
        cases hm : first_missing rest vals (k + 1) with
        | none => simp [assigned_values, assigned_state, hb1]
        | some p =>
          have hge := first_missing_ge rest vals (k + 1) p hm
          have htake : p - k = (p - (k + 1)) + 1 := by omega
          simp [htake, assigned_state, hb1]
      · have hfm : first_missing (ult :: rest) vals k = some k := by
          have : (decide (k < vals.length)
              && (vals.getD k octave_value.undefined).is_defined) = false := by
            by_cases hk : k < vals.length
            · have : ¬ (vals.getD k octave_value.undefined).is_defined = true :=
                fun hd => hv ⟨hk, hd⟩
              simp only [hk, decide_True, Bool.true_and]
              simpa using this
            · simp only [hk, decide_False, Bool.false_and]
          simp only [first_missing, hb1, this, Bool.not_false, Bool.and_self, if_true]
        rw [hfm]
        simp only [assign_by_position, hb1, Bool.false_eq_true, if_false, hv, error,
          error_with_id, error_state, Nat.sub_self, List.take_zero, assigned_state]

theorem do_breakpoint_requests_none (s : tree_evaluator) (hreq : no_debugger_request s = true) :
    do_breakpoint_requests s = some (Outcome.value (), s) := by
  unfold do_breakpoint_requests
  unfold no_debugger_request at hreq
  simp only [Eval.bind_apply, Eval.seq, Eval.get_apply]
  cases hd : s.m_debugger_stack with
  | nil => rfl
  | cons d rest =>
    rw [hd] at hreq
    simp at hreq
    simp [hreq.1, hreq.2]

theorem isEmpty_of_ne_nil {α : Type} (l : List α) (h : l ≠ []) : l.isEmpty = false := by
  cases l with
  | nil => exact absurd rfl h
  | cons _ _ => rfl

theorem land_two_ne_one (m : Int) : Int.land 2 m ≠ 1 := by
  intro h
  have h1 := congrArg (fun x => Int.testBit x 0) h
  simp only [Int.testBit_land] at h1
  have h2 : Int.testBit 2 0 = false := by decide
  have h3 : Int.testBit 1 0 = true := by decide
  rw [h2, h3] at h1
  simp at h1

theorem land_one_ne_two (m : Int) : Int.land 1 m ≠ 2 := by
  intro h
  have h1 := congrArg (fun x => Int.testBit x 1) h
  simp only [Int.testBit_land] at h1
  have h2 : Int.testBit 1 1 = false := by decide
  have h3 : Int.testBit 2 1 = true := by decide
  rw [h2, h3] at h1
  simp at h1

theorem frames_length (cs : call_stack) : cs.frames.length = cs.size := by
  simp [call_stack.frames, call_stack.size]
  omega

theorem frames_goto_frame (cs : call_stack) (n : Nat) : (cs.goto_frame n).frames = cs.frames := by
  unfold call_stack.goto_frame
  cases hget : cs.frames.get? n with
  | none => rfl
  | some fr =>
    simp only [call_stack.frames, List.reverse_reverse]
    have hlt : n < cs.frames.length := by
      by_contra hge
      have := List.get?_eq_none.mpr (Nat.le_of_not_lt hge)
      rw [this] at hget
      cases hget
    have hfr : cs.frames[n] = fr := by
      have := List.get?_eq_get hlt
      rw [this] at hget
      simpa using hget
    have h1 : cs.frames.drop n = cs.frames[n] :: cs.frames.drop (n + 1) :=
      List.drop_eq_getElem_cons hlt
    have h2 := List.take_append_drop n cs.frames
    rw [h1, hfr] at h2
    simpa [call_stack.frames] using h2

theorem size_goto_frame (cs : call_stack) (n : Nat) : (cs.goto_frame n).size = cs.size := by
  rw [← frames_length, ← frames_length, frames_goto_frame]

theorem current_frame_goto_frame (cs : call_stack) (n : Nat) (h : n < cs.size) :
    (cs.goto_frame n).current_frame = n := by
  rw [← frames_length] at h
  unfold call_stack.goto_frame
  cases hget : cs.frames.get? n with
  | none =>
    have := List.get?_eq_none.mp hget
    omega
  | some fr =>
    simp [call_stack.current_frame]
    omega

theorem current_frame_lt_size (cs : call_stack) : cs.current_frame < cs.size := by
  simp [call_stack.current_frame, call_stack.size]
  omega

theorem current_frame_restore_current_frame (s0 s1 : tree_evaluator)
    (h : s1.m_call_stack.size = s0.m_call_stack.size) :
    (restore_current_frame s0 s1).m_call_stack.current_frame = s0.m_call_stack.current_frame := by
  simp only [restore_current_frame, call_stack.restore_frame]
  apply current_frame_goto_frame
  rw [h]
  exact current_frame_lt_size _

theorem keeps_size_goto_context (who context : String) :
    Eval.KeepsSize (goto_context who context) := by
  intro s o s1 h _
  unfold goto_context at h
  split at h
  · simp at h
    rw [← h.2]
    exact size_goto_frame _ _
  · split at h
    · simp at h
      rw [← h.2]
      exact size_goto_frame _ _
    · simp [error, error_with_id] at h
      rw [← h.2]

theorem keeps_size_bind {α β : Type} {m : Eval α} {f : α → Eval β}
    (hm : Eval.KeepsSize m) (hf : ∀ a, Eval.KeepsSize (f a)) : Eval.KeepsSize (m >>= f) :=
  Eval.rel_bind (Q := fun s s1 => s1.m_call_stack.size = s.m_call_stack.size)
    (fun _ _ _ h1 h2 => h2.trans h1) hm hf

theorem current_frame_unwind_protect_restore {α : Type} {m : Eval α} (hm : Eval.KeepsSize m)
    (s s1 : tree_evaluator) (o : Outcome α)
    (h : Eval.unwind_protect restore_current_frame m s = some (o, s1)) (ho : o ≠ Outcome.panic) :
    s1.m_call_stack.current_frame = s.m_call_stack.current_frame := by
  unfold Eval.unwind_protect at h
  split at h
  · simp at h
  · next a s2 heq =>
    simp at h
    rw [← h.2]
    exact current_frame_restore_current_frame s s2 (hm s _ s2 heq (by simp))
  · next e s2 heq =>
    simp at h
    rw [← h.2]
    exact current_frame_restore_current_frame s s2 (hm s _ s2 heq (by simp))
  · simp at h
    exact absurd h.1.symm ho

theorem keeps_size_error {α : Type} (msg : String) : Eval.KeepsSize (error msg : Eval α) := by
  intro s o s1 h _
  simp [error, error_with_id] at h
  rw [← h.2]

theorem keeps_size_assign (name : String) (val : octave_value) :
    Eval.KeepsSize (assign name val) := by
  intro s o s1 h _
  simp [assign, assign_state] at h
  rw [← h.2]
  rfl

theorem keeps_size_pure {α : Type} (a : α) : Eval.KeepsSize (pure a : Eval α) := by
  intro s o s1 h _
  simp at h
  rw [← h.2]

theorem keeps_size_eval_string_x_is_one (code : String) (silent : Bool) (nargout : Int) :
    Eval.KeepsSize (eval_string_x_is_one code silent nargout) := by
  unfold eval_string_x_is_one
  split
  · exact keeps_size_bind (keeps_size_assign _ _) (fun _ => keeps_size_pure _)
  · exact keeps_size_error _

theorem Eval.seq_assoc {α β γ : Type} (m : Eval α) (f : α → Eval β) (g : β → Eval γ) :
    Eval.seq (Eval.seq m f) g = Eval.seq m (fun a => Eval.seq (f a) g) := by
  funext s
  unfold Eval.seq
  cases h : m s with
  | none => rfl
  | some r =>
    obtain ⟨o, s1⟩ := r
    cases o <;> rfl

theorem Eval.seq_ret {α : Type} (m : Eval α) : Eval.seq m (fun a => Eval.ret a) = m := by
  funext s
  unfold Eval.seq
  cases h : m s with
  | none => rfl
  | some r =>
    obtain ⟨o, s1⟩ := r
    cases o <;> rfl

theorem Eval.bind_of_value {α β : Type} {m : Eval α} (f : α → Eval β) {s s0 : tree_evaluator}
    {a : α} (h : m s = some (Outcome.value a, s0)) : (m >>= f) s = f a s0 := by
  rw [Eval.bind_apply]
  unfold Eval.seq
  rw [h]

theorem convert_to_const_vector_loop_append (tw : tree_walker) (stash : Bool) (len : Nat)
    (rest : List tree_expression) :
    ∀ (pre : List tree_expression) (k : Nat) (s s_k : tree_evaluator) (vals : List octave_value),
      convert_to_const_vector_loop tw stash len k pre s = some (Outcome.value vals, s_k) →
      convert_to_const_vector_loop tw stash len k (pre ++ rest) s
        = Eval.seq (convert_to_const_vector_loop tw stash len (k + pre.length) rest)
            (fun args => Eval.ret (vals ++ args)) s_k := by
  intro pre
  induction pre with
  | nil =>
    intro k s s_k vals h
    simp [convert_to_const_vector_loop] at h
    obtain ⟨h1, h2⟩ := h
    subst h1; subst h2
    simp only [List.nil_append, List.length_nil, Nat.add_zero]
    rw [Eval.seq_ret]
  | cons elt pre ih =>
    intro k s s_k vals h
    simp only [List.cons_append]
    rw [convert_to_const_vector_loop] at h ⊢
    obtain ⟨u, s1, h1, h⟩ := Eval.bind_eq_value h
    obtain ⟨tmp, s2, h2, h⟩ := Eval.bind_eq_value h
    obtain ⟨vals1, s3, h3, h⟩ := Eval.bind_eq_value h
    simp at h
    obtain ⟨hv, hs⟩ := h
    subst hv; subst hs
    rw [Eval.bind_of_value _ h1, Eval.bind_of_value _ h2, Eval.bind_apply]
    unfold Eval.seq
    rw [ih (k + 1) s2 s3 vals1 h3]
    have hk : k + 1 + pre.length = k + (elt :: pre).length := by
      simp only [List.length_cons]; omega
    rw [hk]
    unfold Eval.seq
    cases h4 : convert_to_const_vector_loop tw stash len (k + (elt :: pre).length) rest s3 with
    | none => rfl
    | some r4 =>
      obtain ⟨o4, s4⟩ := r4
      cases o4 <;> simp [List.append_assoc]

theorem end_fold (pre : List Nat) : ∀ (rest done : List Nat) (a : Nat),
    (List.range' (pre.length + 1 + done.length) rest.length).foldl
        (fun d i => d.set (pre.length + 1 - 1) (d.getD (pre.length + 1 - 1) 0 * d.getD i 0))
        (pre ++ a :: (done ++ rest))
      = pre ++ (a * rest.prod) :: (done ++ rest)
  | [], done, a => by simp
  | r :: rest, done, a => by
      have ih := end_fold pre rest (done ++ [r]) (a * r)
      simp only [List.length_append, List.length_cons, List.length_nil, List.append_assoc,
        List.singleton_append] at ih
      have hlen : pre.length + 1 + (done.length + (0 + 1)) = pre.length + 1 + done.length + 1 := by
        omega
      rw [hlen] at ih
      simp only [List.length_cons, List.range'_succ, List.foldl_cons, List.prod_cons]
      have h1 : (pre ++ a :: (done ++ r :: rest)).getD (pre.length + 1 - 1) 0 = a := by
        rw [List.getD_append_right _ _ _ _ (by simp)]
        simp
      have h2 : (pre ++ a :: (done ++ r :: rest)).getD (pre.length + 1 + done.length) 0 = r := by
        rw [List.getD_append_right _ _ _ _ (by omega)]
        have : pre.length + 1 + done.length - pre.length = done.length + 1 := by omega
        rw [this, List.getD_cons_succ, List.getD_append_right _ _ _ _ (by simp)]
        simp
      have h3 : (pre ++ a :: (done ++ r :: rest)).set (pre.length + 1 - 1) (a * r)
          = pre ++ (a * r) :: (done ++ r :: rest) := by
        simp [List.set_append_right]
      rw [h1, h2, h3, ih, Nat.mul_assoc]

theorem end_dim_vector_split (pre post : List Nat) (a b : Nat) :
    end_dim_vector (pre ++ a :: b :: post) (pre.length + 1)
      = if pre.length + 1 = 1 then [a * (b :: post).prod, 1] else pre ++ [a * (b :: post).prod] := by
  unfold end_dim_vector
  have hlt : pre.length + 1 < (pre ++ a :: b :: post).length := by simp
  have hsub : (pre ++ a :: b :: post).length - (pre.length + 1) = (b :: post).length := by
    simp
    omega
  simp only [hlt, if_true, hsub]
  have hf := end_fold pre (b :: post) [] a
  simp only [List.length_nil, Nat.add_zero, List.nil_append] at hf
  rw [hf]
  cases pre with
  | nil => simp
  | cons x pre =>
    have hne : (x :: pre).length + 1 ≠ 1 := by simp
    simp only [hne, if_false]
    have : (x :: pre).length + 1 = ((x :: pre) ++ [a * (b :: post).prod]).length := by simp
    rw [show (x :: pre) ++ a * (b :: post).prod :: (b :: post)
          = ((x :: pre) ++ [a * (b :: post).prod]) ++ (b :: post) by simp]
    rw [this, List.take_left]

theorem split_at_index (dv : List Nat) (k : Nat) (hk : 1 ≤ k) (hlt : k < dv.length) :
    ∃ pre a b post, dv = pre ++ a :: b :: post ∧ pre.length + 1 = k := by
  have h1 := List.take_append_drop (k - 1) dv
  have hl : (dv.drop (k - 1)).length = dv.length - (k - 1) := List.length_drop _ _
  cases hd : dv.drop (k - 1) with
  | nil => rw [hd] at hl; simp at hl; omega
  | cons a rest =>
    cases rest with
    | nil => rw [hd] at hl; simp at hl; omega
    | cons b post =>
      refine ⟨dv.take (k - 1), a, b, post, ?_, ?_⟩
      · rw [← hd, h1]
      · rw [List.length_take]
        omega

theorem end_value_split (pre post : List Nat) (a b p : Nat) (hp : p < pre.length + 1) :
    end_value (pre ++ a :: b :: post) p (pre.length + 1)
      = if p < pre.length then pre.getD p 0 else a * (b :: post).prod := by
  unfold end_value
  rw [end_dim_vector_split]
  cases pre with
  | nil =>
    have : p = 0 := by simpa using hp
    subst this
    simp
  | cons x pre =>
    have hne : (x :: pre).length + 1 ≠ 1 := by simp
    simp only [hne, if_false]
    have hlen : p < ((x :: pre) ++ [a * (b :: post).prod]).length := by simpa using hp
    simp only [hlen, if_true]
    by_cases h : p < (x :: pre).length
    · simp only [h, if_true]
      rw [List.getD_append _ _ _ _ h]
    · simp only [h, if_false]
      have : p = (x :: pre).length := by
        have := Nat.le_of_not_lt h
        omega
      subst this
      rw [List.getD_append_right _ _ _ _ (Nat.le_refl _)]
      simp

theorem remove_atexit_function_found (fname : String) (lst : List String) :
    (interpreter.remove_atexit_function fname lst).1 = true ↔ fname ∈ lst := by
  induction lst with
  | nil => simp [interpreter.remove_atexit_function]
  | cons it rest ih =>
    unfold interpreter.remove_atexit_function
    by_cases h : it = fname
    · simp [h]
    · have h1 : ¬ fname = it := fun e => h e.symm
      simp [h, h1, ih]

theorem remove_atexit_function_split (fname : String) (lst : List String) (hin : fname ∈ lst) :
    ∃ pre post, lst = pre ++ fname :: post ∧ fname ∉ pre
      ∧ (interpreter.remove_atexit_function fname lst).2 = pre ++ post := by
  induction lst with
  | nil => simp at hin
  | cons it rest ih =>
    unfold interpreter.remove_atexit_function
    by_cases h : it = fname
    · exact ⟨[], rest, by simp [h], by simp, by simp [h]⟩
    · have h1 : ¬ fname = it := fun e => h e.symm
      have hin1 : fname ∈ rest := by simpa [h1] using hin
      obtain ⟨pre, post, h2, h3, h4⟩ := ih hin1
      refine ⟨it :: pre, post, by simp [h2], by simp [h1, h3], ?_⟩
      simp [h, h4]

theorem remove_atexit_function_absent (fname : String) (lst : List String) (hin : fname ∉ lst) :
    (interpreter.remove_atexit_function fname lst).2 = lst := by
  induction lst with
  | nil => simp [interpreter.remove_atexit_function]
  | cons it rest ih =>
    unfold interpreter.remove_atexit_function
    have h : ¬ it = fname := fun e => hin (by simp [e])
    have hin1 : fname ∉ rest := fun e => hin (by simp [e])
    simp [h, ih hin1]

theorem remove_atexit_function_count (fname g : String) (lst : List String) :
    (interpreter.remove_atexit_function fname lst).2.count g
      = if g = fname then lst.count g - 1 else lst.count g := by
  induction lst with
  | nil => simp [interpreter.remove_atexit_function]
  | cons it rest ih =>
    unfold interpreter.remove_atexit_function
    by_cases h : it = fname
    · subst h
      by_cases hg : g = it
      · simp [hg]
      · have hg1 : ¬ it = g := fun e => hg e.symm
        simp [hg, List.count_cons, hg1]
    · simp only [h, if_false, List.count_cons, ih]
      by_cases hg : g = fname
      · have h2 : ¬ it = g := by rw [hg]; exact h
        simp [hg, h2, h]
      · simp [hg]

theorem remove_atexit_function_times_count (fname : String) (k : Nat) (lst : List String) :
    (interpreter.remove_atexit_function_times fname k lst).count fname = lst.count fname - k := by
  induction k generalizing lst with
  | zero => simp [interpreter.remove_atexit_function_times]
  | succ k ih =>
    unfold interpreter.remove_atexit_function_times
    rw [ih, remove_atexit_function_count]
    simp
    omega

theorem string_rfind_of_not_mem (s : List Char) (c : Char) (h : c ∉ s) :
    string_rfind s c = npos := by
  simp [string_rfind, h]

theorem string_rfind_append_of_not_mem (pre post : List Char) (c : Char) (h : c ∉ post)
    (hpre : c ∈ pre) : string_rfind (pre ++ post) c = string_rfind pre c := by
  have h1 : c ∉ post.reverse := by simpa using h
  have h2 : List.indexOf c pre.reverse < pre.reverse.length :=
    List.indexOf_lt_length.mpr (by simpa using hpre)
  simp only [List.length_reverse] at h2
  simp only [string_rfind, List.mem_append, hpre, true_or, if_true, List.reverse_append,
    List.indexOf_append_of_not_mem h1, List.length_append, List.length_reverse]
  omega

theorem string_rfind_lt (s : List Char) (c : Char) (h : c ∈ s) :
    string_rfind s c < s.length := by
  have h2 : 0 < s.length := List.length_pos_of_mem h
  simp only [string_rfind, h, if_true]
  omega

theorem string_rfind_snoc (pre : List Char) (c : Char) :
    string_rfind (pre ++ [c]) c = pre.length := by
  simp [string_rfind]

theorem string_rfind_last (pre post : List Char) (c : Char) (h : c ∉ post) :
    string_rfind (pre ++ c :: post) c = pre.length := by
  have h1 : pre ++ c :: post = (pre ++ [c]) ++ post := by simp
  rw [h1, string_rfind_append_of_not_mem _ _ _ h (by simp), string_rfind_snoc]

/-- The positions `dpos+1` and `epos` that `mfilename` computes for a file name
`dir ++ base`. -/
theorem mfilename_positions (dir base : List Char)
    (hdir : dir = [] ∨ ∃ d0, dir = d0 ++ ['/']) (hbase : '/' ∉ base)
    (hlen : (dir ++ base).length < npos) :
    (string_rfind (dir ++ base) '/' + 1) % 2 ^ 64 = dir.length
    ∧ (string_rfind (dir ++ base) '/' ≠ npos ↔ dir ≠ []) := by
  rcases hdir with h | ⟨d0, h⟩
  · subst h
    simp [string_rfind_of_not_mem _ _ hbase, npos]
  · subst h
    have h1 : d0 ++ ['/'] ++ base = d0 ++ '/' :: base := by simp
    rw [h1, string_rfind_last _ _ _ hbase]
    rw [h1] at hlen
    simp only [List.length_append, List.length_cons, List.length_nil, npos] at hlen ⊢
    constructor
    · rw [Nat.mod_eq_of_lt (by omega)]
    · constructor
      · intro _; simp
      · intro _; omega

theorem string_substr_after_directory (dir x : List Char) (h : x.length < npos) :
    string_substr (dir ++ x) dir.length npos = x := by
  simp only [string_substr, List.drop_left]
  exact List.take_of_length_le (Nat.le_of_lt h)

/-- The last step of `mfilename`, the removal of the directory part, for a name
`dir ++ x` with the position `dpos` of the last separator of the file name. -/
theorem mfilename_strip_directory (dir x : List Char) (dpos : Nat)
    (hx : x.length < npos) (h1 : (dpos + 1) % 2 ^ 64 = dir.length)
    (h2 : dpos ≠ npos ↔ dir ≠ []) (h3 : dpos ≤ npos) :
    (if dpos ≠ npos then String.mk (string_substr (dir ++ x) (dpos + 1) npos)
      else String.mk (dir ++ x)) = String.mk x := by
  by_cases hd : dpos = npos
  · have : dir = [] := by
      by_contra hc
      exact (h2.mpr hc) hd
    simp [hd, this]
  · have hv : dpos + 1 = dir.length := by
      rw [← h1, Nat.mod_eq_of_lt]
      simp only [npos] at hd h3
      omega
    simp only [ne_eq, hd, not_false_eq_true, if_true, hv]
    rw [string_substr_after_directory _ _ hx]

theorem string_rfind_le_npos (s : List Char) (c : Char) (h : s.length < npos) :
    string_rfind s c ≤ npos := by
  by_cases hc : c ∈ s
  · exact Nat.le_of_lt (Nat.lt_trans (string_rfind_lt s c hc) h)
  · rw [string_rfind_of_not_mem s c hc]

theorem skip_dir_seps_spec (path : List Char) (i : Nat) :
    env.skip_dir_seps path i = 0
      ∨ is_dir_sep (char_at path (env.skip_dir_seps path i)) = false := by
  induction i with
  | zero => left; rfl
  | succ i ih =>
    unfold env.skip_dir_seps
    by_cases h : is_dir_sep (char_at path (i + 1)) = true
    · simp only [h, if_true]; exact ih
    · simp only [h, if_false]
      right
      simpa using h

theorem skip_non_dir_seps_spec (path : List Char) (m : Nat) :
    env.skip_non_dir_seps path m ≤ m
    ∧ (env.skip_non_dir_seps path m = 0
        ∨ is_dir_sep (char_at path (env.skip_non_dir_seps path m)) = true)
    ∧ (env.skip_non_dir_seps path m < m →
        is_dir_sep (char_at path (env.skip_non_dir_seps path m + 1)) = false) := by
  induction m with
  | zero => exact ⟨Nat.le_refl _, Or.inl rfl, fun h => absurd h (Nat.lt_irrefl _)⟩
  | succ m ih =>
    unfold env.skip_non_dir_seps
    by_cases h : is_dir_sep (char_at path (m + 1)) = true
    · simp only [h, Bool.not_true, if_false]
      exact ⟨Nat.le_refl _, Or.inr h, fun hlt => absurd hlt (Nat.lt_irrefl _)⟩
    · have h1 : is_dir_sep (char_at path (m + 1)) = false := by simpa using h
      simp only [h1, Bool.not_false, if_true]
      refine ⟨Nat.le_succ_of_le ih.1, ih.2.1, ?_⟩
      intro _
      by_cases hlt : env.skip_non_dir_seps path m < m
      · exact ih.2.2 hlt
      · have : env.skip_non_dir_seps path m = m := Nat.le_antisymm ih.1 (Nat.not_lt.mp hlt)
        rw [this]; exact h1

theorem skip_non_dir_seps_fixed (path : List Char) (r : Nat)
    (h : r = 0 ∨ is_dir_sep (char_at path r) = true) : env.skip_non_dir_seps path r = r := by
  cases r with
  | zero => rfl
  | succ r =>
    have h1 : is_dir_sep (char_at path (r + 1)) = true := by
      rcases h with h | h
      · exact absurd h (Nat.succ_ne_zero _)
      · exact h
    unfold env.skip_non_dir_seps
    simp [h1]

/-- A round of the loop of `pathname_backup` that starts where a round has ended
ends at the same index. -/
theorem pathname_backup_round_fixed (path : List Char) (i : Nat) :
    env.skip_non_dir_seps path
        (env.skip_dir_seps path
          (env.skip_non_dir_seps path (env.skip_dir_seps path i) + 1)) + 1
      = env.skip_non_dir_seps path (env.skip_dir_seps path i) + 1 := by
  obtain ⟨hle, hr, hnext⟩ := skip_non_dir_seps_spec path (env.skip_dir_seps path i)
  generalize hm : env.skip_dir_seps path i = m at hle hr hnext
  have hmspec := skip_dir_seps_spec path i
  rw [hm] at hmspec
  generalize hrr : env.skip_non_dir_seps path m = r at hle hr hnext
  by_cases hlt : r < m
  · have h1 := hnext hlt
    have h2 : env.skip_dir_seps path (r + 1) = r + 1 := by
      unfold env.skip_dir_seps
      simp [h1]
    have h3 : env.skip_non_dir_seps path (r + 1) = env.skip_non_dir_seps path r := by
      conv => lhs; unfold env.skip_non_dir_seps
      simp [h1]
    rw [h2, h3, skip_non_dir_seps_fixed path r hr]
  · have hrm : r = m := Nat.le_antisymm hle (Nat.not_lt.mp hlt)
    have hr0 : r = 0 := by
      rcases hr with h | h
      · exact h
      · rcases hmspec with h' | h'
        · rw [hrm]; exact h'
        · rw [hrm, h'] at h
          exact Bool.noConfusion h
    subst hr0
    by_cases hs : is_dir_sep (char_at path 1) = true
    · have h2 : env.skip_dir_seps path (0 + 1) = 0 := by
        unfold env.skip_dir_seps
        simp only [hs, if_true]
        rfl
      rw [h2]
      rfl
    · have hs1 : is_dir_sep (char_at path 1) = false := by simpa using hs
      have h2 : env.skip_dir_seps path (0 + 1) = 1 := by
        unfold env.skip_dir_seps
        simp [hs1]
      rw [h2]
      unfold env.skip_non_dir_seps
      simp only [hs1, Bool.not_false, if_true]
      rfl

theorem pathname_backup_loop_succ (path : List Char) (n i : Nat) :
    env.pathname_backup_loop path (n + 1) i
      = env.skip_non_dir_seps path (env.skip_dir_seps path i) + 1 := by
  induction n generalizing i with
  | zero => rfl
  | succ n ih =>
    conv => lhs; unfold env.pathname_backup_loop
    rw [ih, pathname_backup_round_fixed]

theorem pathname_backup_one_head (path : String) (t : List Char) (h : path.data = '/' :: t) :
    ∃ t1, (env.pathname_backup path 1).data = '/' :: t1 := by
  unfold env.pathname_backup
  rw [pathname_backup_loop_succ]
  simp only [h, List.isEmpty_cons, Bool.false_eq_true, if_false, List.take_succ_cons]
  exact ⟨_, rfl⟩

theorem length_after_dropWhile (p : Char → Bool) (l : List Char) (sep : Char)
    (after : List Char) (h : l.dropWhile p = sep :: after) : after.length < l.length := by
  have h1 : (l.dropWhile p).length ≤ l.length := (List.dropWhile_suffix p).length_le
  rw [h] at h1
  simp only [List.length_cons] at h1
  omega

/-- A round of the loop of `do_make_absolute` goes on with a shorter rest of `s`,
and keeps every property of `current_dir` that `pathname_backup` and `append`
keep. -/
theorem do_make_absolute_round_spec (P : String → Prop)
    (hback : ∀ cd, P cd → P (env.pathname_backup cd 1))
    (happ : ∀ cd l, P cd → P (String.mk (cd.data ++ l)))
    (c : Char) (rest : List Char) (cd : String) (hcd : P cd) :
    P (env.do_make_absolute_round c rest cd).2
    ∧ ∀ rest1, (env.do_make_absolute_round c rest cd).1 = some rest1 →
        rest1.length ≤ rest.length := by
  have hcomp : ∀ x : Option (List Char) × String,
      x = (match (c :: rest).dropWhile (fun x => !is_dir_sep x) with
        | [] => (none, String.mk (cd.data ++ (c :: rest)))
        | sep :: after =>
            if ((c :: rest).takeWhile (fun x => !is_dir_sep x)).isEmpty then (some after, cd)
            else (some after,
              String.mk (cd.data ++ (c :: rest).takeWhile (fun x => !is_dir_sep x) ++ [sep]))) →
      P x.2 ∧ ∀ rest1, x.1 = some rest1 → rest1.length ≤ rest.length := by
    intro x hx
    cases hd : (c :: rest).dropWhile (fun x => !is_dir_sep x) with
    | nil =>
      simp only [hd] at hx
      subst hx
      exact ⟨happ _ _ hcd, fun _ h => by simp at h⟩
    | cons sep after =>
      simp only [hd] at hx
      have hl := length_after_dropWhile _ _ _ _ hd
      simp only [List.length_cons] at hl
      by_cases hn : ((c :: rest).takeWhile (fun x => !is_dir_sep x)).isEmpty = true
      · rw [if_pos hn] at hx
        subst hx
        refine ⟨hcd, fun rest1 h => ?_⟩
        simp only [Option.some.injEq] at h
        subst h; omega
      · rw [if_neg hn] at hx
        subst hx
        refine ⟨?_, fun rest1 h => ?_⟩
        · have := happ cd ((c :: rest).takeWhile (fun x => !is_dir_sep x) ++ [sep]) hcd
          simpa [List.append_assoc] using this
        · simp only [Option.some.injEq] at h
          subst h; omega
  unfold env.do_make_absolute_round
  simp only []
  by_cases hc : c = '.'
  · simp only [hc, if_true]
    cases rest with
    | nil => exact ⟨hcd, fun _ h => by simp at h⟩
    | cons c1 rest1 =>
      simp only []
      by_cases h1 : is_dir_sep c1 = true
      · simp only [h1, if_true]
        refine ⟨hcd, fun r h => ?_⟩
        simp only [Option.some.injEq] at h
        subst h; simp
      · simp only [h1, Bool.false_eq_true, if_false]
        by_cases h2 : c1 = '.'
        · simp only [h2, if_true]
          cases rest1 with
          | nil =>
            refine ⟨hback _ hcd, fun r h => ?_⟩
            simp only [Option.some.injEq] at h
            subst h; simp
          | cons c2 rest2 =>
            simp only []
            by_cases h3 : is_dir_sep c2 = true
            · simp only [h3, if_true]
              refine ⟨hback _ hcd, fun r h => ?_⟩
              simp only [Option.some.injEq] at h
              subst h; simp; omega
            · simp only [h3, Bool.false_eq_true, if_false]
              subst hc; subst h2
              exact hcomp _ rfl
        · simp only [h2, if_false]
          subst hc
          exact hcomp _ rfl
  · simp only [hc, if_false]
    exact hcomp _ rfl

/-- The loop of `do_make_absolute` ends when it gets as many rounds as `s` has
characters left. -/
theorem do_make_absolute_loop_spec (P : String → Prop)
    (hback : ∀ cd, P cd → P (env.pathname_backup cd 1))
    (happ : ∀ cd l, P cd → P (String.mk (cd.data ++ l)))
    (fuel : Nat) (rest : List Char) (cd : String) (hfuel : rest.length ≤ fuel) (hcd : P cd) :
    ∃ r, env.do_make_absolute_loop fuel rest cd = some r ∧ P r := by
  induction fuel generalizing rest cd with
  | zero =>
    cases rest with
    | nil => exact ⟨cd, rfl, hcd⟩
    | cons c rest => simp at hfuel
  | succ fuel ih =>
    cases rest with
    | nil => exact ⟨cd, rfl, hcd⟩
    | cons c rest =>
      obtain ⟨h1, h2⟩ := do_make_absolute_round_spec P hback happ c rest cd hcd
      unfold env.do_make_absolute_loop
      cases hr : env.do_make_absolute_round c rest cd with
      | mk o cd1 =>
        rw [hr] at h1 h2
        cases o with
        | none => exact ⟨cd1, rfl, h1⟩
        | some rest1 =>
          simp only [List.length_cons] at hfuel
          exact ih rest1 cd1 (by have := h2 rest1 rfl; omega) h1

/-- The function `do_make_absolute` returns: the rounds that the loop gets
suffice. -/
theorem do_make_absolute_total (s dot_path : String) :
    ∃ r, env.do_make_absolute s dot_path = some r := by
  unfold env.do_make_absolute
  split
  · exact ⟨_, rfl⟩
  · split
    · exact ⟨_, rfl⟩
    · simp only []
      obtain ⟨r, hr, _⟩ := do_make_absolute_loop_spec (fun _ => True) (fun _ _ => trivial)
        (fun _ _ _ => trivial) s.data.length s.data
        (if !is_dir_sep (char_at dot_path.data (dot_path.data.length - 1))
          then String.mk (dot_path.data ++ ['/']) else dot_path) (Nat.le_refl _) trivial
      rw [hr]
      simp only []
      split <;> exact ⟨_, rfl⟩

theorem do_absolute_pathname_iff (s : String) :
    env.do_absolute_pathname s = true ↔ ∃ t, s.data = '/' :: t := by
  unfold env.do_absolute_pathname
  cases h : s.data with
  | nil => simp
  | cons c t => simp [is_dir_sep]

/-- With an absolute `dot_path`, the value of `current_dir` after the loop of
`do_make_absolute` starts with a directory separator. -/
theorem do_make_absolute_loop_head (fuel : Nat) (rest : List Char) (cd : String)
    (hfuel : rest.length ≤ fuel) (hcd : ∃ t, cd.data = '/' :: t) :
    ∃ r, env.do_make_absolute_loop fuel rest cd = some r ∧ ∃ t, r.data = '/' :: t := by
  apply do_make_absolute_loop_spec (fun cd => ∃ t, cd.data = '/' :: t) _ _ fuel rest cd hfuel hcd
  · intro cd ⟨t, ht⟩
    exact pathname_backup_one_head cd t ht
  · intro cd l ⟨t, ht⟩
    exact ⟨t ++ l, by simp [ht]⟩

theorem mem_map_assign {β : Type} (key : String) (val : β) (m : List (String × β))
    (p : String × β) (h : p ∈ map_assign key val m) : p = (key, val) ∨ p ∈ m := by
  induction m with
  | nil => simpa [map_assign] using h
  | cons q rest ih =>
    unfold map_assign at h
    by_cases hq : q.1 = key
    · simp only [hq, if_true, List.mem_cons] at h
      rcases h with h | h
      · exact Or.inl h
      · exact Or.inr (List.mem_cons_of_mem _ h)
    · simp only [hq, if_false, List.mem_cons] at h
      rcases h with h | h
      · exact Or.inr (by simp [h])
      · rcases ih h with h1 | h1
        · exact Or.inl h1
        · exact Or.inr (List.mem_cons_of_mem _ h1)

theorem mem_map_erase {β : Type} (key : String) (m : List (String × β))
    (p : String × β) (h : p ∈ map_erase key m) : p ∈ m :=
  (List.mem_filter.mp h).1

theorem do_make_absolute_of_absolute (s dot_path : String)
    (h : env.do_absolute_pathname s = true) : env.do_make_absolute s dot_path = some s := by
  simp [env.do_make_absolute, h]

/-- The directory part that `check_autoload_file` takes from an absolute file
name starts with a directory separator. -/
theorem directory_part_of_absolute (f : String) (hlen : f.data.length < npos)
    (h : env.do_absolute_pathname f = true) :
    ∃ t, string_substr f.data 0 ((find_last_dir_sep f.data + 1) % 2 ^ 64) = '/' :: t := by
  obtain ⟨t, ht⟩ := (do_absolute_pathname_iff f).mp h
  have hany : f.data.any is_dir_sep = true := by
    rw [ht]; simp [is_dir_sep]
  have hle : find_last_dir_sep f.data + 1 ≤ f.data.length := by
    simp only [find_last_dir_sep, hany, if_true]
    have : 0 < f.data.length := by rw [ht]; simp
    omega
  have hmod : (find_last_dir_sep f.data + 1) % 2 ^ 64 = find_last_dir_sep f.data + 1 := by
    apply Nat.mod_eq_of_lt
    simp only [npos] at hlen
    omega
  rw [hmod, ht]
  exact ⟨t.take (find_last_dir_sep ('/' :: t)), by simp [string_substr]⟩

/-- What `check_autoload_file` returns when the file name of the current user
code is empty or absolute: an absolute name, or `nm` itself after the
warning. -/
theorem check_autoload_file_spec (file_exists : String → Bool) (dot_path : String)
    (fcn : Option String) (nm : String) (s : tree_evaluator)
    (hfcn : ∀ f, fcn = some f →
      f.data.length < npos ∧ (f.data = [] ∨ env.do_absolute_pathname f = true)) :
    (∃ full, check_autoload_file file_exists dot_path fcn nm s = some (Outcome.value full, s)
        ∧ env.do_absolute_pathname full = true)
    ∨ check_autoload_file file_exists dot_path fcn nm s
        = some (Outcome.value nm,
            { s with warnings := s.warnings ++ [autoload_relative_warning nm] }) := by
  have hwarn : ∀ s : tree_evaluator,
      (do
        warning_with_id "Octave:autoload-relative-file-name"
          ("autoload: '" ++ nm ++ "' is not an absolute filename")
        (pure nm : Eval String)) s
      = some (Outcome.value nm,
            { s with warnings := s.warnings ++ [autoload_relative_warning nm] }) := by
    intro s
    simp only [Eval.bind_apply, Eval.seq, warning_with_id, Eval.modify, autoload_relative_warning]
    rfl
  unfold check_autoload_file
  by_cases habs : env.do_absolute_pathname nm = true
  · left
    exact ⟨nm, by simp [habs, pure, Eval.ret], habs⟩
  · simp only [habs, Bool.false_eq_true, if_false]
    cases fcn with
    | none => right; exact hwarn s
    | some f =>
      simp only []
      obtain ⟨hlen, hf⟩ := hfcn f rfl
      by_cases hemp : f.data.isEmpty = true
      · right
        simp only [hemp, if_true]
        exact hwarn s
      · simp only [hemp, Bool.false_eq_true, if_false]
        have hfabs : env.do_absolute_pathname f = true := by
          rcases hf with h | h
          · rw [h] at hemp; simp at hemp
          · exact h
        rw [do_make_absolute_of_absolute f dot_path hfabs]
        simp only []
        obtain ⟨t, ht⟩ := directory_part_of_absolute f hlen hfabs
        by_cases hex : file_exists
            (String.mk (string_substr f.data 0 ((find_last_dir_sep f.data + 1) % 2 ^ 64)) ++ nm)
            = true
        · left
          refine ⟨String.mk (string_substr f.data 0 ((find_last_dir_sep f.data + 1) % 2 ^ 64))
            ++ nm, by simp only [hex, if_true], ?_⟩
          apply (do_absolute_pathname_iff _).mpr
          exact ⟨t ++ nm.data, by rw [String.data_append, ht]; rfl⟩
        · right
          simp only [hex, Bool.false_eq_true, if_false]
          exact hwarn s

theorem autoload_map_absolute_or_warned_call (c : autoload_call) (s : tree_evaluator)
    (hc : ∀ f, c.current_user_code = some f →
      f.data.length < npos ∧ (f.data = [] ∨ env.do_absolute_pathname f = true))
    (hs : autoload_map_absolute_or_warned s) :
    ∃ s1, (if c.add
            then add_autoload c.file_exists c.dot_path c.current_user_code c.fcn c.nm
            else remove_autoload c.file_exists c.dot_path c.current_user_code c.fcn c.nm) s
          = some (Outcome.value (), s1)
      ∧ autoload_map_absolute_or_warned s1 := by
  rcases check_autoload_file_spec c.file_exists c.dot_path c.current_user_code c.nm s hc with
    ⟨full, hfull, habs⟩ | hrel
  · by_cases ha : c.add = true
    · refine ⟨{ s with m_autoload_map := map_assign c.fcn full s.m_autoload_map }, ?_, ?_⟩
      · simp [ha, add_autoload, Eval.bind_apply, Eval.seq, hfull, Eval.modify]
      · intro p hp
        rcases mem_map_assign _ _ _ _ hp with h | h
        · left; rw [h]; exact habs
        · exact hs p h
    · refine ⟨{ s with m_autoload_map := map_erase c.fcn s.m_autoload_map }, ?_, ?_⟩
      · simp [ha, remove_autoload, Eval.bind_apply, Eval.seq, hfull, Eval.modify]
      · intro p hp
        exact hs p (mem_map_erase _ _ _ hp)
  · by_cases ha : c.add = true
    · refine ⟨{ s with
          m_autoload_map := map_assign c.fcn c.nm s.m_autoload_map
          warnings := s.warnings ++ [autoload_relative_warning c.nm] }, ?_, ?_⟩
      · simp [ha, add_autoload, Eval.bind_apply, Eval.seq, hrel, Eval.modify]
      · intro p hp
        rcases mem_map_assign _ _ _ _ hp with h | h
        · right; rw [h]; simp
        · rcases hs p h with h1 | h1
          · exact Or.inl h1
          · right; simp [h1]
    · refine ⟨{ s with
          m_autoload_map := map_erase c.fcn s.m_autoload_map
          warnings := s.warnings ++ [autoload_relative_warning c.nm] }, ?_, ?_⟩
      · simp [ha, remove_autoload, Eval.bind_apply, Eval.seq, hrel, Eval.modify]
      · intro p hp
        rcases hs p (mem_map_erase _ _ _ hp) with h1 | h1
        · exact Or.inl h1
        · right; simp [h1]

theorem black_hole_positions_cons (lval : octave_lvalue) (rest : List octave_lvalue)
    (nel : Nat) (nels : List Nat) :
    black_hole_positions (lval :: rest) (nel :: nels)
      = (if lval.is_black_hole then [1] else [])
          ++ (black_hole_positions rest nels).map (fun p => p + nel) := by
  unfold black_hole_positions
  simp only [List.length_cons, List.range_succ_eq_map, List.filter_cons, List.map_cons,
    List.getD_cons_zero, List.filter_map, List.map_map]
  have h1 : (List.filter
      ((fun i => (lval.is_black_hole :: List.map octave_lvalue.is_black_hole rest).getD i false)
        ∘ Nat.succ) (List.range rest.length))
      = List.filter (fun i => (List.map octave_lvalue.is_black_hole rest).getD i false)
          (List.range rest.length) := by
    congr 1
  rw [h1]
  have h2 : ((fun i => 1 + (List.take i (nel :: nels)).sum) ∘ Nat.succ)
      = ((fun p => p + nel) ∘ fun i => 1 + (List.take i nels).sum) := by
    funext i
    simp only [Function.comp, Nat.succ_eq_add_one, List.take_succ_cons, List.sum_cons]
    omega
  cases lval.is_black_hole
  · simp only [Bool.false_eq_true, if_false, List.map_map, List.nil_append, h2]
  · simp only [if_true, List.map_cons, List.map_map, h2]
    simp

theorem black_hole_positions_pos (lvalues : List octave_lvalue) (numels : List Nat) :
    ∀ p ∈ black_hole_positions lvalues numels, 1 ≤ p := by
  intro p hp
  unfold black_hole_positions at hp
  obtain ⟨i, _, hi⟩ := List.mem_map.mp hp
  omega

theorem black_hole_positions_of_none (lvalues : List octave_lvalue) (numels : List Nat)
    (h : (lvalues.filter octave_lvalue.is_black_hole).length = 0) :
    black_hole_positions lvalues numels = [] := by
  induction lvalues generalizing numels with
  | nil => rfl
  | cons lval rest ih =>
    have hb : lval.is_black_hole = false := by
      cases hb : lval.is_black_hole
      · rfl
      · simp [List.filter_cons, hb] at h
    have hr : (rest.filter octave_lvalue.is_black_hole).length = 0 := by
      simpa [List.filter_cons, hb] using h
    unfold black_hole_positions
    simp only [List.length_cons, List.range_succ_eq_map, List.filter_cons, List.map_cons,
      List.getD_cons_zero, hb, Bool.false_eq_true, if_false, List.filter_map, List.map_map]
    have h1 := ih [] hr
    unfold black_hole_positions at h1
    have h2 := List.map_eq_nil_iff.mp h1
    have h3 : (List.filter
      ((fun i => (false :: List.map octave_lvalue.is_black_hole rest).getD i false)
        ∘ Nat.succ) (List.range rest.length))
      = List.filter (fun i => (List.map octave_lvalue.is_black_hole rest).getD i false)
          (List.range rest.length) := by
      congr 1
    rw [h3, h2]
    rfl

theorem ignored_fcn_outputs_loop_eq (s : tree_evaluator) (lvalues : List octave_lvalue)
    (numels : List Nat)
    (h : List.Forall₂ (fun ult nel => octave_lvalue.numel ult s = some (Outcome.value nel, s))
      lvalues numels) (k : Nat) :
    ignored_fcn_outputs_loop lvalues k s
      = some (Outcome.value ((black_hole_positions lvalues numels).map (fun p => p + k)), s) := by
  induction h generalizing k with
  | nil => rfl
  | cons hnel _ ih =>
    rename_i lval nel rest nels _
    simp only [ignored_fcn_outputs_loop, Eval.bind_apply, Eval.seq, hnel, ih (k + nel)]
    rw [black_hole_positions_cons]
    cases hb : lval.is_black_hole
    · simp [pure, Eval.ret, Function.comp, Nat.add_comm, Nat.add_left_comm]
    · simp [pure, Eval.ret, Function.comp, Nat.add_comm, Nat.add_left_comm]

theorem static_cast_int_of_range (x : Int) (h0 : 0 ≤ x) (h1 : x < 2 ^ 31) :
    static_cast_int x = x := by
  unfold static_cast_int
  rw [Int.emod_eq_of_lt (by omega) (by omega)]
  omega

/-- The loop of `isargout` at an index that is not the position of a black
hole. -/
theorem isargout_loop_true (s : tree_evaluator) (iout : Int) (lvalues : List octave_lvalue)
    (numels : List Nat)
    (h : List.Forall₂ (fun ult nel => octave_lvalue.numel ult s = some (Outcome.value nel, s))
      lvalues numels) (k : Int) (hk0 : 0 ≤ k) (hk1 : k + (numels.sum : Int) < 2 ^ 31)
    (hp : ∀ p ∈ black_hole_positions lvalues numels, (p : Int) + k ≠ iout + 1) :
    isargout_loop iout lvalues k s = some (Outcome.value true, s) := by
  induction h generalizing k with
  | nil => rfl
  | cons hnel _ ih =>
    rename_i lval nel rest nels _
    rw [black_hole_positions_cons] at hp
    simp only [List.sum_cons, Nat.cast_add] at hk1
    unfold isargout_loop
    by_cases hki : k = iout
    · simp only [hki, if_true]
      have hb : lval.is_black_hole = false := by
        cases hb : lval.is_black_hole
        · rfl
        · exfalso
          exact hp 1 (by simp [hb]) (by simp [hki]; omega)
      simp [hb, pure, Eval.ret]
    · simp only [hki, if_false, Eval.bind_apply, Eval.seq, hnel]
      rw [static_cast_int_of_range _ (by omega) (by omega)]
      by_cases hgt : k + (nel : Int) > iout
      · simp [hgt, pure, Eval.ret]
      · simp only [hgt, if_false]
        apply ih (k + nel) (by omega) (by omega)
        intro p hpm
        have := hp (p + nel) (List.mem_append_right _ (List.mem_map.mpr ⟨p, hpm, rfl⟩))
        push_cast at this
        omega

/-- The loop of `isargout` at the position of a black hole, when every lvalue
takes at least one value. -/
theorem isargout_loop_false (s : tree_evaluator) (lvalues : List octave_lvalue)
    (numels : List Nat)
    (h : List.Forall₂ (fun ult nel => octave_lvalue.numel ult s = some (Outcome.value nel, s))
      lvalues numels) (hpos : ∀ nel ∈ numels, 1 ≤ nel)
    (k : Int) (hk0 : 0 ≤ k) (hk1 : k + (numels.sum : Int) < 2 ^ 31)
    (p : Nat) (hp : p ∈ black_hole_positions lvalues numels) :
    isargout_loop ((p : Int) + k - 1) lvalues k s = some (Outcome.value false, s) := by
  induction h generalizing k p with
  | nil => simp [black_hole_positions] at hp
  | cons hnel _ ih =>
    rename_i lval nel rest nels _
    rw [black_hole_positions_cons] at hp
    simp only [List.sum_cons, Nat.cast_add] at hk1
    have hnel1 : 1 ≤ nel := hpos nel (by simp)
    unfold isargout_loop
    rcases List.mem_append.mp hp with h1 | h1
    · have hb : lval.is_black_hole = true := by
        cases hb : lval.is_black_hole
        · simp [hb] at h1
        · rfl
      have hp1 : p = 1 := by simpa [hb] using h1
      subst hp1
      have : k = ((1 : Nat) : Int) + k - 1 := by push_cast; omega
      simp [← this, hb, pure, Eval.ret]
    · obtain ⟨q, hq, hqp⟩ := List.mem_map.mp h1
      have hq1 := black_hole_positions_pos rest nels q hq
      subst hqp
      have hki : ¬ k = ((q + nel : Nat) : Int) + k - 1 := by push_cast; omega
      simp only [hki, if_false, Eval.bind_apply, Eval.seq, hnel]
      rw [static_cast_int_of_range _ (by omega) (by omega)]
      have hgt : ¬ k + (nel : Int) > ((q + nel : Nat) : Int) + k - 1 := by push_cast; omega
      simp only [hgt, if_false]
      have := ih (fun n hn => hpos n (by simp [hn])) (k + nel) (by omega) (by omega) q hq
      have he : ((q + nel : Nat) : Int) + k - 1 = (q : Int) + (k + nel) - 1 := by
        push_cast; omega
      rw [he]
      exact this

theorem black_hole_positions_sorted (lvalues : List octave_lvalue) (numels : List Nat) :
    List.Pairwise (fun p q => p ≤ q) (black_hole_positions lvalues numels) := by
  induction lvalues generalizing numels with
  | nil => simp [black_hole_positions]
  | cons lval rest ih =>
    cases numels with
    | nil =>
      unfold black_hole_positions
      simp only [List.take_nil, List.sum_nil]
      rw [List.pairwise_map]
      exact List.pairwise_of_forall (fun _ _ => Nat.le_refl _)
    | cons nel nels =>
      rw [black_hole_positions_cons]
      rw [List.pairwise_append]
      refine ⟨by split <;> simp, ?_, ?_⟩
      · rw [List.pairwise_map]
        exact (ih nels).imp (fun h => by omega)
      · intro a ha b hb
        obtain ⟨q, hq, hqb⟩ := List.mem_map.mp hb
        have hq1 := black_hole_positions_pos rest nels q hq
        have ha1 : a = 1 := by
          split at ha
          · simpa using ha
          · simp at ha
        omega

theorem string_find_first (pre post : List Char) (c : Char) (pos : Nat)
    (hpos : pos ≤ pre.length) (h : c ∉ pre.drop pos) :
    string_find (pre ++ c :: post) c pos = pre.length := by
  have hd : List.drop pos (pre ++ c :: post) = pre.drop pos ++ c :: post := by
    rw [List.drop_append_eq_append_drop]
    have : pos - pre.length = 0 := by omega
    rw [this]; rfl
  unfold string_find
  rw [hd]
  have hm : c ∈ pre.drop pos ++ c :: post := by simp
  simp only [hm, if_true]
  rw [List.indexOf_append_of_not_mem h, List.indexOf_cons_self, List.length_drop]
  omega

theorem string_substr_rest (pre x : List Char) (pos : Nat) (hpos : pos = pre.length)
    (hx : x.length ≤ npos) : string_substr (pre ++ x) pos npos = x := by
  subst hpos
  simp only [string_substr, List.drop_left]
  exact List.take_of_length_le hx

theorem keeps_repl_dbcont : Eval.Keeps repl_dbcont :=
  Eval.keeps_modify (fun _ => ⟨rfl, fun h => h⟩)

/-- C5.  `visit_boolean_expression` on an expression with a left operand: the
left operand is evaluated first, in the entry state `s`, giving the value `a`
and the state `s1`.  For `&&` with a false left value the result is false, for
`||` with a true left value it is true, and in both cases the exit state is
`s1` whatever the right operand is: the right operand is not evaluated.  In
every other case the right operand is evaluated once, in `s1`, and the result
is its truth value in the state `s2` that evaluation leaves (when the
expression has no right operand the result is false in `s1`). -/
theorem visit_boolean_expression_short_circuit
    (tw : tree_walker) (etype : boolean_type) (lhs : tree_expression)
    (rhs : Option tree_expression) (s s1 : tree_evaluator) (a : octave_value) (a_true : Bool)
    (hl : evaluate tw lhs 1 s = some (Outcome.value a, s1))
    (ht : a.is_true = some a_true) :
    (etype = boolean_type.bool_and → a_true = false →
      visit_boolean_expression tw etype (some lhs) rhs s
        = some (Outcome.value (expr_result.RT_VALUE (octave_value.bool_value false)), s1)) ∧
    (etype = boolean_type.bool_or → a_true = true →
      visit_boolean_expression tw etype (some lhs) rhs s
        = some (Outcome.value (expr_result.RT_VALUE (octave_value.bool_value true)), s1)) ∧
    (¬ (etype = boolean_type.bool_and ∧ a_true = false) →
      ¬ (etype = boolean_type.bool_or ∧ a_true = true) →
      (∀ (r : tree_expression) (b : octave_value) (s2 : tree_evaluator) (b_true : Bool),
        rhs = some r → evaluate tw r 1 s1 = some (Outcome.value b, s2) →
        b.is_true = some b_true →
        visit_boolean_expression tw etype (some lhs) rhs s
          = some (Outcome.value (expr_result.RT_VALUE (octave_value.bool_value b_true)), s2))
      ∧ (rhs = none →
        visit_boolean_expression tw etype (some lhs) rhs s
          = some (Outcome.value (expr_result.RT_VALUE (octave_value.bool_value false)), s1))) := by
  refine ⟨?_, ?_, ?_⟩
  · intro he ha
    subst he ha
    simp [visit_boolean_expression, Eval.bind_apply, Eval.seq, hl, tree_evaluator.is_true, ht]
  · intro he ha
    subst he ha
    simp [visit_boolean_expression, Eval.bind_apply, Eval.seq, hl, tree_evaluator.is_true, ht]
  · intro h1 h2
    refine ⟨?_, ?_⟩
    · intro r b s2 b_true hr hb hbt
      subst hr
      cases a_true <;> cases etype <;>
        simp_all [visit_boolean_expression, Eval.bind_apply, Eval.seq, tree_evaluator.is_true]
    · intro hr
      subst hr
      cases a_true <;> cases etype <;>
        simp_all [visit_boolean_expression, Eval.bind_apply, Eval.seq, tree_evaluator.is_true]

/-- Witness for C5: in `(x = 0) && (y = 1)` at top level the left operand is
false, the result is false and only `x` has been assigned. -/
theorem visit_boolean_expression_short_circuit_witness :
    visit_boolean_expression (walker repl_returns no_breakpoint 3) boolean_type.bool_and
        (some (assign_const "x" 0)) (some (assign_const "y" 1)) top_level
      = some (Outcome.value (expr_result.RT_VALUE (octave_value.bool_value false)),
          assign_state "x" (octave_value.scalar 0) top_level) :=
  (visit_boolean_expression_short_circuit (walker repl_returns no_breakpoint 3)
      boolean_type.bool_and
    (assign_const "x" 0) (some (assign_const "y" 1)) top_level
    (assign_state "x" (octave_value.scalar 0) top_level) (octave_value.scalar 0) false
    rfl rfl).1 rfl rfl

/-- C1.  `visit_unwind_protect_command` on a command with a protected body and a
cleanup list: however the body ends (`o_b` is a normal return, in which
`m_breaking` or `m_returning` may be set in `s_b` by a break or return of the
body, an execution exception or an interrupt exception), the command is the
outcome `unwind_protect_exit` of one single run of the cleanup list, started in
the state the body left (recovered, counters cleared): the cleanup list is
entered exactly once, after the body and before the command returns or the
exception propagates. -/
theorem visit_unwind_protect_command_enters_cleanup_once
    (tw : tree_walker) (body cleanup : tree_statement_list) (s s_b : tree_evaluator)
    (o_b : Outcome Unit)
    (hb : tw.accept_statement_list body s = some (o_b, s_b))
    (hob : o_b ≠ Outcome.panic) :
    visit_unwind_protect_command tw (some body) (some cleanup) s
      = unwind_protect_exit o_b (after_body_state o_b s_b)
          (tw.accept_statement_list cleanup (cleanup_entry_state (after_body_state o_b s_b))) := by
  cases o_b with
  | panic => exact absurd rfl hob
  | value u =>
    cases u
    simp only [visit_unwind_protect_command, Eval.bind_apply, Eval.seq, Eval.try_catch, hb,
      do_unwind_protect_cleanup_code, accept_if_nonnull, after_body_state, cleanup_entry_state]
    cases h : tw.accept_statement_list cleanup
        { s_b with octave_interrupt_state := 0, m_returning := 0, m_breaking := 0 } with
    | none => rfl
    | some r =>
      obtain ⟨o, s2⟩ := r
      cases o with
      | value u => cases u; rfl
      | thrown e => cases e <;> rfl
      | panic => rfl
  | thrown e =>
    cases e with
    | execution_exception msg id =>
      simp only [visit_unwind_protect_command, Eval.bind_apply, Eval.seq, Eval.try_catch, hb,
        do_unwind_protect_cleanup_code, accept_if_nonnull, after_body_state, cleanup_entry_state,
        recover_from_exception, Eval.modify_apply]
      cases h : tw.accept_statement_list cleanup
          { recover_from_exception_state s_b with
            octave_interrupt_state := 0, m_returning := 0, m_breaking := 0 } with
      | none => rfl
      | some r =>
        obtain ⟨o, s2⟩ := r
        cases o with
        | value u => cases u; rfl
        | thrown e => cases e <;> rfl
        | panic => rfl
    | interrupt_exception =>
      simp only [visit_unwind_protect_command, Eval.bind_apply, Eval.seq, Eval.try_catch, hb,
        do_unwind_protect_cleanup_code, accept_if_nonnull, after_body_state, cleanup_entry_state,
        recover_from_exception, Eval.modify_apply]
      cases h : tw.accept_statement_list cleanup
          { recover_from_exception_state s_b with
            octave_interrupt_state := 0, m_returning := 0, m_breaking := 0 } with
      | none => rfl
      | some r =>
        obtain ⟨o, s2⟩ := r
        cases o with
        | value u => cases u; rfl
        | thrown e => cases e <;> rfl
        | panic => rfl

/-- Witness for C1: in a loop, `unwind_protect break; disp (1);
unwind_protect_cleanup disp (2); end_unwind_protect` prints 2 once and returns
with `m_breaking` = 1. -/
theorem visit_unwind_protect_command_enters_cleanup_once_witness :
    visit_unwind_protect_command (walker repl_returns no_breakpoint 6)
        (some break_then_disp) (some disp_two) in_loop
      = some (Outcome.value (),
          { in_loop with m_breaking := 1, octave_stdout := [octave_value.scalar 2] }) :=
  (visit_unwind_protect_command_enters_cleanup_once (walker repl_returns no_breakpoint 6)
      break_then_disp disp_two
    in_loop { in_loop with m_breaking := 1 } (Outcome.value ()) rfl
    (fun h => Outcome.noConfusion h)).trans rfl

/-- C10.  `visit_try_catch_command` on a command with a try body and a catch
body, when the try body ends with outcome `o_b`: after a normal return the
command returns and after an interrupt exception the interrupt propagates, in
both cases in the state the body left (the catch body is not run, whatever it
is); after an execution exception the command is exactly the run of the catch
body, started after recovery with the identifier of the catch clause bound to
the last error, so the exception of the try body does not propagate.  The
bound value is the structure of `message`, `identifier` and `stack` of the
error system. -/
theorem visit_try_catch_command_catches_execution_exception
    (tw : tree_walker) (body catch_list : tree_statement_list) (expr_id : Option String)
    (s s_b : tree_evaluator) (o_b : Outcome Unit)
    (hb : tw.accept_statement_list body (try_entry_state s) = some (o_b, s_b)) :
    (o_b = Outcome.value () →
      visit_try_catch_command tw (some body) expr_id (some catch_list) s
        = some (Outcome.value (), restore_in_try_catch s s_b)) ∧
    (o_b = Outcome.thrown exception.interrupt_exception →
      visit_try_catch_command tw (some body) expr_id (some catch_list) s
        = some (Outcome.thrown exception.interrupt_exception, restore_in_try_catch s s_b)) ∧
    (∀ msg id, o_b = Outcome.thrown (exception.execution_exception msg id) →
      visit_try_catch_command tw (some body) expr_id (some catch_list) s
        = tw.accept_statement_list catch_list
            (catch_entry_state expr_id
              (recover_from_exception_state (restore_in_try_catch s s_b)))) ∧
    (∀ (name : String) (s1 : tree_evaluator),
      varval (catch_entry_state (some name) s1) name
        = octave_value.map
            [("message", octave_value.str s1.es.last_error_message),
             ("identifier", octave_value.str s1.es.last_error_id),
             ("stack", s1.es.last_error_stack)]) := by
  have hb1 : tw.accept_statement_list body
      { s with es := { s.es with in_try_catch := s.es.in_try_catch + 1 } } = some (o_b, s_b) := hb
  refine ⟨?_, ?_, ?_, ?_⟩
  · intro h
    subst h
    simp [visit_try_catch_command, Eval.bind_apply, Eval.seq, Eval.try_catch,
      Eval.unwind_protect, hb1]
  · intro h
    subst h
    simp [visit_try_catch_command, Eval.bind_apply, Eval.seq, Eval.try_catch,
      Eval.unwind_protect, hb1]
  · intro msg id h
    subst h
    cases expr_id <;>
      simp [visit_try_catch_command, Eval.bind_apply, Eval.seq, Eval.try_catch,
        Eval.unwind_protect, hb1, recover_from_exception, catch_entry_state, assign]
  · intro name s1
    simp [catch_entry_state, varval_assign_state, last_error_map]

/-- Witness for C10: `try error ("boom"); catch e disp (2); end` at top level
returns normally after the catch body has printed 2, with `e.message` equal to
"boom". -/
theorem visit_try_catch_command_catches_execution_exception_witness :
    (visit_try_catch_command (walker repl_returns no_breakpoint 6)
        (some error_boom) (some "e") (some disp_two)
        top_level).map
      (fun r => (r.1.returns, field_string (varval r.2 "e") "message", printed r.2))
      = some (true, some "boom", [2]) := by
  rw [(visit_try_catch_command_catches_execution_exception (walker repl_returns no_breakpoint 6)
      error_boom disp_two
    (some "e") top_level
    (try_entry_state { top_level with es := { top_level.es with last_error_message := "boom" } })
    (Outcome.thrown (exception.execution_exception "boom" "")) rfl).2.2.1 "boom" "" rfl]
  rfl

/-- C3, counterexample.  For the declared returns `[a, b]`, both defined, and
`nargout` = 1, `convert_return_list_to_const_vector` returns the two values of
`a` and `b`, not a list of exactly one value: the loop runs over the whole
return list and the assignment to element 1 grows the list. -/
theorem convert_return_list_to_const_vector_returns_both :
    convert_return_list_to_const_vector (walker repl_returns no_breakpoint 1)
        ret_list_a_b 1 [] a_b_defined
        = some (Outcome.value [octave_value.scalar 1, octave_value.scalar 2], a_b_defined)
    ∧ ¬ ∃ v s1, convert_return_list_to_const_vector (walker repl_returns no_breakpoint 1)
        ret_list_a_b 1 [] a_b_defined
        = some (Outcome.value [v], s1) := by
  have h : convert_return_list_to_const_vector (walker repl_returns no_breakpoint 1)
      ret_list_a_b 1 [] a_b_defined
      = some (Outcome.value [octave_value.scalar 1, octave_value.scalar 2], a_b_defined) := rfl
  refine ⟨h, ?_⟩
  rintro ⟨v, s1, hv⟩
  rw [h] at hv
  simp at hv

/-- C3, as amended.  For a return list of `len >= 1` identifiers and
`0 <= nargout <= len`, `convert_return_list_to_const_vector` returns, without
changing the state, the values of the declared return variables by position
(the undefined value for a variable that is not defined), up to the larger of
`nargout` and the position of the last defined return variable. -/
theorem convert_return_list_to_const_vector_nargout_le_len {repl : Eval Unit}
    {bp : tree → tree_evaluator → Bool}
    (n : Nat) (ret_list : tree_parameter_list) (nargout : Int)
    (varargout : List octave_value) (s : tree_evaluator)
    (hlen : 1 ≤ ret_list.length) (_h0 : 0 ≤ nargout) (hle : nargout ≤ (ret_list.length : Int))
    (hid : ∀ elt ∈ ret_list.elts, elt.ident ≠ none) :
    ∃ retval,
      convert_return_list_to_const_vector (walker repl bp (n + 1)) ret_list nargout varargout s
        = some (Outcome.value retval, s)
      ∧ retval.length
          = max nargout.toNat (last_defined_position (declared_values s ret_list.elts))
      ∧ ∀ i, i < retval.length →
          retval.getD i octave_value.undefined
            = (declared_values s ret_list.elts).getD i octave_value.undefined := by
  have hne : ¬ ret_list.length = 0 := by omega
  refine ⟨store_defined (declared_values s ret_list.elts) 0
      (List.replicate nargout.toNat octave_value.undefined), ?_, ?_, ?_⟩
  · simp only [convert_return_list_to_const_vector, hne, if_false, hle, if_true]
    exact return_list_loop_defined_eq n s ret_list.elts hid 0 _
  · rw [length_store_defined]
    simp only [List.length_replicate, Nat.zero_add]
    split
    · next h => rw [h]
    · rfl
  · intro i _
    rw [getD_store_defined]
    simp only [Nat.zero_le, Nat.sub_zero, true_and]
    split
    · rfl
    · next h =>
      have hu : ((declared_values s ret_list.elts).getD i octave_value.undefined).is_defined
          = false := by simpa using h
      rw [octave_value_undefined_of_not_defined _ hu]
      simp [List.getD, List.getElem?_replicate]
      split <;> rfl

/-- Witness for the amended C3: `[a, b]`, both defined, `nargout` = 1. -/
theorem convert_return_list_to_const_vector_nargout_le_len_witness :
    ∃ retval,
      convert_return_list_to_const_vector (walker repl_returns no_breakpoint 1)
          ret_list_a_b 1 [] a_b_defined
        = some (Outcome.value retval, a_b_defined)
      ∧ retval.length
          = max (1 : Int).toNat
              (last_defined_position (declared_values a_b_defined ret_list_a_b.elts))
      ∧ ∀ i, i < retval.length →
          retval.getD i octave_value.undefined
            = (declared_values a_b_defined ret_list_a_b.elts).getD i octave_value.undefined :=
  convert_return_list_to_const_vector_nargout_le_len 0 ret_list_a_b 1 [] a_b_defined
    (by decide) (by decide) (by decide) (by decide)

/-- C4.  For a return list of `len >= 1` identifiers that are all defined, a
variadic output collection `varargout` and `nargout > len`,
`convert_return_list_to_const_vector` returns the `len` declared return values
in declaration order followed by the elements of `varargout` in order. -/
theorem convert_return_list_to_const_vector_nargout_gt_len {repl : Eval Unit}
    {bp : tree → tree_evaluator → Bool}
    (n : Nat) (ret_list : tree_parameter_list) (nargout : Int)
    (varargout : List octave_value) (s : tree_evaluator)
    (hlen : 1 ≤ ret_list.length) (hgt : (ret_list.length : Int) < nargout)
    (hdef : ∀ elt ∈ ret_list.elts, ∃ id, elt.ident = some id ∧ is_defined s id = true) :
    convert_return_list_to_const_vector (walker repl bp (n + 1)) ret_list nargout varargout s
      = some (Outcome.value (declared_values s ret_list.elts ++ varargout), s) := by
  have hne : ¬ ret_list.length = 0 := by omega
  have hnle : ¬ nargout ≤ (ret_list.length : Int) := by omega
  simp only [convert_return_list_to_const_vector, hne, if_false, hnle, Eval.bind_apply, Eval.seq]
  rw [return_list_loop_all_eq n s ret_list.elts hdef]
  simp only [Eval.pure_apply]
  have hl : (declared_values s ret_list.elts).length = ret_list.length := by
    simp [declared_values, tree_parameter_list.length]
  have h1 := varargout_loop_append (declared_values s ret_list.elts) []
    (List.replicate (ret_list.length + varargout.length) octave_value.undefined)
    (by simp [hl])
  simp only [List.length_nil, List.nil_append] at h1
  rw [h1, hl]
  have h2 : List.drop ret_list.length
      (List.replicate (ret_list.length + varargout.length) octave_value.undefined)
      = List.replicate varargout.length octave_value.undefined := by
    simp
  rw [h2]
  have h3 := varargout_loop_append varargout (declared_values s ret_list.elts)
    (List.replicate varargout.length octave_value.undefined) (by simp)
  rw [hl] at h3
  rw [h3]
  simp

/-- Witness for C4: declared `[a, b]` with values 1 and 2, `varargout` with the
single element 3 and `nargout` = 3 give `[1, 2, 3]`. -/
theorem convert_return_list_to_const_vector_nargout_gt_len_witness :
    convert_return_list_to_const_vector (walker repl_returns no_breakpoint 1)
        ret_list_a_b 3 [octave_value.scalar 3]
        a_b_defined
      = some (Outcome.value
          [octave_value.scalar 1, octave_value.scalar 2, octave_value.scalar 3], a_b_defined) :=
  convert_return_list_to_const_vector_nargout_gt_len 0 ret_list_a_b 3 [octave_value.scalar 3]
    a_b_defined (by decide) (by decide)
    (by
      intro elt helt
      simp only [ret_list_a_b, tree_parameter_list.elts, List.mem_cons, List.mem_singleton,
        List.not_mem_nil, or_false] at helt
      rcases helt with h | h
      · exact ⟨"a", by rw [h]; rfl, rfl⟩
      · exact ⟨"b", by rw [h]; rfl, rfl⟩)

/-- C6.  With `0 <= max_recursion_depth` (an `int`), for every script and every
user function with a body (a classdef constructor, which is never called
without arguments, apart), called with no arguments and `nargout` = 0: the
call ends with the error `max_recursion_depth exceeded`, whatever the body and
the parameters would do, exactly when the size of the call stack at the time
of the call is `>= max_recursion_depth`; the state in which the error is
raised, `recursion_error_state s`, has the call stack of the entry state, so
no frame has been pushed.  The limit of a new evaluator is 256. -/
theorem recursion_limit_checked_before_push (s : tree_evaluator)
    (h0 : 0 ≤ s.m_max_recursion_depth) (h1 : s.m_max_recursion_depth < 2 ^ 31) :
    (∀ (user_script : octave_user_script), user_script.body ≠ none →
      ((∀ tw, execute_user_script tw user_script 0 [] s = recursion_error s)
        ↔ (s.m_call_stack.size : Int) ≥ s.m_max_recursion_depth))
    ∧ (∀ (user_function : octave_user_function), user_function.body ≠ none →
        user_function.is_classdef_constructor = false →
        ((∀ tw, execute_user_function tw user_function 0 [] s = recursion_error s)
          ↔ (s.m_call_stack.size : Int) ≥ s.m_max_recursion_depth))
    ∧ (recursion_error_state s).m_call_stack = s.m_call_stack
    ∧ top_level.m_max_recursion_depth = 256 := by
  have hcast := static_cast_size_t_of_nonneg _ h0 h1
  have hiff : s.m_call_stack.size ≥ static_cast_size_t s.m_max_recursion_depth
      ↔ (s.m_call_stack.size : Int) ≥ s.m_max_recursion_depth := by
    rw [hcast]; omega
  refine ⟨?_, ?_, rfl, rfl⟩
  · intro user_script hbody
    obtain ⟨file_name, body⟩ := user_script
    cases body with
    | none => exact absurd rfl hbody
    | some cmd_list =>
      constructor
      · intro h
        by_contra hlt
        have hlt1 : ¬ s.m_call_stack.size ≥ static_cast_size_t s.m_max_recursion_depth :=
          fun hge => hlt (hiff.mp hge)
        have hlt2 : ¬ static_cast_size_t s.m_max_recursion_depth ≤ s.m_call_stack.size := hlt1
        have := h (walker repl_returns no_breakpoint 0)
        simp [execute_user_script, Eval.bind_apply, Eval.seq, Eval.unwind_protect, walker,
          recursion_error, hlt2] at this
      · intro hge tw
        have hge1 := hiff.mpr hge
        simp [execute_user_script, Eval.bind_apply, Eval.seq, hge1, recursion_error, error,
          error_with_id, recursion_error_state]
  · intro user_function hbody hc
    constructor
    · intro h
      by_contra hlt
      have hlt1 : ¬ s.m_call_stack.size ≥ static_cast_size_t s.m_max_recursion_depth :=
        fun hge => hlt (hiff.mp hge)
      have := execute_user_function_no_throw user_function hc s hlt1 _ _ (h (walker repl_returns no_breakpoint 0))
      simp [Outcome.throws] at this
    · intro hge tw
      have hge1 := hiff.mpr hge
      obtain ⟨pl, rl, body, lv, anon, cls⟩ := user_function
      simp only [octave_user_function.is_classdef_constructor] at hc
      subst hc
      cases body with
      | none => exact absurd rfl hbody
      | some cmd_list =>
        simp [execute_user_function, Eval.bind_apply, Eval.seq, hge1, recursion_error, error,
          error_with_id, recursion_error_state]

/-- Witness for C6: at the recursion limit a call of a function whose body is
`disp (1);` raises the error and nothing is printed or pushed. -/
theorem recursion_limit_checked_before_push_witness :
    execute_user_function (walker repl_returns no_breakpoint 3)
        disp_one_function 0 [] at_recursion_limit
      = recursion_error at_recursion_limit :=
  ((recursion_limit_checked_before_push at_recursion_limit (by decide) (by decide)).2.1
    disp_one_function (by simp [disp_one_function, octave_user_function.body]) rfl).mpr
    (by decide) (walker repl_returns no_breakpoint 3)

/-- C8.  `visit_anon_fcn_handle` returns, without changing the state, a handle to
the anonymous function `anon_function pl expr s`, whose `local_var_init_vals`
are captured from the current frame; `init_local_fcn_vars`, run on them in any
state, binds every free variable of the body that was defined at creation time
to the value it had then.  Hence a call of the handle `@() x`, made in any later
state `s1` below the recursion limit (whatever `x` has become there), returns
the value `x` had when the handle was created. -/
theorem anon_fcn_handle_captures_by_value {repl : Eval Unit}
    {bp : tree → tree_evaluator → Bool}
    (pl : Option tree_parameter_list) (expr : tree_expression) (s : tree_evaluator) :
    visit_anon_fcn_handle pl (some expr) s
      = some (Outcome.value
          (expr_result.RT_VALUE (octave_value.fcn_handle (anon_function pl expr s))), s)
    ∧ (∀ (name : String) (s1 : tree_evaluator),
        name ∈ free_variables pl (some expr) → (varval s name).is_defined = true →
        ∃ s2,
          init_local_fcn_vars
              (capture_free_vars s.m_call_stack.current (free_variables pl (some expr))) s1
            = some (Outcome.value (), s2)
          ∧ varval s2 name = varval s name)
    ∧ (∀ (n : Nat) (x : String) (nargout : Int) (s1 : tree_evaluator),
        (varval s x).is_defined = true →
        ¬ s1.m_call_stack.size ≥ static_cast_size_t s1.m_max_recursion_depth →
        ∃ s2,
          execute_user_function (walker repl bp (n + 2))
              (anon_function none (tree_expression.identifier x) s) nargout [] s1
            = some (Outcome.value [varval s x], s2)) := by
  refine ⟨rfl, ?_, ?_⟩
  · intro name s1 hmem hd
    refine ⟨_, init_local_fcn_vars_eq _ s1, ?_⟩
    exact varval_init_captured s.m_call_stack.current name hd _ s1 (Or.inl hmem)
  · intro n x nargout s1 hd hlt
    have hlt1 : ¬ static_cast_size_t s1.m_max_recursion_depth ≤ s1.m_call_stack.size := hlt
    have hfree : free_variables none (some (tree_expression.identifier x)) = [x] := by
      simp [free_variables, variables_opt, tree_expression.variables, param_names]
    have hcap : capture_free_vars s.m_call_stack.current [x] = [(x, varval s x)] := by
      have hd1 : (s.m_call_stack.current.varval x).is_defined = true := hd
      simp [capture_free_vars, hd1, varval]
    simp only [execute_user_function, anon_function, anon_body, hfree, hcap, Bool.false_eq_true,
      false_and, if_false, if_true, Eval.bind_apply, Eval.seq, Eval.get_apply, hlt1,
      Eval.unwind_protect, Eval.modify_apply, Eval.pure_apply, init_local_fcn_vars, assign,
      special_expr_body, evaluate_n, walker_accept_expression, tree_expression_accept,
      visit_identifier, varval_assign_state]
    have hv : (varval
        { assign_state x (varval s x)
              { s1 with m_call_stack := s1.m_call_stack.push } with
          m_statement_context := stmt_list_type.SC_FUNCTION } x).is_defined = true := by
      have : varval
          { assign_state x (varval s x)
                { s1 with m_call_stack := s1.m_call_stack.push } with
            m_statement_context := stmt_list_type.SC_FUNCTION } x = varval s x :=
        varval_assign_state x (varval s x) _
      rw [this]; exact hd
    simp [hv]
    exact varval_assign_state x (varval s x) _

/-- Witness for C8: the handle `@() x` created when `x` is 1 and called when `x`
is 2 returns 1, and the program `x = 1; f = @() x; x = 2; r = f ();` ends with
`r` equal to 1. -/
theorem anon_fcn_handle_captures_by_value_witness :
    (∃ s2,
      execute_user_function (walker repl_returns no_breakpoint 2)
          (anon_function none (tree_expression.identifier "x") x_is_one) 1 [] x_is_two
        = some (Outcome.value [octave_value.scalar 1], s2))
    ∧ ((walker repl_returns no_breakpoint 8).accept_statement_list closure_program top_level).map
        (fun r => (r.1.returns, (varval r.2 "r").scalar_value, (varval r.2 "x").scalar_value))
      = some (true, some 1, some 2) :=
  ⟨(anon_fcn_handle_captures_by_value none (tree_expression.identifier "x") x_is_one).2.2
      0 "x" 1 x_is_two rfl (by decide),
    rfl⟩

/-- C9.  Executed at top level with the three counters zero, the statement
`for i = 1:3; if i == 2; continue; end; disp (i); end` returns (with any depth
budget of 9 or more) after having printed 1 and 3, in that order, with
`m_breaking`, `m_continuing` and `m_returning` zero.  In general: a statement list stops right after a
statement that leaves `m_continuing` set, so the rest of the body is skipped;
and when the body of an iteration of a range `for` returns with only
`m_continuing` set (to 1), the loop goes on with the next iteration and
`m_continuing` cleared, so no later iteration is skipped. -/
theorem continue_skips_rest_of_iteration_only {repl : Eval Unit}
    {bp : tree → tree_evaluator → Bool} :
    (∀ n : Nat, observe ((walker repl bp (n + 9)).accept_command continue_program top_level)
      = some (true, [1, 3], 0, 0, 0))
    ∧ (∀ (tw : tree_walker) (stmt : tree_statement) (rest : List (Option tree_statement))
        (s s1 : tree_evaluator),
        s.octave_interrupt_state ≤ 0 →
        tw.accept_statement stmt s = some (Outcome.value (), s1) →
        s1.m_continuing ≠ 0 →
        visit_statement_list_loop tw (some stmt :: rest) s = some (Outcome.value (), s1))
    ∧ (∀ (tw : tree_walker) (ult : String) (loop_body : Option tree_statement_list)
        (val : Nat → octave_value) (i steps : Nat) (s s1 : tree_evaluator),
        accept_if_nonnull tw loop_body (assign_state ult (val i) s)
          = some (Outcome.value (), s1) →
        s1.m_continuing = 1 → s1.m_breaking = 0 → s1.m_returning = 0 →
        s1.octave_interrupt_state ≤ 0 →
        simple_for_loop tw ult loop_body val i (steps + 1) s
          = simple_for_loop tw ult loop_body val (i + 1) steps { s1 with m_continuing := 0 }) := by
  refine ⟨fun _ => rfl, ?_, ?_⟩
  · intro tw stmt rest s s1 hq hs hc
    have hq1 : ¬ s.octave_interrupt_state > 0 := by omega
    simp [visit_statement_list_loop, Eval.bind_apply, Eval.seq, octave_quit, hq1, hs, hc]
  · intro tw ult loop_body val i steps s s1 hb hc hbr hr hq
    have hq1 : ¬ s1.octave_interrupt_state > 0 := by omega
    simp [simple_for_loop, Eval.bind_apply, Eval.seq, assign, hb, quit_loop_now, octave_quit,
      hq1, hc, hbr, hr]

/-- Witness for C9: the iteration `i = 2` of the loop, started inside a loop at
top level with one more value to go, leaves the body at the `continue` and goes
on with the iteration `i = 3`. -/
theorem continue_skips_rest_of_iteration_only_witness :
    simple_for_loop (walker repl_returns no_breakpoint 8) "i" (some continue_body)
        (fun i => octave_value.scalar (octave_value.range_elem 1 1 i)) 1 2 in_loop
      = simple_for_loop (walker repl_returns no_breakpoint 8) "i" (some continue_body)
          (fun i => octave_value.scalar (octave_value.range_elem 1 1 i)) 2 1
          { assign_state "i" (octave_value.scalar 2) in_loop with m_continuing := 0 } :=
  (@continue_skips_rest_of_iteration_only repl_returns no_breakpoint).2.2
    (walker repl_returns no_breakpoint 8) "i" (some continue_body)
    (fun i => octave_value.scalar (octave_value.range_elem 1 1 i)) 1 1 in_loop
    { assign_state "i" (octave_value.scalar 2) in_loop with m_continuing := 1 }
    rfl rfl rfl rfl (by decide)

/-- C7.  For every call of `execute_user_function` or `execute_user_script` by
the evaluator, at any depth `n`: when the call returns or an exception
propagates out of it (the recursion-limit error as well as any error raised at
any nesting depth of the body), the frames of the call stack below the current
one are those of before the call, and so the size of the call stack after the
call equals its size before.  The interactive loop of the debugger, which a
command of the body enters in debug mode, is taken to leave the frames around
the current one as they are (`debugger::repl` restores the current frame). -/
theorem call_stack_size_restored {repl : Eval Unit}
    {bp : tree → tree_evaluator → Bool} (hrepl : Eval.Keeps repl)
    (n : Nat) (nargout : Int) (args : List octave_value)
    (s s1 : tree_evaluator) (o : Outcome (List octave_value)) (ho : o ≠ Outcome.panic) :
    (∀ user_function : octave_user_function,
      execute_user_function (walker repl bp n) user_function nargout args s = some (o, s1) →
      s1.m_call_stack.callers = s.m_call_stack.callers
        ∧ s1.m_call_stack.size = s.m_call_stack.size)
    ∧ (∀ user_script : octave_user_script,
      execute_user_script (walker repl bp n) user_script nargout args s = some (o, s1) →
      s1.m_call_stack.callers = s.m_call_stack.callers
        ∧ s1.m_call_stack.size = s.m_call_stack.size) := by
  refine ⟨?_, ?_⟩
  · intro f h
    have hs := frame_view_eq
      (keeps_execute_user_function (walker_keeps hrepl n) f nargout args s o s1 h ho).1
    exact ⟨hs.1, by simp [call_stack.size, hs.1, hs.2.1]⟩
  · intro f h
    have hs := frame_view_eq
      (keeps_execute_user_script (walker_keeps hrepl n) f nargout args s o s1 h ho).1
    exact ⟨hs.1, by simp [call_stack.size, hs.1, hs.2.1]⟩

/-- Witness for C7: with `max_recursion_depth` 4, the call of a function that
calls itself unconditionally ends with the recursion-limit error, raised three
calls deep, and the call stack has its size of before the call.  In debug mode
too: after `dbstep in` the debugger pauses inside the first call, the user
types `dbcont`, and the call ends with the same error and the same size. -/
theorem call_stack_size_restored_witness :
    execute_user_function (walker repl_returns no_breakpoint 20)
        self_calling_function 0 [] with_self_calling_function
        = recursion_error with_self_calling_function
    ∧ (recursion_error_state with_self_calling_function).m_call_stack.size
        = with_self_calling_function.m_call_stack.size
    ∧ stepping_into_self_call.m_debug_mode = true
    ∧ execute_user_function (walker repl_dbcont no_breakpoint 20)
        self_calling_function 0 [] stepping_into_self_call
        = recursion_error stepped_into_self_call
    ∧ (recursion_error_state stepped_into_self_call).m_call_stack.size
        = stepping_into_self_call.m_call_stack.size :=
  ⟨rfl,
   ((@call_stack_size_restored repl_returns no_breakpoint (Eval.keeps_pure ()) 20 0 []
      with_self_calling_function
      (recursion_error_state with_self_calling_function)
      (Outcome.thrown (exception.execution_exception "max_recursion_depth exceeded" ""))
      (fun h => Outcome.noConfusion h)).1 self_calling_function rfl).2,
   rfl, rfl,
   ((@call_stack_size_restored repl_dbcont no_breakpoint keeps_repl_dbcont 20 0 []
      stepping_into_self_call
      (recursion_error_state stepped_into_self_call)
      (Outcome.thrown (exception.execution_exception "max_recursion_depth exceeded" ""))
      (fun h => Outcome.noConfusion h)).1 self_calling_function rfl).2⟩

/-- C11.  When the cleanup list that `do_unwind_protect_cleanup_code` runs (from
the entry state with the interrupt state, `m_returning` and `m_breaking`
cleared) returns normally in state `s2`, the function returns normally in a
state `s3` in which: if `m_breaking` or `m_returning` is nonzero in `s2`, both
counters have the values of `s2` (those of the entry state `s0` are
discarded); otherwise both have the values they had in `s0`. -/
theorem do_unwind_protect_cleanup_code_flags_after_cleanup
    (tw : tree_walker) (list : Option tree_statement_list) (s0 s2 : tree_evaluator)
    (hrun : accept_if_nonnull tw list (cleanup_entry_state s0) = some (Outcome.value (), s2)) :
    ∃ s3, do_unwind_protect_cleanup_code tw list s0 = some (Outcome.value (), s3)
      ∧ (s2.m_breaking ≠ 0 ∨ s2.m_returning ≠ 0 →
          s3.m_breaking = s2.m_breaking ∧ s3.m_returning = s2.m_returning)
      ∧ (s2.m_breaking = 0 ∧ s2.m_returning = 0 →
          s3.m_breaking = s0.m_breaking ∧ s3.m_returning = s0.m_returning) := by
  have hrun1 : accept_if_nonnull tw list
      { s0 with octave_interrupt_state := 0, m_returning := 0, m_breaking := 0 }
        = some (Outcome.value (), s2) := hrun
  refine ⟨restore_interrupt_state s0 (discard_or_run s0 s2), ?_, ?_, ?_⟩
  · simp only [do_unwind_protect_cleanup_code, hrun1]
  · intro h
    simp [restore_interrupt_state, discard_or_run, h]
  · intro h
    simp [restore_interrupt_state, discard_or_run, restore_breaking_returning, h.1, h.2]

/-- Witness for C11: entered with `m_breaking` = 1, the cleanup list `return;`
ends with `m_breaking` = 0 and `m_returning` = 1. -/
theorem do_unwind_protect_cleanup_code_flags_after_cleanup_witness :
    ∃ s3, do_unwind_protect_cleanup_code (walker repl_returns no_breakpoint 4)
        (some return_list) in_loop_breaking
        = some (Outcome.value (), s3)
      ∧ s3.m_breaking = 0 ∧ s3.m_returning = 1 := by
  obtain ⟨s3, h, hset, _⟩ :=
    do_unwind_protect_cleanup_code_flags_after_cleanup (walker repl_returns no_breakpoint 4)
        (some return_list)
      in_loop_breaking { in_loop with m_returning := 1 } rfl
  exact ⟨s3, h, hset (Or.inr (by decide))⟩

/-- C12.  What `do_unwind_protect_cleanup_code` does with the counters on entry.
Whatever `m_breaking` and `m_returning` are on entry, a cleanup list whose
statements are executed in order from the entry state of the cleanup list is
executed up to and including its last statement.  But `m_continuing` is not
cleared: when it is nonzero on entry and the first statement of the cleanup
list returns without changing it, the cleanup list ends right after that
statement, whatever follows.  So the loop `for i = 1:2; unwind_protect;
continue; unwind_protect_cleanup; disp (1); disp (2); end_unwind_protect; end`
prints 1 twice and never 2, while the same cleanup list entered with
`m_breaking` = 1 and `m_returning` = 1 prints 1 and 2. -/
theorem do_unwind_protect_cleanup_code_keeps_continuing {repl : Eval Unit}
    {bp : tree → tree_evaluator → Bool} :
    (∀ (n : Nat) (stmts : List tree_statement) (s0 s1 : tree_evaluator),
      executes_in_order (walker repl bp n) stmts (cleanup_entry_state s0) s1 →
      do_unwind_protect_cleanup_code (walker repl bp (n + 1))
          (some (tree_statement_list.mk (stmts.map some))) s0
        = some (Outcome.value (),
            restore_interrupt_state s0 (restore_breaking_returning s0 s1)))
    ∧ (∀ (n : Nat) (stmt : tree_statement) (rest : List (Option tree_statement))
        (s0 s1 : tree_evaluator),
        s0.m_continuing ≠ 0 →
        (walker repl bp n).accept_statement stmt (cleanup_entry_state s0) = some (Outcome.value (), s1) →
        s1.m_continuing = s0.m_continuing →
        do_unwind_protect_cleanup_code (walker repl bp (n + 1))
            (some (tree_statement_list.mk (some stmt :: rest))) s0
          = some (Outcome.value (), restore_interrupt_state s0 (discard_or_run s0 s1)))
    ∧ (∀ n : Nat, observe ((walker repl bp (n + 12)).accept_command continue_in_unwind_protect top_level)
        = some (true, [1, 1], 0, 0, 0))
    ∧ (∀ n : Nat,
        observe (do_unwind_protect_cleanup_code (walker repl bp (n + 5)) (some disp_one_two)
          { in_loop with m_breaking := 1, m_returning := 1 })
        = some (true, [1, 2], 1, 0, 1)) := by
  refine ⟨?_, ?_, fun _ => rfl, fun _ => rfl⟩
  · intro n stmts s0 s1 h
    have hrun := visit_statement_list_loop_executes_in_order (walker repl bp n) stmts _ s1 h
    have hfl := executes_in_order_flags (walker repl bp n) stmts _ s1 h rfl rfl
    have hrun1 : visit_statement_list_loop (walker repl bp n) (stmts.map some)
        { s0 with octave_interrupt_state := 0, m_returning := 0, m_breaking := 0 }
          = some (Outcome.value (), s1) := hrun
    simp [do_unwind_protect_cleanup_code, accept_if_nonnull, walker_accept_statement_list,
      visit_statement_list, hrun1, discard_or_run, hfl.1, hfl.2]
  · intro n stmt rest s0 s1 hc hs hc1
    have hs1 : (walker repl bp n).accept_statement stmt
        { s0 with octave_interrupt_state := 0, m_returning := 0, m_breaking := 0 }
          = some (Outcome.value (), s1) := hs
    have hq : ¬ (0 : Int) > 0 := by decide
    have hc2 : s1.m_continuing ≠ 0 := by rw [hc1]; exact hc
    simp [do_unwind_protect_cleanup_code, accept_if_nonnull, walker_accept_statement_list,
      visit_statement_list, visit_statement_list_loop, Eval.bind_apply, Eval.seq, octave_quit,
      Eval.get_apply, hs1, hc2]

/-- Witness for C12: entered with `m_continuing` = 1, the cleanup list
`x = 1; y = 2;` assigns `x` only. -/
theorem do_unwind_protect_cleanup_code_keeps_continuing_witness :
    do_unwind_protect_cleanup_code (walker repl_returns no_breakpoint 5)
        (some (tree_statement_list.mk
          [some (assign_const_statement "x" 1), some (assign_const_statement "y" 2)]))
        { in_loop with m_continuing := 1 }
      = some (Outcome.value (),
          assign_state "x" (octave_value.scalar 1) { in_loop with m_continuing := 1 }) :=
  (do_unwind_protect_cleanup_code_keeps_continuing.2.1 4 (assign_const_statement "x" 1)
    [some (assign_const_statement "y" 2)] { in_loop with m_continuing := 1 }
    (assign_state "x" (octave_value.scalar 1) { in_loop with m_continuing := 1 })
    (by decide) rfl rfl).trans rfl

/-- C13.  With no interrupt pending, `quit_loop_now` called with the counters
`r = m_returning`, `b = m_breaking`, `c = m_continuing` (any integers) returns,
in a state that differs from the entry state only in that `m_continuing` is
`c - 1` if `c` is nonzero and `m_breaking` is `b - 1` if `b` is nonzero, the
value true exactly when `r` is nonzero, `b` (not yet decremented) is nonzero
or the already decremented `m_continuing` is nonzero; `m_returning` is left as
it is.  For `r = b = 0` and `c = 1` the result is false and all three counters
are zero afterwards. -/
theorem quit_loop_now_decrements_then_decides (s : tree_evaluator)
    (hq : s.octave_interrupt_state ≤ 0) :
    quit_loop_now s
      = some (Outcome.value
            (decide (s.m_returning ≠ 0 ∨ s.m_breaking ≠ 0
              ∨ (if s.m_continuing ≠ 0 then s.m_continuing - 1 else s.m_continuing) ≠ 0)),
          { s with
            m_continuing := if s.m_continuing ≠ 0 then s.m_continuing - 1 else s.m_continuing
            m_breaking := if s.m_breaking ≠ 0 then s.m_breaking - 1 else s.m_breaking })
    ∧ (s.m_returning = 0 → s.m_breaking = 0 → s.m_continuing = 1 →
        quit_loop_now s = some (Outcome.value false, { s with m_continuing := 0 })) := by
  have hq1 : ¬ s.octave_interrupt_state > 0 := by omega
  refine ⟨?_, ?_⟩
  · by_cases hc : s.m_continuing = 0 <;> by_cases hb : s.m_breaking = 0 <;>
      simp [quit_loop_now, Eval.bind_apply, Eval.seq, octave_quit, hq1, hc, hb]
    all_goals (cases s; simp_all)
  · intro hr hb hc
    simp [quit_loop_now, Eval.bind_apply, Eval.seq, octave_quit, hq1, hc, hb, hr]

/-- Witness for C13: inside a loop at top level with a pending continue only,
`quit_loop_now` returns false and clears `m_continuing`. -/
theorem quit_loop_now_decrements_then_decides_witness :
    quit_loop_now { in_loop with m_continuing := 1 }
      = some (Outcome.value false, { { in_loop with m_continuing := 1 } with m_continuing := 0 }) :=
  (quit_loop_now_decrements_then_decides { in_loop with m_continuing := 1 } (by decide)).2
    rfl rfl rfl

/-- C14.  `visit_statement_list` on a list of non-null statements `pre`, `stmt`,
`post` (in this order): when the statements of `pre` are executed in order and
each leaves the three counters zero, and then `stmt`, started in the state
`pre` left, returns in state `s1`, and either one of `m_breaking`,
`m_continuing`, `m_returning` is nonzero in `s1` or `stmt` is the last
statement, then the traversal returns in `s1` itself: the statements have been
executed in order up to `stmt`, no statement of `post` is executed (the result
does not depend on `post`), and the traversal has not changed a counter. -/
theorem visit_statement_list_stops_after_flag
    (tw : tree_walker) (pre : List tree_statement) (stmt : tree_statement)
    (post : List tree_statement) (s s0 s1 : tree_evaluator)
    (hpre : executes_in_order tw pre s s0)
    (hq : s0.octave_interrupt_state ≤ 0)
    (hs : tw.accept_statement stmt s0 = some (Outcome.value (), s1))
    (hstop : (s1.m_breaking ≠ 0 ∨ s1.m_continuing ≠ 0 ∨ s1.m_returning ≠ 0) ∨ post = []) :
    visit_statement_list tw (tree_statement_list.mk ((pre ++ stmt :: post).map some)) s
      = some (Outcome.value (), s1) := by
  simp only [visit_statement_list]
  induction hpre with
  | nil s =>
    simp only [List.nil_append, List.map_cons]
    rw [visit_statement_list_loop_cons tw stmt _ s s1 hq hs]
    rcases hstop with h | h
    · rw [if_pos h]
    · subst h
      split
      · rfl
      · rfl
  | cons st rest s s1' s2 hq' hs' hb hc hr _ ih =>
    simp only [List.cons_append, List.map_cons]
    rw [visit_statement_list_loop_cons tw st _ s s1' hq' hs']
    have hn : ¬ (s1'.m_breaking ≠ 0 ∨ s1'.m_continuing ≠ 0 ∨ s1'.m_returning ≠ 0) := by
      simp [hb, hc, hr]
    rw [if_neg hn]
    exact ih hq hs

/-- Witness for C14: inside a loop the list `x = 1; break; disp (1);` returns
right after the `break`, with `m_breaking` = 1, `x` assigned and nothing
printed. -/
theorem visit_statement_list_stops_after_flag_witness :
    visit_statement_list (walker repl_returns no_breakpoint 5)
        (tree_statement_list.mk
          (([assign_const_statement "x" 1] ++ break_statement :: [disp_statement 1]).map some))
        in_loop
      = some (Outcome.value (),
          { assign_state "x" (octave_value.scalar 1) in_loop with m_breaking := 1 }) :=
  visit_statement_list_stops_after_flag (walker repl_returns no_breakpoint 5)
      [assign_const_statement "x" 1]
    break_statement [disp_statement 1] in_loop
    (assign_state "x" (octave_value.scalar 1) in_loop)
    { assign_state "x" (octave_value.scalar 1) in_loop with m_breaking := 1 }
    (executes_in_order.cons _ _ _ _ _ (by decide) rfl rfl rfl rfl (executes_in_order.nil _))
    (by decide) rfl (Or.inl (Or.inl (by decide)))

/-- C15.  `visit_break_command` and `visit_continue_command` first call
`do_breakpoint` if debug mode is on; an exception of that call (the `dbquit` of
the debugger) propagates.  From the state `s1` in which that call returns, which
is the entry state when debug mode is off: `visit_break_command` with the in-loop
flag set returns with `m_breaking` = 1 and nothing else changed; otherwise it
raises the error "break must appear in a loop in the same file as loop command"
and the three counters are those of `s1`.  `visit_continue_command` with the
in-loop flag set returns with `m_continuing` = 1 and nothing else changed;
otherwise it returns in `s1`, without error. -/
theorem visit_break_and_continue_command_in_loop_flag (tw : tree_walker) (s : tree_evaluator) :
    (s.m_debug_mode = false →
      (s.m_in_loop_command = true →
        visit_break_command tw s = some (Outcome.value (), { s with m_breaking := 1 }))
      ∧ (s.m_in_loop_command = false →
        visit_break_command tw s
            = some (Outcome.thrown (exception.execution_exception
                  "break must appear in a loop in the same file as loop command" ""),
                error_state "break must appear in a loop in the same file as loop command" s))
      ∧ (s.m_in_loop_command = true →
        visit_continue_command tw s = some (Outcome.value (), { s with m_continuing := 1 }))
      ∧ (s.m_in_loop_command = false →
        visit_continue_command tw s = some (Outcome.value (), s)))
    ∧ (∀ s1 : tree_evaluator,
        do_breakpoint_in_debug_mode tw (tree.command tree_command.break_command) s
          = some (Outcome.value (), s1) →
        (s1.m_in_loop_command = true →
          visit_break_command tw s = some (Outcome.value (), { s1 with m_breaking := 1 }))
        ∧ (s1.m_in_loop_command = false →
          visit_break_command tw s
              = some (Outcome.thrown (exception.execution_exception
                    "break must appear in a loop in the same file as loop command" ""),
                  error_state "break must appear in a loop in the same file as loop command" s1)
            ∧ (error_state "break must appear in a loop in the same file as loop command"
                s1).m_breaking = s1.m_breaking
            ∧ (error_state "break must appear in a loop in the same file as loop command"
                s1).m_continuing = s1.m_continuing
            ∧ (error_state "break must appear in a loop in the same file as loop command"
                s1).m_returning = s1.m_returning))
    ∧ (∀ s1 : tree_evaluator,
        do_breakpoint_in_debug_mode tw (tree.command tree_command.continue_command) s
          = some (Outcome.value (), s1) →
        (s1.m_in_loop_command = true →
          visit_continue_command tw s = some (Outcome.value (), { s1 with m_continuing := 1 }))
        ∧ (s1.m_in_loop_command = false →
          visit_continue_command tw s = some (Outcome.value (), s1)))
    ∧ (∀ (e : exception) (s1 : tree_evaluator),
        (do_breakpoint_in_debug_mode tw (tree.command tree_command.break_command) s
            = some (Outcome.thrown e, s1) →
          visit_break_command tw s = some (Outcome.thrown e, s1))
        ∧ (do_breakpoint_in_debug_mode tw (tree.command tree_command.continue_command) s
            = some (Outcome.thrown e, s1) →
          visit_continue_command tw s = some (Outcome.thrown e, s1))) := by
  have hb : ∀ s1 : tree_evaluator,
      do_breakpoint_in_debug_mode tw (tree.command tree_command.break_command) s
        = some (Outcome.value (), s1) →
      (s1.m_in_loop_command = true →
        visit_break_command tw s = some (Outcome.value (), { s1 with m_breaking := 1 }))
      ∧ (s1.m_in_loop_command = false →
        visit_break_command tw s
            = some (Outcome.thrown (exception.execution_exception
                  "break must appear in a loop in the same file as loop command" ""),
                error_state "break must appear in a loop in the same file as loop command"
                  s1)) := by
    intro s1 hd
    constructor
    · intro h
      simp [visit_break_command, Eval.bind_apply, Eval.seq, hd, Eval.get_apply, h,
        Eval.modify_apply]
    · intro h
      simp [visit_break_command, Eval.bind_apply, Eval.seq, hd, Eval.get_apply, h, error,
        error_with_id, error_state]
  have hc : ∀ s1 : tree_evaluator,
      do_breakpoint_in_debug_mode tw (tree.command tree_command.continue_command) s
        = some (Outcome.value (), s1) →
      (s1.m_in_loop_command = true →
        visit_continue_command tw s = some (Outcome.value (), { s1 with m_continuing := 1 }))
      ∧ (s1.m_in_loop_command = false →
        visit_continue_command tw s = some (Outcome.value (), s1)) := by
    intro s1 hd
    constructor
    · intro h
      simp [visit_continue_command, Eval.bind_apply, Eval.seq, hd, Eval.get_apply, h,
        Eval.modify_apply]
    · intro h
      simp [visit_continue_command, Eval.bind_apply, Eval.seq, hd, Eval.get_apply, h]
  refine ⟨?_, ?_, hc, ?_⟩
  · intro hoff
    have h1 := hb s (do_breakpoint_in_debug_mode_off tw _ s hoff)
    have h2 := hc s (do_breakpoint_in_debug_mode_off tw _ s hoff)
    exact ⟨h1.1, h1.2, h2.1, h2.2⟩
  · intro s1 hd
    exact ⟨(hb s1 hd).1, fun h => ⟨(hb s1 hd).2 h, rfl, rfl, rfl⟩⟩
  · intro e s1
    constructor
    · intro hd
      simp [visit_break_command, Eval.bind_apply, Eval.seq, hd]
    · intro hd
      simp [visit_continue_command, Eval.bind_apply, Eval.seq, hd]

/-- Witness for C15: at top level outside a loop `break` raises the error, and
`continue` returns with the state unchanged; inside a loop `break` sets
`m_breaking`.  And in debug mode with the abort request of the debugger set
(`dbquit`), `break` inside a loop ends with the interrupt exception of
`do_breakpoint` and `m_breaking` stays 0. -/
theorem visit_break_and_continue_command_in_loop_flag_witness :
    visit_break_command (walker repl_returns no_breakpoint 0) top_level
        = some (Outcome.thrown (exception.execution_exception
              "break must appear in a loop in the same file as loop command" ""),
            error_state "break must appear in a loop in the same file as loop command" top_level)
    ∧ visit_continue_command (walker repl_returns no_breakpoint 0) top_level
        = some (Outcome.value (), top_level)
    ∧ visit_break_command (walker repl_returns no_breakpoint 0) in_loop
        = some (Outcome.value (), { in_loop with m_breaking := 1 })
    ∧ (visit_break_command (walker repl_returns no_breakpoint 0) in_loop_dbquit).map
          (fun r => (r.1.throws, r.2.m_breaking, r.2.m_debug_mode))
        = some (true, 0, false) :=
  ⟨((visit_break_and_continue_command_in_loop_flag (walker repl_returns no_breakpoint 0)
      top_level).1 rfl).2.1 rfl,
   ((visit_break_and_continue_command_in_loop_flag (walker repl_returns no_breakpoint 0)
      top_level).1 rfl).2.2.2 rfl,
   ((visit_break_and_continue_command_in_loop_flag (walker repl_returns no_breakpoint 0)
      in_loop).1 rfl).1 rfl,
   rfl⟩

/-- C16.  `visit_binary_expression` on an expression with operator `|` or `&`
that is eligible for the Matlab-style short-circuit rule and whose left operand
evaluates (in the entry state `s`, leaving `s1`) to a two-dimensional 1x1 value
`a` with truth value `a_true`.  For `|` with a true left value the result is
true, for `&` with a false left value it is false, and in both cases the exit
state is `s1` with exactly one more warning, the Matlab-style short-circuit
warning for the operator, whatever the right operand is: the right operand is
not evaluated.  In the other cases the right operand is evaluated once, in
`s1`, the result is its truth value and the exit state is the state `s2` that
evaluation leaves: no warning is issued. -/
theorem visit_binary_expression_braindead_short_circuit
    (tw : tree_walker) (etype : binary_op) (lhs : tree_expression)
    (rhs : Option tree_expression) (s s1 : tree_evaluator) (a : octave_value) (a_true : Bool)
    (hl : evaluate tw lhs 1 s = some (Outcome.value a, s1))
    (hd : a.ndims = 2 ∧ a.rows = 1 ∧ a.columns = 1)
    (ht : a.is_true = some a_true) :
    (etype = binary_op.op_el_or → a_true = true →
      visit_binary_expression tw etype (some lhs) rhs true s
          = some (Outcome.value (expr_result.RT_VALUE (octave_value.bool_value true)),
              short_circuit_warned "|" s1)
        ∧ (short_circuit_warned "|" s1).warnings.length = s1.warnings.length + 1)
    ∧ (etype = binary_op.op_el_and → a_true = false →
      visit_binary_expression tw etype (some lhs) rhs true s
          = some (Outcome.value (expr_result.RT_VALUE (octave_value.bool_value false)),
              short_circuit_warned "&" s1)
        ∧ (short_circuit_warned "&" s1).warnings.length = s1.warnings.length + 1)
    ∧ ((etype = binary_op.op_el_or ∧ a_true = false)
          ∨ (etype = binary_op.op_el_and ∧ a_true = true) →
        ∀ (r : tree_expression) (b : octave_value) (s2 : tree_evaluator) (b_true : Bool),
          rhs = some r → evaluate tw r 1 s1 = some (Outcome.value b, s2) →
          b.is_true = some b_true →
          visit_binary_expression tw etype (some lhs) rhs true s
            = some (Outcome.value (expr_result.RT_VALUE (octave_value.bool_value b_true)),
                s2)) := by
  refine ⟨?_, ?_, ?_⟩
  · intro he ha
    subst he ha
    refine ⟨?_, by simp [short_circuit_warned]⟩
    simp [visit_binary_expression, Eval.bind_apply, Eval.seq, hl, hd, tree_evaluator.is_true, ht,
      matlab_style_short_circuit_warning, warning_with_id, Eval.modify_apply,
      short_circuit_warned]
  · intro he ha
    subst he ha
    refine ⟨?_, by simp [short_circuit_warned]⟩
    simp [visit_binary_expression, Eval.bind_apply, Eval.seq, hl, hd, tree_evaluator.is_true, ht,
      matlab_style_short_circuit_warning, warning_with_id, Eval.modify_apply,
      short_circuit_warned]
  · intro hcase r b s2 b_true hr hb hbt
    subst hr
    rcases hcase with ⟨he, ha⟩ | ⟨he, ha⟩ <;> subst he ha <;>
      simp [visit_binary_expression, Eval.bind_apply, Eval.seq, hl, hd, tree_evaluator.is_true,
        ht, hb, hbt]

/-- Witness for C16: in `(x = 1) | (y = 1)` at top level the left operand is
true, the result is true, only `x` has been assigned and one warning has been
issued. -/
theorem visit_binary_expression_braindead_short_circuit_witness :
    visit_binary_expression (walker repl_returns no_breakpoint 3) binary_op.op_el_or
        (some (assign_const "x" 1)) (some (assign_const "y" 1)) true top_level
      = some (Outcome.value (expr_result.RT_VALUE (octave_value.bool_value true)),
          short_circuit_warned "|" (assign_state "x" (octave_value.scalar 1) top_level)) :=
  ((visit_binary_expression_braindead_short_circuit (walker repl_returns no_breakpoint 3)
      binary_op.op_el_or
    (assign_const "x" 1) (some (assign_const "y" 1)) top_level
    (assign_state "x" (octave_value.scalar 1) top_level) (octave_value.scalar 1) true
    rfl (by decide) rfl).1 rfl rfl).1

/-- C19.  `define_parameter_list_from_arg_vector` runs its loop from position 0,
and the loop treats the parameter `id` with declared default `expr` at position
`i` (0-based) as follows, before it goes on with position `i + 1`.  If
`i < args.length` and argument `i` is not the magic colon, the parameter is
defined as argument `i`.  If argument `i` is the magic colon and a default is
declared, the default is evaluated and assigned; if none is declared the error
"no default value for argument" with the number `i + 1` is raised.  If
`i >= args.length`, a declared default is evaluated and assigned, and without
default the state is left as it is, without error. -/
theorem define_parameter_list_loop_treats_parameter
    (tw : tree_walker) (args : List octave_value) (id : String)
    (expr : Option tree_expression) (rest : List tree_decl_elt) (i : Nat)
    (s : tree_evaluator) :
    (∀ param_list : tree_parameter_list,
      define_parameter_list_from_arg_vector tw param_list args
        = define_parameter_list_loop tw args param_list.elts 0)
    ∧ (i < args.length → (args.getD i octave_value.undefined).is_magic_colon = false →
        define_parameter_list_loop tw args (tree_decl_elt.mk (some id) expr :: rest) i s
          = define_parameter_list_loop tw args rest (i + 1)
              (assign_state id (args.getD i octave_value.undefined) s))
    ∧ (∀ (e : tree_expression) (v : octave_value) (s1 : tree_evaluator),
        i < args.length → (args.getD i octave_value.undefined).is_magic_colon = true →
        expr = some e → evaluate tw e 1 s = some (Outcome.value v, s1) →
        define_parameter_list_loop tw args (tree_decl_elt.mk (some id) expr :: rest) i s
          = define_parameter_list_loop tw args rest (i + 1) (assign_state id v s1))
    ∧ (i < args.length → (args.getD i octave_value.undefined).is_magic_colon = true →
        expr = none →
        define_parameter_list_loop tw args (tree_decl_elt.mk (some id) expr :: rest) i s
          = some (Outcome.thrown (exception.execution_exception
                ("no default value for argument " ++ format_d (i + 1)) ""),
              error_state ("no default value for argument " ++ format_d (i + 1)) s))
    ∧ (∀ (e : tree_expression) (v : octave_value) (s1 : tree_evaluator),
        args.length ≤ i → expr = some e → evaluate tw e 1 s = some (Outcome.value v, s1) →
        define_parameter_list_loop tw args (tree_decl_elt.mk (some id) expr :: rest) i s
          = define_parameter_list_loop tw args rest (i + 1) (assign_state id v s1))
    ∧ (args.length ≤ i → expr = none →
        define_parameter_list_loop tw args (tree_decl_elt.mk (some id) expr :: rest) i s
          = define_parameter_list_loop tw args rest (i + 1) s) := by
  refine ⟨fun _ => rfl, ?_, ?_, ?_, ?_, ?_⟩
  · intro hi hm
    simp only [define_parameter_list_loop, hi, if_true, hm, Bool.false_eq_true, and_false,
      if_false, Eval.bind_apply, Eval.seq, assign, Eval.modify_apply]
  · intro e v s1 hi hm he hv
    subst he
    have hd : (args.getD i octave_value.undefined).is_defined = true := by
      cases h : args.getD i octave_value.undefined <;> simp_all [octave_value.is_magic_colon,
        octave_value.is_defined]
    simp only [define_parameter_list_loop, hi, if_true, hm, hd, and_self, eval_decl_elt,
      Eval.bind_apply, Eval.seq, hv, assign, Eval.modify_apply, Eval.pure_apply]
  · intro hi hm he
    subst he
    have hd : (args.getD i octave_value.undefined).is_defined = true := by
      cases h : args.getD i octave_value.undefined <;> simp_all [octave_value.is_magic_colon,
        octave_value.is_defined]
    simp only [define_parameter_list_loop, hi, if_true, hm, hd, and_self, eval_decl_elt,
      Eval.bind_apply, Eval.seq, Eval.pure_apply, Bool.false_eq_true, if_false, error,
      error_with_id, error_state]
  · intro e v s1 hi he hv
    subst he
    have hi1 : ¬ i < args.length := by omega
    simp only [define_parameter_list_loop, hi1, if_false, eval_decl_elt, Eval.bind_apply,
      Eval.seq, hv, assign, Eval.modify_apply, Eval.pure_apply]
  · intro hi he
    subst he
    have hi1 : ¬ i < args.length := by omega
    simp only [define_parameter_list_loop, hi1, if_false, eval_decl_elt, Eval.bind_apply,
      Eval.seq, Eval.pure_apply]

/-- Witness for C19: the parameters `(a, b = 5)` defined from the arguments 1 and
magic colon are `a` = 1 and `b` = 5; and the parameter `a`, which has no default,
given the magic colon as its first argument raises "no default value for
argument 1". -/
theorem define_parameter_list_loop_treats_parameter_witness :
    define_parameter_list_from_arg_vector (walker repl_returns no_breakpoint 3) params_a_b_default
        [octave_value.scalar 1, octave_value.magic_colon] top_level
      = some (Outcome.value (),
          assign_state "b" (octave_value.scalar 5)
            (assign_state "a" (octave_value.scalar 1) top_level))
    ∧ define_parameter_list_loop (walker repl_returns no_breakpoint 3)
        [octave_value.magic_colon] [decl "a"] 0 top_level
      = some (Outcome.thrown (exception.execution_exception "no default value for argument 1" ""),
          error_state "no default value for argument 1" top_level) :=
  ⟨((define_parameter_list_loop_treats_parameter (walker repl_returns no_breakpoint 3)
      [octave_value.scalar 1, octave_value.magic_colon] "a" none
      [tree_decl_elt.mk (some "b") (some (tree_expression.constant (octave_value.scalar 5)))]
      0 top_level).2.1 (by decide) rfl).trans rfl,
   (define_parameter_list_loop_treats_parameter (walker repl_returns no_breakpoint 3)
       [octave_value.magic_colon] "a" none
      [] 0 top_level).2.2.2.1 (by decide) rfl rfl⟩

/-- C20.  `execute_user_script` called with a non-empty argument list or with
`nargout` different from 0 raises the error "invalid call to script" followed
by the file name.  Otherwise, for a script with a body, called below the
recursion limit: when the body, entered in `script_entry_state s`, returns
normally in state `s_b`, the call returns the empty value list in a state in
which `m_returning` is 0 and `m_breaking` is the value the body left, less one
if that was nonzero. -/
theorem execute_user_script_absorbs_return_and_break
    (tw : tree_walker) (user_script : octave_user_script) (s : tree_evaluator) :
    (∀ (nargout : Int) (args : List octave_value), args ≠ [] ∨ nargout ≠ 0 →
      execute_user_script tw user_script nargout args s
        = some (Outcome.thrown (exception.execution_exception
              ("invalid call to script " ++ user_script.fcn_file_name) ""),
            error_state ("invalid call to script " ++ user_script.fcn_file_name) s))
    ∧ (∀ (cmd_list : tree_statement_list) (s_b : tree_evaluator),
        user_script.body = some cmd_list →
        ¬ s.m_call_stack.size ≥ static_cast_size_t s.m_max_recursion_depth →
        tw.accept_statement_list cmd_list (script_entry_state s) = some (Outcome.value (), s_b) →
        ∃ s1, execute_user_script tw user_script 0 [] s = some (Outcome.value [], s1)
          ∧ s1.m_returning = 0
          ∧ s1.m_breaking = (if s_b.m_breaking ≠ 0 then s_b.m_breaking - 1 else s_b.m_breaking)) := by
  refine ⟨?_, ?_⟩
  · intro nargout args h
    have h1 : args.length ≠ 0 ∨ nargout ≠ 0 := by
      rcases h with h | h
      · left
        intro hl
        exact h (List.length_eq_zero.mp hl)
      · right; exact h
    simp only [execute_user_script, h1, if_true, error, error_with_id, error_state]
  · intro cmd_list s_b hbody hlim hrun
    have hlim1 : ¬ static_cast_size_t s.m_max_recursion_depth ≤ s.m_call_stack.size := hlim
    have hrun1 : tw.accept_statement_list cmd_list
        { s with m_call_stack := s.m_call_stack.push,
                 m_statement_context := stmt_list_type.SC_SCRIPT } = some (Outcome.value (), s_b) :=
      hrun
    refine ⟨restore_after_call s (absorb_return_and_break s_b), ?_, ?_, ?_⟩
    · simp [execute_user_script, hbody, Eval.bind_apply, Eval.seq, Eval.get_apply, hlim1,
        Eval.unwind_protect, Eval.modify_apply, hrun1]
    · by_cases hr : s_b.m_returning = 0 <;> by_cases hb : s_b.m_breaking = 0 <;>
        simp [restore_after_call, absorb_return_and_break, hr, hb]
    · by_cases hr : s_b.m_returning = 0 <;> by_cases hb : s_b.m_breaking = 0 <;>
        simp [restore_after_call, absorb_return_and_break, hr, hb]

/-- Witness for C20: the script `return; disp (1);` called at top level returns
the empty list; the `return` has stopped the body (nothing is printed) and
`m_returning` is 0 in the caller. -/
theorem execute_user_script_absorbs_return_and_break_witness :
    ∃ s1, execute_user_script (walker repl_returns no_breakpoint 4) returning_script 0 [] top_level
        = some (Outcome.value [], s1)
      ∧ s1.m_returning = 0
      ∧ s1.m_breaking = 0 := by
  obtain ⟨s1, h, hr, hb⟩ :=
    (execute_user_script_absorbs_return_and_break (walker repl_returns no_breakpoint 4)
        returning_script top_level).2
      _ { script_entry_state top_level with m_returning := 1 } rfl (by decide) rfl
  exact ⟨s1, h, hr, hb⟩

/-- C17.  `visit_multi_assignment` on `[LHS] = RHS`: when the lvalues of the left
hand side have been resolved (leaving state `s1`) and `numels` are the values
of `numel ()` of these lvalues, in order, the function goes on as the single
evaluation of the right hand side in `s1` with the requested number of outputs
`numels.sum`, followed by the loop that assigns the values, in which the right
hand side does not occur.  The lvalue of a black hole has `numel ()` = 1 like
that of a variable. -/
theorem visit_multi_assignment_requests_sum_of_numel
    (tw : tree_walker) (lhs : List tree_expression) (rhs : tree_expression)
    (s s1 : tree_evaluator) (lvalue_list : List octave_lvalue) (numels : List Nat)
    (hl : make_lvalue_list tw lhs s = some (Outcome.value lvalue_list, s1))
    (hn : List.Forall₂
      (fun ult nel => octave_lvalue.numel ult s1 = some (Outcome.value nel, s1))
      lvalue_list numels) :
    visit_multi_assignment tw lhs (some rhs) s
        = Eval.seq (evaluate_n tw rhs (numels.sum : Nat))
            (fun rhs_val1 =>
              Eval.seq
                (multi_assignment_loop lvalue_list.length (multi_assignment_rhs_val rhs_val1)
                  lvalue_list 0 [])
                (fun val => pure (expr_result.RT_VALUE_LIST val))) s1
    ∧ (∀ st : tree_evaluator,
        tree_expression_lvalue tw tree_expression.black_hole st
          = some (Outcome.value { sym := "~", black_hole := true, index := none }, st)
        ∧ octave_lvalue.numel { sym := "~", black_hole := true, index := none } st
          = some (Outcome.value 1, st)) := by
  refine ⟨?_, fun st => ⟨rfl, rfl⟩⟩
  have hc := count_outputs_eq_sum s1 lvalue_list numels hn 0
  simp only [Nat.zero_add] at hc
  simp only [visit_multi_assignment, Eval.bind_apply, Eval.seq, hl, hc]

/-- Witness for C17: in `[x, ~, c{1:2}] = g ()` the lvalues take 1, 1 and 2
values, so `g` is called with `nargout` = 4; with the four values 1, 2, 3, 4 that
`g` returns, `x` becomes 1, `c` becomes `{3, 4}` and the result is 1, 3, 4. -/
theorem visit_multi_assignment_requests_sum_of_numel_witness :
    visit_multi_assignment (walker repl_returns no_breakpoint 8)
        lhs_x_hole_c (some call_g) with_four_values_function
        = Eval.seq (evaluate_n (walker repl_returns no_breakpoint 8) call_g 4)
            (fun rhs_val1 =>
              Eval.seq
                (multi_assignment_loop 3 (multi_assignment_rhs_val rhs_val1) lvalues_x_hole_c 0 [])
                (fun val => pure (expr_result.RT_VALUE_LIST val))) with_four_values_function
    ∧ observe_x_c (visit_multi_assignment (walker repl_returns no_breakpoint 8)
        lhs_x_hole_c (some call_g)
          with_four_values_function)
        = some (true, [some 1, some 3, some 4], some 1, [some 3, some 4]) :=
  ⟨(visit_multi_assignment_requests_sum_of_numel (walker repl_returns no_breakpoint 8)
      lhs_x_hole_c call_g
      with_four_values_function with_four_values_function lvalues_x_hole_c [1, 1, 2] rfl
      (List.Forall₂.cons rfl (List.Forall₂.cons rfl (List.Forall₂.cons rfl List.Forall₂.nil)))).1,
   rfl⟩

/-- C18.  `visit_multi_assignment` on `[LHS] = RHS` when every lvalue of the left
hand side has `numel ()` = 1 and the right hand side, evaluated with one output
requested per target, yields the values `rhs_val1`.  The assignment loop is the
rule `assign_by_position` applied to the values from position 0 on: a black
hole consumes its position `k` without assignment and never raises; another
target receives the value at its position `k` when `k` is less than the number
of values and the value is defined, and raises "element number k+1 undefined in
return list" otherwise; the result is the list of the values assigned.  In
closed form, for targets without index: the error is raised exactly when
`first_missing` finds a target that is not a black hole without a defined value
at its position (the targets before it have been assigned), and otherwise the
result is the list of the values at the positions of the targets that are not
black holes, in order, each bound to its target. -/
theorem visit_multi_assignment_assigns_by_position
    (tw : tree_walker) (lhs : List tree_expression) (rhs : tree_expression)
    (s s1 s2 : tree_evaluator) (lvalue_list : List octave_lvalue)
    (rhs_val1 : List octave_value)
    (hl : make_lvalue_list tw lhs s = some (Outcome.value lvalue_list, s1))
    (hnel : ∀ ult ∈ lvalue_list, ∀ st, octave_lvalue.numel ult st = some (Outcome.value 1, st))
    (hr : evaluate_n tw rhs (lvalue_list.length : Nat) s1 = some (Outcome.value rhs_val1, s2)) :
    visit_multi_assignment tw lhs (some rhs) s
        = Eval.seq (assign_by_position lvalue_list (multi_assignment_rhs_val rhs_val1) 0 [])
            (fun val => pure (expr_result.RT_VALUE_LIST val)) s2
    ∧ ((∀ ult ∈ lvalue_list, ult.index = none) →
        visit_multi_assignment tw lhs (some rhs) s
          = match first_missing lvalue_list (multi_assignment_rhs_val rhs_val1) 0 with
            | none =>
                some (Outcome.value (expr_result.RT_VALUE_LIST
                    (assigned_values lvalue_list (multi_assignment_rhs_val rhs_val1) 0)),
                  assigned_state lvalue_list (multi_assignment_rhs_val rhs_val1) 0 s2)
            | some p =>
                some (Outcome.thrown (exception.execution_exception
                    ("element number " ++ format_d (p + 1) ++ " undefined in return list") ""),
                  error_state
                    ("element number " ++ format_d (p + 1) ++ " undefined in return list")
                    (assigned_state (lvalue_list.take p)
                      (multi_assignment_rhs_val rhs_val1) 0 s2))) := by
  have hc := count_outputs_of_numel_one lvalue_list hnel 0 s1
  simp only [Nat.zero_add] at hc
  have hmain : visit_multi_assignment tw lhs (some rhs) s
      = Eval.seq (assign_by_position lvalue_list (multi_assignment_rhs_val rhs_val1) 0 [])
          (fun val => pure (expr_result.RT_VALUE_LIST val)) s2 := by
    simp only [visit_multi_assignment, Eval.bind_apply, Eval.seq, hl, hc, hr]
    rw [multi_assignment_loop_eq_assign_by_position _ _ _ hnel]
  refine ⟨hmain, ?_⟩
  intro hidx
  rw [hmain]
  simp only [Eval.seq]
  rw [assign_by_position_eq _ _ hidx]
  cases first_missing lvalue_list (multi_assignment_rhs_val rhs_val1) 0 with
  | none => simp
  | some p => simp

/-- Witness for C18: with `function [a, b] = f ()` returning 1 and 2, the
assignment `[x, ~] = f ()` binds `x` to 1 and its result is the single value 1;
`[x, y, z] = f ()` binds `x` and `y` and raises "element number 3 undefined in
return list". -/
theorem visit_multi_assignment_assigns_by_position_witness :
    visit_multi_assignment (walker repl_returns no_breakpoint 8)
        [tree_expression.identifier "x", tree_expression.black_hole] (some call_f)
        with_two_values_function
      = some (Outcome.value (expr_result.RT_VALUE_LIST [octave_value.scalar 1]),
          assign_state "x" (octave_value.scalar 1) with_two_values_function)
    ∧ visit_multi_assignment (walker repl_returns no_breakpoint 8)
        [tree_expression.identifier "x", tree_expression.identifier "y",
         tree_expression.identifier "z"] (some call_f) with_two_values_function
      = some (Outcome.thrown (exception.execution_exception
            "element number 3 undefined in return list" ""),
          error_state "element number 3 undefined in return list"
            (assign_state "y" (octave_value.scalar 2)
              (assign_state "x" (octave_value.scalar 1) with_two_values_function))) :=
  ⟨((visit_multi_assignment_assigns_by_position (walker repl_returns no_breakpoint 8)
      [tree_expression.identifier "x", tree_expression.black_hole] call_f
      with_two_values_function with_two_values_function with_two_values_function
      [variable_lvalue "x", black_hole_lvalue]
      [octave_value.scalar 1, octave_value.scalar 2] rfl
      (by
        intro ult hult st
        simp only [List.mem_cons, List.mem_singleton, List.not_mem_nil, or_false] at hult
        rcases hult with h | h <;> subst h <;> rfl)
      rfl).2
      (by
        intro ult hult
        simp only [List.mem_cons, List.mem_singleton, List.not_mem_nil, or_false] at hult
        rcases hult with h | h <;> subst h <;> rfl)).trans rfl,
   ((visit_multi_assignment_assigns_by_position (walker repl_returns no_breakpoint 8)
      [tree_expression.identifier "x", tree_expression.identifier "y",
       tree_expression.identifier "z"] call_f
      with_two_values_function with_two_values_function with_two_values_function
      [variable_lvalue "x", variable_lvalue "y", variable_lvalue "z"]
      [octave_value.scalar 1, octave_value.scalar 2] rfl
      (by
        intro ult hult st
        simp only [List.mem_cons, List.mem_singleton, List.not_mem_nil, or_false] at hult
        rcases hult with h | h | h <;> subst h <;> rfl)
      rfl).2
      (by
        intro ult hult
        simp only [List.mem_cons, List.mem_singleton, List.not_mem_nil, or_false] at hult
        rcases hult with h | h | h <;> subst h <;> rfl)).trans rfl⟩

/-- C21.  `switch_case_label_matches`, once the label has been evaluated to
`label_value`, returns true if and only if `label_value` is defined and either
is a cell array with an element that `is_equal` to the switch value, or is not a
cell and `is_equal` to the switch value; an exception of the label propagates.
`visit_switch_command` first calls `do_breakpoint` if debug mode is on (with
debug mode off that does nothing, and an exception of it propagates); let `sd`
be the state in which that call returns, the entry state when debug mode is
off.  On the cases `pre`, `case`, `post` (in this order): when
the switch value has been evaluated, no case of `pre` is the default case and
their labels, evaluated in order, do not match, and `case` is the default case
or its label, evaluated next, matches, then the command is the run of the body
of `case` from the state reached there: the body of the first such case is
executed, no other body is, and no label of `post` is evaluated (the result does
not depend on `post`).  When no case is taken, no body is executed. -/
theorem visit_switch_command_first_matching_case (tw : tree_walker) (val : octave_value) :
    (∀ (label : tree_expression) (label_value : octave_value) (s s1 : tree_evaluator),
      evaluate tw label 1 s = some (Outcome.value label_value, s1) →
      ∃ b : Bool, switch_case_label_matches tw label val s = some (Outcome.value b, s1)
        ∧ (b = true ↔
            label_value.is_defined = true
            ∧ ((∃ elems, label_value = octave_value.cell elems
                  ∧ ∃ elt ∈ elems, val.is_equal elt = true)
               ∨ (label_value.iscell = false ∧ val.is_equal label_value = true))))
    ∧ (∀ (label : tree_expression) (e : exception) (s s1 : tree_evaluator),
      evaluate tw label 1 s = some (Outcome.thrown e, s1) →
      switch_case_label_matches tw label val s = some (Outcome.thrown e, s1))
    ∧ (∀ (expr : tree_expression) (pre post : List tree_switch_case)
        (label : Option tree_expression) (commands : Option tree_statement_list)
        (s sd s0 s1 s2 : tree_evaluator),
      do_breakpoint_in_debug_mode tw
          (tree.command (tree_command.switch_command (some expr)
            (some (pre ++ tree_switch_case.mk label commands :: post)))) s
        = some (Outcome.value (), sd) →
      evaluate tw expr 1 sd = some (Outcome.value val, s0) →
      rejects_in_order tw val pre s0 s1 →
      ((label = none ∧ s2 = s1)
        ∨ ∃ l, label = some l
            ∧ switch_case_label_matches tw l val s1 = some (Outcome.value true, s2)) →
      visit_switch_command tw (some expr)
          (some (pre ++ tree_switch_case.mk label commands :: post)) s
        = accept_if_nonnull tw commands s2)
    ∧ (∀ (expr : tree_expression) (lst : List tree_switch_case) (s sd s0 s1 : tree_evaluator),
      do_breakpoint_in_debug_mode tw
          (tree.command (tree_command.switch_command (some expr) (some lst))) s
        = some (Outcome.value (), sd) →
      evaluate tw expr 1 sd = some (Outcome.value val, s0) →
      rejects_in_order tw val lst s0 s1 →
      visit_switch_command tw (some expr) (some lst) s = some (Outcome.value (), s1))
    ∧ (∀ (t : tree) (s : tree_evaluator), s.m_debug_mode = false →
      do_breakpoint_in_debug_mode tw t s = some (Outcome.value (), s))
    ∧ (∀ (expr : Option tree_expression) (lst : Option (List tree_switch_case))
        (e : exception) (s s1 : tree_evaluator),
      do_breakpoint_in_debug_mode tw (tree.command (tree_command.switch_command expr lst)) s
        = some (Outcome.thrown e, s1) →
      visit_switch_command tw expr lst s = some (Outcome.thrown e, s1)) := by
  have hcell : ∀ elems : List octave_value,
      cell_label_matches val elems = true ↔ ∃ elt ∈ elems, val.is_equal elt = true := by
    intro elems
    induction elems with
    | nil => simp [cell_label_matches]
    | cons elt rest ih =>
      by_cases h : val.is_equal elt = true
      · simp [cell_label_matches, h]
      · simp [cell_label_matches, h, ih]
  have hloop : ∀ (pre post : List tree_switch_case) (label : Option tree_expression)
      (commands : Option tree_statement_list) (s0 s1 s2 : tree_evaluator),
      rejects_in_order tw val pre s0 s1 →
      ((label = none ∧ s2 = s1)
        ∨ ∃ l, label = some l
            ∧ switch_case_label_matches tw l val s1 = some (Outcome.value true, s2)) →
      switch_case_loop tw val (pre ++ tree_switch_case.mk label commands :: post) s0
        = accept_if_nonnull tw commands s2 := by
    intro pre post label commands s0 s1 s2 hpre htake
    induction hpre with
    | nil s =>
      rcases htake with ⟨hl, hs⟩ | ⟨l, hl, hm⟩
      · subst hl; subst hs
        simp [switch_case_loop, Eval.bind_apply, Eval.seq]
      · subst hl
        simp [switch_case_loop, Eval.bind_apply, Eval.seq, hm]
    | cons l c rest s s1' s2' hm _ ih =>
      simp only [List.cons_append]
      rw [switch_case_loop]
      simp only [Eval.bind_apply, Eval.seq, hm]
      exact ih htake
  have hnone : ∀ (lst : List tree_switch_case) (s0 s1 : tree_evaluator),
      rejects_in_order tw val lst s0 s1 →
      switch_case_loop tw val lst s0 = some (Outcome.value (), s1) := by
    intro lst s0 s1 h
    induction h with
    | nil s => simp [switch_case_loop]
    | cons l c rest s s1' s2' hm _ ih =>
      rw [switch_case_loop]
      simp only [Eval.bind_apply, Eval.seq, hm]
      exact ih
  refine ⟨?_, ?_, ?_, ?_, fun t s h => do_breakpoint_in_debug_mode_off tw t s h, ?_⟩
  · intro label label_value s s1 he
    refine ⟨(if label_value.is_defined then
        (match label_value with
         | octave_value.cell elems => cell_label_matches val elems
         | _ => val.is_equal label_value)
        else false), ?_, ?_⟩
    · simp only [switch_case_label_matches, Eval.bind_apply, Eval.seq, he]
      cases label_value <;> simp [octave_value.is_defined]
    · cases label_value <;> simp [octave_value.is_defined, octave_value.iscell, hcell]
  · intro label e s s1 he
    simp [switch_case_label_matches, Eval.bind_apply, Eval.seq, he]
  · intro expr pre post label commands s sd s0 s1 s2 hd he hpre htake
    simp only [visit_switch_command, Eval.bind_apply, Eval.seq, hd, he]
    exact hloop pre post label commands s0 s1 s2 hpre htake
  · intro expr lst s sd s0 s1 hd he h
    simp only [visit_switch_command, Eval.bind_apply, Eval.seq, hd, he]
    exact hnone lst s0 s1 h
  · intro expr lst e s s1 hd
    simp only [visit_switch_command, Eval.bind_apply, Eval.seq, hd]

/-- Witness for C21: `switch 2; case 1, disp (1); case {2, 3}, disp (2);
otherwise, disp (3); end` prints 2 and nothing else.  In debug mode too: when
the debugger pauses at the switch command and the user types `dbcont`, the
command is the run of `disp (2);` from the state the debugger leaves, which
prints 2 after the prompt. -/
theorem visit_switch_command_first_matching_case_witness :
    visit_switch_command (walker repl_returns no_breakpoint 7)
        (some (tree_expression.constant (octave_value.scalar 2)))
        (some ([case_disp (octave_value.scalar 1) 1]
          ++ case_disp (octave_value.cell [octave_value.scalar 2, octave_value.scalar 3]) 2
          :: [otherwise_disp 3])) top_level
      = accept_if_nonnull (walker repl_returns no_breakpoint 7)
          (some (tree_statement_list.mk [some (disp_statement 2)]))
          top_level
    ∧ accept_if_nonnull (walker repl_returns no_breakpoint 7)
        (some (tree_statement_list.mk [some (disp_statement 2)]))
          top_level
      = some (Outcome.value (), top_level_printed 2)
    ∧ visit_switch_command (walker repl_dbcont no_breakpoint 7)
        (some (tree_expression.constant (octave_value.scalar 2)))
        (some ([case_disp (octave_value.scalar 1) 1]
          ++ case_disp (octave_value.cell [octave_value.scalar 2, octave_value.scalar 3]) 2
          :: [otherwise_disp 3])) (stepping 1)
      = accept_if_nonnull (walker repl_dbcont no_breakpoint 7)
          (some (tree_statement_list.mk [some (disp_statement 2)]))
          after_dbcont
    ∧ (accept_if_nonnull (walker repl_dbcont no_breakpoint 7)
        (some (tree_statement_list.mk [some (disp_statement 2)]))
          after_dbcont).map (fun r => (r.1.throws, r.2.octave_stdout, r.2.m_debug_mode))
      = some (false, [octave_value.str "debug> ", octave_value.scalar 2], false) :=
  ⟨(visit_switch_command_first_matching_case (walker repl_returns no_breakpoint 7)
      (octave_value.scalar 2)).2.2.1
      (tree_expression.constant (octave_value.scalar 2)) [case_disp (octave_value.scalar 1) 1]
      [otherwise_disp 3]
      (some (tree_expression.constant
        (octave_value.cell [octave_value.scalar 2, octave_value.scalar 3])))
      (some (tree_statement_list.mk [some (disp_statement 2)]))
      top_level top_level top_level top_level top_level rfl rfl
      (rejects_in_order.cons _ _ _ _ _ _ rfl (rejects_in_order.nil _))
      (Or.inr ⟨_, rfl, rfl⟩),
    rfl,
    (visit_switch_command_first_matching_case (walker repl_dbcont no_breakpoint 7)
      (octave_value.scalar 2)).2.2.1
      (tree_expression.constant (octave_value.scalar 2)) [case_disp (octave_value.scalar 1) 1]
      [otherwise_disp 3]
      (some (tree_expression.constant
        (octave_value.cell [octave_value.scalar 2, octave_value.scalar 3])))
      (some (tree_statement_list.mk [some (disp_statement 2)]))
      (stepping 1) after_dbcont after_dbcont after_dbcont after_dbcont rfl rfl
      (rejects_in_order.cons _ _ _ _ _ _ rfl (rejects_in_order.nil _))
      (Or.inr ⟨_, rfl, rfl⟩),
    rfl⟩

/-- C22.  `do_breakpoint` on a statement that is not an active breakpoint, in a
state with `dbstep_flag` = N > 0 whose top debugger (if any) has no exit or
abort request.  When the current frame is the debug frame: if N = 1 or the
statement is the end of the function or script it pauses (the REPL of the top
debugger is run, from the entry state with `dbstep_flag` = 0), otherwise it
returns with `dbstep_flag` = N - 1 and nothing else changed, whatever the REPL
is.  When the current frame is not the debug frame: if N = 1 and the current
frame is smaller than the debug frame it pauses, with the debug frame set to
the current frame and `dbstep_flag` = 0, otherwise it returns with the state
unchanged.  Without a debugger on the stack the pause is the error
"internal error: dbstep without an active debugger!". -/
theorem do_breakpoint_step_count (repl : Eval Unit) (is_end_of_fcn_or_script : Bool)
    (s : tree_evaluator) (hreq : no_debugger_request s = true) (hN : 0 < s.m_dbstep_flag) :
    (s.m_call_stack.current_frame = s.m_debug_frame →
      ((s.m_dbstep_flag = 1 ∨ is_end_of_fcn_or_script = true) →
        (s.m_debugger_stack ≠ [] →
          do_breakpoint repl false is_end_of_fcn_or_script s
            = repl { s with m_dbstep_flag := 0 })
        ∧ (s.m_debugger_stack = [] →
          do_breakpoint repl false is_end_of_fcn_or_script s
            = error "internal error: dbstep without an active debugger!"
                { s with m_dbstep_flag := 0 }))
      ∧ (¬ (s.m_dbstep_flag = 1 ∨ is_end_of_fcn_or_script = true) →
          do_breakpoint repl false is_end_of_fcn_or_script s
            = some (Outcome.value (), { s with m_dbstep_flag := s.m_dbstep_flag - 1 })))
    ∧ (s.m_call_stack.current_frame ≠ s.m_debug_frame →
      ((s.m_dbstep_flag = 1 ∧ s.m_call_stack.current_frame < s.m_debug_frame) →
        (s.m_debugger_stack ≠ [] →
          do_breakpoint repl false is_end_of_fcn_or_script s
            = repl { s with m_debug_frame := s.m_call_stack.current_frame, m_dbstep_flag := 0 })
        ∧ (s.m_debugger_stack = [] →
          do_breakpoint repl false is_end_of_fcn_or_script s
            = error "internal error: dbstep without an active debugger!"
                { s with m_debug_frame := s.m_call_stack.current_frame, m_dbstep_flag := 0 }))
      ∧ (¬ (s.m_dbstep_flag = 1 ∧ s.m_call_stack.current_frame < s.m_debug_frame) →
          do_breakpoint repl false is_end_of_fcn_or_script s = some (Outcome.value (), s))) := by
  have hr := do_breakpoint_requests_none s hreq
  refine ⟨fun hfr => ⟨fun hp => ⟨fun hne => ?_, fun he => ?_⟩, fun hp => ?_⟩,
    fun hfr => ⟨fun hp => ⟨fun hne => ?_, fun he => ?_⟩, fun hp => ?_⟩⟩
  · have hemp := isEmpty_of_ne_nil _ hne
    simp [do_breakpoint, break_on_this_statement, Eval.bind_apply, Eval.seq, hr, hN, hfr, hp,
      hemp]
  · simp [do_breakpoint, break_on_this_statement, Eval.bind_apply, Eval.seq, hr, hN, hfr, hp, he]
  · simp [do_breakpoint, break_on_this_statement, Eval.bind_apply, Eval.seq, hr, hN, hfr, hp]
  · have hemp := isEmpty_of_ne_nil _ hne
    simp [do_breakpoint, break_on_this_statement, Eval.bind_apply, Eval.seq, hr, hN, hfr, hp,
      hemp]
  · simp [do_breakpoint, break_on_this_statement, Eval.bind_apply, Eval.seq, hr, hN, hfr, hp, he]
  · simp [do_breakpoint, break_on_this_statement, Eval.bind_apply, Eval.seq, hr, hN, hfr, hp]

/-- Witness for C22: with `dbstep_flag` = 1 in the debug frame the REPL is run
with `dbstep_flag` = 0; with `dbstep_flag` = 3 the statement is passed and the
flag becomes 2. -/
theorem do_breakpoint_step_count_witness :
    do_breakpoint repl_dbcont false false (stepping 1)
        = repl_dbcont { stepping 1 with m_dbstep_flag := 0 }
    ∧ do_breakpoint repl_dbcont false false (stepping 3)
        = some (Outcome.value (), { stepping 3 with m_dbstep_flag := 3 - 1 }) :=
  ⟨(((do_breakpoint_step_count repl_dbcont false (stepping 1) rfl (by decide)).1 rfl).1
      (Or.inl rfl)).1 (List.cons_ne_nil _ _),
   ((do_breakpoint_step_count repl_dbcont false (stepping 3) rfl (by decide)).1 rfl).2
      (by decide)⟩

/-- C23.  `do_breakpoint` on a statement that is not an active breakpoint, in a
state whose top debugger (if any) has no exit or abort request.  With
`dbstep_flag` = -1 (step in) it pauses on this statement: the REPL of the top
debugger is run from the entry state with the debug frame set to the current
frame and `dbstep_flag` = 0 (without a debugger on the stack the pause is the
error "internal error: dbstep without an active debugger!").  With
`dbstep_flag` = -2 (step out) it returns without running the REPL, whatever
the REPL is: with `dbstep_flag` = -1 and nothing else changed when the statement
is the end of the function or script and the current frame is the debug frame,
and with the state unchanged otherwise. -/
theorem do_breakpoint_step_in_and_out (repl : Eval Unit) (is_end_of_fcn_or_script : Bool)
    (s : tree_evaluator) (hreq : no_debugger_request s = true) :
    (s.m_dbstep_flag = -1 →
      (s.m_debugger_stack ≠ [] →
        do_breakpoint repl false is_end_of_fcn_or_script s
          = repl { s with m_debug_frame := s.m_call_stack.current_frame, m_dbstep_flag := 0 })
      ∧ (s.m_debugger_stack = [] →
        do_breakpoint repl false is_end_of_fcn_or_script s
          = error "internal error: dbstep without an active debugger!"
              { s with m_debug_frame := s.m_call_stack.current_frame, m_dbstep_flag := 0 }))
    ∧ (s.m_dbstep_flag = -2 →
      ((is_end_of_fcn_or_script = true ∧ s.m_call_stack.current_frame = s.m_debug_frame) →
        do_breakpoint repl false is_end_of_fcn_or_script s
          = some (Outcome.value (), { s with m_dbstep_flag := -1 }))
      ∧ (¬ (is_end_of_fcn_or_script = true ∧ s.m_call_stack.current_frame = s.m_debug_frame) →
        do_breakpoint repl false is_end_of_fcn_or_script s = some (Outcome.value (), s))) := by
  have hr := do_breakpoint_requests_none s hreq
  refine ⟨fun hin => ⟨fun hne => ?_, fun he => ?_⟩, fun hout => ⟨fun hp => ?_, fun hp => ?_⟩⟩
  · have hemp := isEmpty_of_ne_nil _ hne
    simp [do_breakpoint, break_on_this_statement, Eval.bind_apply, Eval.seq, hr, hin, hemp]
  · simp [do_breakpoint, break_on_this_statement, Eval.bind_apply, Eval.seq, hr, hin, he]
  · simp [do_breakpoint, break_on_this_statement, Eval.bind_apply, Eval.seq, hr, hout, hp]
  · simp [do_breakpoint, break_on_this_statement, Eval.bind_apply, Eval.seq, hr, hout, hp]

/-- Witness for C23: with `dbstep_flag` = -1 the REPL is run with the debug
frame set and `dbstep_flag` = 0; with `dbstep_flag` = -2 at the end of the
function in the debug frame the flag becomes -1. -/
theorem do_breakpoint_step_in_and_out_witness :
    do_breakpoint repl_dbcont false false (stepping (-1))
        = repl_dbcont { stepping (-1) with
            m_debug_frame := (stepping (-1)).m_call_stack.current_frame, m_dbstep_flag := 0 }
    ∧ do_breakpoint repl_dbcont false true (stepping (-2))
        = some (Outcome.value (), { stepping (-2) with m_dbstep_flag := -1 }) :=
  ⟨((do_breakpoint_step_in_and_out repl_dbcont false (stepping (-1)) rfl).1 rfl).1
      (List.cons_ne_nil _ _),
   ((do_breakpoint_step_in_and_out repl_dbcont true (stepping (-2)) rfl).2 rfl).1 ⟨rfl, rfl⟩⟩

/-- Counterexample for C24: in the register that the evaluation of the constant
1 leaves behind (`m_result_type` is still `RT_VALUE`, the stored value has been
taken out), a visit that does not set the register makes `evaluate` return an
undefined value and `evaluate_n` a list of one undefined value; neither reaches
`panic_impossible`. -/
theorem evaluate_after_evaluation_returns_undefined :
    (evaluation_register.after_evaluation (octave_value.scalar 1)).m_result_type
        = result_type.RT_VALUE
    ∧ evaluation_register.evaluate id
          (evaluation_register.after_evaluation (octave_value.scalar 1))
        = (Outcome.value octave_value.undefined,
            evaluation_register.after_evaluation (octave_value.scalar 1))
    ∧ evaluation_register.evaluate_n id
          (evaluation_register.after_evaluation (octave_value.scalar 1))
        = (Outcome.value [octave_value.undefined],
            evaluation_register.after_evaluation (octave_value.scalar 1)) :=
  ⟨rfl, rfl, rfl⟩

/-- C24, amended.  When the visit of an expression returns without setting the
evaluation register (`accept r = r`), `evaluate` and `evaluate_n` reach
`panic_impossible` if and only if `m_result_type` is `RT_UNDEFINED` on entry,
as it is in a new evaluator and after `reset ()`.  Otherwise they return what
the register holds: with `RT_VALUE` the stored value (resp. the list of it),
with `RT_VALUE_LIST` the first value of the stored list, or an undefined value
when it is empty (resp. the stored list).  Neither function ever changes
`m_result_type`, so after the first `push_result` the type is never
`RT_UNDEFINED` again. -/
theorem evaluate_panics_iff_result_type_undefined
    (accept : evaluation_register → evaluation_register) (r : evaluation_register)
    (h : accept r = r) :
    ((evaluation_register.evaluate accept r).1 = Outcome.panic
        ↔ r.m_result_type = result_type.RT_UNDEFINED)
    ∧ ((evaluation_register.evaluate_n accept r).1 = Outcome.panic
        ↔ r.m_result_type = result_type.RT_UNDEFINED)
    ∧ (r.m_result_type = result_type.RT_VALUE →
        (evaluation_register.evaluate accept r).1 = Outcome.value r.m_expr_result_value
        ∧ (evaluation_register.evaluate_n accept r).1 = Outcome.value [r.m_expr_result_value])
    ∧ (r.m_result_type = result_type.RT_VALUE_LIST →
        (evaluation_register.evaluate accept r).1
            = Outcome.value (r.m_expr_result_value_list.headD octave_value.undefined)
        ∧ (evaluation_register.evaluate_n accept r).1
            = Outcome.value r.m_expr_result_value_list)
    ∧ (evaluation_register.evaluate accept r).2.m_result_type = r.m_result_type
    ∧ (evaluation_register.evaluate_n accept r).2.m_result_type = r.m_result_type
    ∧ (∀ val : octave_value,
        (evaluation_register.evaluate (evaluation_register.push_result val) r).2.m_result_type
          = result_type.RT_VALUE)
    ∧ (∀ vals : List octave_value,
        (evaluation_register.evaluate (evaluation_register.push_result_list vals)
            r).2.m_result_type
          = result_type.RT_VALUE_LIST) := by
  refine ⟨?_, ?_, ?_, ?_, ?_, ?_, ?_, ?_⟩
  · unfold evaluation_register.evaluate
    simp only [h]
    cases ht : r.m_result_type <;> simp
  · unfold evaluation_register.evaluate_n
    simp only [h]
    cases ht : r.m_result_type <;> simp
  · intro ht
    unfold evaluation_register.evaluate evaluation_register.evaluate_n
    simp [h, ht]
  · intro ht
    unfold evaluation_register.evaluate evaluation_register.evaluate_n
    simp only [h, ht]
    cases r.m_expr_result_value_list <;> simp
  · unfold evaluation_register.evaluate
    simp only [h]
    cases ht : r.m_result_type <;> simp [ht]
  · unfold evaluation_register.evaluate_n
    simp only [h]
    cases ht : r.m_result_type <;> simp [ht]
  · intro val
    rfl
  · intro vals
    rfl

/-- Witness for C24: in a new evaluator a visit that does not set the register
makes `evaluate` reach `panic_impossible`. -/
theorem evaluate_panics_iff_result_type_undefined_witness :
    id evaluation_register.reset = evaluation_register.reset
    ∧ (evaluation_register.evaluate id evaluation_register.reset).1 = Outcome.panic :=
  ⟨rfl, (evaluate_panics_iff_result_type_undefined id evaluation_register.reset rfl).1.2 rfl⟩

/-- Counterexample for C25: with the mode `ECHO_SCRIPTS` and the entry of the
file set to false, `echo_this_file` returns true for the type `ECHO_SCRIPTS`;
with the mode `ECHO_OFF` and the entry of the file set to true, it returns false
for both types. -/
theorem echo_this_file_ignores_entry :
    echo_this_file (echo_scripts_file_off "/s.m") "/s.m" ECHO_SCRIPTS = true
    ∧ echo_this_file (echo_off_file_on "/f.m") "/f.m" ECHO_FUNCTIONS = false
    ∧ echo_this_file (echo_off_file_on "/f.m") "/f.m" ECHO_SCRIPTS = false := by
  decide

/-- C25, amended.  For the type `ECHO_SCRIPTS`, `echo_this_file` returns whether
the scripts bit of the mode is set, whatever the entry of the file is.  For the
type `ECHO_FUNCTIONS` it returns false when the functions bit of the mode is
not set, whatever the entry is; when the bit is set it returns the entry of the
file if there is one (false for an entry that is false, also when the mode
includes `ECHO_ALL`, and true for an entry that is true, also when it does not),
and for a file without entry whether the mode includes `ECHO_ALL`. -/
theorem echo_this_file_by_type (s : tree_evaluator) (file : String) :
    (echo_this_file s file ECHO_SCRIPTS = true ↔ Int.land ECHO_SCRIPTS s.m_echo = ECHO_SCRIPTS)
    ∧ (Int.land ECHO_FUNCTIONS s.m_echo ≠ ECHO_FUNCTIONS →
        echo_this_file s file ECHO_FUNCTIONS = false)
    ∧ (Int.land ECHO_FUNCTIONS s.m_echo = ECHO_FUNCTIONS →
        (∀ flag : Bool, s.m_echo_files.lookup file = some flag →
          echo_this_file s file ECHO_FUNCTIONS = flag)
        ∧ (s.m_echo_files.lookup file = none →
          (echo_this_file s file ECHO_FUNCTIONS = true ↔ Int.land s.m_echo ECHO_ALL ≠ 0))) := by
  refine ⟨?_, ?_, ?_⟩
  · unfold echo_this_file
    by_cases h : Int.land ECHO_SCRIPTS s.m_echo = ECHO_SCRIPTS
    · simp [h]
    · have h2 : Int.land ECHO_SCRIPTS s.m_echo ≠ ECHO_FUNCTIONS := land_one_ne_two _
      simp [h, h2]
  · intro h
    unfold echo_this_file
    have h1 : Int.land ECHO_FUNCTIONS s.m_echo ≠ ECHO_SCRIPTS := land_two_ne_one _
    simp [h, h1]
  · intro h
    have h1 : Int.land ECHO_FUNCTIONS s.m_echo ≠ ECHO_SCRIPTS := land_two_ne_one _
    have h2 : ECHO_FUNCTIONS ≠ ECHO_SCRIPTS := by decide
    refine ⟨?_, ?_⟩
    · intro flag hf
      unfold echo_this_file
      simp [h, h2, hf]
    · intro hf
      unfold echo_this_file
      simp [h, h2, hf]

/-- Witness for C25: with the mode `ECHO_FUNCTIONS` a file whose entry is true
is echoed and a file whose entry is false is not. -/
theorem echo_this_file_by_type_witness :
    echo_this_file (echo_functions_file "/f.m" true) "/f.m" ECHO_FUNCTIONS = true
    ∧ echo_this_file (echo_functions_file "/f.m" false) "/f.m" ECHO_FUNCTIONS = false :=
  ⟨((echo_this_file_by_type (echo_functions_file "/f.m" true) "/f.m").2.2 (by decide)).1 true
      (by decide),
   ((echo_this_file_by_type (echo_functions_file "/f.m" false) "/f.m").2.2 (by decide)).1 false
      (by decide)⟩

/-- C26.  `evalin (context, try_code, nargout)`, for an `eval_string` that keeps
the number of frames of the call stack: on every exit that is not an abort (the
value of the evaluated code, an error raised by it, the error for an invalid
context) the index of the current frame is the one on entry; an invalid context
is the error "evalin: CONTEXT must be "caller" or "base"", and for the contexts
`caller` and `base` the call returns when `eval_string` does.
`assignin (context, name, val)` always returns, normally or with an error (the
one for an invalid context, for an invalid variable name or for a keyword), and
the index of the current frame is the one on entry. -/
theorem evalin_and_assignin_restore_current_frame :
    (∀ (eval_string : String → Bool → Int → Eval (List octave_value)),
      (∀ code silent nargout, Eval.KeepsSize (eval_string code silent nargout)) →
      ∀ (context try_code : String) (nargout : Int) (s : tree_evaluator),
        (∀ o s1, evalin eval_string context try_code nargout s = some (o, s1) →
          o ≠ Outcome.panic →
          s1.m_call_stack.current_frame = s.m_call_stack.current_frame)
        ∧ (context ≠ "caller" → context ≠ "base" →
            ∃ s1, evalin eval_string context try_code nargout s
                = some (Outcome.thrown (exception.execution_exception
                    "evalin: CONTEXT must be \"caller\" or \"base\"" ""), s1))
        ∧ (context = "caller" ∨ context = "base" →
            ∀ s0, goto_context "evalin" context s = some (Outcome.value (), s0) →
              (eval_string try_code (decide (nargout > 0)) nargout s0).isSome = true →
              (evalin eval_string context try_code nargout s).isSome = true))
    ∧ (∀ (valid_identifier iskeyword : String → Bool) (context name : String)
        (val : octave_value) (s : tree_evaluator),
      ∃ o s1, assignin valid_identifier iskeyword context name val s = some (o, s1)
        ∧ o ≠ Outcome.panic
        ∧ s1.m_call_stack.current_frame = s.m_call_stack.current_frame) := by
  refine ⟨?_, ?_⟩
  · intro eval_string hes context try_code nargout s
    refine ⟨?_, ?_, ?_⟩
    · intro o s1 h ho
      exact current_frame_unwind_protect_restore
        (keeps_size_bind (keeps_size_goto_context _ _) (fun _ => hes _ _ _)) s s1 o h ho
    · intro h1 h2
      simp [evalin, Eval.unwind_protect, Eval.bind_apply, Eval.seq, goto_context, h1, h2, error,
        error_with_id]
    · intro _ s0 hg hsome
      simp only [evalin, Eval.unwind_protect, Eval.bind_apply, Eval.seq, hg]
      cases hr : eval_string try_code (decide (nargout > 0)) nargout s0 with
      | none => rw [hr] at hsome; cases hsome
      | some r =>
        obtain ⟨o, s2⟩ := r
        cases o <;> rfl
  · intro valid_identifier iskeyword context name val s
    have hk : Eval.KeepsSize (do
        goto_context "assignin" context
        if valid_identifier name = true then do
          let _u ← (if iskeyword name = true
                    then error ("assignin: invalid assignment to keyword '" ++ name ++ "'")
                    else pure ())
          assign name val
        else error ("assignin: invalid variable name '" ++ name ++ "'") : Eval Unit) := by
      refine keeps_size_bind (keeps_size_goto_context _ _) (fun _ => ?_)
      split
      · refine keeps_size_bind ?_ (fun _ => keeps_size_assign _ _)
        split
        · exact keeps_size_error _
        · exact keeps_size_pure _
      · exact keeps_size_error _
    have hex : ∃ o s1, assignin valid_identifier iskeyword context name val s = some (o, s1)
        ∧ o ≠ Outcome.panic := by
      unfold assignin goto_context
      by_cases h1 : context = "caller" <;> by_cases h2 : context = "base" <;>
        by_cases h3 : valid_identifier name = true <;> by_cases h4 : iskeyword name = true <;>
        simp [Eval.unwind_protect, Eval.bind_apply, Eval.seq, h1, h2, h3, h4, error,
          error_with_id, assign]
    obtain ⟨o, s1, h, ho⟩ := hex
    exact ⟨o, s1, h, ho, current_frame_unwind_protect_restore hk s s1 o h ho⟩

/-- Witness for C26: inside a function called from top level,
`evalin ("caller", "x = 1;")` assigns `x` in the base frame and the current
frame is again the frame of the function (index 1). -/
theorem evalin_and_assignin_restore_current_frame_witness :
    evalin eval_string_x_is_one "caller" "x = 1;" 0 in_called_function
        = some (Outcome.value [], in_called_function_base_x)
    ∧ in_called_function_base_x.m_call_stack.current_frame
        = in_called_function.m_call_stack.current_frame :=
  ⟨rfl,
   ((evalin_and_assignin_restore_current_frame.1 eval_string_x_is_one
      keeps_size_eval_string_x_is_one "caller" "x = 1;" 0 in_called_function).1
      (Outcome.value []) in_called_function_base_x rfl (by simp))⟩

/-- C27.  `convert_to_const_vector (arg_list, object)` with a walker whose
dispatches keep the state of the indexed object: on every exit that is not an
abort, normal or by an exception, `m_indexed_object`, `m_index_position` and
`m_num_indices` have the values they had on entry.  When the object is stashed
and the arguments before argument `k` (the list `pre`, of length `k`) have been
evaluated, returning the values `vals` in the state `s_k`, then argument `k` is
evaluated in the state `at_index k len s_k`, in which the three fields are
(`object`, `k`, `len`), `len` being the number of arguments: the call is the
evaluation of argument `k` in that state followed by the rest of the loop,
under the restoring frame. -/
theorem convert_to_const_vector_keeps_indexed_object (tw : tree_walker) (htw : WalkerKeeps tw)
    (arg_list : List tree_expression) (object : Option octave_value) (s : tree_evaluator) :
    (∀ o s1, convert_to_const_vector tw arg_list object s = some (o, s1) → o ≠ Outcome.panic →
      s1.m_indexed_object = s.m_indexed_object
      ∧ s1.m_index_position = s.m_index_position
      ∧ s1.m_num_indices = s.m_num_indices)
    ∧ (stash_object arg_list object = true →
      ∀ (pre post : List tree_expression) (elt : tree_expression) (vals : List octave_value)
        (s_k : tree_evaluator),
        arg_list = pre ++ elt :: post →
        convert_to_const_vector_loop tw true arg_list.length 0 pre
            { s with m_indexed_object := object } = some (Outcome.value vals, s_k) →
        ((at_index pre.length arg_list.length s_k).m_indexed_object = object
          ∧ (at_index pre.length arg_list.length s_k).m_index_position = (pre.length : Int)
          ∧ (at_index pre.length arg_list.length s_k).m_num_indices = (arg_list.length : Int))
        ∧ convert_to_const_vector tw arg_list object s
            = Eval.unwind_protect (restore_indexed_object true arg_list.length)
                (fun _ =>
                  (do
                    let tmp ← evaluate tw elt 1
                    let args ←
                      convert_to_const_vector_loop tw true arg_list.length (pre.length + 1) post
                    pure (vals ++ (argument_values tmp ++ args)))
                  (at_index pre.length arg_list.length s_k)) s) := by
  refine ⟨?_, ?_⟩
  · intro o s1 h ho
    have hs := frame_view_eq (keeps_convert_to_const_vector htw arg_list object s o s1 h ho).1
    exact ⟨hs.2.2.1, hs.2.2.2.1, hs.2.2.2.2⟩
  · intro hst pre post elt vals s_k hargs hpre
    subst hargs
    refine ⟨⟨?_, rfl, rfl⟩, ?_⟩
    · have hk := rel_convert_to_const_vector_loop htw true _ pre 0 _ _ s_k hpre (by simp)
      simpa [at_index] using hk.2.2.1
    · have happ := convert_to_const_vector_loop_append tw true _ (elt :: post) pre 0
        _ s_k vals hpre
      unfold convert_to_const_vector
      simp only [hst, if_true]
      unfold Eval.unwind_protect
      have hbody : (do
            let _u ← Eval.modify (fun s => { s with m_indexed_object := object })
            convert_to_const_vector_loop tw true (pre ++ elt :: post).length 0
              (pre ++ elt :: post) : Eval _) s
          = (do
              let tmp ← evaluate tw elt 1
              let args ←
                convert_to_const_vector_loop tw true (pre ++ elt :: post).length
                  (pre.length + 1) post
              pure (vals ++ (argument_values tmp ++ args)) : Eval _)
            (at_index pre.length (pre ++ elt :: post).length s_k) := by
        simp only [Eval.bind_apply, Eval.seq, Eval.modify_apply]
        rw [happ]
        simp only [Nat.zero_add]
        rw [convert_to_const_vector_loop]
        simp only [Eval.bind_apply, if_true, Eval.seq, Eval.modify_apply]
        cases h2 : evaluate tw elt 1 (at_index pre.length (pre ++ elt :: post).length s_k) with
        | none => rfl
        | some r2 =>
          obtain ⟨o2, s2⟩ := r2
          cases o2 with
          | thrown e => rfl
          | panic => rfl
          | value tmp =>
            simp only
            cases h3 : convert_to_const_vector_loop tw true (pre ++ elt :: post).length
                (pre.length + 1) post s2 with
            | none => rfl
            | some r3 =>
              obtain ⟨o3, s3⟩ := r3
              cases o3 <;> rfl
      rw [hbody]

/-- Witness for C27: for the arguments `(1, end)` of `x (1, end)`, with the
2x3 matrix `x` as object, the argument `end` is evaluated with the fields
(`x`, 1, 2), and the call returns the values 1 and 3 in the entry state. -/
theorem convert_to_const_vector_keeps_indexed_object_witness :
    stash_object [const_one, magic_end] (some matrix_2_by_3) = true
    ∧ ((at_index 1 2 x_first_argument_done).m_indexed_object = some matrix_2_by_3
        ∧ (at_index 1 2 x_first_argument_done).m_index_position = 1
        ∧ (at_index 1 2 x_first_argument_done).m_num_indices = 2)
    ∧ convert_to_const_vector (walker repl_returns no_breakpoint 6)
        [const_one, magic_end] (some matrix_2_by_3) x_is_2_by_3
        = some (Outcome.value [octave_value.scalar 1, octave_value.scalar 3], x_is_2_by_3) :=
  ⟨rfl,
   ((convert_to_const_vector_keeps_indexed_object (walker repl_returns no_breakpoint 6)
       (walker_keeps (Eval.keeps_pure ()) 6)
      [const_one, magic_end] (some matrix_2_by_3) x_is_2_by_3).2 rfl [const_one] [] magic_end
      [octave_value.scalar 1] x_first_argument_done rfl rfl).1,
   rfl⟩

/-- C28.  The value of `end` for an indexed value of dimensions `dv` = (d_0, ...,
d_{n-1}), n >= 2, at index position `p` (0-based) among `k` >= 1 indices,
`p` < `k`: with `k` >= n it is d_p when `p` < n and 1 otherwise; with `k` < n
it is d_p for `p` < `k`-1 and the product d_{k-1} * ... * d_{n-1} for
`p` = `k`-1, which for `k` = 1 is the number of elements.  The function `end`
returns that value for the indexed value, position and number of indices that
the evaluator holds.  For `x = [1 2 3; 4 5 6]` the evaluator, at any depth from
6 on, gives `x (1, end)` = 3, `x (end, 1)` = 4 and `x (end, end)` = 6. -/
theorem end_value_at_position {repl : Eval Unit}
    {bp : tree → tree_evaluator → Bool} :
    (∀ (dv : List Nat) (k p : Nat), 2 ≤ dv.length → 1 ≤ k → p < k →
      (dv.length ≤ k → end_value dv p k = if p < dv.length then dv.getD p 0 else 1)
      ∧ (k < dv.length →
          (p < k - 1 → end_value dv p k = dv.getD p 0)
          ∧ (p = k - 1 → end_value dv p k = (dv.drop (k - 1)).prod)
          ∧ (k = 1 → end_value dv p k = dv.prod)))
    ∧ (∀ (s : tree_evaluator) (indexed_object : octave_value) (k p : Nat), 1 ≤ k →
        s.m_indexed_object = some indexed_object →
        s.m_index_position = (p : Int) → s.m_num_indices = (k : Int) →
        Fend s = some (Outcome.value [octave_value.scalar (end_value indexed_object.dims p k : Nat)],
          s))
    ∧ (∀ n : Nat,
        evaluate (walker repl bp (n + 6)) (index_x [const_one, magic_end]) 1 x_is_2_by_3
            = some (Outcome.value (octave_value.scalar 3), x_is_2_by_3)
        ∧ evaluate (walker repl bp (n + 6)) (index_x [magic_end, const_one]) 1 x_is_2_by_3
            = some (Outcome.value (octave_value.scalar 4), x_is_2_by_3)
        ∧ evaluate (walker repl bp (n + 6)) (index_x [magic_end, magic_end]) 1 x_is_2_by_3
            = some (Outcome.value (octave_value.scalar 6), x_is_2_by_3)) := by
  refine ⟨?_, ?_, fun n => ⟨rfl, rfl, rfl⟩⟩
  · intro dv k p hn hk hp
    refine ⟨fun hge => ?_, fun hlt => ?_⟩
    · have hnot : ¬ k < dv.length := Nat.not_lt.mpr hge
      simp [end_value, end_dim_vector, hnot]
    · obtain ⟨pre, a, b, post, hdv, hpre⟩ := split_at_index dv k hk hlt
      subst hdv
      subst hpre
      have hv := end_value_split pre post a b p hp
      refine ⟨fun h => ?_, fun h => ?_, fun h => ?_⟩
      · have h1 : p < pre.length := by simpa using h
        rw [hv]
        simp only [h1, if_true]
        rw [List.getD_append _ _ _ _ h1]
      · have h1 : p = pre.length := by simpa using h
        rw [hv]
        subst h1
        simp
      · have h1 : pre = [] := by
          cases pre with
          | nil => rfl
          | cons _ _ => simp at h
        subst h1
        have h2 : p = 0 := by simpa using hp
        subst h2
        rw [hv]
        simp
  · intro s indexed_object k p hk ho hp hkk
    have h1 : ¬ (k = 0 ∨ (p : Int) < 0) := by omega
    simp [Fend, Eval.bind_apply, Eval.seq, ho, h1, hp, hkk]

/-- Witness for C28: with the dimensions (2, 3, 4), `end` at position 1 of two
indices is 3 * 4 = 12. -/
theorem end_value_at_position_witness :
    2 ≤ [2, 3, 4].length ∧ 1 ≤ 2 ∧ 1 < 2 ∧ 2 < [2, 3, 4].length ∧ 1 = 2 - 1
    ∧ end_value [2, 3, 4] 1 2 = ([2, 3, 4].drop (2 - 1)).prod
    ∧ ([2, 3, 4].drop (2 - 1)).prod = 12 :=
  ⟨by decide, by decide, by decide, by decide, by decide,
   (((@end_value_at_position repl_returns no_breakpoint).1 [2, 3, 4] 2 1
      (by decide) (by decide) (by decide)).2
      (by decide)).2.1 (by decide),
   by decide⟩

/-- C29.  For every identifier `u` that is neither a variable nor a function, in
a state in which `end` is the built-in function and no value is being indexed,
the evaluator (at any depth from 3 on) ends the evaluation of `u (end)` with
the error of identifier `Octave:undefined-function` and message
`'u' undefined`, the state being otherwise unchanged; the function `end`
returns NaN when no value is being indexed; `eval_undefined_error` raises the
error with the message `'NAME' undefined` when line and column are both -1 and
`'NAME' undefined near line L column C` otherwise. -/
theorem index_undefined_by_end_is_undefined_error {repl : Eval Unit}
    {bp : tree → tree_evaluator → Bool} :
    (∀ (u : String) (n : Nat) (nargout : Int) (s : tree_evaluator),
      is_variable s u = false → find_function s u = none →
      is_variable s "end" = false →
      find_function s "end" = some (octave_function.builtin builtin_function.Fend) →
      s.m_indexed_object = none →
      evaluate (walker repl bp (n + 3))
          (tree_expression.index_expression (tree_expression.identifier u) [magic_end]) nargout s
        = some (Outcome.thrown (exception.execution_exception ("'" ++ u ++ "' undefined")
              "Octave:undefined-function"),
            { s with es := { s.es with last_error_message := "'" ++ u ++ "' undefined",
                                       last_error_id := "Octave:undefined-function" } }))
    ∧ (∀ s : tree_evaluator, s.m_indexed_object = none →
        Fend s = some (Outcome.value [octave_value.nan], s))
    ∧ (∀ (name : String) (l c : Int) (s : tree_evaluator),
        (l = -1 ∧ c = -1 →
          (eval_undefined_error name l c : Eval Unit) s
            = error_with_id "Octave:undefined-function" ("'" ++ name ++ "' undefined") s)
        ∧ (¬ (l = -1 ∧ c = -1) →
          (eval_undefined_error name l c : Eval Unit) s
            = error_with_id "Octave:undefined-function"
                ("'" ++ name ++ "' undefined near line " ++ format_d_int l ++ " column "
                  ++ format_d_int c) s)) := by
  refine ⟨?_, ?_, ?_⟩
  · intro u n nargout s hvar hfn hevar hefn hobj
    have hvar1 : (varval s u).is_defined = false := hvar
    have hevar1 : (varval s "end").is_defined = false := hevar
    have hund : (varval s u).is_undefined = true := by
      simp [octave_value.is_undefined, hvar1]
    have hend : evaluate (walker repl bp (n + 2))
        magic_end 1 s = some (Outcome.value octave_value.nan, s) := by
      simp [evaluate, walker, tree_expression_accept, magic_end, visit_identifier,
        octave_function_call, builtin_call, Fend, Eval.bind_apply, Eval.seq, hevar1, hefn, hobj]
    have hargs : convert_to_const_vector (walker repl bp (n + 2)) [magic_end] none s
        = some (Outcome.value [octave_value.nan], s) := by
      simp [convert_to_const_vector, convert_to_const_vector_loop, stash_object,
        Eval.unwind_protect, restore_indexed_object, Eval.bind_apply, Eval.seq, hend,
        argument_values, octave_value.is_cs_list, octave_value.is_defined]
    have hu : evaluate (walker repl bp (n + 2)) (tree_expression.identifier u) 1 s
        = some (Outcome.thrown (exception.execution_exception ("'" ++ u ++ "' undefined")
              "Octave:undefined-function"),
            { s with es := { s.es with last_error_message := "'" ++ u ++ "' undefined",
                                       last_error_id := "Octave:undefined-function" } }) := by
      simp [evaluate, walker, tree_expression_accept, visit_identifier, Eval.bind_apply, Eval.seq,
        hvar1, hfn, eval_undefined_error, error_with_id]
    have hacc : (walker repl bp (n + 3)).accept_expression
          (tree_expression.index_expression (tree_expression.identifier u) [magic_end]) nargout s
        = some (Outcome.thrown (exception.execution_exception ("'" ++ u ++ "' undefined")
              "Octave:undefined-function"),
            { s with es := { s.es with last_error_message := "'" ++ u ++ "' undefined",
                                       last_error_id := "Octave:undefined-function" } }) := by
      show visit_index_expression (walker repl bp (n + 2))
          (tree_expression.identifier u) [magic_end]
        nargout s = _
      simp [visit_index_expression, Eval.bind_apply, Eval.seq, hvar, hfn, hund, hargs, hu]
    simp [evaluate, Eval.bind_apply, Eval.seq, hacc]
  · intro s hobj
    simp [Fend, Eval.bind_apply, Eval.seq, hobj]
  · intro name l c s
    refine ⟨fun h => ?_, fun h => ?_⟩
    · simp [eval_undefined_error, h]
    · simp [eval_undefined_error, h]

/-- Witness for C29: at top level `__undef_sym__ (end)` raises the error
`'__undef_sym__' undefined`. -/
theorem index_undefined_by_end_is_undefined_error_witness :
    ∃ s1, evaluate (walker repl_returns no_breakpoint 3)
        (tree_expression.index_expression (tree_expression.identifier "__undef_sym__")
          [magic_end]) 1 top_level
      = some (Outcome.thrown (exception.execution_exception "'__undef_sym__' undefined"
            "Octave:undefined-function"), s1) :=
  ⟨_, index_undefined_by_end_is_undefined_error.1 "__undef_sym__" 0 1 top_level rfl rfl rfl rfl
    rfl⟩

/-- C30.  For each of the inline setters `max_recursion_depth (int)`,
`silent_functions (bool)` and `string_fill_char (char)` of `pt-eval.h`, in every
state (with current value `v0` of the knob) and for every new value `v1`: the
setter called with `v1` returns `v0` and changes nothing but the knob, the query
then returns `v1`, and the setter called with `v0` after that returns `v1` and
leads back to the original state, in which the query returns `v0`.  The values
of `string_fill_char` are those of the type `char`. -/
theorem knob_setter_returns_old_value (s : tree_evaluator) :
    (∀ v1 : Int,
      max_recursion_depth v1 s
          = some (Outcome.value (max_recursion_depth_value s),
              { s with m_max_recursion_depth := v1 })
      ∧ max_recursion_depth_value { s with m_max_recursion_depth := v1 } = v1
      ∧ max_recursion_depth (max_recursion_depth_value s) { s with m_max_recursion_depth := v1 }
          = some (Outcome.value v1, s))
    ∧ (∀ v1 : Bool,
      silent_functions v1 s
          = some (Outcome.value (silent_functions_value s), { s with m_silent_functions := v1 })
      ∧ silent_functions_value { s with m_silent_functions := v1 } = v1
      ∧ silent_functions (silent_functions_value s) { s with m_silent_functions := v1 }
          = some (Outcome.value v1, s))
    ∧ (is_char (string_fill_char_value s) = true → ∀ v1 : Int, is_char v1 = true →
      string_fill_char v1 s
          = some (Outcome.value (string_fill_char_value s), { s with m_string_fill_char := v1 })
      ∧ string_fill_char_value { s with m_string_fill_char := v1 } = v1
      ∧ string_fill_char (string_fill_char_value s) { s with m_string_fill_char := v1 }
          = some (Outcome.value v1, s)) := by
  have hc : ∀ c : Int, is_char c = true → static_cast_char c = c := by
    intro c h
    simp [is_char] at h
    unfold static_cast_char
    have h1 : (c + 128) % (2 ^ 8 : Int) = c + 128 :=
      Int.emod_eq_of_lt (by omega) (by norm_num; omega)
    omega
  refine ⟨fun v1 => ⟨rfl, rfl, rfl⟩, fun v1 => ⟨?_, rfl, ?_⟩, fun h0 v1 h1 => ⟨?_, rfl, ?_⟩⟩
  · cases h : s.m_silent_functions <;> simp [silent_functions, silent_functions_value, h]
  · cases v1 <;> simp [silent_functions, silent_functions_value]
  · have h := hc _ h0
    simp only [string_fill_char_value] at h
    simp only [string_fill_char, string_fill_char_value, h]
  · simp only [string_fill_char, string_fill_char_value, hc _ h1]

/-- Witness for C30: in a new evaluator (fill character `' '`, 32) the setter
`string_fill_char ('X')` returns `' '`, and setting `' '` again returns `'X'`
(88) and restores the state. -/
theorem knob_setter_returns_old_value_witness :
    is_char (string_fill_char_value top_level) = true ∧ is_char 88 = true
    ∧ string_fill_char 88 top_level
        = some (Outcome.value 32, { top_level with m_string_fill_char := 88 })
    ∧ string_fill_char 32 { top_level with m_string_fill_char := 88 }
        = some (Outcome.value 88, top_level) :=
  ⟨by decide, by decide,
   ((knob_setter_returns_old_value top_level).2.2 (by decide) 88 (by decide)).1,
   ((knob_setter_returns_old_value top_level).2.2 (by decide) 88 (by decide)).2.2⟩

/-- C31: `remove_atexit_function (f)` returns true exactly when `f` is in the list
of exit functions.  Then the list is `pre ++ f :: post` with no `f` in `pre`, and
the list afterwards is `pre ++ post`: the first occurrence is removed, the other
entries keep their order.  When `f` is not in the list, the list is unchanged.
`add_atexit_function` inserts at the front, so that the first occurrence is the
one registered last.  A removal takes one from the number of occurrences of `f`
and leaves the number of occurrences of every other name; hence a name that
occurs `m` times is still in the list after `k < m` removals. -/
theorem remove_atexit_function_removes_first_occurrence (fname : String)
    (atexit_functions : List String) :
    ((interpreter.remove_atexit_function fname atexit_functions).1 = true
        ↔ fname ∈ atexit_functions)
    ∧ (fname ∈ atexit_functions →
        ∃ pre post, atexit_functions = pre ++ fname :: post ∧ fname ∉ pre
          ∧ (interpreter.remove_atexit_function fname atexit_functions).2 = pre ++ post)
    ∧ (fname ∉ atexit_functions →
        (interpreter.remove_atexit_function fname atexit_functions).2 = atexit_functions)
    ∧ interpreter.add_atexit_function fname atexit_functions = fname :: atexit_functions
    ∧ (∀ g, (interpreter.remove_atexit_function fname atexit_functions).2.count g
        = if g = fname then atexit_functions.count g - 1 else atexit_functions.count g)
    ∧ (∀ k, k < atexit_functions.count fname →
        fname ∈ interpreter.remove_atexit_function_times fname k atexit_functions) := by
  refine ⟨remove_atexit_function_found _ _, remove_atexit_function_split _ _,
    remove_atexit_function_absent _ _, rfl, fun g => remove_atexit_function_count _ _ _, ?_⟩
  intro k hk
  have h := remove_atexit_function_times_count fname k atexit_functions
  have h1 : 0 < (interpreter.remove_atexit_function_times fname k atexit_functions).count fname := by
    omega
  exact List.count_pos_iff.mp h1

/-- C31 on the list of `atexit ("a"); atexit ("b"); atexit ("a")`: the removal of
`a` is found and leaves `["b", "a"]`, and `a` is still registered. -/
theorem remove_atexit_function_removes_first_occurrence_witness :
    "a" ∈ ["a", "b", "a"]
    ∧ interpreter.add_atexit_function "a"
        (interpreter.add_atexit_function "b" (interpreter.add_atexit_function "a" []))
        = ["a", "b", "a"]
    ∧ interpreter.remove_atexit_function "a" ["a", "b", "a"] = (true, ["b", "a"])
    ∧ "a" ∈ interpreter.remove_atexit_function_times "a" 1 ["a", "b", "a"] :=
  ⟨by decide, by decide, by decide,
    (remove_atexit_function_removes_first_occurrence "a" ["a", "b", "a"]).2.2.2.2.2 1
      (by decide)⟩

/-- C32, counterexample: `add_autoload ("f", "rel.m")` at top level, where no
user code is current, stores the relative name "rel.m" after the warning
`Octave:autoload-relative-file-name`. -/
theorem add_autoload_stores_relative_name :
    add_autoload (fun _ => false) "/tmp" none "f" "rel.m" top_level
        = some (Outcome.value (), with_relative_autoload)
    ∧ with_relative_autoload.m_autoload_map = [("f", "rel.m")]
    ∧ env.do_absolute_pathname "rel.m" = false :=
  ⟨rfl, rfl, by decide⟩

/-- C32, amended: when the file name of the current user code is empty or
absolute at every call, every sequence of `add_autoload` and `remove_autoload`
calls returns, and afterwards every file name stored in the autoload map is
absolute or is a relative name that was stored as given, after the warning
`Octave:autoload-relative-file-name` for it. -/
theorem autoload_map_values_absolute_or_warned (calls : List autoload_call) (s : tree_evaluator)
    (hcalls : ∀ c ∈ calls, ∀ f, c.current_user_code = some f →
      f.data.length < npos ∧ (f.data = [] ∨ env.do_absolute_pathname f = true))
    (hs : autoload_map_absolute_or_warned s) :
    ∃ s1, run_autoload_calls calls s = some (Outcome.value (), s1)
      ∧ autoload_map_absolute_or_warned s1 := by
  induction calls generalizing s with
  | nil => exact ⟨s, rfl, hs⟩
  | cons c rest ih =>
    obtain ⟨s1, h1, hs1⟩ := autoload_map_absolute_or_warned_call c s
      (hcalls c (List.mem_cons_self _ _)) hs
    obtain ⟨s2, h2, hs2⟩ := ih s1 (fun c1 hc1 => hcalls c1 (List.mem_cons_of_mem _ hc1)) hs1
    refine ⟨s2, ?_, hs2⟩
    unfold run_autoload_calls
    simp only [Eval.bind_apply, Eval.seq, h1]
    exact h2

/-- C32, amended, for the calls `autoload ("f", "/lib/f.oct")` and
`autoload ("g", "g.oct")` made in the function file "/pkg/init.m", beside which
"g.oct" exists: both stored names are absolute. -/
theorem autoload_map_values_absolute_or_warned_witness :
    ∃ s1, run_autoload_calls
        [{ add := true, file_exists := fun f => f == "/pkg/g.oct", dot_path := "/tmp",
           current_user_code := some "/pkg/init.m", fcn := "f", nm := "/lib/f.oct" },
         { add := true, file_exists := fun f => f == "/pkg/g.oct", dot_path := "/tmp",
           current_user_code := some "/pkg/init.m", fcn := "g", nm := "g.oct" }] top_level
        = some (Outcome.value (), s1)
      ∧ autoload_map_absolute_or_warned s1 :=
  autoload_map_values_absolute_or_warned _ top_level
    (by
      intro c hc f hf
      simp only [List.mem_cons, List.mem_singleton, List.not_mem_nil, or_false] at hc
      rcases hc with h | h <;> (subst h; cases hf; exact ⟨by decide, Or.inr (by decide)⟩))
    (by intro p hp; cases hp)

/-- C33: `do_make_absolute (s, dot_path)` returns for all arguments.  When `s` is
absolute it is returned unchanged, and when `s` is "." (and `dot_path` is not
empty) the result is `dot_path`.  For a non-empty `s` and an absolute `dot_path`
the result is an absolute pathname or the empty string: the trailing separator
is stripped also when the result is the root directory, as for `s = ".."` and
`dot_path = "/"`, where the result is "", which `do_absolute_pathname`
rejects. -/
theorem do_make_absolute_absolute_or_empty (s dot_path : String) :
    (∃ r, env.do_make_absolute s dot_path = some r)
    ∧ (env.do_absolute_pathname s = true → env.do_make_absolute s dot_path = some s)
    ∧ (dot_path.data ≠ [] → env.do_make_absolute "." dot_path = some dot_path)
    ∧ (s.data ≠ [] → env.do_absolute_pathname dot_path = true →
        ∀ r, env.do_make_absolute s dot_path = some r →
          r = "" ∨ env.do_absolute_pathname r = true)
    ∧ env.do_make_absolute ".." "/" = some ""
    ∧ env.do_absolute_pathname "" = false := by
  refine ⟨do_make_absolute_total s dot_path, ?_, ?_, ?_, by decide, by decide⟩
  · intro h
    simp [env.do_make_absolute, h]
  · intro h
    have h1 : dot_path.data.isEmpty = false := by
      cases hd : dot_path.data with
      | nil => exact absurd hd h
      | cons c t => rfl
    have h2 : env.do_absolute_pathname "." = false := by decide
    have h3 : ("." : String).data.isEmpty = false := by decide
    simp [env.do_make_absolute, h1, h2, h3]
  · intro hs hdot r hr
    obtain ⟨t, ht⟩ := (do_absolute_pathname_iff dot_path).mp hdot
    unfold env.do_make_absolute at hr
    split at hr
    · rename_i hc
      have h1 : dot_path.data.isEmpty = false := by simp [ht]
      have h2 : s.data.isEmpty = false := by
        cases hd : s.data with
        | nil => exact absurd hd hs
        | cons c t => rfl
      simp only [h1, h2, Bool.false_or] at hc
      cases hr
      exact Or.inr hc
    · split at hr
      · cases hr
        exact Or.inr hdot
      · simp only [] at hr
        have hcd : ∃ t1, (if !is_dir_sep (char_at dot_path.data (dot_path.data.length - 1))
            then String.mk (dot_path.data ++ ['/']) else dot_path).data = '/' :: t1 := by
          split
          · exact ⟨t ++ ['/'], by simp [ht]⟩
          · exact ⟨t, ht⟩
        obtain ⟨r1, hr1, t1, ht1⟩ := do_make_absolute_loop_head s.data.length s.data _
          (Nat.le_refl _) hcd
        rw [hr1] at hr
        simp only [] at hr
        split at hr
        · cases hr
          cases t1 with
          | nil => left; simp [ht1]
          | cons c t2 =>
            right
            apply (do_absolute_pathname_iff _).mpr
            exact ⟨(c :: t2).dropLast, by simp [ht1]⟩
        · cases hr
          right
          exact (do_absolute_pathname_iff _).mpr ⟨t1, ht1⟩

/-- C33 for `s = "../x"` and `dot_path = "/tmp/foo"`: the result is "/tmp/x". -/
theorem do_make_absolute_absolute_or_empty_witness :
    env.do_make_absolute "../x" "/tmp/foo" = some "/tmp/x"
    ∧ ("/tmp/x" = "" ∨ env.do_absolute_pathname "/tmp/x" = true) :=
  ⟨by decide,
    (do_make_absolute_absolute_or_empty "../x" "/tmp/foo").2.2.2.1 (by decide) (by decide)
      "/tmp/x" (by decide)⟩

/-- C34: the setters `exit_debug_repl (flag)` and `abort_debug_repl (flag)` raise
the error "attempt to set ... without debugger object" when the debugger stack is
empty, and otherwise set the flag of the debugger on top of the stack to `flag`
and return its previous value.  The setter `in_debug_repl (flag)` tests the
opposite: with a debugger on the stack it raises the error and sets nothing, and
with an empty stack it raises no error but calls `top ()` on the empty stack. -/
theorem debug_repl_setters (flag : Bool) (s : tree_evaluator) :
    (s.m_debugger_stack = [] →
      exit_debug_repl_bool flag s
          = some (Outcome.thrown (exception.execution_exception
              "attempt to set exit_debug_repl without debugger object" ""),
            error_state "attempt to set exit_debug_repl without debugger object" s)
      ∧ abort_debug_repl_bool flag s
          = some (Outcome.thrown (exception.execution_exception
              "attempt to set abort_debug_repl without debugger object" ""),
            error_state "attempt to set abort_debug_repl without debugger object" s)
      ∧ in_debug_repl_bool flag s = some (Outcome.panic, s))
    ∧ (∀ d rest, s.m_debugger_stack = d :: rest →
      exit_debug_repl_bool flag s
          = some (Outcome.value d.m_exit_debug_repl,
            { s with m_debugger_stack := { d with m_exit_debug_repl := flag } :: rest })
      ∧ abort_debug_repl_bool flag s
          = some (Outcome.value d.m_abort_debug_repl,
            { s with m_debugger_stack := { d with m_abort_debug_repl := flag } :: rest })
      ∧ in_debug_repl_bool flag s
          = some (Outcome.thrown (exception.execution_exception
              "attempt to set in_debug_repl without debugger object" ""),
            error_state "attempt to set in_debug_repl without debugger object" s)) := by
  constructor
  · intro h
    simp [exit_debug_repl_bool, abort_debug_repl_bool, in_debug_repl_bool, on_top_debugger,
      Eval.bind_apply, Eval.seq, Eval.get, h, error, error_with_id, error_state, Eval.ret]
  · intro d rest h
    simp [exit_debug_repl_bool, abort_debug_repl_bool, in_debug_repl_bool, on_top_debugger,
      Eval.bind_apply, Eval.seq, Eval.get, h, error, error_with_id, error_state, Eval.ret,
      debugger.exit_debug_repl_bool, debugger.abort_debug_repl_bool]

/-- C34 with one debugger on the stack: `exit_debug_repl (true)` returns the old
value false and sets the flag, `in_debug_repl (true)` raises the error. -/
theorem debug_repl_setters_witness :
    (with_one_debugger.m_debugger_stack.length = 1)
    ∧ (exit_debug_repl_bool true with_one_debugger
        = some (Outcome.value false,
            { with_one_debugger with
              m_debugger_stack :=
                [{ m_level := 1, m_in_debug_repl := false, m_exit_debug_repl := true,
                   m_abort_debug_repl := false }] }))
    ∧ (in_debug_repl_bool true with_one_debugger
        = some (Outcome.thrown (exception.execution_exception
              "attempt to set in_debug_repl without debugger object" ""),
            error_state "attempt to set in_debug_repl without debugger object"
              with_one_debugger)) :=
  ⟨rfl,
    ((debug_repl_setters true with_one_debugger).2 _ _ rfl).1,
    ((debug_repl_setters true with_one_debugger).2 _ _ rfl).2.2⟩

/-- C35: the queries `in_debug_repl ()` and `abort_debug_repl ()` are functions of
the state alone (they change nothing): false when the debugger stack is empty,
otherwise the flag of the debugger on top.  The query `exit_debug_repl ()`
returns false and changes nothing when the stack is empty, and otherwise returns
the flag `m_exit_debug_repl` of the debugger on top, but it also sets that flag
to true (it calls `exit_debug_repl (true)`): the state is unchanged only if the
flag was true already. -/
theorem debug_repl_queries (s : tree_evaluator) :
    (s.m_debugger_stack = [] →
      in_debug_repl s = false ∧ abort_debug_repl s = false
      ∧ exit_debug_repl s = some (Outcome.value false, s))
    ∧ (∀ d rest, s.m_debugger_stack = d :: rest →
      in_debug_repl s = d.m_in_debug_repl ∧ abort_debug_repl s = d.m_abort_debug_repl
      ∧ exit_debug_repl s
          = some (Outcome.value d.m_exit_debug_repl,
            { s with m_debugger_stack := { d with m_exit_debug_repl := true } :: rest })
      ∧ (d.m_exit_debug_repl = false →
          ∀ r s1, exit_debug_repl s = some (r, s1) →
            s1.m_debugger_stack ≠ s.m_debugger_stack)) := by
  constructor
  · intro h
    simp [in_debug_repl, abort_debug_repl, exit_debug_repl, Eval.bind_apply, Eval.seq, Eval.get, h,
      Eval.ret]
  · intro d rest h
    have he : exit_debug_repl s
          = some (Outcome.value d.m_exit_debug_repl,
            { s with m_debugger_stack := { d with m_exit_debug_repl := true } :: rest }) := by
      simp [exit_debug_repl, on_top_debugger, Eval.bind_apply, Eval.seq, Eval.get, h,
        debugger.exit_debug_repl_bool]
    refine ⟨by simp [in_debug_repl, h], by simp [abort_debug_repl, h, debugger.abort_debug_repl],
      he, ?_⟩
    intro hd r s1 hrs
    rw [he] at hrs
    cases hrs
    rw [h]
    intro hcontra
    have h2 := (List.cons.inj hcontra).1
    have h3 : (true : Bool) = d.m_exit_debug_repl := congrArg debugger.m_exit_debug_repl h2
    rw [hd] at h3
    exact Bool.noConfusion h3

/-- C35 with one debugger whose flags are false: the query `exit_debug_repl ()`
returns false and leaves the flag set. -/
theorem debug_repl_queries_witness :
    (with_one_debugger.m_debugger_stack.length = 1)
    ∧ (exit_debug_repl with_one_debugger
        = some (Outcome.value false,
            { with_one_debugger with
              m_debugger_stack :=
                [{ m_level := 1, m_in_debug_repl := false, m_exit_debug_repl := true,
                   m_abort_debug_repl := false }] })) :=
  ⟨rfl, ((debug_repl_queries with_one_debugger).2 _ _ rfl).2.2.1⟩

/-- C36.  `visit_binary_expression` on an expression that is eligible for the
Matlab-style short-circuit rule and whose left operand evaluates (in the entry
state `s`, leaving `s1`) to a value that is not two-dimensional 1x1: the result
is the general path run from `s1`, and the general path starts with another
evaluation of the left operand, so the left operand is evaluated twice.  For
`noisy () | disp (8)`, where `noisy` writes 7 and returns `1:2`, the output is
7, 7, 8.  On an expression that is not eligible the function is the general
path, which evaluates the left operand once, then, if its value is defined, the
right operand once in the state the left one left, and applies the operator in
the state the right one left; nothing is evaluated after an exception. -/
theorem visit_binary_expression_evaluates_left_twice {repl : Eval Unit}
    {bp : tree → tree_evaluator → Bool} (tw : tree_walker) (etype : binary_op) :
    (∀ (lhs : tree_expression) (rhs : Option tree_expression) (s s1 : tree_evaluator)
        (a : octave_value),
      evaluate tw lhs 1 s = some (Outcome.value a, s1) →
      ¬ (a.ndims = 2 ∧ a.rows = 1 ∧ a.columns = 1) →
      visit_binary_expression tw etype (some lhs) rhs true s
          = visit_binary_expression_general tw etype (some lhs) rhs s1
        ∧ ∀ (s2 : tree_evaluator) (e : exception),
            evaluate tw lhs 1 s1 = some (Outcome.thrown e, s2) →
            visit_binary_expression tw etype (some lhs) rhs true s
              = some (Outcome.thrown e, s2))
    ∧ (∀ n : Nat,
        visit_binary_expression (walker repl bp (n + 9)) binary_op.op_el_or (some call_noisy)
            (some (disp_const 8)) true with_noisy_function
          = some (Outcome.value (expr_result.RT_VALUE octave_value.undefined),
              with_noisy_function_printed [7, 7, 8]))
    ∧ (∀ (lhs rhs : Option tree_expression) (s : tree_evaluator),
        visit_binary_expression tw etype lhs rhs false s
          = visit_binary_expression_general tw etype lhs rhs s)
    ∧ (∀ (lhs rhs : tree_expression) (s s1 : tree_evaluator) (a : octave_value),
        evaluate tw lhs 1 s = some (Outcome.value a, s1) →
        (a.is_defined = false →
          visit_binary_expression_general tw etype (some lhs) (some rhs) s
            = some (Outcome.value (expr_result.RT_VALUE octave_value.undefined), s1))
        ∧ (a.is_defined = true →
            (∀ (s2 : tree_evaluator) (e : exception),
              evaluate tw rhs 1 s1 = some (Outcome.thrown e, s2) →
              visit_binary_expression_general tw etype (some lhs) (some rhs) s
                = some (Outcome.thrown e, s2))
            ∧ (∀ (s2 : tree_evaluator) (b : octave_value),
              evaluate tw rhs 1 s1 = some (Outcome.value b, s2) →
              visit_binary_expression_general tw etype (some lhs) (some rhs) s
                = (if b.is_defined then
                    match do_binary_op etype a b with
                    | some val => pure (expr_result.RT_VALUE val)
                    | none => error "binary operator not implemented for these operands"
                   else pure (expr_result.RT_VALUE octave_value.undefined)) s2)))
    ∧ (∀ (lhs : tree_expression) (rhs : Option tree_expression) (s s1 : tree_evaluator)
        (e : exception),
        evaluate tw lhs 1 s = some (Outcome.thrown e, s1) →
        visit_binary_expression_general tw etype (some lhs) rhs s
          = some (Outcome.thrown e, s1)) := by
  refine ⟨?_, fun n => rfl, ?_, ?_, ?_⟩
  · intro lhs rhs s s1 a hl hd
    have h1 : visit_binary_expression tw etype (some lhs) rhs true s
        = visit_binary_expression_general tw etype (some lhs) rhs s1 := by
      simp [visit_binary_expression, Eval.bind_apply, Eval.seq, hl, hd]
    refine ⟨h1, fun s2 e he => ?_⟩
    rw [h1]
    simp [visit_binary_expression_general, Eval.bind_apply, Eval.seq, he]
  · intro lhs rhs s
    cases lhs <;> simp [visit_binary_expression]
  · intro lhs rhs s s1 a hl
    refine ⟨fun hd => ?_, fun hd => ⟨fun s2 e he => ?_, fun s2 b hb => ?_⟩⟩
    · simp [visit_binary_expression_general, Eval.bind_apply, Eval.seq, hl, hd]
    · simp [visit_binary_expression_general, Eval.bind_apply, Eval.seq, hl, hd, he]
    · simp only [visit_binary_expression_general, Eval.bind_apply, Eval.seq, hl, hd, hb] <;> rfl
  · intro lhs rhs s s1 e he
    simp [visit_binary_expression_general, Eval.bind_apply, Eval.seq, he]

/-- Witness for C36: in `noisy () | disp (8)` the first evaluation of the left
operand writes 7 and gives `1:2`, which is not 1x1, so the expression is the
general path run from the state after that evaluation. -/
theorem visit_binary_expression_evaluates_left_twice_witness :
    visit_binary_expression (walker repl_returns no_breakpoint 9)
        binary_op.op_el_or (some call_noisy)
        (some (disp_const 8)) true with_noisy_function
      = visit_binary_expression_general (walker repl_returns no_breakpoint 9)
          binary_op.op_el_or (some call_noisy)
          (some (disp_const 8)) (with_noisy_function_printed [7]) :=
  ((@visit_binary_expression_evaluates_left_twice repl_returns no_breakpoint
      (walker repl_returns no_breakpoint 9) binary_op.op_el_or).1 call_noisy
    (some (disp_const 8)) with_noisy_function (with_noisy_function_printed [7])
    (octave_value.range 1 1 2) rfl (by decide)).1

/-- C37: let every lvalue of the list have its number of elements (`numels`, with
a sum that an `int` holds).  `ignored_fcn_outputs` returns, in increasing order,
the positions 1 + (sum of the numbers of elements of the lvalues before) of the
black holes.  `isargout (nargout, iout)` is true for every `iout` below
`max (nargout, 1)` that is not the position of a black hole, and when every
lvalue takes at least one value it is false at every position of a black hole.
An lvalue that takes no value breaks the agreement: for `[c{1:0}, ~]` the first
output is ignored (position 1) but `isargout (1, 0)` is true, because the loop
answers for the first lvalue that starts at the index.  Without an lvalue list
`ignored_fcn_outputs` is empty and `isargout (nargout, iout)` is true exactly
when `iout < max (nargout, 1)`. -/
theorem ignored_fcn_outputs_and_isargout (lvalues : List octave_lvalue) (numels : List Nat)
    (s : tree_evaluator) (nargout iout : Int)
    (hnel : List.Forall₂
      (fun ult nel => octave_lvalue.numel ult s = some (Outcome.value nel, s)) lvalues numels)
    (hsum : (numels.sum : Int) < 2 ^ 31) :
    ignored_fcn_outputs (some lvalues) s
        = some (Outcome.value (black_hole_positions lvalues numels), s)
    ∧ List.Pairwise (fun p q => p ≤ q) (black_hole_positions lvalues numels)
    ∧ ((∀ nel ∈ numels, 1 ≤ nel) → ∀ p ∈ black_hole_positions lvalues numels,
        isargout (some lvalues) nargout ((p : Int) - 1) s = some (Outcome.value false, s))
    ∧ (iout < max nargout 1 →
        (∀ p ∈ black_hole_positions lvalues numels, (p : Int) ≠ iout + 1) →
        isargout (some lvalues) nargout iout s = some (Outcome.value true, s))
    ∧ ignored_fcn_outputs none s = some (Outcome.value [], s)
    ∧ isargout none nargout iout s = some (Outcome.value (decide (iout < max nargout 1)), s)
    ∧ ignored_fcn_outputs (some [empty_brace_lvalue, black_hole_lvalue]) top_level
        = some (Outcome.value [1], top_level)
    ∧ isargout (some [empty_brace_lvalue, black_hole_lvalue]) 1 0 top_level
        = some (Outcome.value true, top_level) := by
  refine ⟨?_, black_hole_positions_sorted _ _, ?_, ?_, rfl, ?_, by rfl, by rfl⟩
  · unfold ignored_fcn_outputs
    simp only []
    split
    · rw [ignored_fcn_outputs_loop_eq s lvalues numels hnel 0]
      simp
    · rename_i h
      rw [black_hole_positions_of_none lvalues numels (by omega)]
      rfl
  · intro hpos p hp
    unfold isargout
    by_cases hge : (p : Int) - 1 ≥ max nargout 1
    · simp [hge, pure, Eval.ret]
    · simp only [hge, if_false]
      have := isargout_loop_false s lvalues numels hnel hpos 0 (Int.le_refl _) (by simpa using hsum)
        p hp
      simpa using this
  · intro hlt hp
    unfold isargout
    have hge : ¬ iout ≥ max nargout 1 := by omega
    simp only [hge, if_false]
    exact isargout_loop_true s iout lvalues numels hnel 0 (Int.le_refl _) (by simpa using hsum)
      (by simpa using hp)
  · unfold isargout
    by_cases hge : iout ≥ max nargout 1
    · have : ¬ iout < max nargout 1 := by omega
      simp [hge, this, pure, Eval.ret]
    · have : iout < max nargout 1 := by omega
      simp [hge, this, pure, Eval.ret]

/-- C37 for the lvalue list `[x, ~]` and
`nargout = 4`: the ignored position is 2, and `isargout (4, 1)` is false. -/
theorem ignored_fcn_outputs_and_isargout_witness :
    ignored_fcn_outputs (some [variable_lvalue "x", black_hole_lvalue]) top_level
        = some (Outcome.value [2], top_level)
    ∧ isargout (some [variable_lvalue "x", black_hole_lvalue]) 4 1 top_level
        = some (Outcome.value false, top_level) :=
  ⟨(ignored_fcn_outputs_and_isargout [variable_lvalue "x", black_hole_lvalue] [1, 1]
      top_level 4 0
      (List.Forall₂.cons rfl (List.Forall₂.cons rfl List.Forall₂.nil)) (by decide)).1,
    (ignored_fcn_outputs_and_isargout [variable_lvalue "x", black_hole_lvalue] [1, 1]
      top_level 4 0
      (List.Forall₂.cons rfl (List.Forall₂.cons rfl List.Forall₂.nil)) (by decide)).2.2.1
      (by decide) 2 (by decide)⟩

/-- C38: for a name `FCN>SUB` that does not start with `@` (no `>` in `FCN`) and
an empty class name, `get_user_code` looks up the function `FCN` and then its
subfunction `SUB`.  For a name `@CLASS/METHOD>SUB` (no `/` in `CLASS`, no `>` in
`METHOD`) it looks up, in the dispatch class `CLASS`, not the method `METHOD` but
the method named `METHOD>` followed by the first characters of `SUB`, as many as
`CLASS` has (`substr (p1+1, p2-1)` takes `p2-1` characters), and then the
subfunction `SUB` of what it found.  A trailing ".m" is stripped before.  With a
class `ftp` that has the method `get` with subfunction `sub`, the name
"@ftp/get>sub" gives a null pointer, while "get>sub" gives the subfunction of the
function `get`. -/
theorem get_user_code_subfunction_names (lk : user_code_lookup) (fcn_name cls method sub : List Char)
    (class_name : String) :
    (fcn_name.head? ≠ some '@' → '>' ∉ fcn_name → (fcn_name ++ '>' :: sub).length < npos →
      get_user_code_of_name lk (fcn_name ++ '>' :: sub) ""
        = get_user_code_subfunction lk (lk.find_function (String.mk fcn_name)) sub)
    ∧ ('/' ∉ cls → '>' ∉ method →
        ('@' :: (cls ++ '/' :: (method ++ '>' :: sub))).length < npos →
      get_user_code_of_name lk ('@' :: (cls ++ '/' :: (method ++ '>' :: sub))) class_name
        = get_user_code_subfunction lk
            (lk.find_method (String.mk (method ++ '>' :: sub.take cls.length)) (String.mk cls))
            sub)
    ∧ (∀ name : List Char, name ≠ [] →
        get_user_code lk (String.mk (name ++ ['.', 'm'])) class_name
          = get_user_code_of_name lk name class_name)
    ∧ get_user_code ftp_lookup "@ftp/get>sub" "" = user_code_result.nullptr
    ∧ get_user_code ftp_lookup "@ftp/get" "" = user_code_result.user_code method_get
    ∧ get_user_code ftp_lookup "get>sub" "" = user_code_result.user_code subfunction_sub := by
  refine ⟨?_, ?_, ?_, rfl, rfl, rfl⟩
  · intro hhead hgt hlen
    have hne : (fcn_name ++ '>' :: sub).isEmpty = false := by
      cases fcn_name <;> rfl
    have hat : ¬ char_at (fcn_name ++ '>' :: sub) 0 = '@' := by
      cases fcn_name with
      | nil => simp [char_at]
      | cons c t =>
        intro h
        apply hhead
        simpa [char_at] using h
    have hp2 : string_find (fcn_name ++ '>' :: sub) '>' 0 = fcn_name.length :=
      string_find_first fcn_name sub '>' 0 (Nat.zero_le _) (by simpa using hgt)
    have hp2n : fcn_name.length ≠ npos := by
      simp only [List.length_append, List.length_cons] at hlen
      omega
    have hmain : string_substr (fcn_name ++ '>' :: sub) 0 fcn_name.length = fcn_name := by
      simp only [string_substr, List.drop_zero]
      exact List.take_left' rfl
    have hsub : string_substr (fcn_name ++ '>' :: sub) (fcn_name.length + 1) npos = sub := by
      have h1 : fcn_name ++ '>' :: sub = (fcn_name ++ ['>']) ++ sub := by simp
      rw [h1]
      apply string_substr_rest _ _ _ (by simp)
      simp only [List.length_append, List.length_cons] at hlen
      omega
    have hcn : ("" : String).data.isEmpty = true := rfl
    simp only [get_user_code_of_name, hne, Bool.false_eq_true, if_false, hat, hcn, Bool.not_true,
      hp2, hmain, hsub, ne_eq, hp2n, not_false_eq_true, if_true]
  · intro hcls hmeth hlen
    simp only [List.length_append, List.length_cons] at hlen
    have hat : char_at ('@' :: (cls ++ '/' :: (method ++ '>' :: sub))) 0 = '@' := rfl
    have hp1 : string_find ('@' :: (cls ++ '/' :: (method ++ '>' :: sub))) '/' 1
        = cls.length + 1 := by
      have := string_find_first ('@' :: cls) (method ++ '>' :: sub) '/' 1 (by simp)
        (by simpa using hcls)
      simpa using this
    have hp1n : cls.length + 1 ≠ npos := by omega
    have hdisp : string_substr ('@' :: (cls ++ '/' :: (method ++ '>' :: sub))) 1
        (cls.length + 1 - 1) = cls := by
      simp only [string_substr, List.drop_succ_cons, List.drop_zero, Nat.add_sub_cancel]
      exact List.take_left' rfl
    have hp2 : string_find ('@' :: (cls ++ '/' :: (method ++ '>' :: sub))) '>' (cls.length + 1)
        = cls.length + method.length + 2 := by
      have h1 : '@' :: (cls ++ '/' :: (method ++ '>' :: sub))
          = ('@' :: (cls ++ '/' :: method)) ++ '>' :: sub := by simp
      rw [h1, string_find_first _ _ _ _ (by simp)]
      · simp; omega
      · have : List.drop (cls.length + 1) ('@' :: (cls ++ '/' :: method)) = '/' :: method := by
          simp
        rw [this]
        simp only [List.mem_cons, not_or]
        exact ⟨by decide, hmeth⟩
    have hp2n : cls.length + method.length + 2 ≠ npos := by omega
    have hmethod : string_substr ('@' :: (cls ++ '/' :: (method ++ '>' :: sub)))
        (cls.length + 1 + 1) (cls.length + method.length + 2 - 1)
        = method ++ '>' :: sub.take cls.length := by
      have h1 : '@' :: (cls ++ '/' :: (method ++ '>' :: sub))
          = ('@' :: (cls ++ ['/'])) ++ (method ++ '>' :: sub) := by simp
      have h2 : cls.length + 1 + 1 = ('@' :: (cls ++ ['/'])).length := by simp
      have h3 : cls.length + method.length + 2 - 1 = method.length + (cls.length + 1) := by omega
      rw [h1, h2, h3]
      simp only [string_substr, List.drop_left]
      rw [List.take_append]
      simp
    have hsub : string_substr ('@' :: (cls ++ '/' :: (method ++ '>' :: sub)))
        (cls.length + method.length + 2 + 1) npos = sub := by
      have h1 : '@' :: (cls ++ '/' :: (method ++ '>' :: sub))
          = ('@' :: (cls ++ '/' :: (method ++ ['>']))) ++ sub := by simp
      rw [h1]
      apply string_substr_rest _ _ _ (by simp; omega)
      omega
    simp only [get_user_code_of_name, List.isEmpty_cons, Bool.false_eq_true, if_false, hat,
      if_true, hp1, hp1n, hdisp, hp2, hmethod, hsub, ne_eq, hp2n, not_false_eq_true]
  · intro name hname
    have hl : 0 < name.length := List.length_pos.mpr hname
    have h1 : (name ++ ['.', 'm']).isEmpty = false := by
      cases name <;> rfl
    have h2 : (name ++ ['.', 'm']).length - 2 = name.length := by simp
    have h3 : (name ++ ['.', 'm']).length > 2 := by simp; omega
    have h4 : string_substr (name ++ ['.', 'm']) name.length npos = ['.', 'm'] :=
      string_substr_rest _ _ _ rfl (by decide)
    have h5 : string_substr (name ++ ['.', 'm']) 0 name.length = name := by
      simp only [string_substr, List.drop_zero]
      exact List.take_left' rfl
    simp only [get_user_code, h1, Bool.false_eq_true, if_false, h2, h3, h4, h5, and_self, if_true]

/-- C38 for the name "pkg>helper": the function `pkg` is looked up, then its
subfunction `helper`. -/
theorem get_user_code_subfunction_names_witness :
    get_user_code_of_name ftp_lookup "pkg>helper".data ""
      = get_user_code_subfunction ftp_lookup (ftp_lookup.find_function "pkg") "helper".data :=
  (get_user_code_subfunction_names ftp_lookup "pkg".data [] [] "helper".data "").1
    (by decide) (by decide) (by decide)

/-- C39: let the file name of the current user code be `dir ++ base`, where
`base` holds no directory separator and `dir` is empty or ends in one.
`mfilename ("fullpathext")` is the file name.  If `base` is `stem ++ "." ++ ext`
with a non-empty `stem` and no `.` in `ext` (the last `.` lies at least two
characters after the last separator or, without separator, is not the first
character), `mfilename ("fullpath")` is `dir ++ stem` and every other option
gives `stem`.  If `base` holds no `.` or only one as its first character,
`mfilename ("fullpath")` is the file name and every other option gives `base`.
For "/a/b/foo.m" the results are "/a/b/foo.m", "/a/b/foo" and "foo"; for
"/a.b/foo" the last two are "/a.b/foo" and "foo". -/
theorem mfilename_removes_extension_and_directory (dir base : List Char) (name opt : String)
    (hdir : dir = [] ∨ ∃ d0, dir = d0 ++ ['/']) (hbase : '/' ∉ base)
    (hlen : (dir ++ base).length < npos)
    (hopt1 : opt ≠ "fullpathext") (hopt2 : opt ≠ "fullpath") (hne : dir ++ base ≠ []) :
    mfilename (some (String.mk (dir ++ base), name)) "fullpathext" = String.mk (dir ++ base)
    ∧ (∀ stem ext, base = stem ++ '.' :: ext → '.' ∉ ext → stem ≠ [] →
        mfilename (some (String.mk (dir ++ base), name)) "fullpath" = String.mk (dir ++ stem)
        ∧ mfilename (some (String.mk (dir ++ base), name)) opt = String.mk stem)
    ∧ (('.' ∉ base ∨ ∃ ext, base = '.' :: ext ∧ '.' ∉ ext) →
        mfilename (some (String.mk (dir ++ base), name)) "fullpath" = String.mk (dir ++ base)
        ∧ mfilename (some (String.mk (dir ++ base), name)) opt = String.mk base)
    ∧ mfilename (some ("/a/b/foo.m", "foo")) "fullpathext" = "/a/b/foo.m"
    ∧ mfilename (some ("/a/b/foo.m", "foo")) "fullpath" = "/a/b/foo"
    ∧ mfilename (some ("/a/b/foo.m", "foo")) "" = "foo"
    ∧ mfilename (some ("/a.b/foo", "foo")) "fullpath" = "/a.b/foo"
    ∧ mfilename (some ("/a.b/foo", "foo")) "" = "foo" := by
  obtain ⟨hd1, hd2⟩ := mfilename_positions dir base hdir hbase hlen
  have hemp : (dir ++ base).isEmpty = false := by
    cases h : dir ++ base with
    | nil => exact absurd h hne
    | cons c r => rfl
  have hsel : mfilename (some (String.mk (dir ++ base), name))
      = mfilename_of (String.mk (dir ++ base)) := by
    funext o
    simp [mfilename, hemp]
  rw [hsel]
  refine ⟨by simp [mfilename_of], ?_, ?_, by decide, by decide, by decide, by decide, by decide⟩
  · intro stem ext hb hext hstem
    have hstem1 : 0 < stem.length := List.length_pos.mpr hstem
    have he : string_rfind (dir ++ base) '.' = dir.length + stem.length := by
      have : dir ++ base = (dir ++ stem) ++ '.' :: ext := by simp [hb]
      rw [this, string_rfind_last _ _ _ hext]
      simp
    have hlen1 : dir.length + stem.length < npos := by
      have : (dir ++ base).length = dir.length + stem.length + (ext.length + 1) := by
        simp [hb]; omega
      omega
    have htake : string_substr (dir ++ base) 0 (dir.length + stem.length) = dir ++ stem := by
      have h3 : dir ++ base = (dir ++ stem) ++ '.' :: ext := by simp [hb]
      have h4 : dir.length + stem.length = (dir ++ stem).length := by simp
      rw [h3, h4]
      simp only [string_substr, List.drop_zero]
      exact List.take_left' rfl
    have h1 : ¬ (dir.length + stem.length ≤ dir.length) := by omega
    have h2 : dir.length + stem.length ≠ npos := by omega
    have hf : mfilename_of (String.mk (dir ++ base)) "fullpath" = String.mk (dir ++ stem) := by
      have : ("fullpath" : String) ≠ "fullpathext" := by decide
      simp only [mfilename_of, this, if_false, he, hd1, h1, h2, htake, ne_eq,
        not_false_eq_true, if_true]
    constructor
    · exact hf
    · simp only [mfilename_of, hopt1, hopt2, if_false, he, hd1, h1, h2, htake, ne_eq,
        not_false_eq_true, if_true]
      exact mfilename_strip_directory dir stem _ (by simp [hb] at hlen; omega) hd1 hd2
        (string_rfind_le_npos _ _ hlen)
  · intro hcase
    have he : string_rfind (dir ++ base) '.' = npos
        ∨ string_rfind (dir ++ base) '.' ≤ dir.length := by
      rcases hcase with h | ⟨ext, h, hext⟩
      · by_cases hdd : '.' ∈ dir
        · right
          rw [string_rfind_append_of_not_mem _ _ _ h hdd]
          exact Nat.le_of_lt (string_rfind_lt _ _ hdd)
        · left
          exact string_rfind_of_not_mem _ _ (by simp [hdd, h])
      · right
        rw [h, string_rfind_last _ _ _ hext]
    have he1 : (if string_rfind (dir ++ base) '.' ≤ (string_rfind (dir ++ base) '/' + 1) % 2 ^ 64
        then npos else string_rfind (dir ++ base) '.') = npos := by
      rcases he with h | h
      · rw [h]; simp
      · rw [hd1]; simp [h]
    constructor
    · have : ("fullpath" : String) ≠ "fullpathext" := by decide
      simp only [mfilename_of, this, if_false, he1, ne_eq, not_true_eq_false, if_true]
    · simp only [mfilename_of, hopt1, hopt2, if_false, he1, ne_eq, not_true_eq_false]
      exact mfilename_strip_directory dir base _ (by simp at hlen; omega) hd1 hd2
        (string_rfind_le_npos _ _ hlen)

/-- C39 for the file name "/tmp/d.e/fcn.m" and the option "": the result is
"fcn". -/
theorem mfilename_removes_extension_and_directory_witness :
    mfilename (some ("/tmp/d.e/fcn.m", "fcn")) "fullpath" = "/tmp/d.e/fcn"
    ∧ mfilename (some ("/tmp/d.e/fcn.m", "fcn")) "" = "fcn" :=
  (mfilename_removes_extension_and_directory "/tmp/d.e/".data "fcn.m".data "fcn" ""
    (Or.inr ⟨"/tmp/d.e".data, rfl⟩) (by decide) (by decide) (by decide) (by decide)
    (by decide)).2.1 "fcn".data "m".data rfl (by decide) (by decide)

/-- C40: `pathname_backup (path, n)` leaves a prefix of `path`, but for every
`n >= 1` it is the prefix that `n = 1` leaves: every round of the loop ends with
the index on the first character of the last component, from where the next
round goes back to the same separator.  For "/a/b/c/" the result is "/a/b/" for
`n = 1` and for `n = 2`. -/
theorem pathname_backup_removes_one_component (path : String) (n : Nat) (hn : 1 ≤ n) :
    env.pathname_backup path n = env.pathname_backup path 1
    ∧ (∃ k, (env.pathname_backup path n).data = path.data.take k)
    ∧ env.pathname_backup "/a/b/c/" 1 = "/a/b/"
    ∧ env.pathname_backup "/a/b/c/" 2 = "/a/b/" := by
  obtain ⟨m, rfl⟩ : ∃ m, n = m + 1 := ⟨n - 1, by omega⟩
  refine ⟨?_, ?_, by decide, by decide⟩
  · unfold env.pathname_backup
    rw [pathname_backup_loop_succ, pathname_backup_loop_succ path.data 0]
  · unfold env.pathname_backup
    by_cases h : path.data.isEmpty = true
    · refine ⟨path.data.length, ?_⟩
      simp [h]
    · exact ⟨env.pathname_backup_loop path.data (m + 1) (path.data.length - 1), by simp [h]⟩

/-- C40 for "/a/b/c/" and `n = 3`: the result is that of `n = 1`, "/a/b/". -/
theorem pathname_backup_removes_one_component_witness :
    env.pathname_backup "/a/b/c/" 3 = env.pathname_backup "/a/b/c/" 1
    ∧ env.pathname_backup "/a/b/c/" 1 = "/a/b/" :=
  ⟨(pathname_backup_removes_one_component "/a/b/c/" 3 (by decide)).1, by decide⟩

end Octave
